import Mathlib

/-!
# Wireless KFB test fixture: Hub firmware (hub.cpp)

Shallow embedding of the Hub's channel model, debouncer, MONITOR/CHECK parsers,
monitor/check engine, reliable-TX slot, RX dispatcher and main loop, followed by
the theorems that settle the specification's claims.

Modelling conventions
* C arrays indexed by channel are functions `Nat → α`; a store `a[ch] = v` is `upd a ch v`.
* `unsigned long` is 32 bit on the target: differences of timestamps are taken modulo `2^32`
  (`subU32`).
* C strings are `List Char` without the terminating NUL; a received byte buffer may contain
  NUL bytes and is cut at the first one when it is read as a C string (`cstr`).
* The hardware and the clock are inputs: `sw ch` is the electrical level read on the switch
  pin of channel `ch` (`true` = HIGH = released, the pin has a pull-up), `now` is `millis()`.
  One call of a function sees one snapshot of the switch levels.
* The ESP-NOW receive callback and the passes of `loop()` are interleaved as atomic steps
  (`Step`): a state is reachable when a sequence of such steps leads to it from the state
  `setup()` leaves.
-/

namespace KFB

/-! ## Configuration constants -/

def CHANNEL_COUNT : Nat := 40
def MAX_MSG_LEN : Nat := 128
def BLINK_INTERVAL_MS : Nat := 100
def DEBOUNCE_MS : Nat := 40
def FINAL_CHECK_SAMPLES : Nat := 5
def SAMPLE_DELAY_MS : Nat := 50
def CH_DEBOUNCE_MS : Nat := 25
def MAJORITY_OK : Bool := false
def PASS_THRESHOLD : Nat :=
  if MAJORITY_OK then FINAL_CHECK_SAMPLES / 2 + 1 else FINAL_CHECK_SAMPLES
def AUTO_FINAL_HOLD_MS : Nat := 200
def MIN_EVENT_GAP_MS : Nat := 10

/-- Number of values of a 32-bit unsigned integer. -/
def U32 : Nat := 4294967296

/-- Difference `a - b` of two `unsigned long` values (wraps modulo `2^32`). -/
def subU32 (a b : Nat) : Nat := (a + U32 - b % U32) % U32

/-- Store `a[i] = v`. -/
def upd {α : Type} (a : Nat → α) (i : Nat) (v : α) : Nat → α :=
  fun j => if j = i then v else a j

/-- Session state of the Hub (`enum class State`). -/
inductive State where
  | SELF_CHECK
  | WAIT_FOR_TARGET
  | MONITORING
  | FINAL_CHECK
  | WELCOME
  deriving DecidableEq, Repr

/-- Six-byte radio address. -/
abbrev Mac := List Nat

/-- Kind of deferred work (`PendingCmd::Kind`). -/
inductive PendingKind where
  | None
  | Blink
  | Chase
  | MonitorBaseline
  deriving DecidableEq, Repr

/-- Deferred work slot (`struct PendingCmd`). -/
structure PendingCmd where
  kind : PendingKind
  n : Int
  hasMac : Bool
  mac : Mac
  deriving DecidableEq

/-- One frame handed to the radio driver (`esp_now_send`): destination and text
(the terminating NUL that is sent with it is left implicit). -/
structure Frame where
  dest : Mac
  text : List Char
  deriving DecidableEq

/-- All global (and function-static) variables of hub.cpp, plus the log of frames handed to
the radio. -/
structure Hub where
  state : State
  monNormal : Nat → Bool
  monLatch : Nat → Bool
  latched : Nat → Bool
  ignoredCh : Nat → Bool
  liveOkSince : Nat
  lastPressed : Nat → Bool
  rawPrev : Nat → Bool
  rawChangedAt : Nat → Nat
  streamActive : Bool
  prevPressed : Nat → Bool
  prevLatchedState : Nat → Bool
  lastEventSentP : Nat → Nat
  lastEventSentL : Nat → Nat
  lastSender : Mac
  haveSender : Bool
  btnStable : Bool
  btnLastRead : Bool
  lastDebounce : Nat
  lastBlinkTick : Nat
  blinkState : Bool
  missingBuf : List Char
  extraBuf : List Char
  missingLen : Nat
  extraLen : Nat
  checkSelect : Nat → Bool
  checkActive : Bool
  welcomeEdgeCount : Nat
  needReleaseGate : Bool
  BOARD_MAC : List Char
  havePending : Bool
  pending : PendingCmd
  ledState : Nat → Bool
  hubAckActive : Bool
  hubAckId : Nat
  hubAckMac : Mac
  hubAckLastSend : Nat
  hubAckRetriesLeft : Nat
  hubAckMsg : List Char
  hubAckTimeoutMs : Nat
  seq : Nat
  lastTxMac : Mac
  lastTxMacValid : Bool
  sent : List Frame

/-- What the environment supplies during one step: switch pin levels, `millis()`, whether the
radio driver accepts the peer (`esp_now_add_peer` returns OK or EXIST) and the level of the
HELLO push button. -/
structure Env where
  sw : Nat → Bool
  now : Nat
  peerOk : Bool
  btn : Bool

/-! ## I/O helpers -/

/-- `setLed(ch, on)`: the cached LED state is the state of the LED. -/
def setLed (s : Hub) (ch : Nat) (lit : Bool) : Hub :=
  if s.ledState ch = lit then s else { s with ledState := upd s.ledState ch lit }

/-- `readSwRaw(ch)`: `true` when the pin reads HIGH (pull-up, released). -/
def readSwRaw (sw : Nat → Bool) (ch : Nat) : Bool := sw ch

/-- `isPressedRaw(ch)`. -/
def isPressedRaw (sw : Nat → Bool) (ch : Nat) : Bool := !readSwRaw sw ch

/-! ## Debouncer -/

/-- `debouncedPressed(ch, now, pressedEdge)`: returns the new state, the returned stable value
and the value left in `pressedEdge`. -/
def debouncedPressed (s : Hub) (sw : Nat → Bool) (ch : Nat) (now : Nat) : Hub × Bool × Bool :=
  let raw := isPressedRaw sw ch
  let s1 : Hub :=
    if raw ≠ s.rawPrev ch then
      { s with rawPrev := upd s.rawPrev ch raw, rawChangedAt := upd s.rawChangedAt ch now }
    else s
  if subU32 now (s1.rawChangedAt ch) ≥ CH_DEBOUNCE_MS ∧ s1.lastPressed ch ≠ raw then
    ({ s1 with lastPressed := upd s1.lastPressed ch raw }, raw, raw)
  else
    (s1, s1.lastPressed ch, false)

/-- State of the Hub after the first `k` calls `debouncedPressed(ch, t i, _)`, `i < k`, the
`i`-th call reading the switch levels `sw i`. -/
def debounceCalls (s : Hub) (ch : Nat) (sw : Nat → Nat → Bool) (t : Nat → Nat) : Nat → Hub
  | 0 => s
  | k + 1 => (debouncedPressed (debounceCalls s ch sw t k) (sw k) ch (t k)).1

/-- Value of `pressedEdge` after call number `k` of the sequence. -/
def edgeAt (s : Hub) (ch : Nat) (sw : Nat → Nat → Bool) (t : Nat → Nat) (k : Nat) : Bool :=
  (debouncedPressed (debounceCalls s ch sw t k) (sw k) ch (t k)).2.2

/-- Raw level (pressed?) sampled by call number `k` of the sequence. -/
def rawAt (ch : Nat) (sw : Nat → Nat → Bool) (k : Nat) : Bool := isPressedRaw (sw k) ch

/-- Raw level that call number `k` compares its sample with: the level of the previous sample
(for the first call, the level the debouncer was seeded with). -/
def prevRawAt (s : Hub) (ch : Nat) (sw : Nat → Nat → Bool) (k : Nat) : Bool :=
  match k with
  | 0 => s.rawPrev ch
  | j + 1 => rawAt ch sw j

/-- Call number `k` samples a raw transition: the level differs from the previous one. -/
def transitionAt (s : Hub) (ch : Nat) (sw : Nat → Nat → Bool) (k : Nat) : Prop :=
  rawAt ch sw k ≠ prevRawAt s ch sw k

/-- The raw level sampled by calls `i .. m` is the one sampled by call `i`. -/
def sameRun (ch : Nat) (sw : Nat → Nat → Bool) (i m : Nat) : Prop :=
  ∀ k, i ≤ k → k ≤ m → rawAt ch sw k = rawAt ch sw i

/-- Call number `k` changes the stable value `lastPressed[ch]`. -/
def changedAt (s : Hub) (ch : Nat) (sw : Nat → Nat → Bool) (t : Nat → Nat) (k : Nat) : Prop :=
  (debounceCalls s ch sw t (k + 1)).lastPressed ch ≠ (debounceCalls s ch sw t k).lastPressed ch

instance (s : Hub) (ch : Nat) (sw : Nat → Nat → Bool) (k : Nat) :
    Decidable (transitionAt s ch sw k) := by
  unfold transitionAt; infer_instance

instance (ch : Nat) (sw : Nat → Nat → Bool) (i m : Nat) : Decidable (sameRun ch sw i m) := by
  unfold sameRun; infer_instance

instance (s : Hub) (ch : Nat) (sw : Nat → Nat → Bool) (t : Nat → Nat) (k : Nat) :
    Decidable (changedAt s ch sw t k) := by
  unfold changedAt; infer_instance

/-! ## C strings -/

/-- The NUL byte. -/
def NUL : Char := Char.ofNat 0

/-- C-string view of a byte buffer: the bytes before the first NUL. -/
def cstr (l : List Char) : List Char := l.takeWhile (fun c => c != NUL)

/-- Test `strncmp(l, p, strlen(p)) == 0`: the string `l` starts with `p`. -/
def startsWith : List Char → List Char → Bool
  | [], _ => true
  | _ :: _, [] => false
  | a :: p, b :: l => a == b && startsWith p l

/-- `strstr(hay, needle)`: the suffix of `hay` at the first occurrence of `needle`. -/
def strstr : List Char → List Char → Option (List Char)
  | [], needle => if needle = [] then some [] else none
  | c :: cs, needle =>
    if startsWith needle (c :: cs) then some (c :: cs) else strstr cs needle

/-- Worker of `strtok`: `cur` is the token being read. -/
def strtokAux (delims : List Char) : List Char → List Char → List (List Char)
  | [], cur => if cur = [] then [] else [cur]
  | c :: cs, cur =>
    if c ∈ delims then
      (if cur = [] then strtokAux delims cs [] else cur :: strtokAux delims cs [])
    else strtokAux delims cs (cur ++ [c])

/-- The tokens that successive `strtok_r(_, delims, &save)` calls return: the maximal runs of
characters that are not delimiters. -/
def strtok (delims : List Char) (str : List Char) : List (List Char) :=
  strtokAux delims str []

/-- C `isspace` in the C locale. -/
def isspace (c : Char) : Bool :=
  c == ' ' || c == '\t' || c == '\n' || c == Char.ofNat 11 || c == Char.ofNat 12 || c == '\r'

/-- C `isdigit`. -/
def isdigit (c : Char) : Bool := '0' ≤ c && c ≤ '9'

/-- Value of a decimal digit character (`c - '0'`). -/
def digitVal (c : Char) : Nat := c.toNat - 48

/-- Reads the longest run of decimal digits, accumulating its value; returns the value and
the unread rest. -/
def readDigits : List Char → Nat → Nat × List Char
  | [], acc => (acc, [])
  | c :: cs, acc => if isdigit c then readDigits cs (acc * 10 + digitVal c) else (acc, c :: cs)

def LONG_MAX : Int := 2147483647
def LONG_MIN : Int := -2147483648

/-- `strtol(tok, &end, 10)` with a 32-bit `long`: skips leading white space, accepts one sign,
reads decimal digits, clamps on overflow; returns the value and the text at `end` (the whole
input when no digit was read). -/
def strtol (tok : List Char) : Int × List Char :=
  let t1 := tok.dropWhile isspace
  let signed : Bool × List Char :=
    match t1 with
    | '-' :: r => (true, r)
    | '+' :: r => (false, r)
    | _ => (false, t1)
  match signed.2 with
  | [] => (0, tok)
  | c :: _ =>
    if isdigit c then
      let r := readDigits signed.2 0
      let v : Int := if signed.1 then - (r.1 : Int) else (r.1 : Int)
      (max LONG_MIN (min LONG_MAX v), r.2)
    else (0, tok)

/-- C `isxdigit`-like test used by `isMacToken`. -/
def isHexChar (c : Char) : Bool :=
  ('0' ≤ c && c ≤ '9') || ('A' ≤ c && c ≤ 'F') || ('a' ≤ c && c ≤ 'f')

/-- Loop of `isMacToken`: checks the characters from position `i` on. -/
def macCharsFrom : Nat → List Char → Bool
  | _, [] => true
  | i, c :: cs =>
    (if i % 3 = 2 then c == ':' else isHexChar c) && macCharsFrom (i + 1) cs

/-- `isMacToken(tok)`: 17 characters, `:` at every third place, hex digits elsewhere. -/
def isMacToken (tok : List Char) : Bool :=
  tok.length == 17 && macCharsFrom 0 tok

/-- `parsePureInt(tok, out)`: the 1-based channel number, when the token is one. -/
def parsePureInt (tok : List Char) : Option Nat :=
  if tok = [] then none
  else if isMacToken tok then none
  else
    let r := strtol tok
    if r.2 ≠ [] then none
    else if r.1 < 1 ∨ r.1 > (CHANNEL_COUNT : Int) then none
    else some r.1.toNat

/-- Decimal text of a number, as `%d` / `%lu` print it. -/
def fmtDec (n : Nat) : List Char := Nat.toDigits 10 n

/-- Text that `snprintf(buf, size, ...)` leaves in `buf`: at most `size - 1` characters. -/
def snprintf (size : Nat) (text : List Char) : List Char := text.take (size - 1)

/-! ## Session peer and radio sends -/

def zeroMac : Mac := [0, 0, 0, 0, 0, 0]
def bcastMac : Mac := [255, 255, 255, 255, 255, 255]

/-- `isZeroMac(addr)`. -/
def isZeroMac (addr : Mac) : Bool := addr == zeroMac

/-- `isBroadcastAddr(a)`. -/
def isBroadcastAddr (a : Mac) : Bool := a == bcastMac

/-- `getTarget(out)`: the session peer, when there is one. -/
def getTarget (s : Hub) : Option Mac :=
  if s.haveSender && !isZeroMac s.lastSender then some s.lastSender else none

/-- `resolveTarget(dest, out)`; `dest = none` is the null pointer. -/
def resolveTarget (s : Hub) (dest : Option Mac) : Option Mac :=
  match dest with
  | some d => if isZeroMac d then none else some d
  | none => getTarget s

/-- `ensurePeer(addr)`: broadcast needs no peer, otherwise the driver decides. -/
def ensurePeer (e : Env) (addr : Mac) : Bool :=
  if isBroadcastAddr addr then true else e.peerOk

/-- `esp_now_send(dest, text, strlen(text)+1)`: the frame is appended to the log. -/
def espNowSend (s : Hub) (dest : Mac) (text : List Char) : Hub :=
  { s with sent := s.sent ++ [{ dest := dest, text := text }] }

/-- `sendCmdRaw(msg, dest)` (its boolean result is not used by any caller and is dropped). -/
def sendCmdRaw (s : Hub) (e : Env) (msg : List Char) (dest : Option Mac) : Hub :=
  match resolveTarget s dest with
  | none => s
  | some target =>
    if !ensurePeer e target then s
    else espNowSend { s with lastTxMac := target, lastTxMacValid := true } target msg

/-- `serviceAckTx()`: drives the retransmission of the outstanding reliable frame. -/
def serviceAckTx (s : Hub) (e : Env) : Hub :=
  if !s.hubAckActive then s
  else if s.state = State.SELF_CHECK then
    { s with hubAckActive := false, hubAckTimeoutMs := 240 }
  else
    let now := e.now
    if s.hubAckLastSend = 0 ∨ subU32 now s.hubAckLastSend ≥ s.hubAckTimeoutMs then
      let s1 := if !ensurePeer e s.hubAckMac then s else espNowSend s s.hubAckMac s.hubAckMsg
      let s2 := { s1 with hubAckLastSend := now }
      if s2.hubAckRetriesLeft > 0 then
        let next := (s2.hubAckTimeoutMs + 80) % U32
        { s2 with hubAckRetriesLeft := s2.hubAckRetriesLeft - 1,
                  hubAckTimeoutMs := if next > 640 then 640 else next }
      else
        { s2 with hubAckActive := false, hubAckTimeoutMs := 240 }
    else s

/-- `sendCmd(msg, dest)`: reliable send (broadcast falls back to a raw send); its boolean
result is not used by any caller and is dropped. -/
def sendCmd (s : Hub) (e : Env) (msg : List Char) (dest : Option Mac) : Hub :=
  match resolveTarget s dest with
  | none => s
  | some target =>
    if target == bcastMac then sendCmdRaw s e msg (some target)
    else
      let id := s.seq
      let s1 : Hub :=
        { s with
          hubAckActive := true
          hubAckTimeoutMs := 240
          seq := (s.seq + 1) % U32
          hubAckMsg := snprintf 256 (msg ++ " ID=".toList ++ fmtDec id)
          hubAckMac := target
          hubAckId := id
          hubAckRetriesLeft := 4
          hubAckLastSend := 0 }
      serviceAckTx s1 e

/-- Sends `msg` raw to the session peer, when there is one. -/
def replyRaw (s : Hub) (e : Env) (msg : List Char) : Hub :=
  match getTarget s with
  | some dest => sendCmdRaw s e msg (some dest)
  | none => s

/-- Sends `msg` reliably to the session peer, when there is one. -/
def replyReliable (s : Hub) (e : Env) (msg : List Char) : Hub :=
  match getTarget s with
  | some dest => sendCmd s e msg (some dest)
  | none => s

/-- `triggerHello()`. -/
def triggerHello (s : Hub) : Hub :=
  espNowSend { s with haveSender := false } bcastMac "HELLO".toList

/-- `allLeds(on)`. -/
def allLeds (s : Hub) (lit : Bool) : Hub :=
  (List.range CHANNEL_COUNT).foldl (fun acc ch => setLed acc ch lit) s

/-! ## FAILURE buffers -/

/-- `appendCsv(buf, len, oneBased)`: returns the new content of the buffer and the new
length variable. -/
def appendCsv (buf : List Char) (len : Nat) (oneBased : Nat) : List Char × Nat :=
  if len ≥ MAX_MSG_LEN - 2 then (buf, len)
  else
    let avail := MAX_MSG_LEN - 1 - len
    let text := fmtDec oneBased ++ [',']
    let wrote := text.length
    if wrote ≥ avail then (buf.take len ++ text.take (avail - 1), MAX_MSG_LEN - 1)
    else (buf.take len ++ text, len + wrote)

/-- `resetBuffers()`. -/
def resetBuffers (s : Hub) : Hub :=
  { s with missingLen := 0, extraLen := 0, missingBuf := [], extraBuf := [] }

/-- One buffer of `trimBuffers()`: drops a trailing comma. -/
def trimCsv (buf : List Char) (len : Nat) : List Char × Nat :=
  if len ≠ 0 ∧ buf[len - 1]? = some ',' then (buf.take (len - 1), len - 1) else (buf, len)

/-- `trimBuffers()`. -/
def trimBuffers (s : Hub) : Hub :=
  { s with
    missingBuf := (trimCsv s.missingBuf s.missingLen).1
    missingLen := (trimCsv s.missingBuf s.missingLen).2
    extraBuf := (trimCsv s.extraBuf s.extraLen).1
    extraLen := (trimCsv s.extraBuf s.extraLen).2 }

/-! ## MONITOR parser -/

def kwMONITOR : List Char := ['M', 'O', 'N', 'I', 'T', 'O', 'R']
def kwNORMAL : List Char := ['N', 'O', 'R', 'M', 'A', 'L']
def kwCONTACTLESS : List Char := ['C', 'O', 'N', 'T', 'A', 'C', 'T', 'L', 'E', 'S', 'S']
def kwLATCH : List Char := ['L', 'A', 'T', 'C', 'H']
def kwCHECK : List Char := ['C', 'H', 'E', 'C', 'K']

/-- Delimiters of the MONITOR tokenizer: the characters of the C string " ,[]=()". -/
def monitorDelims : List Char := [' ', ',', '[', ']', '=', '(', ')']

/-- Delimiters of the CHECK tokenizer: the characters of the C string " ,". -/
def checkDelims : List Char := [' ', ',']

/-- The three stores that reseed the debouncer of a channel from a fresh raw read:
`rawPrev[ch] = isPressedRaw(ch); rawChangedAt[ch] = now; lastPressed[ch] = rawPrev[ch];`. -/
def reseed (s : Hub) (sw : Nat → Bool) (now : Nat) (ch : Nat) : Hub :=
  { s with
    rawPrev := upd s.rawPrev ch (isPressedRaw sw ch)
    rawChangedAt := upd s.rawChangedAt ch now
    lastPressed := upd s.lastPressed ch (isPressedRaw sw ch) }

/-- The block `latched[ch] = false; ignoredCh[ch] = false;` followed by the reseed. -/
def clearAndReseed (s : Hub) (sw : Nat → Bool) (now : Nat) (ch : Nat) : Hub :=
  reseed { s with latched := upd s.latched ch false, ignoredCh := upd s.ignoredCh ch false }
    sw now ch

/-- Body of the token loop of `parseMonitorPayload` for a channel token: classifies channel
`ch` (0-based) as latch (`latchMode`) or normal. -/
def classifyChannel (s : Hub) (sw : Nat → Bool) (now : Nat) (latchMode : Bool) (ch : Nat) :
    Hub :=
  let had := s.monNormal ch || s.monLatch ch
  if latchMode then
    let s1 := if s.monNormal ch then clearAndReseed s sw now ch else s
    let s2 : Hub :=
      { s1 with monLatch := upd s1.monLatch ch true, monNormal := upd s1.monNormal ch false }
    let s3 := if !had then clearAndReseed s2 sw now ch else s2
    setLed s3 ch (!s3.latched ch)
  else
    let s1 := if s.monLatch ch then clearAndReseed s sw now ch else s
    let s2 : Hub :=
      { s1 with monNormal := upd s1.monNormal ch true, monLatch := upd s1.monLatch ch false }
    let s3 := if !had then clearAndReseed s2 sw now ch else s2
    setLed s3 ch true

/-- Loop state of `parseMonitorPayload`: the Hub and the locals `latchMode`, `skipCount`. -/
structure MonitorScan where
  hub : Hub
  latchMode : Bool
  skipCount : Bool

/-- One iteration of the token loop of `parseMonitorPayload`. -/
def monitorToken (sw : Nat → Bool) (now : Nat) (a : MonitorScan) (tok : List Char) :
    MonitorScan :=
  if tok = kwNORMAL then { a with latchMode := false, skipCount := true }
  else if tok = kwCONTACTLESS ∨ tok = kwLATCH then { a with latchMode := true, skipCount := true }
  else if a.skipCount then { a with skipCount := false }
  else
    match parsePureInt tok with
    | none => a
    | some oneBased => { a with hub := classifyChannel a.hub sw now a.latchMode (oneBased - 1) }

/-- The tokens that the loop of `parseMonitorPayload` visits when the C string in its buffer
is `buf`: the text after the first `MONITOR` and the blanks that follow it, uppercased and
split at the delimiters; `none` when `MONITOR` does not occur. -/
def monitorTokens (buf : List Char) : Option (List (List Char)) :=
  match strstr buf kwMONITOR with
  | none => none
  | some p =>
    some (strtok monitorDelims (((p.drop 7).dropWhile (fun c => c == ' ')).map Char.toUpper))

/-- `parseMonitorPayload(data, len)` with `len` the length of `data`; `sw` and `now` are the
switch levels and `millis()` during the call. -/
def parseMonitorPayload (s : Hub) (sw : Nat → Bool) (now : Nat) (data : List Char) : Hub :=
  match monitorTokens (cstr (data.take 199)) with
  | none => s
  | some toks =>
    let a := toks.foldl (monitorToken sw now)
      { hub := s, latchMode := false, skipCount := false }
    if a.hub.state ≠ State.MONITORING then { a.hub with needReleaseGate := true } else a.hub

/-! ## CHECK parser -/

/-- One iteration of the token loop of `parseCheckSelection`: the Hub and the local `any`. -/
def checkToken (a : Hub × Bool) (tok : List Char) : Hub × Bool :=
  match parsePureInt tok with
  | none => a
  | some oneBased => ({ a.1 with checkSelect := upd a.1.checkSelect (oneBased - 1) true }, true)

/-- `parseCheckSelection(payload, len)` with `len` the length of `payload`. -/
def parseCheckSelection (s : Hub) (payload : List Char) : Hub :=
  let s0 : Hub := { s with checkSelect := fun _ => false, checkActive := false }
  match strstr (cstr (payload.take 159)) kwCHECK with
  | none => s0
  | some p =>
    let toks := strtok checkDelims ((p.drop 5).dropWhile (fun c => c == ' '))
    let a := toks.foldl checkToken (s0, false)
    { a.1 with checkActive := a.2 }

/-! ## Streaming, cleaning and idling -/

/-- Kind of a live event (`"P"` or `"L"`). -/
inductive EvKind where
  | P
  | L
  deriving DecidableEq, Repr

/-- `sendEvent(kind, ch, val)`. -/
def sendEvent (s : Hub) (e : Env) (kind : EvKind) (ch : Nat) (val : Bool) : Hub :=
  if !s.streamActive then s
  else
    let now := e.now
    let throttled : Bool :=
      match kind with
      | EvKind.P => decide (subU32 now (s.lastEventSentP ch) < MIN_EVENT_GAP_MS)
      | EvKind.L => decide (subU32 now (s.lastEventSentL ch) < MIN_EVENT_GAP_MS)
    if throttled then s
    else
      let s1 : Hub :=
        match kind with
        | EvKind.P => { s with lastEventSentP := upd s.lastEventSentP ch now }
        | EvKind.L => { s with lastEventSentL := upd s.lastEventSentL ch now }
      let k : List Char := match kind with
        | EvKind.P => ['P']
        | EvKind.L => ['L']
      let pkt := snprintf 48 ("EV ".toList ++ k ++ [' '] ++ fmtDec (ch + 1) ++ [' ']
        ++ (if val then ['1'] else ['0']) ++ [' '] ++ s1.BOARD_MAC)
      match getTarget s1 with
      | none => s1
      | some target => sendCmdRaw s1 e pkt (some target)

/-- `startStreaming(rebaseline)`. -/
def startStreaming (s : Hub) (rebaseline : Bool) : Hub :=
  if s.streamActive && !rebaseline then s
  else
    let s1 : Hub := { s with streamActive := true }
    if rebaseline then
      { s1 with
        prevPressed := fun i => if i < CHANNEL_COUNT then s1.lastPressed i else s1.prevPressed i
        prevLatchedState :=
          fun i => if i < CHANNEL_COUNT then s1.latched i else s1.prevLatchedState i
        lastEventSentP := fun i => if i < CHANNEL_COUNT then 0 else s1.lastEventSentP i
        lastEventSentL := fun i => if i < CHANNEL_COUNT then 0 else s1.lastEventSentL i }
    else s1

/-- `stopStreaming()`. -/
def stopStreaming (s : Hub) : Hub := { s with streamActive := false }

/-- `cleanAll()`. -/
def cleanAll (s : Hub) (e : Env) : Hub :=
  let s1 : Hub :=
    { s with
      monNormal := fun _ => false
      monLatch := fun _ => false
      latched := fun _ => false
      ignoredCh := fun _ => false
      checkSelect := fun _ => false
      checkActive := false }
  let s2 := (List.range CHANNEL_COUNT).foldl
    (fun acc ch => setLed (reseed acc e.sw e.now ch) ch false) s1
  { s2 with needReleaseGate := false }

/-- `goDarkAndIdle()`. -/
def goDarkAndIdle (s : Hub) (e : Env) : Hub :=
  let s1 := stopStreaming s
  let s2 := cleanAll s1 e
  let s3 := allLeds s2 false
  { s3 with
    needReleaseGate := false
    haveSender := false
    lastSender := zeroMac
    state := State.WAIT_FOR_TARGET }

/-- Text `RESULT SUCCESS <MAC>` as built in a 64-byte buffer. -/
def successText (s : Hub) : List Char := snprintf 64 ("RESULT SUCCESS ".toList ++ s.BOARD_MAC)

/-- `sendSuccessAndIdle()`. -/
def sendSuccessAndIdle (s : Hub) (e : Env) : Hub :=
  goDarkAndIdle (replyReliable s e (successText s)) e

/-- `allContactlessLatched()`. -/
def allContactlessLatched (s : Hub) : Bool :=
  (List.range CHANNEL_COUNT).all (fun ch => !(s.monLatch ch && !s.latched ch))

/-- `hasWorkToCheck(restrictToSelection)`. -/
def hasWorkToCheck (s : Hub) (restrictToSelection : Bool) : Bool :=
  if restrictToSelection then
    (List.range CHANNEL_COUNT).any (fun ch => s.checkSelect ch && !s.ignoredCh ch)
  else
    (List.range CHANNEL_COUNT).any
      (fun ch => (s.monNormal ch || s.monLatch ch) && !s.ignoredCh ch)

/-! ## Monitor/check engine -/

/-- Loop state of the first loop of `checkAll` and `doMonitoring`: the Hub and the local
array `pressed`. -/
structure PressScan where
  hub : Hub
  pressed : Nat → Bool

/-- The two stores `latched[ch] = true; ignoredCh[ch] = true;` made on a latch edge. -/
def latchEdge (s : Hub) (ch : Nat) : Hub :=
  { s with latched := upd s.latched ch true, ignoredCh := upd s.ignoredCh ch true }

/-- The statements `sendEvent("L", ch, true); prevLatchedState[ch] = true;`. -/
def emitLatched (s : Hub) (e : Env) (ch : Nat) : Hub :=
  let u := sendEvent s e EvKind.L ch true
  { u with prevLatchedState := upd u.prevLatchedState ch true }

/-- The statements `sendEvent("P", ch, pressed[ch]); prevPressed[ch] = pressed[ch];`. -/
def emitPressed (s : Hub) (e : Env) (ch : Nat) (p : Bool) : Hub :=
  let u := sendEvent s e EvKind.P ch p
  { u with prevPressed := upd u.prevPressed ch p }

/-- Body of the first loop of `checkAll` for channel `ch`. -/
def checkAllSample (e : Env) (a : PressScan) (ch : Nat) : PressScan :=
  let r := debouncedPressed a.hub e.sw ch e.now
  let p := r.2.1
  let edge := r.2.2
  let s1 := r.1
  let s2 :=
    if s1.monLatch ch && edge then
      let t1 := latchEdge s1 ch
      if t1.streamActive && !t1.prevLatchedState ch then emitLatched t1 e ch else t1
    else s1
  let s3 :=
    if s2.streamActive && (s2.monNormal ch || s2.monLatch ch) && (p != s2.prevPressed ch) then
      emitPressed s2 e ch p
    else s2
  { hub := s3, pressed := upd a.pressed ch p }

/-- Loop state of the second loop of `checkAll`: the Hub and the local `ok`. -/
structure CheckScan where
  hub : Hub
  ok : Bool

/-- Body of the second loop of `checkAll` for channel `ch`. -/
def checkAllEval (restrictToSelection : Bool) (pressed : Nat → Bool) (a : CheckScan)
    (ch : Nat) : CheckScan :=
  let s := a.hub
  let tracked := (s.monNormal ch || s.monLatch ch) && !s.ignoredCh ch
  let selected :=
    if restrictToSelection then (s.checkActive && s.checkSelect ch && !s.ignoredCh ch)
    else tracked
  if s.ignoredCh ch then { a with hub := setLed s ch false }
  else if s.monNormal ch then
    let a1 : CheckScan :=
      if selected && !pressed ch then
        let r := appendCsv s.missingBuf s.missingLen (ch + 1)
        { hub := { s with missingBuf := r.1, missingLen := r.2 }, ok := false }
      else a
    { a1 with hub := setLed a1.hub ch (!pressed ch) }
  else if s.monLatch ch then
    let a1 : CheckScan :=
      if selected && !s.latched ch then
        let r := appendCsv s.missingBuf s.missingLen (ch + 1)
        { hub := { s with missingBuf := r.1, missingLen := r.2 }, ok := false }
      else a
    { a1 with hub := setLed a1.hub ch (!a1.hub.latched ch) }
  else
    if pressed ch then
      let r := appendCsv s.extraBuf s.extraLen (ch + 1)
      { hub := setLed { s with extraBuf := r.1, extraLen := r.2 } ch s.blinkState, ok := false }
    else { a with hub := setLed s ch false }

/-- `checkAll(restrictToSelection, now)`: the new state and the returned `ok`. -/
def checkAll (s : Hub) (e : Env) (restrictToSelection : Bool) : Hub × Bool :=
  let s0 := resetBuffers s
  let a := (List.range CHANNEL_COUNT).foldl (checkAllSample e)
    { hub := s0, pressed := fun _ => false }
  let b := (List.range CHANNEL_COUNT).foldl (checkAllEval restrictToSelection a.pressed)
    { hub := a.hub, ok := true }
  (b.hub, b.ok)

/-- `doSelfCheck()`. -/
def doSelfCheck (s : Hub) (e : Env) : Hub :=
  let a := (List.range CHANNEL_COUNT).foldl
    (fun (acc : Hub × Bool) ch =>
      let raw := isPressedRaw e.sw ch
      (setLed acc.1 ch (acc.1.blinkState && raw), acc.2 || raw))
    (s, false)
  if !a.2 then { a.1 with state := State.WAIT_FOR_TARGET } else a.1

/-- Release-gate block of `doMonitoring`: reseeds every debouncer from a raw read. -/
def releaseGate (s : Hub) (e : Env) : Hub :=
  (List.range CHANNEL_COUNT).foldl
    (fun acc i =>
      let r := isPressedRaw e.sw i
      let a1 : Hub :=
        { acc with
          rawPrev := upd acc.rawPrev i r
          rawChangedAt := upd acc.rawChangedAt i e.now
          lastPressed := upd acc.lastPressed i r }
      if a1.streamActive then { a1 with prevPressed := upd a1.prevPressed i r } else a1)
    { s with needReleaseGate := false }

/-- Body of the first loop of `doMonitoring` for channel `ch`. -/
def monitorSample (e : Env) (a : PressScan) (ch : Nat) : PressScan :=
  let r := debouncedPressed a.hub e.sw ch e.now
  let p := r.2.1
  let edge := r.2.2
  let s1 := r.1
  let s2 : Hub := if s1.monLatch ch && edge then latchEdge s1 ch else s1
  let s3 :=
    if s2.streamActive then
      let t1 :=
        if s2.monLatch ch && edge && !s2.prevLatchedState ch then emitLatched s2 e ch else s2
      if (t1.monNormal ch || t1.monLatch ch) && (p != t1.prevPressed ch) then
        emitPressed t1 e ch p
      else t1
    else s2
  { hub := s3, pressed := upd a.pressed ch p }

/-- Body of the LED-policy loops of `doMonitoring` for channel `ch`. -/
def monitorLed (finalReady : Bool) (pressed : Nat → Bool) (s : Hub) (ch : Nat) : Hub :=
  if finalReady then
    if s.ignoredCh ch then setLed s ch false
    else
      let held := (s.monNormal ch || s.monLatch ch) && pressed ch
      if s.monNormal ch then setLed s ch (if held then false else true)
      else if s.monLatch ch then setLed s ch (s.latched ch)
      else setLed s ch (if pressed ch then s.blinkState else false)
  else
    if s.ignoredCh ch then setLed s ch false
    else if s.monNormal ch then setLed s ch (!pressed ch)
    else if s.monLatch ch then setLed s ch (!s.latched ch)
    else setLed s ch (if pressed ch then s.blinkState else false)

/-- `doMonitoring()`. -/
def doMonitoring (s : Hub) (e : Env) : Hub :=
  let s0 := if s.needReleaseGate then releaseGate s e else s
  let now := e.now
  let a := (List.range CHANNEL_COUNT).foldl (monitorSample e)
    { hub := s0, pressed := fun _ => false }
  let finalReady := allContactlessLatched a.hub
  let s1 := (List.range CHANNEL_COUNT).foldl (monitorLed finalReady a.pressed) a.hub
  let normalsHeld := (List.range CHANNEL_COUNT).all
    (fun ch => !(s1.monNormal ch && !s1.ignoredCh ch && !a.pressed ch))
  if finalReady && normalsHeld && hasWorkToCheck s1 false then
    let s2 : Hub := if s1.liveOkSince = 0 then { s1 with liveOkSince := now } else s1
    if subU32 now s2.liveOkSince ≥ AUTO_FINAL_HOLD_MS then
      sendSuccessAndIdle (replyRaw s2 e "AUTO-FINAL".toList) e
    else s2
  else { s1 with liveOkSince := 0 }

/-! ## Final check -/

/-- Voting loop of `doFinalCheck` from iteration `i` on, `fuel` iterations left; `es k` is the
environment of pass number `k`. Returns the state and the counter `ok`. -/
def voteLoop (restrictSel : Bool) (es : Nat → Env) : Nat → Nat → Hub → Nat → Hub × Nat
  | 0, _, s, ok => (s, ok)
  | fuel + 1, i, s, ok =>
    let r := checkAll s (es i) restrictSel
    let ok1 := if r.2 then ok + 1 else ok
    if ok1 ≥ PASS_THRESHOLD then (r.1, ok1)
    else if (FINAL_CHECK_SAMPLES - i - 1) + ok1 < PASS_THRESHOLD then (r.1, ok1)
    else voteLoop restrictSel es fuel (i + 1) r.1 ok1

/-- The lambda `app` of `doFinalCheck`: appends to the 256-byte buffer `core`. -/
def appCore (core : List Char) (str : List Char) : List Char :=
  let cap := MAX_MSG_LEN * 2 - 1
  if str = [] then core else (core ++ str).take cap

/-- Text of the failure frame before ID framing, as built by `doFinalCheck`. -/
def failureText (s : Hub) : List Char :=
  let c0 := appCore [] "FAILURE".toList
  let c1 := if s.missingLen ≠ 0 then appCore (appCore c0 " MISSING ".toList) s.missingBuf else c0
  let c2 :=
    if s.extraLen ≠ 0 then
      appCore (appCore c1 (if s.missingLen ≠ 0 then ";EXTRA ".toList else " EXTRA ".toList))
        s.extraBuf
    else c1
  snprintf (MAX_MSG_LEN * 2 + 16) ("RESULT ".toList ++ c2 ++ [' '] ++ s.BOARD_MAC)

/-- `doFinalCheck()`; `es k` is the environment of `checkAll` pass number `k` (`k < 5` in the
voting loop, `k = 5` for the pass after it, which is also when the result is sent). -/
def doFinalCheck (s : Hub) (es : Nat → Env) : Hub :=
  let restrictSel := s.checkActive
  if !hasWorkToCheck s restrictSel then
    goDarkAndIdle (stopStreaming (replyReliable s (es 0) (successText s))) (es 0)
  else
    let s1 := startStreaming s false
    let v := voteLoop restrictSel es FINAL_CHECK_SAMPLES 0 s1 0
    let ok := v.2
    let eLast := es FINAL_CHECK_SAMPLES
    let s2 := (checkAll v.1 eLast restrictSel).1
    let s3 := trimBuffers s2
    if ok ≥ PASS_THRESHOLD then
      goDarkAndIdle (stopStreaming (replyReliable s3 eLast (successText s3))) eLast
    else
      { replyReliable s3 eLast (failureText s3) with state := State.MONITORING }

/-! ## RX dispatcher -/

/-- `strtoul(str, nullptr, 10)` with a 32-bit `unsigned long`. -/
def strtoul (str : List Char) : Nat :=
  let t1 := str.dropWhile isspace
  let signed : Bool × List Char :=
    match t1 with
    | '-' :: r => (true, r)
    | '+' :: r => (false, r)
    | _ => (false, t1)
  let v := (readDigits signed.2 0).1
  if v ≥ U32 then U32 - 1
  else if signed.1 then (U32 - v) % U32 else v

/-- `atoi(str)`: `(int) strtol(str, nullptr, 10)`. -/
def atoi (str : List Char) : Int := (strtol str).1

/-- Digit loop of `extractIdToken`: `v = v*10 + (*p - '0')` in 32-bit arithmetic; returns the
value and whether a digit was read. -/
def idDigits : List Char → Nat → Bool → Nat × Bool
  | [], v, any => (v, any)
  | c :: cs, v, any =>
    if isdigit c then idDigits cs ((v * 10 + digitVal c) % U32) true else (v, any)

/-- `extractIdToken(msg, len, outId)` on the C string `msg`. -/
def extractIdToken (msg : List Char) (len : Nat) : Option Nat :=
  if len = 0 then none
  else
    match strstr msg " ID=".toList with
    | none => none
    | some p =>
      let r := idDigits (p.drop 4) 0 false
      if r.2 then some r.1 else none

/-- Blank test of the lambdas `ltrim` / `rtrim` of `onRecv`. -/
def isTrimChar (c : Char) : Bool := c == ' ' || c == '\t' || c == '\r'

/-- `ltrim(s)`. -/
def ltrim (l : List Char) : List Char := l.dropWhile isTrimChar

/-- `rtrim(s)`. -/
def rtrim (l : List Char) : List Char := (l.reverse.dropWhile isTrimChar).reverse

/-- `strchr(s, ' ')`: the suffix at the first blank. -/
def strchrSpace : List Char → Option (List Char)
  | [] => none
  | c :: cs => if c == ' ' then some (c :: cs) else strchrSpace cs

/-- Repeat count of a BLINK / CHASE frame: `dflt` unless text follows the first blank. -/
def repeatCount (rx : List Char) (dflt : Int) : Int :=
  match strchrSpace rx with
  | some (_ :: c :: rest) => max 1 (atoi (c :: rest))
  | _ => dflt

/-- Stores a deferred command in the single slot. -/
def enqueuePending (s : Hub) (kind : PendingKind) (n : Int) : Hub :=
  let dest := getTarget s
  { s with
    pending :=
      { kind := kind
        n := n
        hasMac := dest.isSome
        mac := match dest with
          | some d => d
          | none => zeroMac }
    havePending := true }

/-- Verb dispatch of `onRecv`, after the sender update and the auto-ACK: `rx` is the trimmed
text, `data` the received bytes. -/
def dispatchVerb (s1 : Hub) (e : Env) (rx data : List Char) : Hub :=
  if startsWith "WELCOME".toList rx then
    let s2 := replyRaw s1 e "WELCOME".toList
    let s3 := replyReliable s2 e "READY".toList
    { s3 with state := State.WELCOME, welcomeEdgeCount := 0 }
  else if startsWith "PING".toList rx then
    replyRaw s1 e "PING-OK".toList
  else if startsWith "BLINK".toList rx then
    replyReliable (enqueuePending s1 PendingKind.Blink (repeatCount rx 3)) e
      "BLINK-OK".toList
  else if startsWith "CHASE".toList rx then
    replyReliable (enqueuePending s1 PendingKind.Chase (repeatCount rx 1)) e
      "CHASE-OK".toList
  else if startsWith kwMONITOR rx then
    let s2 := parseMonitorPayload s1 e.sw e.now data
    let s3 : Hub := { s2 with state := State.MONITORING }
    let s4 := replyReliable s3 e "MONITOR-OK".toList
    enqueuePending s4 PendingKind.MonitorBaseline 0
  else if startsWith kwCHECK rx then
    let s2 := parseCheckSelection s1 rx
    let restrictSel := s2.checkActive
    if !hasWorkToCheck s2 restrictSel then
      goDarkAndIdle (replyReliable s2 e (successText s2)) e
    else { s2 with state := State.FINAL_CHECK }
  else if startsWith "CLEAN".toList rx then
    let s2 := cleanAll (stopStreaming s1) e
    replyRaw { s2 with state := State.WAIT_FOR_TARGET } e "CLEAN-OK".toList
  else s1

/-- Auto-ACK block of `onRecv`: a frame with an ID token is acknowledged raw to its sender
when the sender is the session peer; `rxb` is the receive buffer, `n` the number of bytes
copied into it. -/
def autoAck (s0 : Hub) (e : Env) (src : Mac) (rxb : List Char) (n : Nat) : Hub :=
  match extractIdToken rxb n with
  | some incomingId =>
    if s0.haveSender && src == s0.lastSender then
      sendCmdRaw s0 e (snprintf 24 ("ACK ".toList ++ fmtDec incomingId)) (some src)
    else s0
  | none => s0

/-- The command text `rx` that `onRecv` dispatches on: the first `min(len, 255)` bytes of the
frame as a C string, with blanks, tabs and CR trimmed on both sides. -/
def rxText (data : List Char) : List Char :=
  rtrim (ltrim (cstr (data.take (min data.length 255))))

/-- `onRecv(info, data, len)`: `src` is `info->src_addr`, `len` the length of `data`; `e` is
the environment during the callback. -/
def onRecv (s : Hub) (e : Env) (src : Mac) (data : List Char) : Hub :=
  if data.length = 0 then s
  else if isZeroMac src then s
  else
    let s0 : Hub := { s with lastSender := src, haveSender := true }
    let n := min data.length 255
    let rxb0 := cstr (data.take n)
    let rx := rxText data
    let rxb := rxb0.takeWhile isTrimChar ++ rx
    if startsWith "ACK ".toList rx then
      let id := strtoul (rx.drop 4)
      if s0.hubAckActive && id == s0.hubAckId && src == s0.hubAckMac then
        { s0 with hubAckActive := false }
      else s0
    else dispatchVerb (autoAck s0 e src rxb n) e rx data

/-! ## Main loop -/

/-- BLINK animation: `n` rounds of all LEDs on / off, `serviceAckTx()` after each half;
`es k` is the environment of service call number `k`. -/
def blinkRounds (es : Nat → Env) : Nat → Nat → Hub → Hub
  | 0, _, s => s
  | n + 1, k, s =>
    let s1 := serviceAckTx (allLeds s true) (es k)
    let s2 := serviceAckTx (allLeds s1 false) (es (k + 1))
    blinkRounds es n (k + 2) s2

/-- One round of the CHASE animation over the channels in `chs`. -/
def chaseRound (es : Nat → Env) : List Nat → Nat → Hub → Hub
  | [], _, s => s
  | ch :: chs, k, s =>
    let s1 := serviceAckTx (setLed s ch true) (es k)
    let s2 := serviceAckTx (setLed s1 ch false) (es (k + 1))
    chaseRound es chs (k + 2) s2

/-- CHASE animation: `rounds` rounds. -/
def chaseRounds (es : Nat → Env) : Nat → Nat → Hub → Hub
  | 0, _, s => s
  | n + 1, k, s =>
    chaseRounds es n (k + 2 * CHANNEL_COUNT) (chaseRound es (List.range CHANNEL_COUNT) k s)

/-- Baseline frames of the deferred `MonitorBaseline` work for channel `ch`. -/
def baselineFrames (e : Env) (dest : Mac) (s : Hub) (ch : Nat) : Hub :=
  if s.monNormal ch || s.monLatch ch then
    let p := isPressedRaw e.sw ch
    let pkt := snprintf 48 ("EV P ".toList ++ fmtDec (ch + 1) ++ [' ']
      ++ (if p then ['1'] else ['0']) ++ [' '] ++ s.BOARD_MAC)
    let s1 := sendCmdRaw s e pkt (some dest)
    if s1.monLatch ch then
      let pkt2 := snprintf 48 ("EV L ".toList ++ fmtDec (ch + 1) ++ [' ']
        ++ (if s1.latched ch then ['1'] else ['0']) ++ [' '] ++ s1.BOARD_MAC)
      sendCmdRaw s1 e pkt2 (some dest)
    else s1
  else s

/-- Deferred `MonitorBaseline` work. -/
def monitorBaseline (s : Hub) (e : Env) (pc : PendingCmd) : Hub :=
  let s1 := startStreaming s true
  let startPkt := snprintf 48 ("MONITOR-START ".toList ++ s1.BOARD_MAC)
  let dest : Option Mac := if pc.hasMac then some pc.mac else getTarget s1
  match dest with
  | none => s1
  | some d =>
    let s2 := sendCmdRaw s1 e startPkt (some d)
    let s3 := (List.range CHANNEL_COUNT).foldl (baselineFrames e d) s2
    (List.range CHANNEL_COUNT).foldl
      (fun (acc : Hub) i =>
        if acc.monNormal i || acc.monLatch i then
          { acc with
            prevPressed := upd acc.prevPressed i (isPressedRaw e.sw i)
            prevLatchedState := upd acc.prevLatchedState i (acc.latched i) }
        else acc)
      s3

/-- The empty deferred-work slot. -/
def noPending : PendingCmd :=
  { kind := PendingKind.None, n := 0, hasMac := false, mac := zeroMac }

/-- Blink-clock block of `loop()`: toggles `blinkState` every 100 ms and drives the WELCOME
animation. -/
def blinkClock (s : Hub) (now : Nat) : Hub :=
  if subU32 now s.lastBlinkTick ≥ BLINK_INTERVAL_MS then
    let t1 : Hub := { s with lastBlinkTick := now, blinkState := !s.blinkState }
    if t1.state = State.WELCOME then
      let t2 := allLeds { t1 with welcomeEdgeCount := t1.welcomeEdgeCount + 1 } t1.blinkState
      if t2.welcomeEdgeCount ≥ 6 then
        { allLeds { t2 with welcomeEdgeCount := 0 } false with state := State.WAIT_FOR_TARGET }
      else t2
    else t1
  else s

/-- HELLO push-button block of `loop()`. -/
def helloButton (s1 : Hub) (e : Env) : Hub :=
  let now := e.now
  let reading := e.btn
  let s2 : Hub :=
    if reading != s1.btnLastRead then { s1 with lastDebounce := now, btnLastRead := reading }
    else s1
  if subU32 now s2.lastDebounce > DEBOUNCE_MS then
    if reading != s2.btnStable then
      let t1 : Hub := { s2 with btnStable := reading }
      if t1.btnStable = false then triggerHello t1 else t1
    else s2
  else s2

/-- Idle block of `loop()` in WAIT_FOR_TARGET: blinks the LED of every held switch. -/
def idleLeds (s : Hub) (e : Env) : Hub :=
  (List.range CHANNEL_COUNT).foldl
    (fun acc ch => setLed acc ch (if isPressedRaw e.sw ch then acc.blinkState else false)) s

/-- The `switch (state)` block of `loop()`. -/
def runState (s3 : Hub) (es : Nat → Env) : Hub :=
  match s3.state with
  | State.SELF_CHECK => doSelfCheck s3 (es 0)
  | State.WAIT_FOR_TARGET => idleLeds s3 (es 0)
  | State.MONITORING => doMonitoring s3 (es 0)
  | State.FINAL_CHECK => doFinalCheck s3 (fun k => es (k + 1))
  | State.WELCOME => s3

/-- Deferred-work block of `loop()`. -/
def drainPending (s5 : Hub) (es : Nat → Env) : Hub :=
  if s5.havePending then
    let pc := s5.pending
    let s6 : Hub := { s5 with havePending := false, pending := noPending }
    match pc.kind with
    | PendingKind.Blink => blinkRounds es pc.n.toNat 8 s6
    | PendingKind.Chase => chaseRounds es (max 1 pc.n).toNat 8 s6
    | PendingKind.MonitorBaseline => monitorBaseline s6 (es 7) pc
    | PendingKind.None => s6
  else s5

/-- One pass of `loop()`. `es 0` is the environment at the head of the pass and of the state
handler; `es (k + 1)`, `k ≤ 5`, are those of the `checkAll` passes of `doFinalCheck`; `es 7`
is that of the `serviceAckTx()` call after the state handler and of the deferred work;
`es (8 + k)` is that of service call number `k` inside a BLINK or CHASE animation. -/
def loopTick (s : Hub) (es : Nat → Env) : Hub :=
  drainPending
    (serviceAckTx (runState (helloButton (blinkClock s (es 0).now) (es 0)) es) (es 7)) es

/-- State of the Hub when `setup()` returns: `mac` is the board MAC text, `sw` the switch
levels and `bootNow` the value of `millis()` while the debouncers are seeded. -/
def setupHub (mac : List Char) (sw : Nat → Bool) (bootNow : Nat) : Hub :=
  { state := State.SELF_CHECK
    monNormal := fun _ => false
    monLatch := fun _ => false
    latched := fun _ => false
    ignoredCh := fun _ => false
    liveOkSince := 0
    lastPressed := fun ch => if ch < CHANNEL_COUNT then isPressedRaw sw ch else false
    rawPrev := fun ch => if ch < CHANNEL_COUNT then isPressedRaw sw ch else false
    rawChangedAt := fun ch => if ch < CHANNEL_COUNT then bootNow else 0
    streamActive := false
    prevPressed := fun _ => false
    prevLatchedState := fun _ => false
    lastEventSentP := fun _ => 0
    lastEventSentL := fun _ => 0
    lastSender := zeroMac
    haveSender := false
    btnStable := true
    btnLastRead := true
    lastDebounce := 0
    lastBlinkTick := 0
    blinkState := false
    missingBuf := []
    extraBuf := []
    missingLen := 0
    extraLen := 0
    checkSelect := fun _ => false
    checkActive := false
    welcomeEdgeCount := 0
    needReleaseGate := false
    BOARD_MAC := snprintf 18 mac
    havePending := false
    pending := noPending
    ledState := fun _ => false
    hubAckActive := false
    hubAckId := 0
    hubAckMac := zeroMac
    hubAckLastSend := 0
    hubAckRetriesLeft := 0
    hubAckMsg := []
    hubAckTimeoutMs := 240
    seq := 1000
    lastTxMac := zeroMac
    lastTxMacValid := false
    sent := [] }

/-- Input of one step of the Hub: a frame delivered to `onRecv`, or one pass of `loop()`. -/
inductive Step where
  | recv (e : Env) (src : Mac) (data : List Char)
  | tick (es : Nat → Env)

/-- Effect of one step. -/
def step (s : Hub) : Step → Hub
  | Step.recv e src data => onRecv s e src data
  | Step.tick es => loopTick s es

/-- States the Hub can be in: the state after `setup()` and what steps make of it. -/
inductive Reachable : Hub → Prop where
  | setup (mac : List Char) (sw : Nat → Bool) (bootNow : Nat) : Reachable (setupHub mac sw bootNow)
  | step (s : Hub) (st : Step) : Reachable s → Reachable (step s st)

/-! ## Vocabulary of the MONITOR claims -/

/-- The token is a class keyword (`NORMAL`, `CONTACTLESS` or `LATCH`, after uppercasing). -/
def isClassKeyword (tok : List Char) : Bool :=
  tok == kwNORMAL || tok == kwCONTACTLESS || tok == kwLATCH

/-- Class in force after the tokens `toks` (`true` = latch): the class of the most recent
class keyword among them, normal when there is none. -/
def classAfter (toks : List (List Char)) : Bool :=
  toks.foldl
    (fun m t => if t = kwNORMAL then false
      else if t = kwCONTACTLESS ∨ t = kwLATCH then true else m)
    false

/-- Token number `i` is a count token: it directly follows a class keyword. -/
def isCountPos (toks : List (List Char)) (i : Nat) : Bool :=
  match i with
  | 0 => false
  | j + 1 =>
    match toks[j]? with
    | some p => isClassKeyword p
    | none => false

/-- Token number `i` of `toks` names channel `c` (1-based): it is not a class keyword, it is
not the count token that directly follows a class keyword, and it is the pure integer `c`. -/
def namesChannel (toks : List (List Char)) (i c : Nat) : Prop :=
  match toks[i]? with
  | some t => isClassKeyword t = false ∧ isCountPos toks i = false ∧ parsePureInt t = some c
  | none => False

instance (toks : List (List Char)) (i c : Nat) : Decidable (namesChannel toks i c) := by
  unfold namesChannel
  split <;> infer_instance

/-! ## Concrete inputs used by the witnesses -/

/-- Switch levels of a bouncing contact on every channel: the level toggles at every sample. -/
def bounceSw (k : Nat) : Nat → Bool := fun _ => decide (k % 2 = 0)

/-- Sample times 10 ms apart. -/
def every10ms (k : Nat) : Nat := 10 * k

/-- Switch levels of a clean press at sample 1 and release at sample 5. -/
def cleanSw (k : Nat) : Nat → Bool := fun _ => !(decide (1 ≤ k) && decide (k < 5))

/-- The Hub after `setup()` with all switches released. -/
def idleHub : Hub := setupHub "AA:BB:CC:DD:EE:01".toList (fun _ => true) 0

/-- A quiet environment: every switch released, push-button released, peer registration
succeeds. -/
def quietEnv (now : Nat) : Env :=
  { sw := fun _ => true, now := now, peerOk := true, btn := true }

/-- MAC address of a station. -/
def staMac : Mac := [0x24, 0x6F, 0x28, 0, 0, 1]

def longPayload : List Char :=
  "MONITOR NORMAL 40 1,2,3,4,5,6,7,8,9,10,11,12,13,14,15,16,17,18,19,20,21,22,23,24,25,26,27,28,29,30,31,32,33,34,35,36,37,38,39,40 LATCH 25 1,2,3,4,5,6,7,8,9,10,11,12,13,14,15,16,17,18,19,20,21,22,23,24,25".toList

def demoPayload : List Char := "MONITOR NORMAL 2 1,2 LATCH 1 3 AA:BB:CC:DD:EE:01".toList

/-- The Hub after setup and one received `MONITOR` frame. -/
def monitoredHub : Hub := step idleHub (Step.recv (quietEnv 100) staMac demoPayload)

/-- Channel `ch` is in the state a reclassification leaves it in: not latched, not ignored,
debouncer seeded from the raw level at time `now`, LED on. -/
def FreshlySeeded (h : Hub) (sw : Nat → Bool) (now : Nat) (ch : Nat) : Prop :=
  h.latched ch = false ∧ h.ignoredCh ch = false ∧ h.rawPrev ch = isPressedRaw sw ch ∧
    h.lastPressed ch = isPressedRaw sw ch ∧ h.rawChangedAt ch = now ∧ h.ledState ch = true

/-- The Hub after `setup()` and a `MONITOR NORMAL 2 3,25` frame body: channels 3 and 25 are
normal channels. -/
def normalHub : Hub :=
  parseMonitorPayload idleHub (fun _ => true) 0 "MONITOR NORMAL 2 3,25".toList

/-- Switch levels with the switch of channel 25 (index 24) pressed, all others released. -/
def pressed25 : Nat → Bool := fun ch => ch != 24

/-- Comma-separated decimal channel list `a1,a2,...` (no trailing comma). -/
def csvList : List Nat → List Char
  | [] => []
  | [a] => fmtDec a
  | a :: b :: rest => fmtDec a ++ ',' :: csvList (b :: rest)

/-- Flat form of a MONITOR payload: `MONITOR NORMAL |A| a1,a2,... LATCH |B| b1,... <MAC>`. -/
def flatForm (A B : List Nat) (mac : List Char) : List Char :=
  "MONITOR NORMAL ".toList ++ (fmtDec A.length ++ (' ' :: (csvList A ++ (" LATCH ".toList ++
    (fmtDec B.length ++ (' ' :: (csvList B ++ (' ' :: mac))))))))

/-- Bracketed form of a MONITOR payload:
`MONITOR normal(|A|)=[a1,a2,...] contactless(|B|)=[b1,...]`. -/
def bracketForm (A B : List Nat) : List Char :=
  "MONITOR normal(".toList ++ (fmtDec A.length ++ (")=[".toList ++ (csvList A ++
    ("] contactless(".toList ++ (fmtDec B.length ++ (")=[".toList ++ (csvList B ++ [']'])))))))

/-! ## Channel core, model bits and stable properties -/

/-- The part of the Hub state that radio sends, LED writes, the FAILURE buffers and the
streaming bookkeeping never touch: session state, channel model, CHECK selection, debouncer
state and release gate. -/
structure ChanCore where
  state : State
  monNormal : Nat → Bool
  monLatch : Nat → Bool
  latched : Nat → Bool
  ignoredCh : Nat → Bool
  checkSelect : Nat → Bool
  checkActive : Bool
  lastPressed : Nat → Bool
  rawPrev : Nat → Bool
  rawChangedAt : Nat → Nat
  needReleaseGate : Bool
  blinkState : Bool
  BOARD_MAC : List Char

/-- Projection of the Hub state on `ChanCore`. -/
def chanCore (s : Hub) : ChanCore :=
  { state := s.state
    monNormal := s.monNormal
    monLatch := s.monLatch
    latched := s.latched
    ignoredCh := s.ignoredCh
    checkSelect := s.checkSelect
    checkActive := s.checkActive
    lastPressed := s.lastPressed
    rawPrev := s.rawPrev
    rawChangedAt := s.rawChangedAt
    needReleaseGate := s.needReleaseGate
    blinkState := s.blinkState
    BOARD_MAC := s.BOARD_MAC }

/-- The four model bits of one channel. -/
structure ChanBits where
  normal : Bool
  latch : Bool
  latched : Bool
  ignored : Bool
  deriving DecidableEq

/-- Model bits of channel `c` in the Hub state `s`. -/
def chanBits (s : Hub) (c : Nat) : ChanBits :=
  { normal := s.monNormal c, latch := s.monLatch c, latched := s.latched c,
    ignored := s.ignoredCh c }

/-- What one operation of the code can do to the model bits of a channel: leave them, make
the channel a fresh latch channel, make it a fresh normal channel, clear it, or latch a latch
channel (`latched` and `ignored` set together). -/
def BitMove (b b2 : ChanBits) : Prop :=
  b2 = b ∨
  b2 = { normal := false, latch := true, latched := false, ignored := false } ∨
  b2 = { normal := true, latch := false, latched := false, ignored := false } ∨
  b2 = { normal := false, latch := false, latched := false, ignored := false } ∨
  (b.latch = true ∧ b2 = { normal := b.normal, latch := true, latched := true, ignored := true })

/-- A property of the model bits of a channel that no operation of the code destroys. -/
def Stable (Q : Nat → ChanBits → Prop) : Prop := ∀ c b b2, BitMove b b2 → Q c b → Q c b2

/-- A property of the model bits of a channel that latching a latch channel does not
destroy. -/
def LatchStable (Q : Nat → ChanBits → Prop) : Prop :=
  ∀ c b, b.latch = true → Q c b →
    Q c { normal := b.normal, latch := true, latched := true, ignored := true }

/-- The property `Q` holds of the model bits of every channel. -/
def HoldsAll (Q : Nat → ChanBits → Prop) (s : Hub) : Prop := ∀ c, Q c (chanBits s c)

/-- The invariant `ignored ⇒ latch ∧ latched` of a Hub state. -/
def IgnoredLatched (s : Hub) : Prop :=
  ∀ c, s.ignoredCh c = true → s.monLatch c = true ∧ s.latched c = true

/-! ## Latch monotonicity (C8) -/

/-- Environment in which the switches of channels 1, 2 and 3 are pressed. -/
def pressEnv (now : Nat) : Env :=
  { sw := fun ch => decide (3 ≤ ch), now := now, peerOk := true, btn := true }

/-- The Hub in MONITORING with channels 1, 2 normal and held and channel 3 latch and latched:
`monitoredHub` after a quiet tick and two ticks with the three switches pressed, 30 ms
apart. -/
def latchedHub : Hub :=
  step (step (step monitoredHub (Step.tick (fun _ => quietEnv 200)))
    (Step.tick (fun _ => pressEnv 300))) (Step.tick (fun _ => pressEnv 330))

/-- Steps that may unlatch channel `c` (0-based): the handling of a `CLEAN` frame; the handling
of a `MONITOR` frame in which a token, among those of the first 199 bytes, names the channel
under NORMAL; the handling of a `CHECK` frame that leaves the Hub in WAIT_FOR_TARGET; a
main-loop tick begun in MONITORING or FINAL_CHECK that leaves the Hub in WAIT_FOR_TARGET. -/
def Unlatches (s : Hub) (c : Nat) : Step → Prop
  | Step.recv e src data =>
    startsWith "CLEAN".toList (rxText data) = true ∨
    (startsWith kwMONITOR (rxText data) = true ∧
      ∃ toks i, monitorTokens (cstr (data.take 199)) = some toks ∧
        namesChannel toks i (c + 1) ∧ classAfter (toks.take i) = false) ∨
    (startsWith kwCHECK (rxText data) = true ∧
      (onRecv s e src data).state = State.WAIT_FOR_TARGET)
  | Step.tick es =>
    (s.state = State.MONITORING ∨ s.state = State.FINAL_CHECK) ∧
      (loopTick s es).state = State.WAIT_FOR_TARGET

/-- Channel `c` is a latched latch channel. -/
def LatchedLatch (s : Hub) (c : Nat) : Prop :=
  s.latched c = true ∧ s.monLatch c = true ∧ s.monNormal c = false

/-! ## One channel seen through the sampling loops (C9, C10) -/

/-- What the sampling loops read and write of one channel: its class and latch bits and the
three words of its debouncer. -/
structure ChanView where
  normal : Bool
  latch : Bool
  latched : Bool
  ignored : Bool
  lastPressed : Bool
  rawPrev : Bool
  rawChangedAt : Nat
  deriving DecidableEq

/-- The view of channel `c` in a Hub state. -/
def chanView (s : Hub) (c : Nat) : ChanView :=
  { normal := s.monNormal c
    latch := s.monLatch c
    latched := s.latched c
    ignored := s.ignoredCh c
    lastPressed := s.lastPressed c
    rawPrev := s.rawPrev c
    rawChangedAt := s.rawChangedAt c }

/-- The call `debouncedPressed(ch, now, edge)` followed by the latch stores
`if (monLatch[ch] && edge) { latched[ch] = true; ignoredCh[ch] = true; }`, as both sampling
loops (`checkAll`, `doMonitoring`) run them, on the view of channel `ch`; `raw` is the level
read from the switch. -/
def sampleView (v : ChanView) (raw : Bool) (now : Nat) : ChanView :=
  let changedAt := if raw ≠ v.rawPrev then now else v.rawChangedAt
  if subU32 now changedAt ≥ CH_DEBOUNCE_MS ∧ v.lastPressed ≠ raw then
    { v with
      rawPrev := raw
      rawChangedAt := changedAt
      lastPressed := raw
      latched := if v.latch && raw then true else v.latched
      ignored := if v.latch && raw then true else v.ignored }
  else { v with rawPrev := raw, rawChangedAt := changedAt }

/-- Hub state after the first `n` passes of `loop()`, pass `k` running in the environment
`es k`. -/
def runTicks (s : Hub) (es : Nat → Nat → Env) : Nat → Hub
  | 0 => s
  | n + 1 => loopTick (runTicks s es n) (es n)

/-- The view of a channel whose debouncer has just been seeded from the raw level. -/
def seededView (v : ChanView) (raw : Bool) (now : Nat) : ChanView :=
  { v with rawPrev := raw, rawChangedAt := now, lastPressed := raw }

/-- Raw level (pressed?) of the switch of channel `c` at the head of pass `k`. -/
def tickRaw (es : Nat → Nat → Env) (c k : Nat) : Bool := isPressedRaw (es k 0).sw c

/-- Value of `millis()` at the head of pass `k`. -/
def tickNow (es : Nat → Nat → Env) (k : Nat) : Nat := (es k 0).now

/-- Among the first `n` passes the switch of channel `c` was sampled released by some pass
`j` and later sampled pressed by the passes `m .. k`, the last of them at least the debounce
time after the first. -/
def ReleasedThenHeld (es : Nat → Nat → Env) (c n : Nat) : Prop :=
  ∃ j m k, j < m ∧ m ≤ k ∧ k < n ∧ tickRaw es c j = false ∧
    (∀ i, m ≤ i → i ≤ k → tickRaw es c i = true) ∧
    CH_DEBOUNCE_MS ≤ subU32 (tickNow es k) (tickNow es m)

/-- Passes of `loop()` 30 ms apart during which the switches of channels 1, 2 and 3 are held
pressed. -/
def heldTicks (k : Nat) : Nat → Env := fun _ => pressEnv (200 + 30 * k)

/-! ## Verdict of `checkAll` (C10) -/

/-- `selected` as computed by the second loop of `checkAll`, from the core of the state. -/
def evalSelected (k : ChanCore) (restrict : Bool) (ch : Nat) : Bool :=
  if restrict then k.checkActive && k.checkSelect ch && !k.ignoredCh ch
  else (k.monNormal ch || k.monLatch ch) && !k.ignoredCh ch

/-- The second loop of `checkAll` appends channel `ch` to MISSING. -/
def evalMissing (k : ChanCore) (restrict : Bool) (pressed : Nat → Bool) (ch : Nat) : Bool :=
  !k.ignoredCh ch &&
    (if k.monNormal ch then evalSelected k restrict ch && !pressed ch
     else if k.monLatch ch then evalSelected k restrict ch && !k.latched ch
     else false)

/-- The second loop of `checkAll` appends channel `ch` to EXTRA. -/
def evalExtra (k : ChanCore) (pressed : Nat → Bool) (ch : Nat) : Bool :=
  !k.ignoredCh ch && !k.monNormal ch && !k.monLatch ch && pressed ch

/-- A CSV buffer and its length after `appendCsv` for the channels `chs` (0-based), from the
buffer `b`. -/
def csvFrom (b : List Char × Nat) (chs : List Nat) : List Char × Nat :=
  chs.foldl (fun acc ch => appendCsv acc.1 acc.2 (ch + 1)) b

/-- The CSV and error buffers of the Hub. -/
def msgBufs (s : Hub) : (List Char × Nat) × (List Char × Nat) :=
  ((s.missingBuf, s.missingLen), (s.extraBuf, s.extraLen))

/-- State and local array `pressed` of `checkAll` after its first (sampling) loop. -/
def checkSampled (s : Hub) (e : Env) : PressScan :=
  (List.range CHANNEL_COUNT).foldl (checkAllSample e)
    { hub := resetBuffers s, pressed := fun _ => false }

/-- The view of channel `ch` after the sampling loop of a `checkAll` pass run in state `s`:
its `lastPressed` is the debounced pressed value of the pass, its `latched` and `ignored`
include a latch made by the pass. -/
def passView (s : Hub) (e : Env) (ch : Nat) : ChanView :=
  sampleView (chanView s ch) (isPressedRaw e.sw ch) e.now

/-- Channel `ch` is selected for a check: tracked when the check is not restricted, member of
`checkSelect` when it is. -/
def selectedIn (s : Hub) (restrict : Bool) (ch : Nat) : Bool :=
  if restrict then s.checkSelect ch else (s.monNormal ch || s.monLatch ch)

/-- Channel `ch` is missing in a `checkAll` pass: not ignored, selected, and normal but not
pressed or latch but not latched. -/
def missingIn (s : Hub) (e : Env) (restrict : Bool) (ch : Nat) : Bool :=
  !(passView s e ch).ignored && selectedIn s restrict ch &&
    ((s.monNormal ch && !(passView s e ch).lastPressed) ||
      (s.monLatch ch && !(passView s e ch).latched))

/-- Channel `ch` is extra in a `checkAll` pass: untracked and pressed. -/
def extraIn (s : Hub) (e : Env) (ch : Nat) : Bool :=
  !s.monNormal ch && !s.monLatch ch && (passView s e ch).lastPressed

/-- Payload classifying channels 1, 2 and 3 as normal. -/
def monitor3 : List Char := "MONITOR NORMAL 3 1,2,3 AA:BB:CC:DD:EE:01".toList

/-- Environment in which the switches of channels 1 and 3 are pressed. -/
def press13 (now : Nat) : Env :=
  { sw := fun ch => !(ch == 0 || ch == 2), now := now, peerOk := true, btn := true }

/-- The Hub in FINAL_CHECK after `CHECK 1,3`: channels 1, 2, 3 are normal, the switches of
channels 1 and 3 have been held for 30 ms, channel 2 is released. -/
def checkHub : Hub :=
  step (step (step (step (step idleHub (Step.recv (quietEnv 100) staMac monitor3))
    (Step.tick (fun _ => quietEnv 200))) (Step.tick (fun _ => press13 300)))
    (Step.tick (fun _ => press13 330))) (Step.recv (press13 350) staMac "CHECK 1,3".toList)

/-- The session peer, the id counter and the reliable-TX slot: the part of the state that
only `onRecv`, `sendCmd`, `serviceAckTx`, `triggerHello` and `goDarkAndIdle` write. -/
structure SlotCore where
  haveSender : Bool
  lastSender : Mac
  seq : Nat
  hubAckActive : Bool
  hubAckId : Nat
  hubAckMac : Mac
  hubAckLastSend : Nat
  hubAckRetriesLeft : Nat
  hubAckMsg : List Char
  hubAckTimeoutMs : Nat

/-- Projection of the Hub state on `SlotCore`. -/
def slotCore (s : Hub) : SlotCore :=
  { haveSender := s.haveSender
    lastSender := s.lastSender
    seq := s.seq
    hubAckActive := s.hubAckActive
    hubAckId := s.hubAckId
    hubAckMac := s.hubAckMac
    hubAckLastSend := s.hubAckLastSend
    hubAckRetriesLeft := s.hubAckRetriesLeft
    hubAckMsg := s.hubAckMsg
    hubAckTimeoutMs := s.hubAckTimeoutMs }

/-- State before voting sample number `k` of `doFinalCheck` (state after the first `k`
samples), the voting starting in state `s1`; sample `k` runs in the environment `es k`. -/
def passState (r : Bool) (es : Nat → Env) (s1 : Hub) : Nat → Hub
  | 0 => s1
  | k + 1 => (checkAll (passState r es s1 k) (es k) r).1

/-- Result of voting sample number `k`. -/
def passOk (r : Bool) (es : Nat → Env) (s1 : Hub) (k : Nat) : Bool :=
  (checkAll (passState r es s1 k) (es k) r).2

/-- Text of a reliable frame: `msg ID=<id>` as built in the 256-byte buffer `hubAckMsg`. -/
def framed (msg : List Char) (id : Nat) : List Char :=
  snprintf 256 (msg ++ " ID=".toList ++ fmtDec id)

/-- Text of the frame most recently handed to the radio (empty when there is none). -/
def lastSentText (s : Hub) : List Char :=
  match s.sent.getLast? with
  | some f => f.text
  | none => []

/-- State of `doFinalCheck` when the result is built: after `n` voting samples, the extra
`checkAll` pass and `trimBuffers()`. -/
def afterVote (s : Hub) (es : Nat → Env) (n : Nat) : Hub :=
  trimBuffers (checkAll (passState s.checkActive es (startStreaming s false) n)
    (es FINAL_CHECK_SAMPLES) s.checkActive).1

/-- Voting samples 50 ms apart during which the switches of channels 1 and 3 stay pressed. -/
def voteHeld (k : Nat) : Env := press13 (400 + 50 * k)

/-- The failure text for the MISSING list `m` and the EXTRA list `e` (CSV texts without
trailing comma) and the board MAC: `RESULT FAILURE`, then ` MISSING m` when `m` is not empty,
then the EXTRA part when `e` is not empty, introduced by `;EXTRA ` after a MISSING part and
by ` EXTRA ` otherwise, then a blank and the MAC. -/
def failureFormat (m e mac : List Char) : List Char :=
  "RESULT FAILURE".toList ++
    ((if m = [] then [] else " MISSING ".toList ++ m) ++
      ((if e = [] then [] else (if m = [] then " EXTRA ".toList else ";EXTRA ".toList) ++ e) ++
        (' ' :: mac)))

/-- The text that `appendCsv` calls for the channels `chs` (0-based) make of an empty buffer
that is large enough: each number followed by a comma. -/
def csvRun : List Nat → List Char
  | [] => []
  | ch :: rest => fmtDec (ch + 1) ++ ',' :: csvRun rest

/-- Environment in which the switches of channels 1 and 9 are pressed. -/
def press19 (now : Nat) : Env :=
  { sw := fun ch => !(ch == 0 || ch == 8), now := now, peerOk := true, btn := true }

/-- Voting samples 50 ms apart during which the switches of channels 1 and 9 stay pressed. -/
def vote19 (k : Nat) : Env := press19 (400 + 50 * k)

/-- The Hub in FINAL_CHECK after `MONITOR NORMAL 2 1,2 <MAC>` and `CHECK <MAC>`, the switches
of channels 1 and 9 held and that of channel 2 released. -/
def s4Hub : Hub :=
  step (step (step (step (step idleHub
    (Step.recv (quietEnv 100) staMac "MONITOR NORMAL 2 1,2 AA:BB:CC:DD:EE:01".toList))
    (Step.tick (fun _ => quietEnv 200))) (Step.tick (fun _ => press19 300)))
    (Step.tick (fun _ => press19 330)))
    (Step.recv (press19 350) staMac "CHECK AA:BB:CC:DD:EE:01".toList)

/-- The Hub in FINAL_CHECK after `MONITOR NORMAL 1 1 <MAC>` and `CHECK <MAC>`, the switches of
channels 1 and 9 held. -/
def extraHub : Hub :=
  step (step (step (step (step idleHub
    (Step.recv (quietEnv 100) staMac "MONITOR NORMAL 1 1 AA:BB:CC:DD:EE:01".toList))
    (Step.tick (fun _ => quietEnv 200))) (Step.tick (fun _ => press19 300)))
    (Step.tick (fun _ => press19 330)))
    (Step.recv (press19 350) staMac "CHECK AA:BB:CC:DD:EE:01".toList)

/-- Failure text as the grammar `RESULT FAILURE [MISSING m][;EXTRA e] <MAC>` reads when the
EXTRA part is introduced by `;EXTRA ` whenever `e` is not empty. -/
def failureGrammar (m e mac : List Char) : List Char :=
  "RESULT FAILURE".toList ++
    ((if m = [] then [] else " MISSING ".toList ++ m) ++
      ((if e = [] then [] else ";EXTRA ".toList ++ e) ++ ' ' :: mac))

/-- A CHECK frame of 164 bytes that names the channels 1 to 40 with two digits each, a comma
and a blank between them. -/
def longCheck : List Char :=
  "CHECK 01, 02, 03, 04, 05, 06, 07, 08, 09, 10, 11, 12, 13, 14, 15, 16, 17, 18, 19, 20, 21, 22, 23, 24, 25, 26, 27, 28, 29, 30, 31, 32, 33, 34, 35, 36, 37, 38, 39, 40".toList

/-- A CHECK frame naming channels 2 and 3 among tokens that are no channel numbers. -/
def mixedCheck : List Char := "CHECK 2,3 41 0 x7 AA:BB:CC:DD:EE:01 ID=12".toList

/-- The sign step of `strtol`: whether a `-` was read, and the text after the sign. -/
def strtolSign (t1 : List Char) : Bool × List Char :=
  match t1 with
  | '-' :: r => (true, r)
  | '+' :: r => (false, r)
  | _ => (false, t1)

/-- The digit step of `strtol` on the text `signed.2` after the sign. -/
def strtolFrom (tok : List Char) (signed : Bool × List Char) : Int × List Char :=
  match signed.2 with
  | [] => (0, tok)
  | c :: _ =>
    if isdigit c then
      let r := readDigits signed.2 0
      let v : Int := if signed.1 then - (r.1 : Int) else (r.1 : Int)
      (max LONG_MIN (min LONG_MAX v), r.2)
    else (0, tok)

/-- The reliable-TX slot and the stream flag seen through the folds of `goDarkAndIdle`. -/
def ackView (s : Hub) : Bool × Bool × Mac × List Char × Nat × Nat :=
  (s.streamActive, s.hubAckActive, s.hubAckMac, s.hubAckMsg, s.hubAckId, s.seq)

/-- The Hub in WAIT_FOR_TARGET: after `setup()` and one main-loop tick with every switch
released. -/
def waitHub : Hub := step idleHub (Step.tick (fun _ => quietEnv 50))

/-- State and `pressed[]` after the release-gate block and the sampling loop of
`doMonitoring`. -/
def monitorSampled (s : Hub) (e : Env) : PressScan :=
  (List.range CHANNEL_COUNT).foldl (monitorSample e)
    { hub := if s.needReleaseGate then releaseGate s e else s, pressed := fun _ => false }

/-- State after the LED-policy loop of `doMonitoring`. -/
def monitorLit (s : Hub) (e : Env) : Hub :=
  (List.range CHANNEL_COUNT).foldl
    (monitorLed (allContactlessLatched (monitorSampled s e).hub) (monitorSampled s e).pressed)
    (monitorSampled s e).hub

/-- The condition `finalReady && normalsHeld && hasWorkToCheck(false)` of `doMonitoring`. -/
def autoFinalReady (s : Hub) (e : Env) : Bool :=
  allContactlessLatched (monitorSampled s e).hub &&
    (List.range CHANNEL_COUNT).all (fun ch =>
      !((monitorLit s e).monNormal ch && !(monitorLit s e).ignoredCh ch
        && !(monitorSampled s e).pressed ch)) &&
    hasWorkToCheck (monitorLit s e) false

/-- Value of `liveOkSince` after the statement `if (!liveOkSince) liveOkSince = now;`. -/
def holdStart (s : Hub) (e : Env) : Nat :=
  if (monitorLit s e).liveOkSince = 0 then e.now else (monitorLit s e).liveOkSince

/-- Whether the call `doMonitoring()` runs the auto-final block (sends `AUTO-FINAL` and calls
`sendSuccessAndIdle()`). -/
def autoFinalFires (s : Hub) (e : Env) : Bool :=
  autoFinalReady s e && decide (subU32 e.now (holdStart s e) ≥ AUTO_FINAL_HOLD_MS)

/-- Fields that the sampling and LED loops of `doMonitoring` leave alone. -/
def tickKeep (s : Hub) : Nat × State × SlotCore × List Char :=
  (s.liveOkSince, s.state, slotCore s, s.BOARD_MAC)

/-- The frame log `new` extends `old` by live-event frames (`EV ...`) only. -/
def EvOnly (old new : List Frame) : Prop :=
  ∃ evs, new = old ++ evs ∧ ∀ f ∈ evs, startsWith "EV ".toList f.text = true

/-- The Hub in MONITORING right after `MONITOR NORMAL 3 1,2,3 <MAC>` from the station. -/
def armedHub : Hub := step idleHub (Step.recv (quietEnv 100) staMac monitor3)

/-- Environment of call `k` of the run `autoRun`: the switches of channels 1, 2 and 3 are
held, the calls are 100 ms apart. -/
def autoEnv (k : Nat) : Env := pressEnv (300 + 100 * k)

/-- Successive `doMonitoring` calls on `armedHub` with the three switches held. -/
def autoRun : Nat → Hub
  | 0 => armedHub
  | k + 1 => doMonitoring (autoRun k) (autoEnv k)

/-- State in which `loop()` reaches `switch (state)`: after the blink clock and the
push-button block. -/
def tickEntry (s : Hub) (es : Nat → Env) : Hub :=
  helloButton (blinkClock s (es 0).now) (es 0)

/-- The value that the LED-policy loops of `doMonitoring` pass to `setLed` for channel `ch`,
from the model `k` and the array `pressed`. -/
def ledRule (finalReady : Bool) (pressed : Nat → Bool) (k : ChanCore) (ch : Nat) : Bool :=
  if finalReady then
    if k.ignoredCh ch then false
    else
      let held := (k.monNormal ch || k.monLatch ch) && pressed ch
      if k.monNormal ch then (if held then false else true)
      else if k.monLatch ch then k.latched ch
      else (if pressed ch then k.blinkState else false)
  else
    if k.ignoredCh ch then false
    else if k.monNormal ch then !pressed ch
    else if k.monLatch ch then !k.latched ch
    else (if pressed ch then k.blinkState else false)

/-- The token that introduces the id of a reliable frame. -/
def idToken : List Char := " ID=".toList

/-- The digit loop of `extractIdToken` without the flag `any`: the value accumulated from the
digits `ds`, starting from `v`. -/
def idValue (ds : List Char) (v : Nat) : Nat :=
  ds.foldl (fun a c => (a * 10 + digitVal c) % U32) v

/-- `extractIdToken(msg, len, outId)` of station.cpp, on the C string `msg`. -/
def Station.extractIdToken (msg : List Char) (len : Nat) : Option Nat :=
  if len = 0 then none
  else
    match strstr msg " ID=".toList with
    | none => none
    | some p =>
      let r := idDigits (p.drop 4) 0 false
      if r.2 then some r.1 else none

/-- Successive reliable sends of `PING` to the station, starting in `waitHub`. -/
def sendRun : Nat → Hub
  | 0 => waitHub
  | k + 1 => sendCmd (sendRun k) (quietEnv (100 + k)) "PING".toList (some staMac)

/-- One entry of `pinsMap` (`struct ChannelPins`): expander index, LED pin and switch pin,
each a `uint8_t`. -/
structure ChannelPins where
  mcpIndex : Nat
  ledPin : Nat
  swPin : Nat
  deriving DecidableEq

/-- The lambda `remap` of `buildPins`: swaps the low and the high half of the 16 pins
(`uint8_t` arithmetic). -/
def remap (p : Nat) : Nat := if p < 8 then (p + 8) % 256 else (p - 8) % 256

/-- Body of the loop of `buildPins` for channel `ch`: the value stored in `pinsMap[ch]`. -/
def pinEntry (ch : Nat) : ChannelPins :=
  let base := (ch * 2) % 65536
  let idx := (base / 16) % 256
  let a := (base % 16) % 256
  let b := ((base + 1) % 16) % 256
  { mcpIndex := idx, ledPin := remap a, swPin := remap b }

/-- The array `pinsMap` after `buildPins()` (zero-initialised before it). -/
def buildPins : Nat → ChannelPins :=
  (List.range CHANNEL_COUNT).foldl (fun m ch => upd m ch (pinEntry ch))
    (fun _ => { mcpIndex := 0, ledPin := 0, swPin := 0 })

/-- Number of port expanders (`EXPANDER_COUNT`, the length of `MCP_I2C_ADDR`). -/
def EXPANDER_COUNT : Nat := 5

/-- The (expander, pin) pairs of the LED and of the switch of every channel, in channel
order. -/
def pinPairs : List (Nat × Nat) :=
  (List.range CHANNEL_COUNT).flatMap (fun c =>
    [((buildPins c).mcpIndex, (buildPins c).ledPin), ((buildPins c).mcpIndex, (buildPins c).swPin)])

/-- A MONITOR payload as the operator types it: channel 5 normal. -/
def monitor5 : List Char := "MONITOR NORMAL 1 5 AA:BB:CC:DD:EE:01".toList

/-- The payload `monitor5` as the reliable layer of the Station delivers it with id 7. -/
def monitor5Framed : List Char := monitor5 ++ " ID=".toList ++ fmtDec 7

/-- A payload classifying channel 3 as a latch channel and no channel as normal. -/
def latchOnly : List Char := "MONITOR LATCH 1 3 AA:BB:CC:DD:EE:01".toList

/-- The Hub in MONITORING right after `MONITOR LATCH 1 3 <MAC>` from the station. -/
def latchHub : Hub := step idleHub (Step.recv (quietEnv 100) staMac latchOnly)

/-- Environment in which the switch of channel 1 is pressed. -/
def press1 (now : Nat) : Env :=
  { sw := fun ch => !(ch == 0), now := now, peerOk := true, btn := true }

/-- The Hub in FINAL_CHECK after `MONITOR NORMAL 1 1 <MAC>` and `CHECK <MAC>`, the switch of
channel 1 pressed since the tick at 330 ms, 10 ms before the CHECK frame. -/
def lateHub : Hub :=
  step (step (step (step idleHub
    (Step.recv (quietEnv 100) staMac "MONITOR NORMAL 1 1 AA:BB:CC:DD:EE:01".toList))
    (Step.tick (fun _ => quietEnv 200))) (Step.tick (fun _ => press1 330)))
    (Step.recv (press1 340) staMac "CHECK AA:BB:CC:DD:EE:01".toList)

/-- Environments of the passes of a final check of `lateHub`: the voting samples run at
350 ms, the pass after the vote at 356 ms; the switch of channel 1 stays pressed. -/
def lateVote (k : Nat) : Env := press1 (if k < FINAL_CHECK_SAMPLES then 350 else 356)

/-- The projection `proj` of the Hub state does not read the radio bookkeeping: the frame
log, the last transmit address, the reliable-TX slot and the id counter. -/
def RadioBlind {π : Type} (proj : Hub → π) : Prop :=
  ∀ (h : Hub) (sent : List Frame) (ltm : Mac) (ltv act : Bool) (id : Nat) (mac : Mac)
    (ls rl : Nat) (msg : List Char) (tmo seq : Nat),
    proj { h with sent := sent, lastTxMac := ltm, lastTxMacValid := ltv, hubAckActive := act,
                  hubAckId := id, hubAckMac := mac, hubAckLastSend := ls,
                  hubAckRetriesLeft := rl, hubAckMsg := msg, hubAckTimeoutMs := tmo,
                  seq := seq } = proj h

/-- State of `onRecv` when it reaches the verb dispatch: after the sender update and the
auto-ACK block. -/
def afterAck (s : Hub) (e : Env) (src : Mac) (data : List Char) : Hub :=
  autoAck { s with lastSender := src, haveSender := true } e src
    ((cstr (data.take (min data.length 255))).takeWhile isTrimChar ++ rxText data)
    (min data.length 255)

/-- The environment `e` with the switch levels replaced by `sw`. -/
def withSw (e : Env) (sw : Nat → Bool) : Env := { e with sw := sw }

/-- The assignments of `sendCmd` that load the reliable-TX slot, before its call of
`serviceAckTx()`. -/
def loadSlot (s : Hub) (msg : List Char) (target : Mac) : Hub :=
  { s with
    hubAckActive := true
    hubAckTimeoutMs := 240
    seq := (s.seq + 1) % U32
    hubAckMsg := snprintf 256 (msg ++ " ID=".toList ++ fmtDec s.seq)
    hubAckMac := target
    hubAckId := s.seq
    hubAckRetriesLeft := 4
    hubAckLastSend := 0 }

/-- Whether the call `serviceAckTx()` reaches its send block: the slot is active, the state is
not SELF_CHECK, and no send was made yet or the interval has elapsed. -/
def ackDue (s : Hub) (e : Env) : Bool :=
  s.hubAckActive && decide (s.state ≠ State.SELF_CHECK) &&
    (decide (s.hubAckLastSend = 0) || decide (subU32 e.now s.hubAckLastSend ≥ s.hubAckTimeoutMs))

/-- Whether the call `serviceAckTx()` hands the frame of the slot to the radio. -/
def ackTransmits (s : Hub) (e : Env) : Bool := ackDue s e && ensurePeer e s.hubAckMac

/-- Number of calls among the first `n` of a run of `serviceAckTx()` calls that hand the
frame to the radio; call `k` is made in state `u k` and environment `e k`. -/
def txCount (u : Nat → Hub) (e : Nat → Env) : Nat → Nat
  | 0 => 0
  | n + 1 => txCount u e n + (if ackTransmits (u n) (e n) then 1 else 0)

/-- Send blocks that the slot can still run: `hubAckRetriesLeft + 1` while it is active. -/
def slotBudget (s : Hub) : Nat := if s.hubAckActive then s.hubAckRetriesLeft + 1 else 0

/-- A run of `serviceAckTx()` calls 700 ms apart on the slot loaded by a reliable `PING` to
the station, never acknowledged. -/
def retryRun : Nat → Hub
  | 0 => loadSlot waitHub "PING".toList staMac
  | k + 1 => serviceAckTx (retryRun k) (quietEnv (100 + 700 * k))

/-- Environments of the calls of `retryRun`. -/
def retryEnv (k : Nat) : Env := quietEnv (100 + 700 * k)

/-- The part of the Hub state that the radio path reads and writes: the log of transmitted
frames, the board MAC text, the slot of the outstanding reliable frame and the sequence
counter. -/
structure WireKey where
  sent : List Frame
  mac : List Char
  active : Bool
  id : Nat
  peer : Mac
  lastSend : Nat
  retries : Nat
  msg : List Char
  timeout : Nat
  seq : Nat

/-- The radio part of a Hub state. -/
def wireKey (s : Hub) : WireKey :=
  { sent := s.sent
    mac := s.BOARD_MAC
    active := s.hubAckActive
    id := s.hubAckId
    peer := s.hubAckMac
    lastSend := s.hubAckLastSend
    retries := s.hubAckRetriesLeft
    msg := s.hubAckMsg
    timeout := s.hubAckTimeoutMs
    seq := s.seq }

/-- The text is a live event as `sendEvent` and the baseline of MONITOR build it in their
48-byte buffer for a channel of the board. -/
def EvText (mac t : List Char) : Prop :=
  ∃ (k : List Char) (ch : Nat) (v : Bool), (k = ['P'] ∨ k = ['L']) ∧ ch < CHANNEL_COUNT ∧
    t = snprintf 48 ("EV ".toList ++ k ++ [' '] ++ fmtDec (ch + 1) ++ [' ']
      ++ (if v then ['1'] else ['0']) ++ [' '] ++ mac)

/-- The text is an acknowledgement as the auto-ACK block builds it in its 24-byte buffer. -/
def AckText (t : List Char) : Prop :=
  ∃ id, id < U32 ∧ t = snprintf 24 ("ACK ".toList ++ fmtDec id)

/-- The texts that the Hub hands to `sendCmdRaw`. -/
def RawText (mac t : List Char) : Prop :=
  t = "WELCOME".toList ∨ t = "PING-OK".toList ∨ t = "CLEAN-OK".toList ∨
    t = "AUTO-FINAL".toList ∨ AckText t ∨ EvText mac t ∨
    t = snprintf 48 ("MONITOR-START ".toList ++ mac)

/-- The text is a failure result as `doFinalCheck` builds it from buffers that hold what their
length variables say and at most 111 characters together. -/
def FailText (mac t : List Char) : Prop :=
  ∃ u : Hub, u.BOARD_MAC = mac ∧ u.missingLen = u.missingBuf.length ∧
    u.extraLen = u.extraBuf.length ∧ u.missingBuf.length + u.extraBuf.length ≤ 111 ∧
    t = failureText u

/-- The texts that the Hub hands to `sendCmd`. -/
def RelText (mac t : List Char) : Prop :=
  t = "READY".toList ∨ t = "BLINK-OK".toList ∨ t = "CHASE-OK".toList ∨
    t = "MONITOR-OK".toList ∨ t = snprintf 64 ("RESULT SUCCESS ".toList ++ mac) ∨
    FailText mac t

/-- The texts that reach `esp_now_send` through `sendCmdRaw`: `sendCmd` falls back to it for
a broadcast peer. -/
def WireText (mac t : List Char) : Prop := RawText mac t ∨ RelText mac t

/-- A property of the radio part of the state that every radio operation of the Hub keeps:
a raw transmission, the HELLO broadcast, loading the reliable slot, a `serviceAckTx()` call
and the completion of the slot by an ACK. -/
structure WireInv (Q : WireKey → Prop) : Prop where
  raw : ∀ (k : WireKey) (dest : Mac) (t : List Char), WireText k.mac t → Q k →
    Q { k with sent := k.sent ++ [{ dest := dest, text := t }] }
  hello : ∀ k : WireKey, Q k →
    Q { k with sent := k.sent ++ [{ dest := bcastMac, text := "HELLO".toList }] }
  load : ∀ (k : WireKey) (msg : List Char) (target : Mac), RelText k.mac msg → Q k →
    Q { k with
        active := true
        timeout := 240
        seq := (k.seq + 1) % U32
        msg := snprintf 256 (msg ++ " ID=".toList ++ fmtDec k.seq)
        peer := target
        id := k.seq
        retries := 4
        lastSend := 0 }
  service : ∀ (s : Hub) (e : Env), Q (wireKey s) → Q (wireKey (serviceAckTx s e))
  ack : ∀ k : WireKey, Q k → Q { k with active := false }

/-- The retransmission interval lies within 240 ms and 640 ms. -/
def BackoffRange (k : WireKey) : Prop := 240 ≤ k.timeout ∧ k.timeout ≤ 640

/-- The frame of a reliable transmission: a reliable text with its ID suffix, as `sendCmd`
stores it in the slot. -/
def SlotText (mac m : List Char) : Prop :=
  ∃ w id, RelText mac w ∧ id < U32 ∧ m = framed w id

/-- The texts that the Hub hands to `esp_now_send`. -/
def FrameOk (mac t : List Char) : Prop :=
  t = "HELLO".toList ∨ WireText mac t ∨ SlotText mac t

/-- Radio invariant behind the frame grammar: the MAC text fits its 18-byte buffer, the
sequence counter is a 32-bit value, every frame sent so far is one of the Hub, and an active
slot holds a framed reliable text. -/
def WireOk (k : WireKey) : Prop :=
  k.mac.length ≤ 17 ∧ k.seq < U32 ∧ (∀ f ∈ k.sent, FrameOk k.mac f.text) ∧
    (k.active = true → SlotText k.mac k.msg)

/-- The frames of the Hub by what they carry. Without the board MAC: `HELLO`, `WELCOME`,
`PING-OK`, `CLEAN-OK`, `AUTO-FINAL`; `ACK <n>`; `READY`, `BLINK-OK`, `CHASE-OK`, `MONITOR-OK`
with or without ` ID=<n>`. With the board MAC as the trailing token: `EV ...` and
`MONITOR-START`. With the board MAC followed at most by ` ID=<n>`: `RESULT ...`. -/
def FrameShape (mac t : List Char) : Prop :=
  (t = "HELLO".toList ∨ t = "WELCOME".toList ∨ t = "PING-OK".toList ∨ t = "CLEAN-OK".toList ∨
      t = "AUTO-FINAL".toList) ∨
    (∃ id, t = "ACK ".toList ++ fmtDec id) ∨
    (∃ w, (w = "READY".toList ∨ w = "BLINK-OK".toList ∨ w = "CHASE-OK".toList ∨
        w = "MONITOR-OK".toList) ∧ (t = w ∨ ∃ id, t = w ++ " ID=".toList ++ fmtDec id)) ∨
    (∃ body, (startsWith "EV ".toList body = true ∨ body = "MONITOR-START".toList) ∧
      t = body ++ ' ' :: mac) ∨
    (∃ body, startsWith "RESULT ".toList body = true ∧
      (t = body ++ ' ' :: mac ∨ ∃ id, t = body ++ ' ' :: mac ++ " ID=".toList ++ fmtDec id))

/-- Whether the text has `mac` as its trailing token, followed at most by an ` ID=<n>`
suffix. -/
def macTrailing (mac t : List Char) : Bool :=
  (' ' :: mac).isSuffixOf t ||
    (List.range t.length).any (fun i =>
      (' ' :: mac).isSuffixOf (t.take i) && startsWith " ID=".toList (t.drop i) &&
        !(t.drop (i + 4)).isEmpty && (t.drop (i + 4)).all isdigit)

/-- The Hub after `WELCOME` from the station. -/
def welcomedHub : Hub := step waitHub (Step.recv (quietEnv 100) staMac "WELCOME".toList)

/-- The Hub after a `CHECK` from the station with nothing to check. -/
def emptyCheckHub : Hub := step waitHub (Step.recv (quietEnv 100) staMac "CHECK".toList)

/-- `enum StationState`. -/
inductive StationState where
  | IDLE
  | WAIT_HELLO
  | WAIT_RESULT
  deriving DecidableEq, Repr

/-- The global (and function-static) variables of station.cpp, plus the log of frames handed
to `esp_now_send` and the lines printed on the console. -/
structure Station where
  staState : StationState
  forwardLive : Bool
  sessionMac : Mac
  haveSessionMac : Bool
  expectedMac : Mac
  haveExpectedMac : Bool
  staAckReceived : Bool
  staAckWaitId : Nat
  staAckWaitMac : Mac
  txInFlight : Bool
  seq : Nat
  radio : List Frame
  console : List (List Char)

/-- The variables of the Station as their initialisers leave them; both logs start empty. -/
def Station.boot : Station :=
  { staState := StationState.IDLE
    forwardLive := false
    sessionMac := zeroMac
    haveSessionMac := false
    expectedMac := zeroMac
    haveExpectedMac := false
    staAckReceived := false
    staAckWaitId := 0
    staAckWaitMac := zeroMac
    txInFlight := false
    seq := 1
    radio := []
    console := [] }

/-- One hexadecimal digit as `%X` prints it. -/
def hexDigit (n : Nat) : Char := if n < 10 then Char.ofNat (48 + n) else Char.ofNat (55 + n)

/-- One byte as `%02X` prints it. -/
def hex2 (b : Nat) : List Char := [hexDigit (b / 16 % 16), hexDigit (b % 16)]

/-- `macToString(mac)`. -/
def macToString (mac : Mac) : List Char :=
  hex2 (mac.getD 0 0) ++ [':'] ++ hex2 (mac.getD 1 0) ++ [':'] ++ hex2 (mac.getD 2 0) ++ [':']
    ++ hex2 (mac.getD 3 0) ++ [':'] ++ hex2 (mac.getD 4 0) ++ [':'] ++ hex2 (mac.getD 5 0)

/-- `Serial.println(text)` and the print sequences that end in one: a line of the console. -/
def Station.println (st : Station) (text : List Char) : Station :=
  { st with console := st.console ++ [text] }

/-- `clearExpectedMac()`. -/
def Station.clearExpectedMac (st : Station) : Station := { st with haveExpectedMac := false }

/-- The block `haveSessionMac = false; memset(sessionMac, 0, sizeof sessionMac);`. -/
def Station.clearSession (st : Station) : Station :=
  { st with haveSessionMac := false, sessionMac := zeroMac }

/-- Test of the session-end handlers: `RESULT `, `SUCCESS` or `FAILURE` at the start. -/
def isResultText (rxb : List Char) : Bool :=
  startsWith "RESULT ".toList rxb || startsWith "SUCCESS".toList rxb ||
    startsWith "FAILURE".toList rxb

/-- Test of the one-shot OK handler: `MONITOR-OK`, `PING-OK` or `CLEAN-OK` at the start. -/
def isOkText (rxb : List Char) : Bool :=
  startsWith "MONITOR-OK".toList rxb || startsWith "PING-OK".toList rxb ||
    startsWith "CLEAN-OK".toList rxb

/-- Auto-ACK block of `onEspNowRecv`: a frame with an ID token is acknowledged to its sender
when the sender is the expected MAC of the transaction in flight or the session MAC of a live
session; `peerOk` says whether `esp_now_add_peer` returns OK or EXIST. -/
def Station.autoAck (st : Station) (peerOk : Bool) (src : Mac) (rxb : List Char) (n : Nat) :
    Station :=
  match Station.extractIdToken rxb n with
  | none => st
  | some incomingId =>
    let allowAck := (st.haveExpectedMac && src == st.expectedMac) ||
      (st.forwardLive && (st.haveSessionMac && src == st.sessionMac))
    if allowAck then
      let text := "ACK ".toList ++ fmtDec incomingId
      let m := text.length
      if 0 < m ∧ m < 24 then
        if peerOk then
          { st with radio := st.radio ++ [{ dest := src, text := snprintf 24 text }] }
        else st
      else st
    else st

/-- The part of `onEspNowRecv` after the EV and UI fast paths: the header log, the OK and
session-end handlers, the expected-MAC filter and the `switch (staState)`. -/
def Station.handleReply (st1 : Station) (src : Mac) (rxb : List Char) : Station :=
  let st2 := st1.println ("← reply from ".toList ++ macToString src ++ ": ".toList ++ rxb)
  if isOkText rxb then
    let st3 :=
      if startsWith "CLEAN-OK".toList rxb then
        Station.clearSession { st2 with forwardLive := false }
      else st2
    st3.clearExpectedMac
  else if isResultText rxb then
    Station.clearExpectedMac
      { Station.clearSession { st2 with forwardLive := false } with
        staState := StationState.IDLE }
  else if st2.haveExpectedMac && src != st2.expectedMac then
    st2.println ("ignored: unexpected MAC. expected ".toList ++ macToString st2.expectedMac
      ++ " got ".toList ++ macToString src)
  else
    match st2.staState with
    | StationState.WAIT_HELLO =>
      let isReady := startsWith "READY".toList rxb
      let isWelcome := startsWith "WELCOME".toList rxb
      if isReady || isWelcome then
        Station.clearExpectedMac
          { st2.println ((if isReady then "READY".toList else "WELCOME".toList) ++ [' ']
              ++ macToString src) with staState := StationState.IDLE }
      else st2
    | StationState.WAIT_RESULT =>
      if isResultText rxb then
        Station.clearExpectedMac
          { st2 with forwardLive := false, staState := StationState.IDLE }
      else st2
    | StationState.IDLE => st2

/-- `onEspNowRecv(src, data, len)` with `len` the length of `data`; `peerOk` says whether
`esp_now_add_peer` accepts the sender in the auto-ACK block. -/
def Station.onEspNowRecv (st : Station) (peerOk : Bool) (src : Mac) (data : List Char) :
    Station :=
  if data.length = 0 then st
  else if isZeroMac src then st
  else
    let n := min data.length 255
    let raw := data.take n
    let rxb := cstr raw
    let isEv := decide (3 ≤ n) && raw[0]? == some 'E' && raw[1]? == some 'V'
      && raw[2]? == some ' '
    let isUi := decide (3 ≤ n) && raw[0]? == some 'U' && raw[1]? == some 'I'
      && raw[2]? == some ':'
    if startsWith "ACK ".toList rxb then
      let id := strtoul (rxb.drop 4)
      if id ≠ 0 ∧ id = st.staAckWaitId ∧ src = st.staAckWaitMac then
        { st with staAckReceived := true }
      else st
    else
      let st1 := Station.autoAck st peerOk src rxb n
      if isEv then
        if st1.forwardLive then
          if !st1.haveSessionMac || src == st1.sessionMac then st1.println rxb else st1
        else st1
      else if isUi && st1.forwardLive then
        st1.println ("UI ".toList ++ rxb.drop 3 ++ [' '] ++ macToString src)
      else Station.handleReply st1 src rxb

/-- The session state of the Station: `forwardLive`, `haveSessionMac`, `sessionMac`,
`staState`, `haveExpectedMac`. -/
def Station.session (st : Station) : Bool × Bool × Mac × StationState × Bool :=
  (st.forwardLive, st.haveSessionMac, st.sessionMac, st.staState, st.haveExpectedMac)

/-- Radio address of the Hub of the demo session. -/
def hubMac : Mac := [0xAA, 0xBB, 0xCC, 0xDD, 0xEE, 0x01]

/-- Radio address of another node. -/
def otherMac : Mac := [0x10, 0x20, 0x30, 0x40, 0x50, 0x60]

/-- The Station during a CHECK session with the Hub `hubMac`, as `loop()` leaves its
variables for the line `CHECK 1 AA:BB:CC:DD:EE:01`: expected MAC and session MAC bound to the
Hub, live forwarding on, state WAIT_RESULT. -/
def sessionSta : Station :=
  { Station.boot with
    staState := StationState.WAIT_RESULT
    forwardLive := true
    sessionMac := hubMac
    haveSessionMac := true
    expectedMac := hubMac
    haveExpectedMac := true
    seq := 2 }

/-- Arduino `String::trim()`: drops the `isspace` characters at both ends. -/
def strTrim (s : List Char) : List Char :=
  ((s.dropWhile isspace).reverse.dropWhile isspace).reverse

/-- Arduino `String::toUpperCase()`. -/
def strUpper (s : List Char) : List Char := s.map Char.toUpper

/-- Arduino `String::indexOf(const String&)`: the position of the first occurrence of `pat`,
`none` for the result -1. -/
def indexOfStr : List Char → List Char → Option Nat
  | [], _ => none
  | c :: cs, pat =>
    if startsWith pat (c :: cs) then some 0 else (indexOfStr cs pat).map (· + 1)

/-- Worker of `indexOfChar`: `i` is the position of the head of the list. -/
def indexFrom (ch : Char) : List Char → Nat → Option Nat
  | [], _ => none
  | c :: cs, i => if c == ch then some i else indexFrom ch cs (i + 1)

/-- Arduino `String::indexOf(char, fromIndex)`. -/
def indexOfChar (s : List Char) (ch : Char) (start : Nat) : Option Nat :=
  if start ≥ s.length then none else indexFrom ch (s.drop start) start

/-- Arduino `String::substring(left, right)`. -/
def substring (s : List Char) (left right : Nat) : List Char :=
  let l := min left right
  let r := max left right
  if l ≥ s.length then [] else (s.take (min r s.length)).drop l

/-- Value of a hexadecimal digit. -/
def hexVal (c : Char) : Option Nat :=
  if '0' ≤ c ∧ c ≤ '9' then some (c.toNat - 48)
  else if 'A' ≤ c ∧ c ≤ 'F' then some (c.toNat - 55)
  else if 'a' ≤ c ∧ c ≤ 'f' then some (c.toNat - 87)
  else none

/-- Digit loop of `strtol(_, nullptr, 16)`. -/
def readHex : List Char → Nat → Nat
  | [], acc => acc
  | c :: cs, acc =>
    match hexVal c with
    | some v => readHex cs (acc * 16 + v)
    | none => acc

/-- `strtol(str, nullptr, 16)` with a 32-bit `long`: skips leading white space, accepts one
sign and an optional `0x` prefix, reads hexadecimal digits, clamps on overflow. -/
def strtol16 (str : List Char) : Int :=
  let t1 := str.dropWhile isspace
  let signed : Bool × List Char :=
    match t1 with
    | '-' :: r => (true, r)
    | '+' :: r => (false, r)
    | _ => (false, t1)
  let body : List Char :=
    match signed.2 with
    | '0' :: x :: h :: r =>
      if (x == 'x' || x == 'X') && (hexVal h).isSome then h :: r else signed.2
    | _ => signed.2
  let v := readHex body 0
  let w : Int := if signed.1 then - (v : Int) else (v : Int)
  max LONG_MIN (min LONG_MAX w)

/-- Loop of `parseMac`: byte `i` and the bytes after it. -/
def parseMacFrom (s : List Char) : Nat → Nat → Option (List Nat)
  | 0, _ => some []
  | k + 1, i =>
    if i < 5 ∧ s.getD (i * 3 + 2) NUL ≠ ':' then none
    else
      let b := strtol16 (substring s (i * 3) (i * 3 + 2))
      if b < 0 ∨ b > 255 then none
      else (parseMacFrom s k (i + 1)).map (fun rest => b.toNat :: rest)

/-- `parseMac(s, mac)`: the six bytes, `none` for the result false. -/
def parseMac (s : List Char) : Option Mac :=
  if s.length ≠ 17 then none else parseMacFrom s 6 0

/-- The lambda `isHex` of `parseLineForCommand`. -/
def isHexUpper (c : Char) : Bool := ('0' ≤ c && c ≤ '9') || ('A' ≤ c && c ≤ 'F')

/-- The single quote character. -/
def quoteChar : Char := Char.ofNat 39

/-- The double quote character. -/
def dquoteChar : Char := Char.ofNat 34

/-- The text that `parseLineForCommand` scans: the trimmed line, or the interior of
`cmd='...'` (else of the form with double quotes) when it is present, closed and not
empty. -/
def commandText (lineIn : List Char) : List Char :=
  let s := strTrim lineIn
  match indexOfStr s ("cmd=".toList ++ [quoteChar]) with
  | some cmdPos =>
    let start := cmdPos + 5
    match indexOfChar s quoteChar start with
    | some stop => if stop > start then substring s start stop else s
    | none => s
  | none =>
    match indexOfStr s ("cmd=".toList ++ [dquoteChar]) with
    | some cmdPosQ =>
      let start := cmdPosQ + 5
      match indexOfChar s dquoteChar start with
      | some stop => if stop > start then substring s start stop else s
      | none => s
    | none => s

/-- Body of the scanning loop of `parseLineForCommand` at position `i` of `up`: the result
when the loop returns there, `none` when it continues. -/
def macAt (s up : List Char) (i : Nat) : Option (List Char × Mac) :=
  if up.getD (i + 2) NUL ≠ ':' ∨ up.getD (i + 5) NUL ≠ ':' ∨ up.getD (i + 8) NUL ≠ ':' ∨
      up.getD (i + 11) NUL ≠ ':' ∨ up.getD (i + 14) NUL ≠ ':' then none
  else if !(List.range 17).all (fun k => k % 3 == 2 || isHexUpper (up.getD (i + k) NUL)) then
    none
  else if strTrim (substring up (i + 17) up.length) ≠ [] then none
  else
    match parseMac (substring up i (i + 17)) with
    | none => none
    | some mac =>
      if isZeroMac mac then none else some (strTrim (substring s 0 i), mac)

/-- The scanning loop of `parseLineForCommand` over the positions below `k`, downwards. -/
def scanMac (s up : List Char) : Nat → Option (List Char × Mac)
  | 0 => none
  | k + 1 =>
    match macAt s up k with
    | some r => some r
    | none => scanMac s up k

/-- `parseLineForCommand(lineIn, payloadOut, macOut)`: the payload and the MAC, `none` for the
result false. -/
def parseLineForCommand (lineIn : List Char) : Option (List Char × Mac) :=
  let s := commandText lineIn
  let up := strUpper (strTrim s)
  if up.length < 17 then none else scanMac s up (up.length - 17 + 1)

/-- The `for` loop of `validateCheckPins` on the unread part `l` of `list`, with `count`
entries read so far; each iteration reads at least one character, `fuel` bounds their
number. -/
def pinLoop : Nat → List Char → Nat → Bool
  | 0, _, _ => false
  | fuel + 1, l, count =>
    let l1 := l.dropWhile isspace
    if l1 = [] then decide (count > 0)
    else
      let ds := l1.takeWhile isdigit
      if ds = [] then false
      else
        let v := (strtol ds).1
        if v < 1 ∨ v > 40 then false
        else if count + 1 > 32 then false
        else
          let l2 := (l1.dropWhile isdigit).dropWhile isspace
          let l3 := match l2 with
            | ',' :: t => t
            | _ => l2
          pinLoop fuel l3 (count + 1)

/-- `validateCheckPins(payload)`. -/
def validateCheckPins (payload : List Char) : Bool :=
  let u := strUpper (strTrim payload)
  if !startsWith "CHECK".toList u then true
  else
    let list := strTrim (substring u 5 u.length)
    if list = [] then false
    else pinLoop (list.length + 1) list 0

/-- The text that `validateCheckPins` reads as the list: what follows the five characters of
the verb in the trimmed, uppercased payload, trimmed. -/
def checkList (payload : List Char) : List Char :=
  strTrim (substring (strUpper (strTrim payload)) 5 (strUpper (strTrim payload)).length)

/-- Decimal value of a run of digits. -/
def decVal (d : List Char) : Nat := d.foldl (fun a c => a * 10 + digitVal c) 0

/-- An entry of the pin list: a non-empty run of decimal digits with a value within 1..40. -/
def IsPin (d : List Char) : Prop :=
  d ≠ [] ∧ (∀ c ∈ d, isdigit c = true) ∧ 1 ≤ decVal d ∧ decVal d ≤ 40

/-- What may follow an entry: white space with at most one comma in it. -/
def IsPinSep (s : List Char) : Prop :=
  ∃ a b, (∀ c ∈ a, isspace c = true) ∧ (∀ c ∈ b, isspace c = true) ∧
    (s = a ++ b ∨ s = a ++ ',' :: b)

/-- The texts that the loop of `validateCheckPins` accepts, with the number of their entries:
entries, each followed by a separator, which is not empty between two entries. -/
inductive PinList : List Char → Nat → Prop where
  | last (d s : List Char) : IsPin d → IsPinSep s → PinList (d ++ s) 1
  | more (d s rest : List Char) (n : Nat) : IsPin d → IsPinSep s → s ≠ [] →
      PinList rest n → PinList (d ++ (s ++ rest)) (n + 1)

def STA_ACK_TIMEOUT_MS : Nat := 220

def STA_ACK_MAX_RETRIES : Nat := 4

def STA_MAX_PAYLOAD : Nat := 220

/-- What the environment supplies during one iteration of the loop of `sendWithAck`:
`millis()`, the results of the driver calls of `sendToPeerRaw` (first `esp_now_add_peer` OK
or EXIST, first `esp_now_send` OK, second `esp_now_add_peer` OK, second `esp_now_send` OK) and
the frames that the RX callback handles before the loop reads `staAckReceived`, each with the
result of `esp_now_add_peer` in its auto-ACK block. -/
structure SendEnv where
  now : Nat
  addOk : Bool
  sendOk : Bool
  readdOk : Bool
  resendOk : Bool
  rx : List (Bool × Mac × List Char)

/-- `esp_now_send(dest, text, ...)` of the Station: the frame is appended to the log. -/
def Station.espNowSend (st : Station) (dest : Mac) (text : List Char) : Station :=
  { st with radio := st.radio ++ [{ dest := dest, text := text }] }

/-- `sendToPeerRaw(payload, mac)`: the new state and the result. -/
def Station.sendToPeerRaw (st : Station) (e : SendEnv) (payload : List Char) (mac : Mac) :
    Station × Bool :=
  if isZeroMac mac then (st, false)
  else if !e.addOk then (st, false)
  else
    let st1 := st.espNowSend mac payload
    if e.sendOk then (st1, true)
    else if e.readdOk then (st1.espNowSend mac payload, e.resendOk)
    else (st1, false)

/-- The RX callback runs for each of the frames, in order. -/
def Station.deliver (st : Station) (rx : List (Bool × Mac × List Char)) : Station :=
  rx.foldl (fun acc f => Station.onEspNowRecv acc f.1 f.2.1 f.2.2) st

/-- Loop state of `sendWithAck`: the Station and the locals `attempts`, `lastSend`,
`curTimeout`. -/
structure SendIter where
  st : Station
  attempts : Nat
  lastSend : Nat
  curTimeout : Nat

/-- One iteration of the loop of `sendWithAck` up to the read of `staAckReceived`: the send
block when it is due, then the frames that the RX callback handles meanwhile. -/
def Station.sendStep (framed : List Char) (mac : Mac) (e : SendEnv) (a : SendIter) :
    SendIter :=
  let a1 : SendIter :=
    if a.attempts = 0 ∨ subU32 e.now a.lastSend ≥ a.curTimeout then
      let r := Station.sendToPeerRaw a.st e framed mac
      let att := a.attempts + 1
      { st := r.1
        attempts := att
        lastSend := e.now
        curTimeout :=
          if att > 1 then
            (if (a.curTimeout + 80) % U32 > 640 then 640 else (a.curTimeout + 80) % U32)
          else a.curTimeout }
    else a
  { a1 with st := Station.deliver a1.st e.rx }

/-- The loop of `sendWithAck` from iteration `k` on, `fuel` iterations left; `es k` is the
environment of iteration `k`. Returns the state and the result of `sendWithAck`, `none` when
the iterations run out. -/
def Station.sendLoop (framed : List Char) (mac : Mac) (es : Nat → SendEnv) :
    Nat → Nat → SendIter → Option (Station × Bool)
  | 0, _, _ => none
  | fuel + 1, k, a =>
    if a.attempts ≤ STA_ACK_MAX_RETRIES then
      let a2 := Station.sendStep framed mac (es k) a
      if a2.st.staAckReceived then some ({ a2.st with txInFlight := false }, true)
      else Station.sendLoop framed mac es fuel (k + 1) a2
    else some ({ a.st with txInFlight := false }, false)

/-- The text that `sendWithAck` hands to the radio for `payload` and the id `id`. -/
def staFramed (payload : List Char) (id : Nat) : List Char :=
  payload ++ " ID=".toList ++ fmtDec id

/-- `sendWithAck(payload, mac)` with the default limits. -/
def Station.sendWithAck (st : Station) (es : Nat → SendEnv) (fuel : Nat)
    (payload : List Char) (mac : Mac) : Option (Station × Bool) :=
  if st.txInFlight then some (st, false)
  else if isZeroMac mac then some (st, false)
  else
    let id := st.seq
    let st1 : Station := { st with txInFlight := true, seq := (st.seq + 1) % U32 }
    let framed := staFramed payload id
    if framed.length > STA_MAX_PAYLOAD then some ({ st1 with txInFlight := false }, false)
    else
      let st2 : Station :=
        { st1 with staAckWaitId := id, staAckWaitMac := mac, staAckReceived := false }
      Station.sendLoop framed mac es fuel 0
        { st := st2, attempts := 0, lastSend := 0, curTimeout := STA_ACK_TIMEOUT_MS }

/-- The received frame is an acknowledgement of `id` from `mac`: it comes from `mac`, its
text starts with `ACK ` and the number after it is `id`. -/
def isAckFor (id : Nat) (mac : Mac) (f : Bool × Mac × List Char) : Prop :=
  f.2.1 = mac ∧
    startsWith "ACK ".toList (cstr (f.2.2.take (min f.2.2.length 255))) = true ∧
    strtoul ((cstr (f.2.2.take (min f.2.2.length 255))).drop 4) = id

/-- Number of times that the frame was handed to `esp_now_send`. -/
def Station.handed (st : Station) (f : Frame) : Nat := st.radio.count f

/-- Iterations whose `esp_now_send` calls fail although the peer can be added: one second
apart, nothing received. -/
def failEnv (k : Nat) : SendEnv :=
  { now := 1000 * (k + 1), addOk := true, sendOk := false, readdOk := true, resendOk := false,
    rx := [] }

/-- Iterations 1 ms apart in which the driver accepts every call; the Hub acknowledges id 1
during iteration 3. -/
def ackEnv (k : Nat) : SendEnv :=
  { now := 5000 + k, addOk := true, sendOk := true, readdOk := true, resendOk := true,
    rx := if k = 3 then [(true, hubMac, "ACK 1".toList)] else [] }

/-- The Hub after a first session that auto-final ended: `armedHub` (channels 1, 2 and 3
normal) and three passes of `loop()` at 300, 400 and 500 ms with the three switches held. -/
def endedHub : Hub :=
  step (step (step armedHub (Step.tick (fun _ => pressEnv 300)))
    (Step.tick (fun _ => pressEnv 400))) (Step.tick (fun _ => pressEnv 500))

/-- The Hub right after the frame `MONITOR NORMAL 3 1,2,3 <MAC>` that opens a second session
at 60000 ms, the three switches still held. -/
def rearmedHub : Hub := step endedHub (Step.recv (pressEnv 60000) staMac monitor3)

/-! ## Theorems -/

set_option maxRecDepth 100000

theorem upd_same {α : Type} (a : Nat → α) (i : Nat) (v : α) : upd a i v i = v := by
  simp [upd]

theorem upd_other {α : Type} (a : Nat → α) (i j : Nat) (v : α) (h : j ≠ i) :
    upd a i v j = a j := by
  simp [upd, h]

theorem upd_eq_self {α : Type} (a : Nat → α) (i : Nat) : upd a i (a i) = a := by
  funext j
  unfold upd
  split_ifs with h
  · rw [h]
  · rfl

/-- `setLed` stores the value in the LED cache (the early return stores nothing new). -/
theorem setLed_eq (s : Hub) (ch : Nat) (v : Bool) :
    setLed s ch v = { s with ledState := upd s.ledState ch v } := by
  unfold setLed
  split_ifs with h
  · rw [← h, upd_eq_self]
  · rfl

theorem subU32_of_le (a b : Nat) (hb : b ≤ a) (ha : a < U32) : subU32 a b = a - b := by
  unfold subU32 U32 at *
  omega

theorem debouncedPressed_rawPrev (s : Hub) (sw : Nat → Bool) (ch now : Nat) :
    (debouncedPressed s sw ch now).1.rawPrev ch = isPressedRaw sw ch := by
  simp only [debouncedPressed]
  split_ifs <;> simp_all [upd]

theorem debouncedPressed_rawChangedAt (s : Hub) (sw : Nat → Bool) (ch now : Nat) :
    (debouncedPressed s sw ch now).1.rawChangedAt ch
      = if isPressedRaw sw ch = s.rawPrev ch then s.rawChangedAt ch else now := by
  simp only [debouncedPressed]
  split_ifs <;> simp_all [upd]

theorem debouncedPressed_lastPressed (s : Hub) (sw : Nat → Bool) (ch now : Nat) :
    (debouncedPressed s sw ch now).1.lastPressed ch
      = if CH_DEBOUNCE_MS ≤ subU32 now ((debouncedPressed s sw ch now).1.rawChangedAt ch)
            ∧ s.lastPressed ch ≠ isPressedRaw sw ch
        then isPressedRaw sw ch else s.lastPressed ch := by
  rw [debouncedPressed_rawChangedAt]
  simp only [debouncedPressed]
  split_ifs <;> simp_all [upd]

theorem debouncedPressed_edge (s : Hub) (sw : Nat → Bool) (ch now : Nat) :
    (debouncedPressed s sw ch now).2.2
      = if CH_DEBOUNCE_MS ≤ subU32 now ((debouncedPressed s sw ch now).1.rawChangedAt ch)
            ∧ s.lastPressed ch ≠ isPressedRaw sw ch
        then isPressedRaw sw ch else false := by
  rw [debouncedPressed_rawChangedAt]
  simp only [debouncedPressed]
  split_ifs <;> simp_all [upd]

/-- Invariant of the debouncer while every run of unchanged samples is shorter than the hold
time: the stable value keeps its seed, and a remembered raw level that differs from it was
first sampled by one of the calls. -/
theorem glitch_invariant (s : Hub) (ch : Nat) (sw : Nat → Nat → Bool) (t : Nat → Nat) (n : Nat)
    (hseed : s.lastPressed ch = s.rawPrev ch)
    (hmono : ∀ j, j < n → ∀ i, i ≤ j → t i ≤ t j)
    (hbound : ∀ i, i < n → t i < U32)
    (hglitch : ∀ j, j < n → ∀ i, i ≤ j →
      (∀ k, i ≤ k → k ≤ j → rawAt ch sw k = rawAt ch sw i) → t j - t i < CH_DEBOUNCE_MS) :
    ∀ k, k ≤ n →
      (debounceCalls s ch sw t k).lastPressed ch = s.lastPressed ch ∧
      ((debounceCalls s ch sw t k).rawPrev ch ≠ s.lastPressed ch →
        ∃ i, i < k ∧ (debounceCalls s ch sw t k).rawChangedAt ch = t i ∧
          ∀ m, i ≤ m → m < k → rawAt ch sw m = (debounceCalls s ch sw t k).rawPrev ch) := by
  intro k
  induction k with
  | zero =>
    intro _
    refine ⟨rfl, fun h => absurd hseed.symm h⟩
  | succ k ih =>
    intro hk
    obtain ⟨hlast, hrun⟩ := ih (by omega)
    have hkn : k < n := by omega
    simp only [debounceCalls]
    rw [debouncedPressed_lastPressed, debouncedPressed_rawChangedAt, debouncedPressed_rawPrev]
    set d := debounceCalls s ch sw t k with hd
    have hraw : isPressedRaw (sw k) ch = rawAt ch sw k := rfl
    by_cases hc : isPressedRaw (sw k) ch = d.rawPrev ch
    · -- raw level unchanged
      rw [if_pos hc]
      by_cases hL : d.rawPrev ch = s.lastPressed ch
      · refine ⟨?_, fun h => absurd (hc.trans hL) h⟩
        rw [if_neg]
        · exact hlast
        · rintro ⟨_, h2⟩
          exact h2 (by rw [hlast, hc, hL])
      · obtain ⟨i, hik, hat, hconst⟩ := hrun hL
        have hall : ∀ m, i ≤ m → m ≤ k → rawAt ch sw m = rawAt ch sw i := by
          intro m h1 h2
          rw [hconst i (le_refl i) hik]
          by_cases hm : m < k
          · exact hconst m h1 hm
          · have : m = k := by omega
            subst this
            exact hc
        have hdw := hglitch k hkn i (by omega) hall
        have hsub : subU32 (t k) (d.rawChangedAt ch) = t k - t i := by
          rw [hat]
          exact subU32_of_le _ _ (hmono k hkn i (by omega)) (hbound k hkn)
        refine ⟨?_, fun _ => ⟨i, by omega, hat, ?_⟩⟩
        · rw [if_neg]
          · exact hlast
          · rintro ⟨h1, _⟩
            rw [hsub] at h1
            omega
        · intro m h1 h2
          by_cases hm : m < k
          · rw [hc]; exact hconst m h1 hm
          · have : m = k := by omega
            subst this
            rfl
    · -- raw level toggled: timing restarts
      rw [if_neg hc]
      have hsub : subU32 (t k) (t k) = 0 := by
        rw [subU32_of_le _ _ (le_refl _) (hbound k hkn)]; simp
      refine ⟨?_, fun _ => ⟨k, by omega, rfl, ?_⟩⟩
      · rw [if_neg]
        · exact hlast
        · rintro ⟨h1, _⟩
          rw [hsub] at h1
          simp [CH_DEBOUNCE_MS] at h1
      · intro m h1 h2
        have : m = k := by omega
        subst this
        rfl

/-- C1 (glitch rejection). For a seeded debouncer on channel `ch` (`lastPressed[ch] =
rawPrev[ch]`) and a sequence of `n` calls of `debouncedPressed` at non-decreasing times below
`2^32` in which no run of unchanged raw samples spans 25 ms or more, every call leaves
`lastPressed[ch]` at its seed value and returns `pressedEdge = false`. -/
theorem C1_glitch_rejection (s : Hub) (ch : Nat) (sw : Nat → Nat → Bool) (t : Nat → Nat) (n : Nat)
    (hseed : s.lastPressed ch = s.rawPrev ch)
    (hmono : ∀ j, j < n → ∀ i, i ≤ j → t i ≤ t j)
    (hbound : ∀ i, i < n → t i < U32)
    (hglitch : ∀ j, j < n → ∀ i, i ≤ j →
      (∀ k, i ≤ k → k ≤ j → rawAt ch sw k = rawAt ch sw i) → t j - t i < CH_DEBOUNCE_MS) :
    ∀ k, k < n →
      (debounceCalls s ch sw t (k + 1)).lastPressed ch = s.lastPressed ch ∧
      edgeAt s ch sw t k = false := by
  intro k hk
  have h1 := (glitch_invariant s ch sw t n hseed hmono hbound hglitch (k + 1) (by omega)).1
  have h0 := (glitch_invariant s ch sw t n hseed hmono hbound hglitch k (by omega)).1
  refine ⟨h1, ?_⟩
  simp only [debounceCalls] at h1
  rw [debouncedPressed_lastPressed] at h1
  unfold edgeAt
  rw [debouncedPressed_edge]
  split_ifs with hc
  · rw [if_pos hc] at h1
    exact absurd (h0.trans h1.symm) hc.2
  · rfl

theorem debounceCalls_rawPrev (s : Hub) (ch : Nat) (sw : Nat → Nat → Bool) (t : Nat → Nat)
    (k : Nat) : (debounceCalls s ch sw t k).rawPrev ch = prevRawAt s ch sw k := by
  cases k with
  | zero => rfl
  | succ k => simp only [debounceCalls, prevRawAt, debouncedPressed_rawPrev, rawAt]

/-- A call changes the stable value exactly when the acceptance test of the debouncer passes. -/
theorem changedAt_iff_cond (s : Hub) (ch : Nat) (sw : Nat → Nat → Bool) (t : Nat → Nat)
    (k : Nat) :
    changedAt s ch sw t k ↔
      (CH_DEBOUNCE_MS ≤ subU32 (t k) ((debounceCalls s ch sw t (k + 1)).rawChangedAt ch)
        ∧ (debounceCalls s ch sw t k).lastPressed ch ≠ rawAt ch sw k) := by
  unfold changedAt
  simp only [debounceCalls]
  rw [debouncedPressed_lastPressed]
  unfold rawAt
  split_ifs with hc
  · constructor
    · intro _; exact hc
    · intro _ h; exact hc.2 h.symm
  · constructor
    · intro h; exact absurd rfl h
    · intro h; exact absurd h hc

theorem changedAt_value (s : Hub) (ch : Nat) (sw : Nat → Nat → Bool) (t : Nat → Nat)
    (k : Nat) (h : changedAt s ch sw t k) :
    (debounceCalls s ch sw t (k + 1)).lastPressed ch = rawAt ch sw k := by
  have hc := (changedAt_iff_cond s ch sw t k).1 h
  simp only [debounceCalls, rawAt] at hc ⊢
  rw [debouncedPressed_lastPressed, if_pos hc]

theorem edgeAt_iff (s : Hub) (ch : Nat) (sw : Nat → Nat → Bool) (t : Nat → Nat) (k : Nat) :
    edgeAt s ch sw t k = true ↔
      (changedAt s ch sw t k ∧ (debounceCalls s ch sw t (k + 1)).lastPressed ch = true) := by
  constructor
  · intro h
    unfold edgeAt at h
    rw [debouncedPressed_edge] at h
    split_ifs at h with hc
    have hch : changedAt s ch sw t k := (changedAt_iff_cond s ch sw t k).2 hc
    exact ⟨hch, (changedAt_value s ch sw t k hch).trans h⟩
  · rintro ⟨hch, hv⟩
    have hc := (changedAt_iff_cond s ch sw t k).1 hch
    rw [changedAt_value s ch sw t k hch] at hv
    simp only [debounceCalls, rawAt] at hc hv
    unfold edgeAt
    rw [debouncedPressed_edge, if_pos hc]
    exact hv

theorem runStart_unique (s : Hub) (ch : Nat) (sw : Nat → Nat → Bool) (i j m : Nat)
    (hj : transitionAt s ch sw j) (hij : i ≤ j) (hjm : j ≤ m)
    (hrun : ∀ k, i ≤ k → k ≤ m → rawAt ch sw k = rawAt ch sw i) : i = j := by
  by_contra hne
  have hlt : i < j := by omega
  obtain ⟨p, rfl⟩ : ∃ p, j = p + 1 := ⟨j - 1, by omega⟩
  apply hj
  simp only [prevRawAt]
  rw [hrun (p + 1) (by omega) hjm, hrun p (by omega) (by omega)]

/-- Invariant of the debouncer under the dwell assumption: either the stable value equals the
remembered raw level and every run that started with a transition already reached the hold
time, or a transition is pending and no sample of its run has reached the hold time yet. -/
theorem dwell_invariant (s : Hub) (ch : Nat) (sw : Nat → Nat → Bool) (t : Nat → Nat) (n : Nat)
    (hseed : s.lastPressed ch = s.rawPrev ch)
    (hmono : ∀ j, j < n → ∀ i, i ≤ j → t i ≤ t j)
    (hbound : ∀ i, i < n → t i < U32)
    (hdwell : ∀ i, i < n → transitionAt s ch sw i →
      ∃ m, m < n ∧ i ≤ m ∧ sameRun ch sw i m ∧ t i + CH_DEBOUNCE_MS ≤ t m) :
    ∀ k, k ≤ n →
      ((debounceCalls s ch sw t k).lastPressed ch = (debounceCalls s ch sw t k).rawPrev ch ∧
        ∀ i, i < k → transitionAt s ch sw i →
          (∀ m, i ≤ m → m < k → rawAt ch sw m = rawAt ch sw i) →
          ∃ m, i ≤ m ∧ m < k ∧ t i + CH_DEBOUNCE_MS ≤ t m) ∨
      ((debounceCalls s ch sw t k).lastPressed ch ≠ (debounceCalls s ch sw t k).rawPrev ch ∧
        ∃ i, i < k ∧ transitionAt s ch sw i ∧
          (∀ m, i ≤ m → m < k → rawAt ch sw m = rawAt ch sw i) ∧
          (debounceCalls s ch sw t k).rawChangedAt ch = t i ∧
          ∀ m, i ≤ m → m < k → t m < t i + CH_DEBOUNCE_MS) := by
  intro k
  induction k with
  | zero =>
    intro _
    exact Or.inl ⟨hseed, fun i hi => absurd hi (Nat.not_lt_zero i)⟩
  | succ k ih =>
    intro hk
    have hkn : k < n := by omega
    have hP : (debounceCalls s ch sw t k).rawPrev ch = prevRawAt s ch sw k :=
      debounceCalls_rawPrev s ch sw t k
    have hP1 : (debounceCalls s ch sw t (k + 1)).rawPrev ch = rawAt ch sw k :=
      debounceCalls_rawPrev s ch sw t (k + 1)
    have hA1 : (debounceCalls s ch sw t (k + 1)).rawChangedAt ch
        = if rawAt ch sw k = (debounceCalls s ch sw t k).rawPrev ch
          then (debounceCalls s ch sw t k).rawChangedAt ch else t k := by
      simp only [debounceCalls, rawAt]
      rw [debouncedPressed_rawChangedAt]
    have hL1 : (debounceCalls s ch sw t (k + 1)).lastPressed ch
        = if CH_DEBOUNCE_MS ≤ subU32 (t k) ((debounceCalls s ch sw t (k + 1)).rawChangedAt ch)
              ∧ (debounceCalls s ch sw t k).lastPressed ch ≠ rawAt ch sw k
          then rawAt ch sw k else (debounceCalls s ch sw t k).lastPressed ch := by
      simp only [debounceCalls, rawAt]
      rw [debouncedPressed_lastPressed]
    by_cases hT : rawAt ch sw k = (debounceCalls s ch sw t k).rawPrev ch
    · -- no transition at call k
      rw [if_pos hT] at hA1
      have hnT : ¬ transitionAt s ch sw k := by
        unfold transitionAt; rw [← hP]; exact fun h => h hT
      rcases ih (by omega) with ⟨hset, hhist⟩ | ⟨hpend, i, hik, hti, hrun, hat, hshort⟩
      · left
        have hL : (debounceCalls s ch sw t (k + 1)).lastPressed ch
            = (debounceCalls s ch sw t k).lastPressed ch := by
          rw [hL1, if_neg]
          rintro ⟨_, h2⟩
          exact h2 (hset.trans hT.symm)
        refine ⟨by rw [hL, hP1, hset, hT], ?_⟩
        intro i hi hti hrun
        have hik : i < k := by
          rcases Nat.lt_or_ge i k with h | h
          · exact h
          · have : i = k := by omega
            subst this
            exact absurd hti hnT
        obtain ⟨m, h1, h2, h3⟩ := hhist i hik hti (fun m h1 h2 => hrun m h1 (by omega))
        exact ⟨m, h1, by omega, h3⟩
      · have hPi : (debounceCalls s ch sw t k).rawPrev ch = rawAt ch sw i := by
          rw [hP]
          obtain ⟨p, rfl⟩ : ∃ p, k = p + 1 := ⟨k - 1, by omega⟩
          simp only [prevRawAt]
          exact hrun p (by omega) (by omega)
        have hrun1 : ∀ m, i ≤ m → m < k + 1 → rawAt ch sw m = rawAt ch sw i := by
          intro m h1 h2
          rcases Nat.lt_or_ge m k with h | h
          · exact hrun m h1 h
          · have : m = k := by omega
            subst this
            rw [hT, hPi]
        have hsub : subU32 (t k) ((debounceCalls s ch sw t (k + 1)).rawChangedAt ch)
            = t k - t i := by
          rw [hA1, hat]
          exact subU32_of_le _ _ (hmono k hkn i (by omega)) (hbound k hkn)
        rw [hsub] at hL1
        by_cases hd : CH_DEBOUNCE_MS ≤ t k - t i
        · left
          rw [if_pos ⟨hd, by rw [← hT] at hpend; exact hpend⟩] at hL1
          refine ⟨by rw [hL1, hP1], ?_⟩
          intro j hj htj hrunj
          have hji : i = j := by
            rcases Nat.le_total i j with h | h
            · exact runStart_unique s ch sw i j k htj h (by omega)
                (fun m h1 h2 => hrun1 m h1 (by omega))
            · exact (runStart_unique s ch sw j i k hti h (by omega)
                (fun m h1 h2 => hrunj m h1 (by omega))).symm
          subst hji
          have := hmono k hkn i (by omega)
          exact ⟨k, by omega, by omega, by omega⟩
        · right
          rw [if_neg (fun h => hd h.1)] at hL1
          refine ⟨by rw [hL1, hP1, hT]; exact hpend, i, by omega, hti, hrun1, by rw [hA1, hat], ?_⟩
          intro m h1 h2
          rcases Nat.lt_or_ge m k with h | h
          · exact hshort m h1 h
          · have : m = k := by omega
            subst this
            have := hmono m hkn i (by omega)
            omega
    · -- transition at call k
      rw [if_neg hT] at hA1
      have hTk : transitionAt s ch sw k := by
        unfold transitionAt; rw [← hP]; exact hT
      have hsub : subU32 (t k) ((debounceCalls s ch sw t (k + 1)).rawChangedAt ch) = 0 := by
        rw [hA1, subU32_of_le _ _ (le_refl _) (hbound k hkn)]; simp
      have hL : (debounceCalls s ch sw t (k + 1)).lastPressed ch
          = (debounceCalls s ch sw t k).lastPressed ch := by
        rw [hL1, if_neg]
        rintro ⟨h1, _⟩
        rw [hsub] at h1
        simp [CH_DEBOUNCE_MS] at h1
      have hset : (debounceCalls s ch sw t k).lastPressed ch
          = (debounceCalls s ch sw t k).rawPrev ch := by
        rcases ih (by omega) with ⟨hset, _⟩ | ⟨_, i, hik, hti, hrun, _, hshort⟩
        · exact hset
        · exfalso
          obtain ⟨m, hmn, him, hsame, hlong⟩ := hdwell i (by omega) hti
          rcases Nat.lt_or_ge m k with h | h
          · have := hshort m him h
            omega
          · apply hT
            rw [hP]
            obtain ⟨p, rfl⟩ : ∃ p, k = p + 1 := ⟨k - 1, by omega⟩
            simp only [prevRawAt]
            rw [hsame (p + 1) (by omega) h, hrun p (by omega) (by omega)]
      right
      refine ⟨?_, k, by omega, hTk, ?_, hA1, ?_⟩
      · rw [hL, hP1, hset]
        exact fun h => hT h.symm
      · intro m h1 h2
        have : m = k := by omega
        subst this; rfl
      · intro m h1 h2
        have : m = k := by omega
        subst this
        simp [CH_DEBOUNCE_MS]

/-- Under the dwell assumption a call changes the stable value exactly when it is the first
sample of a run, started by a transition, that lies at least the hold time after the start of
the run. -/
theorem changedAt_iff_firstDwell (s : Hub) (ch : Nat) (sw : Nat → Nat → Bool) (t : Nat → Nat)
    (n : Nat)
    (hseed : s.lastPressed ch = s.rawPrev ch)
    (hmono : ∀ j, j < n → ∀ i, i ≤ j → t i ≤ t j)
    (hbound : ∀ i, i < n → t i < U32)
    (hdwell : ∀ i, i < n → transitionAt s ch sw i →
      ∃ m, m < n ∧ i ≤ m ∧ sameRun ch sw i m ∧ t i + CH_DEBOUNCE_MS ≤ t m)
    (k : Nat) (hkn : k < n) :
    changedAt s ch sw t k ↔
      ∃ i, i ≤ k ∧ transitionAt s ch sw i ∧ sameRun ch sw i k ∧ t i + CH_DEBOUNCE_MS ≤ t k ∧
        ∀ m, i ≤ m → m < k → t m < t i + CH_DEBOUNCE_MS := by
  rw [changedAt_iff_cond]
  have hP : (debounceCalls s ch sw t k).rawPrev ch = prevRawAt s ch sw k :=
    debounceCalls_rawPrev s ch sw t k
  have hA1 : (debounceCalls s ch sw t (k + 1)).rawChangedAt ch
      = if rawAt ch sw k = (debounceCalls s ch sw t k).rawPrev ch
        then (debounceCalls s ch sw t k).rawChangedAt ch else t k := by
    simp only [debounceCalls, rawAt]
    rw [debouncedPressed_rawChangedAt]
  have hinv := dwell_invariant s ch sw t n hseed hmono hbound hdwell k (by omega)
  by_cases hT : rawAt ch sw k = (debounceCalls s ch sw t k).rawPrev ch
  · rw [if_pos hT] at hA1
    have hnT : ¬ transitionAt s ch sw k := by
      unfold transitionAt; rw [← hP]; exact fun h => h hT
    rcases hinv with ⟨hset, hhist⟩ | ⟨hpend, i, hik, hti, hrun, hat, hshort⟩
    · constructor
      · rintro ⟨_, h2⟩
        exact absurd (hset.trans hT.symm) h2
      · rintro ⟨i, hik, hti, hsame, _, hshort⟩
        exfalso
        have hlt : i < k := by
          rcases Nat.lt_or_ge i k with h | h
          · exact h
          · have : i = k := by omega
            subst this
            exact absurd hti hnT
        obtain ⟨m, h1, h2, h3⟩ := hhist i hlt hti (fun m h1 h2 => hsame m h1 (by omega))
        have := hshort m h1 h2
        omega
    · have hPi : (debounceCalls s ch sw t k).rawPrev ch = rawAt ch sw i := by
        rw [hP]
        obtain ⟨p, rfl⟩ : ∃ p, k = p + 1 := ⟨k - 1, by omega⟩
        simp only [prevRawAt]
        exact hrun p (by omega) (by omega)
      have hrun1 : sameRun ch sw i k := by
        intro m h1 h2
        rcases Nat.lt_or_ge m k with h | h
        · exact hrun m h1 h
        · have : m = k := by omega
          subst this
          rw [hT, hPi]
      have hsub : subU32 (t k) ((debounceCalls s ch sw t (k + 1)).rawChangedAt ch)
          = t k - t i := by
        rw [hA1, hat]
        exact subU32_of_le _ _ (hmono k hkn i (by omega)) (hbound k hkn)
      rw [hsub]
      have hle := hmono k hkn i (by omega)
      constructor
      · rintro ⟨h1, _⟩
        exact ⟨i, by omega, hti, hrun1, by omega, hshort⟩
      · rintro ⟨j, hjk, htj, hsamej, hlong, _⟩
        have hji : i = j := by
          rcases Nat.le_total i j with h | h
          · exact runStart_unique s ch sw i j k htj h hjk hrun1
          · exact (runStart_unique s ch sw j i k hti h (by omega) hsamej).symm
        subst hji
        refine ⟨by omega, ?_⟩
        rw [← hT] at hpend
        exact hpend
  · rw [if_neg hT] at hA1
    have hTk : transitionAt s ch sw k := by
      unfold transitionAt; rw [← hP]; exact hT
    have hsub : subU32 (t k) ((debounceCalls s ch sw t (k + 1)).rawChangedAt ch) = 0 := by
      rw [hA1, subU32_of_le _ _ (le_refl _) (hbound k hkn)]; simp
    rw [hsub]
    constructor
    · rintro ⟨h1, _⟩
      simp [CH_DEBOUNCE_MS] at h1
    · rintro ⟨i, hik, _, hsame, hlong, _⟩
      exfalso
      have hik2 : i = k := runStart_unique s ch sw i k k hTk hik (le_refl k) hsame
      subst hik2
      simp [CH_DEBOUNCE_MS] at hlong

/-- Exactly one call of the run of a transition changes the stable value. -/
theorem one_change_per_transition (s : Hub) (ch : Nat) (sw : Nat → Nat → Bool) (t : Nat → Nat)
    (n : Nat)
    (hseed : s.lastPressed ch = s.rawPrev ch)
    (hmono : ∀ j, j < n → ∀ i, i ≤ j → t i ≤ t j)
    (hbound : ∀ i, i < n → t i < U32)
    (hdwell : ∀ i, i < n → transitionAt s ch sw i →
      ∃ m, m < n ∧ i ≤ m ∧ sameRun ch sw i m ∧ t i + CH_DEBOUNCE_MS ≤ t m)
    (i : Nat) (hin : i < n) (hti : transitionAt s ch sw i) :
    ∃! m, m < n ∧ i ≤ m ∧ sameRun ch sw i m ∧ changedAt s ch sw t m := by
  classical
  obtain ⟨m0, hm0n, him0, hsame0, hlong0⟩ := hdwell i hin hti
  have hex : ∃ m, i ≤ m ∧ t i + CH_DEBOUNCE_MS ≤ t m := ⟨m0, him0, hlong0⟩
  have hfind := Nat.find_spec hex
  have hmin : ∀ m, m < Nat.find hex → ¬ (i ≤ m ∧ t i + CH_DEBOUNCE_MS ≤ t m) :=
    fun m hm => Nat.find_min hex hm
  have hle0 : Nat.find hex ≤ m0 := Nat.find_min' hex ⟨him0, hlong0⟩
  have hfirst : ∀ m, m < n → i ≤ m → sameRun ch sw i m → changedAt s ch sw t m →
      t i + CH_DEBOUNCE_MS ≤ t m ∧ ∀ p, i ≤ p → p < m → t p < t i + CH_DEBOUNCE_MS := by
    intro m hmn him hsame hch
    obtain ⟨j, hjm, htj, hsamej, hlong, hshort⟩ :=
      (changedAt_iff_firstDwell s ch sw t n hseed hmono hbound hdwell m hmn).1 hch
    have hji : i = j := by
      rcases Nat.le_total i j with h | h
      · exact runStart_unique s ch sw i j m htj h hjm hsame
      · exact (runStart_unique s ch sw j i m hti h him hsamej).symm
    subst hji
    exact ⟨hlong, hshort⟩
  refine ⟨Nat.find hex, ⟨by omega, hfind.1, fun k h1 h2 => hsame0 k h1 (by omega), ?_⟩, ?_⟩
  · refine (changedAt_iff_firstDwell s ch sw t n hseed hmono hbound hdwell _ (by omega)).2
      ⟨i, hfind.1, hti, fun k h1 h2 => hsame0 k h1 (by omega), hfind.2, ?_⟩
    intro p h1 h2
    have := hmin p h2
    by_contra hc
    exact this ⟨h1, by omega⟩
  · rintro m ⟨hmn, him, hsame, hch⟩
    obtain ⟨hlong, hshort⟩ := hfirst m hmn him hsame hch
    rcases Nat.lt_trichotomy m (Nat.find hex) with h | h | h
    · exact absurd ⟨him, hlong⟩ (hmin m h)
    · exact h
    · have := hshort (Nat.find hex) hfind.1 h
      omega

/-- C2 (one edge per transition). For a seeded debouncer on channel `ch` and a sequence of `n`
calls at non-decreasing times (no wrap-around) in which every raw level, once changed, is
sampled unchanged until at least 25 ms after the change: (1) for every raw transition exactly
one call of its run changes `lastPressed[ch]`; (2) every change of `lastPressed[ch]` belongs to
the run of a transition; (3) for every released-to-pressed transition exactly one call of its
run returns `pressedEdge = true`; (4) `pressedEdge` is true exactly on the calls on which the
stable value becomes pressed; (5) every pressed edge belongs to the run of a
released-to-pressed transition. -/
theorem C2_one_edge_per_transition (s : Hub) (ch : Nat) (sw : Nat → Nat → Bool)
    (t : Nat → Nat) (n : Nat)
    (hseed : s.lastPressed ch = s.rawPrev ch)
    (hmono : ∀ j, j < n → ∀ i, i ≤ j → t i ≤ t j)
    (hbound : ∀ i, i < n → t i < U32)
    (hdwell : ∀ i, i < n → transitionAt s ch sw i →
      ∃ m, m < n ∧ i ≤ m ∧ sameRun ch sw i m ∧ t i + CH_DEBOUNCE_MS ≤ t m) :
    (∀ i, i < n → transitionAt s ch sw i →
      ∃! m, m < n ∧ i ≤ m ∧ sameRun ch sw i m ∧ changedAt s ch sw t m) ∧
    (∀ m, m < n → changedAt s ch sw t m →
      ∃ i, i ≤ m ∧ transitionAt s ch sw i ∧ sameRun ch sw i m) ∧
    (∀ i, i < n → transitionAt s ch sw i → rawAt ch sw i = true →
      ∃! m, m < n ∧ i ≤ m ∧ sameRun ch sw i m ∧ edgeAt s ch sw t m = true) ∧
    (∀ m, m < n → (edgeAt s ch sw t m = true ↔
      (changedAt s ch sw t m ∧ (debounceCalls s ch sw t (m + 1)).lastPressed ch = true))) ∧
    (∀ m, m < n → edgeAt s ch sw t m = true →
      ∃ i, i ≤ m ∧ transitionAt s ch sw i ∧ rawAt ch sw i = true ∧ sameRun ch sw i m) := by
  have h1 := one_change_per_transition s ch sw t n hseed hmono hbound hdwell
  have h2 : ∀ m, m < n → changedAt s ch sw t m →
      ∃ i, i ≤ m ∧ transitionAt s ch sw i ∧ sameRun ch sw i m := by
    intro m hm hch
    obtain ⟨i, him, hti, hsame, _, _⟩ :=
      (changedAt_iff_firstDwell s ch sw t n hseed hmono hbound hdwell m hm).1 hch
    exact ⟨i, him, hti, hsame⟩
  refine ⟨h1, h2, ?_, fun m _ => edgeAt_iff s ch sw t m, ?_⟩
  · intro i hin hti hrise
    obtain ⟨m, ⟨hmn, him, hsame, hch⟩, huniq⟩ := h1 i hin hti
    refine ⟨m, ⟨hmn, him, hsame, ?_⟩, ?_⟩
    · refine (edgeAt_iff s ch sw t m).2 ⟨hch, ?_⟩
      rw [changedAt_value s ch sw t m hch, hsame m him (le_refl m), hrise]
    · rintro p ⟨hpn, hip, hsamep, hedge⟩
      exact huniq p ⟨hpn, hip, hsamep, ((edgeAt_iff s ch sw t p).1 hedge).1⟩
  · intro m hm hedge
    obtain ⟨hch, hv⟩ := (edgeAt_iff s ch sw t m).1 hedge
    obtain ⟨i, him, hti, hsame⟩ := h2 m hm hch
    refine ⟨i, him, hti, ?_, hsame⟩
    rw [← hsame m him (le_refl m), ← changedAt_value s ch sw t m hch, hv]

/-- Witness of C1: a contact that toggles every 10 ms never moves the stable value. -/
theorem C1_glitch_rejection_witness :
    (debounceCalls idleHub 0 bounceSw every10ms 4).lastPressed 0 = idleHub.lastPressed 0 ∧
      edgeAt idleHub 0 bounceSw every10ms 3 = false :=
  C1_glitch_rejection idleHub 0 bounceSw every10ms 4 (by decide) (by decide) (by decide)
    (by decide) 3 (by decide)

/-- Witness of C2: a clean press held for 40 ms yields exactly one pressed edge. -/
theorem C2_one_edge_per_transition_witness :
    ∃! m, m < 9 ∧ 1 ≤ m ∧ sameRun 0 cleanSw 1 m ∧ edgeAt idleHub 0 cleanSw every10ms m = true :=
  (C2_one_edge_per_transition idleHub 0 cleanSw every10ms 9 (by decide) (by decide) (by decide)
    (by decide)).2.2.1 1 (by decide) (by decide) (by decide)

theorem setLed_ledState_self (s : Hub) (ch : Nat) (v : Bool) : (setLed s ch v).ledState ch = v := by
  unfold setLed
  split_ifs with h
  · exact h
  · simp [upd]

theorem classifyChannel_other (s : Hub) (sw : Nat → Bool) (now : Nat) (m : Bool) (ch j : Nat)
    (h : j ≠ ch) :
    (classifyChannel s sw now m ch).monNormal j = s.monNormal j ∧
      (classifyChannel s sw now m ch).monLatch j = s.monLatch j ∧
      (classifyChannel s sw now m ch).latched j = s.latched j ∧
      (classifyChannel s sw now m ch).ignoredCh j = s.ignoredCh j ∧
      (classifyChannel s sw now m ch).rawPrev j = s.rawPrev j ∧
      (classifyChannel s sw now m ch).rawChangedAt j = s.rawChangedAt j ∧
      (classifyChannel s sw now m ch).lastPressed j = s.lastPressed j ∧
      (classifyChannel s sw now m ch).ledState j = s.ledState j := by
  cases hN : s.monNormal ch <;> cases hL : s.monLatch ch <;> cases m <;>
    simp [classifyChannel, clearAndReseed, reseed, setLed_eq, hN, hL, upd, h]

theorem parsePureInt_range (t : List Char) (c : Nat) (h : parsePureInt t = some c) :
    1 ≤ c ∧ c ≤ CHANNEL_COUNT := by
  unfold parsePureInt at h
  by_cases h1 : t = []
  · simp [h1] at h
  · by_cases h2 : isMacToken t = true
    · simp [h1, h2] at h
    · by_cases h3 : (strtol t).2 = []
      · by_cases h4 : (strtol t).1 < 1 ∨ (strtol t).1 > (CHANNEL_COUNT : Int)
        · simp [h1, h2, h3, h4] at h
        · simp only [h1, h2, h3, h4, if_false, ne_eq, not_true_eq_false, Bool.false_eq_true,
            Option.some.injEq] at h
          subst h
          push_neg at h4
          omega
      · simp [h1, h2, h3] at h

theorem parsePureInt_mac (t : List Char) (h : isMacToken t = true) : parsePureInt t = none := by
  unfold parsePureInt
  split_ifs <;> simp_all

theorem isClassKeyword_false_iff (t : List Char) :
    isClassKeyword t = false ↔ t ≠ kwNORMAL ∧ t ≠ kwCONTACTLESS ∧ t ≠ kwLATCH := by
  unfold isClassKeyword
  simp [Bool.or_eq_false_iff, beq_eq_false_iff_ne, and_assoc]

/-- Effect of one iteration of the MONITOR token loop on the local `skipCount`. -/
theorem monitorToken_skipCount (sw : Nat → Bool) (now : Nat) (a : MonitorScan) (t : List Char) :
    (monitorToken sw now a t).skipCount = isClassKeyword t := by
  unfold monitorToken
  split_ifs with h1 h2 h3
  · simp [isClassKeyword, h1]
  · rcases h2 with h | h <;> simp [isClassKeyword, h]
  · have hk : isClassKeyword t = false :=
      (isClassKeyword_false_iff t).2 ⟨h1, fun h => h2 (Or.inl h), fun h => h2 (Or.inr h)⟩
    rw [hk]
  · have hk : isClassKeyword t = false :=
      (isClassKeyword_false_iff t).2 ⟨h1, fun h => h2 (Or.inl h), fun h => h2 (Or.inr h)⟩
    rw [hk]
    cases parsePureInt t <;> simpa using h3

/-- Effect of one iteration of the MONITOR token loop on the local `latchMode`. -/
theorem monitorToken_latchMode (sw : Nat → Bool) (now : Nat) (a : MonitorScan) (t : List Char) :
    (monitorToken sw now a t).latchMode =
      (if t = kwNORMAL then false
        else if t = kwCONTACTLESS ∨ t = kwLATCH then true else a.latchMode) := by
  unfold monitorToken
  split_ifs <;> try rfl
  cases parsePureInt t <;> rfl

/-- Effect of one iteration of the MONITOR token loop on the Hub. -/
theorem monitorToken_hub (sw : Nat → Bool) (now : Nat) (a : MonitorScan) (t : List Char) :
    (monitorToken sw now a t).hub =
      (if isClassKeyword t = false ∧ a.skipCount = false then
        match parsePureInt t with
        | some c => classifyChannel a.hub sw now a.latchMode (c - 1)
        | none => a.hub
       else a.hub) := by
  unfold monitorToken
  by_cases hk : isClassKeyword t = false
  · obtain ⟨h1, h2, h3⟩ := (isClassKeyword_false_iff t).1 hk
    simp only [h1, h2, h3, if_false, or_self, hk, true_and]
    by_cases h4 : a.skipCount = true
    · simp [h4]
    · simp only [h4, if_false]
      have : a.skipCount = false := by simpa using h4
      simp only [this, if_true]
      cases parsePureInt t <;> rfl
  · have hk2 : isClassKeyword t = true := by simpa using hk
    simp only [hk2, Bool.true_eq_false, false_and, if_false]
    unfold isClassKeyword at hk2
    simp only [Bool.or_eq_true, beq_iff_eq] at hk2
    rcases hk2 with (h | h) | h
    · simp [h]
    · simp [h]; split_ifs <;> rfl
    · simp [h]; split_ifs <;> rfl

theorem scan_latchMode (sw : Nat → Bool) (now : Nat) (toks : List (List Char))
    (a : MonitorScan) :
    (toks.foldl (monitorToken sw now) a).latchMode =
      toks.foldl
        (fun m t => if t = kwNORMAL then false
          else if t = kwCONTACTLESS ∨ t = kwLATCH then true else m)
        a.latchMode := by
  induction toks generalizing a with
  | nil => rfl
  | cons t ts ih =>
    simp only [List.foldl_cons]
    rw [ih, monitorToken_latchMode]

theorem scan_skipCount (sw : Nat → Bool) (now : Nat) (toks : List (List Char)) (s : Hub)
    (t : List Char) :
    (toks.foldl (monitorToken sw now) { hub := s, latchMode := false, skipCount := false }).skipCount
      = isCountPos (toks ++ [t]) toks.length := by
  induction toks using List.reverseRecOn with
  | nil => rfl
  | append_singleton ts p _ =>
    rw [List.foldl_append]
    simp only [List.foldl_cons, List.foldl_nil, monitorToken_skipCount, List.length_append,
      List.length_singleton, isCountPos]
    rw [List.append_assoc, List.getElem?_append_right (le_refl _)]
    simp

theorem namesChannel_lt_length (toks : List (List Char)) (i c : Nat)
    (h : namesChannel toks i c) : i < toks.length := by
  unfold namesChannel at h
  by_contra hlt
  rw [List.getElem?_eq_none (by omega)] at h
  exact h

theorem namesChannel_iff (toks : List (List Char)) (i c : Nat) :
    namesChannel toks i c ↔
      ∃ t, toks[i]? = some t ∧ isClassKeyword t = false ∧ isCountPos toks i = false ∧
        parsePureInt t = some c := by
  unfold namesChannel
  cases h : toks[i]? with
  | none => simp
  | some t => simp

theorem isCountPos_append (toks : List (List Char)) (t : List Char) (i : Nat)
    (h : i < toks.length) : isCountPos (toks ++ [t]) i = isCountPos toks i := by
  cases i with
  | zero => rfl
  | succ j =>
    simp only [isCountPos]
    rw [List.getElem?_append_left (by omega)]

theorem namesChannel_append_lt (toks : List (List Char)) (t : List Char) (i c : Nat)
    (h : i < toks.length) : namesChannel (toks ++ [t]) i c ↔ namesChannel toks i c := by
  unfold namesChannel
  rw [List.getElem?_append_left h, isCountPos_append toks t i h]

theorem namesChannel_append_last (toks : List (List Char)) (t : List Char) (c : Nat) :
    namesChannel (toks ++ [t]) toks.length c ↔
      (isClassKeyword t = false ∧ isCountPos (toks ++ [t]) toks.length = false ∧
        parsePureInt t = some c) := by
  unfold namesChannel
  rw [List.getElem?_append_right (le_refl _)]
  simp

theorem classAfter_take_append (toks : List (List Char)) (t : List Char) (i : Nat)
    (h : i ≤ toks.length) : classAfter ((toks ++ [t]).take i) = classAfter (toks.take i) := by
  rw [List.take_append_of_le_length h]

theorem parseMonitorPayload_eq (s : Hub) (sw : Nat → Bool) (now : Nat) (data : List Char)
    (toks : List (List Char)) (htok : monitorTokens (cstr (data.take 199)) = some toks) :
    parseMonitorPayload s sw now data =
      (if (toks.foldl (monitorToken sw now)
            { hub := s, latchMode := false, skipCount := false }).hub.state ≠ State.MONITORING
        then { (toks.foldl (monitorToken sw now)
            { hub := s, latchMode := false, skipCount := false }).hub with needReleaseGate := true }
        else (toks.foldl (monitorToken sw now)
            { hub := s, latchMode := false, skipCount := false }).hub) := by
  unfold parseMonitorPayload
  rw [htok]

theorem classifyChannel_establishes (h : Hub) (sw : Nat → Bool) (now : Nat) (m : Bool)
    (ch : Nat)
    (hre : (m = true ∧ h.monNormal ch = true) ∨ (m = false ∧ h.monLatch ch = true)) :
    FreshlySeeded (classifyChannel h sw now m ch) sw now ch := by
  cases hN : h.monNormal ch <;> cases hL : h.monLatch ch <;> cases m <;>
    simp [hN, hL] at hre <;>
    simp [classifyChannel, clearAndReseed, reseed, setLed_eq, hN, hL, upd, FreshlySeeded]

theorem classifyChannel_same (h : Hub) (sw : Nat → Bool) (now : Nat) (m : Bool) (ch : Nat) :
    FreshlySeeded (classifyChannel h sw now m ch) sw now ch ∨
      (¬ FreshlySeeded h sw now ch ∧
        (classifyChannel h sw now m ch).monNormal ch = h.monNormal ch ∧
        (classifyChannel h sw now m ch).monLatch ch = h.monLatch ch) := by
  by_cases hf : FreshlySeeded h sw now ch
  · left
    revert hf
    cases hN : h.monNormal ch <;> cases hL : h.monLatch ch <;> cases m <;>
      simp [classifyChannel, clearAndReseed, reseed, setLed_eq, hN, hL, upd, FreshlySeeded] <;>
      intros <;> simp_all
  · cases hN : h.monNormal ch <;> cases hL : h.monLatch ch <;> cases m <;>
      simp [classifyChannel, clearAndReseed, reseed, setLed_eq, hN, hL, upd, FreshlySeeded, hf] <;>
      tauto

theorem classifyChannel_keeps (h : Hub) (sw : Nat → Bool) (now : Nat) (m : Bool) (ch ch2 : Nat)
    (hp : FreshlySeeded h sw now ch) :
    FreshlySeeded (classifyChannel h sw now m ch2) sw now ch := by
  by_cases hc : ch = ch2
  · subst hc
    rcases classifyChannel_same h sw now m ch with h1 | h1
    · exact h1
    · exact absurd hp h1.1
  · obtain ⟨_, _, g3, g4, g5, g6, g7, g8⟩ := classifyChannel_other h sw now m ch2 ch hc
    unfold FreshlySeeded at hp ⊢
    rw [g3, g4, g5, g6, g7, g8]
    exact hp

theorem monitorToken_keeps (sw : Nat → Bool) (now : Nat) (ch : Nat) (a : MonitorScan)
    (t : List Char) (hp : FreshlySeeded a.hub sw now ch) :
    FreshlySeeded (monitorToken sw now a t).hub sw now ch := by
  rw [monitorToken_hub]
  split_ifs
  · cases parsePureInt t with
    | none => exact hp
    | some c2 => exact classifyChannel_keeps a.hub sw now a.latchMode ch (c2 - 1) hp
  · exact hp

theorem scan_keeps (sw : Nat → Bool) (now : Nat) (ch : Nat) (toks : List (List Char))
    (a : MonitorScan) (hp : FreshlySeeded a.hub sw now ch) :
    FreshlySeeded (toks.foldl (monitorToken sw now) a).hub sw now ch := by
  induction toks generalizing a with
  | nil => exact hp
  | cons t ts ih => exact ih _ (monitorToken_keeps sw now ch a t hp)

theorem monitorToken_fresh_or_same (s : Hub) (sw : Nat → Bool) (now : Nat) (ch : Nat)
    (a : MonitorScan) (t : List Char)
    (hj : FreshlySeeded a.hub sw now ch ∨
      (a.hub.monNormal ch = s.monNormal ch ∧ a.hub.monLatch ch = s.monLatch ch)) :
    FreshlySeeded (monitorToken sw now a t).hub sw now ch ∨
      ((monitorToken sw now a t).hub.monNormal ch = s.monNormal ch ∧
        (monitorToken sw now a t).hub.monLatch ch = s.monLatch ch) := by
  rcases hj with hp | hsame
  · exact Or.inl (monitorToken_keeps sw now ch a t hp)
  · rw [monitorToken_hub]
    split_ifs
    · cases parsePureInt t with
      | none => exact Or.inr hsame
      | some c2 =>
        simp only []
        by_cases hc : ch = c2 - 1
        · subst hc
          rcases classifyChannel_same a.hub sw now a.latchMode (c2 - 1) with h1 | ⟨_, h2, h3⟩
          · exact Or.inl h1
          · right
            rw [h2, h3]
            exact hsame
        · obtain ⟨g1, g2, _⟩ := classifyChannel_other a.hub sw now a.latchMode (c2 - 1) ch hc
          right
          rw [g1, g2]
          exact hsame
    · exact Or.inr hsame

theorem scan_fresh_or_same (s : Hub) (sw : Nat → Bool) (now : Nat) (ch : Nat)
    (toks : List (List Char)) (a : MonitorScan)
    (hj : FreshlySeeded a.hub sw now ch ∨
      (a.hub.monNormal ch = s.monNormal ch ∧ a.hub.monLatch ch = s.monLatch ch)) :
    FreshlySeeded (toks.foldl (monitorToken sw now) a).hub sw now ch ∨
      ((toks.foldl (monitorToken sw now) a).hub.monNormal ch = s.monNormal ch ∧
        (toks.foldl (monitorToken sw now) a).hub.monLatch ch = s.monLatch ch) := by
  induction toks generalizing a with
  | nil => exact hj
  | cons t ts ih => exact ih _ (monitorToken_fresh_or_same s sw now ch a t hj)

theorem isCountPos_take (toks : List (List Char)) (t : List Char) (i : Nat)
    (hi : i < toks.length) :
    isCountPos (toks.take i ++ [t]) (toks.take i).length = isCountPos toks i := by
  have hl : (toks.take i).length = i := by simp; omega
  rw [hl]
  cases i with
  | zero => rfl
  | succ j =>
    simp only [isCountPos]
    rw [List.getElem?_append_left (by rw [hl]; omega), List.getElem?_take]
    simp

/-- The token loop of `parseMonitorPayload` leaves a reclassified channel freshly seeded. -/
theorem scan_reclassified (s : Hub) (sw : Nat → Bool) (now : Nat) (toks : List (List Char))
    (c i : Nat) (hn : namesChannel toks i c)
    (hre : (s.monNormal (c - 1) = true ∧ classAfter (toks.take i) = true) ∨
      (s.monLatch (c - 1) = true ∧ classAfter (toks.take i) = false)) :
    FreshlySeeded (toks.foldl (monitorToken sw now)
      { hub := s, latchMode := false, skipCount := false }).hub sw now (c - 1) := by
  obtain ⟨t, ht, hkw, hcount, hp⟩ := (namesChannel_iff toks i c).1 hn
  have hi := namesChannel_lt_length toks i c hn
  have hsplit : toks = toks.take i ++ t :: toks.drop (i + 1) := by
    have h1 : toks[i] = t := by
      rw [List.getElem?_eq_getElem hi] at ht
      exact Option.some.inj ht
    rw [← h1, List.getElem_cons_drop toks i hi, List.take_append_drop]
  have hfold : toks.foldl (monitorToken sw now)
      { hub := s, latchMode := false, skipCount := false } =
      (toks.drop (i + 1)).foldl (monitorToken sw now)
        (monitorToken sw now ((toks.take i).foldl (monitorToken sw now)
          { hub := s, latchMode := false, skipCount := false }) t) := by
    conv_lhs => rw [hsplit]
    rw [List.foldl_append, List.foldl_cons]
  rw [hfold]
  apply scan_keeps
  have hskip := scan_skipCount sw now (toks.take i) s t
  rw [isCountPos_take toks t i hi, hcount] at hskip
  have hmode : ((toks.take i).foldl (monitorToken sw now)
      { hub := s, latchMode := false, skipCount := false }).latchMode
        = classAfter (toks.take i) := scan_latchMode sw now (toks.take i) _
  have hj := scan_fresh_or_same s sw now (c - 1) (toks.take i)
    { hub := s, latchMode := false, skipCount := false } (Or.inr ⟨rfl, rfl⟩)
  rw [monitorToken_hub, if_pos ⟨hkw, hskip⟩, hp]
  simp only []
  rcases hj with hfresh | ⟨hN, hL⟩
  · exact classifyChannel_keeps _ sw now _ (c - 1) (c - 1) hfresh
  · apply classifyChannel_establishes
    rw [hmode, hN, hL]
    rcases hre with ⟨h1, h2⟩ | ⟨h1, h2⟩
    · exact Or.inl ⟨h2, h1⟩
    · exact Or.inr ⟨h2, h1⟩

/-- C5 (reclassification), amended. The parser reads the tokens `toks` of the first 199 bytes
of the payload. If channel `c` is normal and a token names it under LATCH / CONTACTLESS, or is
latch and a token names it under NORMAL, then after `parseMonitorPayload` the channel is not
latched, not ignored, its debouncer is reseeded from the raw level (`rawPrev = lastPressed =
raw`, `rawChangedAt = now`) and its LED is on. -/
theorem C5_reclassification (s : Hub) (sw : Nat → Bool) (now : Nat) (data : List Char)
    (toks : List (List Char)) (c i : Nat)
    (htok : monitorTokens (cstr (data.take 199)) = some toks)
    (hn : namesChannel toks i c)
    (hre : (s.monNormal (c - 1) = true ∧ classAfter (toks.take i) = true) ∨
      (s.monLatch (c - 1) = true ∧ classAfter (toks.take i) = false)) :
    (parseMonitorPayload s sw now data).latched (c - 1) = false ∧
    (parseMonitorPayload s sw now data).ignoredCh (c - 1) = false ∧
    (parseMonitorPayload s sw now data).rawPrev (c - 1) = isPressedRaw sw (c - 1) ∧
    (parseMonitorPayload s sw now data).lastPressed (c - 1) = isPressedRaw sw (c - 1) ∧
    (parseMonitorPayload s sw now data).rawChangedAt (c - 1) = now ∧
    (parseMonitorPayload s sw now data).ledState (c - 1) = true := by
  have h := scan_reclassified s sw now toks c i hn hre
  rw [parseMonitorPayload_eq s sw now data toks htok]
  split_ifs <;> exact h

/-- Witness of C5: channel 3 is normal and `MONITOR NORMAL 2 1,2 LATCH 1 3 <MAC>` names it
under LATCH. -/
theorem C5_reclassification_witness :
    (parseMonitorPayload normalHub pressed25 500 demoPayload).latched 2 = false ∧
    (parseMonitorPayload normalHub pressed25 500 demoPayload).ignoredCh 2 = false ∧
    (parseMonitorPayload normalHub pressed25 500 demoPayload).rawPrev 2
      = isPressedRaw pressed25 2 ∧
    (parseMonitorPayload normalHub pressed25 500 demoPayload).lastPressed 2
      = isPressedRaw pressed25 2 ∧
    (parseMonitorPayload normalHub pressed25 500 demoPayload).rawChangedAt 2 = 500 ∧
    (parseMonitorPayload normalHub pressed25 500 demoPayload).ledState 2 = true :=
  C5_reclassification normalHub pressed25 500 demoPayload _ 3 6 rfl (by decide)
    (Or.inl ⟨by decide, by decide⟩)

/-- Counterexample to C5 as stated: channel 25 is normal and the 203-byte payload
`longPayload` names it under LATCH in its last token, beyond the 199 bytes the parser reads;
the channel stays normal and its debouncer is not reseeded. -/
theorem C5_counterexample :
    normalHub.monNormal 24 = true ∧
    (∃ toks, monitorTokens longPayload = some toks ∧
      namesChannel toks 68 25 ∧ classAfter (toks.take 68) = true) ∧
    (parseMonitorPayload normalHub pressed25 500 longPayload).monLatch 24 = false ∧
    (parseMonitorPayload normalHub pressed25 500 longPayload).rawChangedAt 24 ≠ 500 ∧
    (parseMonitorPayload normalHub pressed25 500 longPayload).rawPrev 24
      ≠ isPressedRaw pressed25 24 := by
  refine ⟨by decide, ⟨_, rfl, by decide, by decide⟩, by decide, by decide, by decide⟩

theorem char_of_toNat_range (c : Char) (lo hi : Nat) (h1 : lo ≤ c.toNat) (h2 : c.toNat ≤ hi) :
    ∃ n, lo ≤ n ∧ n ≤ hi ∧ c = Char.ofNat n :=
  ⟨c.toNat, h1, h2, (Char.ofNat_toNat c).symm⟩

theorem isdigit_cases (c : Char) (h : isdigit c = true) :
    ∃ n, 48 ≤ n ∧ n ≤ 57 ∧ c = Char.ofNat n := by
  unfold isdigit at h
  simp only [Bool.and_eq_true, decide_eq_true_eq] at h
  apply char_of_toNat_range
  · have := h.1
    rw [Char.le_def] at this
    exact this
  · have := h.2
    rw [Char.le_def] at this
    exact this

theorem isdigit_props (c : Char) (h : isdigit c = true) :
    c ∉ monitorDelims ∧ c.toUpper = c ∧ (c != NUL) = true := by
  obtain ⟨n, h1, h2, rfl⟩ := isdigit_cases c h
  interval_cases n <;> decide

theorem digitChar_isdigit (d : Nat) (h : d < 10) : isdigit (Nat.digitChar d) = true := by
  interval_cases d <;> decide

theorem toDigitsCore_isdigit (fuel n : Nat) (ds : List Char)
    (hds : ∀ c ∈ ds, isdigit c = true) :
    ∀ c ∈ Nat.toDigitsCore 10 fuel n ds, isdigit c = true := by
  induction fuel generalizing n ds with
  | zero => simpa [Nat.toDigitsCore] using hds
  | succ f ih =>
    unfold Nat.toDigitsCore
    have hd : ∀ c ∈ Nat.digitChar (n % 10) :: ds, isdigit c = true := by
      intro c hc
      rcases List.mem_cons.1 hc with h | h
      · rw [h]; exact digitChar_isdigit _ (Nat.mod_lt _ (by decide))
      · exact hds c h
    simp only []
    split_ifs
    · exact hd
    · exact ih _ _ hd

theorem toDigitsCore_ne_nil (fuel n : Nat) (ds : List Char) (h : ds ≠ [] ∨ 0 < fuel) :
    Nat.toDigitsCore 10 fuel n ds ≠ [] := by
  induction fuel generalizing n ds with
  | zero =>
    rcases h with h | h
    · simpa [Nat.toDigitsCore] using h
    · omega
  | succ f ih =>
    unfold Nat.toDigitsCore
    simp only []
    split_ifs
    · simp
    · exact ih _ _ (Or.inl (by simp))

theorem fmtDec_isdigit (n : Nat) : ∀ c ∈ fmtDec n, isdigit c = true :=
  toDigitsCore_isdigit (n + 1) n [] (by simp)

theorem fmtDec_ne_nil (n : Nat) : fmtDec n ≠ [] :=
  toDigitsCore_ne_nil (n + 1) n [] (Or.inr (by omega))

/-! ### Tokenizer lemmas -/

theorem strtokAux_word (d : List Char) (w rest cur : List Char) (hw : ∀ c ∈ w, c ∉ d) :
    strtokAux d (w ++ rest) cur = strtokAux d rest (cur ++ w) := by
  induction w generalizing cur with
  | nil => simp
  | cons c cs ih =>
    have hc : c ∉ d := hw c (List.mem_cons_self _ _)
    have ih2 := ih (cur ++ [c]) (fun x hx => hw x (List.mem_cons_of_mem _ hx))
    rw [List.append_assoc] at ih2
    simp only [List.cons_append, strtokAux, if_neg hc]
    exact ih2

theorem strtokAux_delim_nil (d : List Char) (c : Char) (rest : List Char) (hc : c ∈ d) :
    strtokAux d (c :: rest) [] = strtokAux d rest [] := by
  simp [strtokAux, hc]

theorem strtokAux_word_delim (d : List Char) (w : List Char) (c : Char) (rest : List Char)
    (hw : ∀ x ∈ w, x ∉ d) (hne : w ≠ []) (hc : c ∈ d) :
    strtokAux d (w ++ c :: rest) [] = w :: strtokAux d rest [] := by
  rw [strtokAux_word d w _ [] hw]
  simp [strtokAux, hc, hne]

theorem strtokAux_word_end (d : List Char) (w : List Char)
    (hw : ∀ x ∈ w, x ∉ d) (hne : w ≠ []) :
    strtokAux d w [] = [w] := by
  have := strtokAux_word d w [] [] hw
  rw [List.append_nil] at this
  rw [this]
  simp [strtokAux, hne]

theorem fmtDec_clean (n : Nat) : ∀ x ∈ fmtDec n, x ∉ monitorDelims :=
  fun x hx => (isdigit_props x (fmtDec_isdigit n x hx)).1

theorem strtokAux_csv (l : List Nat) (c : Char) (rest : List Char) (hc : c ∈ monitorDelims) :
    strtokAux monitorDelims (csvList l ++ c :: rest) [] =
      l.map fmtDec ++ strtokAux monitorDelims rest [] := by
  induction l with
  | nil => simp [csvList, strtokAux_delim_nil monitorDelims c rest hc]
  | cons a l ih =>
    cases l with
    | nil =>
      simp only [csvList, List.map_cons, List.map_nil, List.cons_append, List.nil_append]
      exact strtokAux_word_delim monitorDelims _ c rest (fmtDec_clean a) (fmtDec_ne_nil a) hc
    | cons b l2 =>
      simp only [csvList, List.map_cons, List.cons_append, List.append_assoc]
      rw [strtokAux_word_delim monitorDelims _ ',' _ (fmtDec_clean a) (fmtDec_ne_nil a)
        (by decide)]
      simp only [csvList, List.map_cons, List.cons_append] at ih
      rw [ih]

theorem map_toUpper_digits (w : List Char) (hw : ∀ c ∈ w, isdigit c = true) :
    w.map Char.toUpper = w := by
  induction w with
  | nil => rfl
  | cons c cs ih =>
    simp only [List.map_cons]
    rw [(isdigit_props c (hw c (List.mem_cons_self _ _))).2.1,
      ih (fun x hx => hw x (List.mem_cons_of_mem _ hx))]

theorem map_toUpper_csv (l : List Nat) : (csvList l).map Char.toUpper = csvList l := by
  induction l with
  | nil => rfl
  | cons a l ih =>
    cases l with
    | nil => exact map_toUpper_digits _ (fmtDec_isdigit a)
    | cons b l2 =>
      simp only [csvList, List.map_append, List.map_cons]
      rw [map_toUpper_digits _ (fmtDec_isdigit a), ih]
      rfl

theorem csv_noNul (l : List Nat) : ∀ c ∈ csvList l, (c != NUL) = true := by
  induction l with
  | nil => simp [csvList]
  | cons a l ih =>
    cases l with
    | nil =>
      intro c hc
      exact (isdigit_props c (fmtDec_isdigit a c hc)).2.2
    | cons b l2 =>
      intro c hc
      simp only [csvList, List.mem_append, List.mem_cons] at hc
      rcases hc with h | h | h
      · exact (isdigit_props c (fmtDec_isdigit a c h)).2.2
      · rw [h]; decide
      · exact ih c h

/-! ### MAC tokens -/

theorem isHexChar_cases (c : Char) (h : isHexChar c = true) :
    (∃ n, 48 ≤ n ∧ n ≤ 57 ∧ c = Char.ofNat n) ∨ (∃ n, 65 ≤ n ∧ n ≤ 70 ∧ c = Char.ofNat n) ∨
      (∃ n, 97 ≤ n ∧ n ≤ 102 ∧ c = Char.ofNat n) := by
  unfold isHexChar at h
  simp only [Bool.or_eq_true, Bool.and_eq_true, decide_eq_true_eq, Char.le_def] at h
  rcases h with (h | h) | h
  · exact Or.inl (char_of_toNat_range c _ _ h.1 h.2)
  · exact Or.inr (Or.inl (char_of_toNat_range c _ _ h.1 h.2))
  · exact Or.inr (Or.inr (char_of_toNat_range c _ _ h.1 h.2))

theorem macChar_props (c : Char) (h : isHexChar c = true ∨ c = ':') :
    c ∉ monitorDelims ∧ (c != NUL) = true ∧ c.toUpper ∉ monitorDelims ∧
      (isHexChar c = true → isHexChar c.toUpper = true) ∧ (c = ':' → c.toUpper = ':') := by
  rcases h with h | h
  · rcases isHexChar_cases c h with ⟨n, h1, h2, rfl⟩ | ⟨n, h1, h2, rfl⟩ | ⟨n, h1, h2, rfl⟩ <;>
      interval_cases n <;> decide
  · subst h
    decide

theorem macCharsFrom_mem (l : List Char) (i : Nat) (h : macCharsFrom i l = true) :
    ∀ c ∈ l, isHexChar c = true ∨ c = ':' := by
  induction l generalizing i with
  | nil => simp
  | cons a l ih =>
    simp only [macCharsFrom, Bool.and_eq_true] at h
    intro c hc
    rcases List.mem_cons.1 hc with hca | hcl
    · subst hca
      by_cases hi : i % 3 = 2
      · rw [if_pos hi] at h
        exact Or.inr (by simpa using h.1)
      · rw [if_neg hi] at h
        exact Or.inl h.1
    · exact ih (i + 1) h.2 c hcl

theorem macCharsFrom_upper (l : List Char) (i : Nat) (h : macCharsFrom i l = true) :
    macCharsFrom i (l.map Char.toUpper) = true := by
  induction l generalizing i with
  | nil => rfl
  | cons a l ih =>
    simp only [macCharsFrom, Bool.and_eq_true, List.map_cons] at h ⊢
    refine ⟨?_, ih (i + 1) h.2⟩
    by_cases hi : i % 3 = 2
    · rw [if_pos hi] at h ⊢
      have ha : a = ':' := by simpa using h.1
      rw [(macChar_props a (Or.inr ha)).2.2.2.2 ha]
      rfl
    · rw [if_neg hi] at h ⊢
      exact (macChar_props a (Or.inl h.1)).2.2.2.1 h.1

theorem isMacToken_upper (mac : List Char) (h : isMacToken mac = true) :
    isMacToken (mac.map Char.toUpper) = true := by
  unfold isMacToken at h ⊢
  simp only [Bool.and_eq_true, beq_iff_eq, List.length_map] at h ⊢
  exact ⟨h.1, macCharsFrom_upper mac 0 h.2⟩

theorem isMacToken_chars (mac : List Char) (h : isMacToken mac = true) :
    ∀ c ∈ mac, isHexChar c = true ∨ c = ':' := by
  unfold isMacToken at h
  simp only [Bool.and_eq_true, beq_iff_eq] at h
  exact macCharsFrom_mem mac 0 h.2

theorem isMacToken_ne_nil (mac : List Char) (h : isMacToken mac = true) : mac ≠ [] := by
  unfold isMacToken at h
  simp only [Bool.and_eq_true, beq_iff_eq] at h
  intro hn
  rw [hn] at h
  simp at h

/-! ### Tokens of the two payload forms -/

theorem cstr_of_noNul (l : List Char) (h : ∀ c ∈ l, (c != NUL) = true) : cstr l = l := by
  unfold cstr
  exact List.takeWhile_eq_self_iff.2 h

theorem strstr_MONITOR (rest : List Char) :
    strstr (kwMONITOR ++ rest) kwMONITOR = some (kwMONITOR ++ rest) := by
  simp [kwMONITOR, strstr, startsWith]

theorem flatForm_tokens (A B : List Nat) (mac : List Char) (hmac : isMacToken mac = true) :
    monitorTokens (flatForm A B mac) =
      some (kwNORMAL :: fmtDec A.length :: (A.map fmtDec ++
        (kwLATCH :: fmtDec B.length :: (B.map fmtDec ++ [mac.map Char.toUpper])))) := by
  have e1 : "MONITOR NORMAL ".toList = kwMONITOR ++ (' ' :: (kwNORMAL ++ [' '])) := by decide
  have e2 : " LATCH ".toList = ' ' :: (kwLATCH ++ [' ']) := by decide
  have hU : ∀ x ∈ mac.map Char.toUpper, x ∉ monitorDelims := by
    intro x hx
    obtain ⟨c, hc, rfl⟩ := List.mem_map.1 hx
    exact (macChar_props c (isMacToken_chars mac hmac c hc)).2.2.1
  have hUne : mac.map Char.toUpper ≠ [] := by
    simpa using isMacToken_ne_nil mac hmac
  unfold monitorTokens flatForm
  rw [e1, e2, List.append_assoc, strstr_MONITOR]
  simp only [kwMONITOR, List.cons_append, List.nil_append, List.drop_succ_cons, List.drop_zero,
    List.append_assoc]
  have hdw : ∀ r : List Char, List.dropWhile (fun c => c == ' ') (' ' :: (kwNORMAL ++ r))
      = kwNORMAL ++ r := by
    intro r
    simp [kwNORMAL, List.dropWhile]
  rw [hdw]
  simp only [List.map_append, List.map_cons, map_toUpper_digits _ (fmtDec_isdigit _),
    map_toUpper_csv]
  have u1 : kwNORMAL.map Char.toUpper = kwNORMAL := by decide
  have u2 : kwLATCH.map Char.toUpper = kwLATCH := by decide
  have u3 : Char.toUpper ' ' = ' ' := by decide
  rw [u1, u2, u3]
  unfold strtok
  rw [strtokAux_word_delim monitorDelims kwNORMAL ' ' _ (by decide) (by decide) (by decide),
    strtokAux_word_delim monitorDelims _ ' ' _ (fmtDec_clean _) (fmtDec_ne_nil _) (by decide),
    strtokAux_csv A ' ' _ (by decide),
    strtokAux_word_delim monitorDelims kwLATCH ' ' _ (by decide) (by decide) (by decide),
    strtokAux_word_delim monitorDelims _ ' ' _ (fmtDec_clean _) (fmtDec_ne_nil _) (by decide),
    strtokAux_csv B ' ' _ (by decide),
    strtokAux_word_end monitorDelims _ hU hUne]

theorem bracketForm_tokens (A B : List Nat) :
    monitorTokens (bracketForm A B) =
      some (kwNORMAL :: fmtDec A.length :: (A.map fmtDec ++
        (kwCONTACTLESS :: fmtDec B.length :: B.map fmtDec))) := by
  have e1 : "MONITOR normal(".toList
      = kwMONITOR ++ (' ' :: ("normal".toList ++ ['('])) := by decide
  have e2 : "] contactless(".toList = ']' :: ' ' :: ("contactless".toList ++ ['(']) := by decide
  have e3 : ")=[".toList = [')', '=', '['] := by decide
  unfold monitorTokens bracketForm
  rw [e1, e2, e3, List.append_assoc, strstr_MONITOR]
  simp only [kwMONITOR, List.cons_append, List.nil_append, List.drop_succ_cons, List.drop_zero,
    List.append_assoc]
  have hdw : ∀ r : List Char,
      List.dropWhile (fun c => c == ' ') (' ' :: ("normal".toList ++ r))
        = "normal".toList ++ r := by
    intro r
    have : "normal".toList = ['n', 'o', 'r', 'm', 'a', 'l'] := by decide
    rw [this]
    simp [List.dropWhile]
  rw [hdw]
  simp only [List.map_append, List.map_cons, map_toUpper_digits _ (fmtDec_isdigit _),
    map_toUpper_csv, List.map_nil]
  have u1 : "normal".toList.map Char.toUpper = kwNORMAL := by decide
  have u2 : "contactless".toList.map Char.toUpper = kwCONTACTLESS := by decide
  have u3 : Char.toUpper ' ' = ' ' := by decide
  have u4 : Char.toUpper '(' = '(' := by decide
  have u5 : Char.toUpper ')' = ')' := by decide
  have u6 : Char.toUpper '=' = '=' := by decide
  have u7 : Char.toUpper '[' = '[' := by decide
  have u8 : Char.toUpper ']' = ']' := by decide
  rw [u1, u2, u3, u4, u5, u6, u7, u8]
  unfold strtok
  rw [strtokAux_word_delim monitorDelims kwNORMAL '(' _ (by decide) (by decide) (by decide),
    strtokAux_word_delim monitorDelims _ ')' _ (fmtDec_clean _) (fmtDec_ne_nil _) (by decide),
    strtokAux_delim_nil monitorDelims '=' _ (by decide),
    strtokAux_delim_nil monitorDelims '[' _ (by decide),
    strtokAux_csv A ']' _ (by decide),
    strtokAux_delim_nil monitorDelims ' ' _ (by decide),
    strtokAux_word_delim monitorDelims kwCONTACTLESS '(' _ (by decide) (by decide) (by decide),
    strtokAux_word_delim monitorDelims _ ')' _ (fmtDec_clean _) (fmtDec_ne_nil _) (by decide),
    strtokAux_delim_nil monitorDelims '=' _ (by decide),
    strtokAux_delim_nil monitorDelims '[' _ (by decide),
    strtokAux_csv B ']' _ (by decide)]
  simp [strtokAux]

theorem flatForm_noNul (A B : List Nat) (mac : List Char) (hmac : isMacToken mac = true) :
    ∀ c ∈ flatForm A B mac, (c != NUL) = true := by
  intro c hc
  unfold flatForm at hc
  simp only [List.mem_append, List.mem_cons] at hc
  rcases hc with h | h | h | h | h | h | h | h | h | h
  · revert c; decide
  · exact (isdigit_props c (fmtDec_isdigit _ c h)).2.2
  · rw [h]; decide
  · exact csv_noNul A c h
  · revert c; decide
  · exact (isdigit_props c (fmtDec_isdigit _ c h)).2.2
  · rw [h]; decide
  · exact csv_noNul B c h
  · rw [h]; decide
  · exact (macChar_props c (isMacToken_chars mac hmac c h)).2.1

theorem bracketForm_noNul (A B : List Nat) : ∀ c ∈ bracketForm A B, (c != NUL) = true := by
  intro c hc
  unfold bracketForm at hc
  simp only [List.mem_append, List.mem_cons, List.mem_singleton] at hc
  rcases hc with h | h | h | h | h | h | h | h | h
  · revert c; decide
  · exact (isdigit_props c (fmtDec_isdigit _ c h)).2.2
  · revert c; decide
  · exact csv_noNul A c h
  · revert c; decide
  · exact (isdigit_props c (fmtDec_isdigit _ c h)).2.2
  · revert c; decide
  · exact csv_noNul B c h
  · rcases h with h | h
    · rw [h]; decide
    · exact absurd h (List.not_mem_nil c)

theorem monitorToken_LATCH_CONTACTLESS (sw : Nat → Bool) (now : Nat) (a : MonitorScan) :
    monitorToken sw now a kwLATCH = monitorToken sw now a kwCONTACTLESS := by
  have h1 : kwLATCH ≠ kwNORMAL := by decide
  have h2 : kwCONTACTLESS ≠ kwNORMAL := by decide
  unfold monitorToken
  simp [h1, h2]

/-- C4 (flat and bracketed MONITOR forms), amended: for all channel lists `A`, `B` and every
MAC token, when both forms of the payload are at most 199 bytes long (the size of the
parser's buffer), `parseMonitorPayload` produces the same Hub state, and so the same channel
model, from the flat form and from the bracketed form. -/
theorem C4_flat_bracket_equiv (s : Hub) (sw : Nat → Bool) (now : Nat) (A B : List Nat)
    (mac : List Char) (hmac : isMacToken mac = true)
    (hflat : (flatForm A B mac).length ≤ 199) (hbr : (bracketForm A B).length ≤ 199) :
    parseMonitorPayload s sw now (flatForm A B mac)
      = parseMonitorPayload s sw now (bracketForm A B) := by
  have t1 : monitorTokens (cstr ((flatForm A B mac).take 199)) =
      some (kwNORMAL :: fmtDec A.length :: (A.map fmtDec ++
        (kwLATCH :: fmtDec B.length :: (B.map fmtDec ++ [mac.map Char.toUpper])))) := by
    rw [List.take_of_length_le hflat, cstr_of_noNul _ (flatForm_noNul A B mac hmac)]
    exact flatForm_tokens A B mac hmac
  have t2 : monitorTokens (cstr ((bracketForm A B).take 199)) =
      some (kwNORMAL :: fmtDec A.length :: (A.map fmtDec ++
        (kwCONTACTLESS :: fmtDec B.length :: B.map fmtDec))) := by
    rw [List.take_of_length_le hbr, cstr_of_noNul _ (bracketForm_noNul A B)]
    exact bracketForm_tokens A B
  rw [parseMonitorPayload_eq s sw now _ _ t1, parseMonitorPayload_eq s sw now _ _ t2]
  have hfold :
      ((kwNORMAL :: fmtDec A.length :: (A.map fmtDec ++
          (kwLATCH :: fmtDec B.length :: (B.map fmtDec ++ [mac.map Char.toUpper])))).foldl
        (monitorToken sw now) { hub := s, latchMode := false, skipCount := false }).hub
      = ((kwNORMAL :: fmtDec A.length :: (A.map fmtDec ++
          (kwCONTACTLESS :: fmtDec B.length :: B.map fmtDec))).foldl
        (monitorToken sw now) { hub := s, latchMode := false, skipCount := false }).hub := by
    simp only [List.foldl_cons, List.foldl_append, List.foldl_nil]
    rw [monitorToken_hub, monitorToken_LATCH_CONTACTLESS,
      parsePureInt_mac _ (isMacToken_upper mac hmac)]
    simp
  rw [hfold]

/-- Witness of C4: `MONITOR NORMAL 2 1,2 LATCH 1 3 <MAC>` and
`MONITOR normal(2)=[1,2] contactless(1)=[3]`. -/
theorem C4_flat_bracket_equiv_witness :
    flatForm [1, 2] [3] "AA:BB:CC:DD:EE:01".toList
      = "MONITOR NORMAL 2 1,2 LATCH 1 3 AA:BB:CC:DD:EE:01".toList ∧
    bracketForm [1, 2] [3] = "MONITOR normal(2)=[1,2] contactless(1)=[3]".toList ∧
    parseMonitorPayload idleHub (fun _ => true) 0 (flatForm [1, 2] [3] "AA:BB:CC:DD:EE:01".toList)
      = parseMonitorPayload idleHub (fun _ => true) 0 (bracketForm [1, 2] [3]) :=
  ⟨by decide, by decide,
    C4_flat_bracket_equiv idleHub (fun _ => true) 0 [1, 2] [3] "AA:BB:CC:DD:EE:01".toList
      (by decide) (by decide) (by decide)⟩

/-- Counterexample to C4 as stated: with `A` = 1..40 and `B` = 10..29 the flat form is 215
bytes long and the bracketed form 209; the flat form is cut inside its MAC token and makes
channel 29 a latch channel, the bracketed form is cut inside `B` and leaves channel 29
normal. -/
theorem C4_counterexample :
    flatForm (List.range' 1 40) (List.range' 10 20) "AA:BB:CC:DD:EE:01".toList
      = "MONITOR NORMAL 40 1,2,3,4,5,6,7,8,9,10,11,12,13,14,15,16,17,18,19,20,21,22,23,24,25,26,27,28,29,30,31,32,33,34,35,36,37,38,39,40 LATCH 20 10,11,12,13,14,15,16,17,18,19,20,21,22,23,24,25,26,27,28,29 AA:BB:CC:DD:EE:01".toList ∧
    bracketForm (List.range' 1 40) (List.range' 10 20)
      = "MONITOR normal(40)=[1,2,3,4,5,6,7,8,9,10,11,12,13,14,15,16,17,18,19,20,21,22,23,24,25,26,27,28,29,30,31,32,33,34,35,36,37,38,39,40] contactless(20)=[10,11,12,13,14,15,16,17,18,19,20,21,22,23,24,25,26,27,28,29]".toList ∧
    (parseMonitorPayload idleHub (fun _ => true) 0
      (flatForm (List.range' 1 40) (List.range' 10 20) "AA:BB:CC:DD:EE:01".toList)).monLatch 28
        = true ∧
    (parseMonitorPayload idleHub (fun _ => true) 0
      (bracketForm (List.range' 1 40) (List.range' 10 20))).monLatch 28 = false := by
  refine ⟨by decide, by decide, by decide, by decide⟩

/-! ## Frame lemmas: what the radio, LED and streaming code leaves alone -/

theorem foldl_chanCore {β : Type} (f : Hub → β → Hub) (l : List β) (s : Hub)
    (hf : ∀ a x, chanCore (f a x) = chanCore a) : chanCore (l.foldl f s) = chanCore s := by
  induction l generalizing s with
  | nil => rfl
  | cons x xs ih =>
    simp only [List.foldl_cons]
    rw [ih, hf]

theorem setLed_core (s : Hub) (ch : Nat) (v : Bool) : chanCore (setLed s ch v) = chanCore s := by
  rw [setLed_eq]; rfl

theorem allLeds_core (s : Hub) (v : Bool) : chanCore (allLeds s v) = chanCore s :=
  foldl_chanCore _ _ _ (fun a x => setLed_core a x v)

theorem espNowSend_core (s : Hub) (d : Mac) (t : List Char) :
    chanCore (espNowSend s d t) = chanCore s := rfl

theorem sendCmdRaw_core (s : Hub) (e : Env) (msg : List Char) (dest : Option Mac) :
    chanCore (sendCmdRaw s e msg dest) = chanCore s := by
  unfold sendCmdRaw
  split
  · rfl
  · split_ifs <;> rfl

theorem serviceAckTx_core (s : Hub) (e : Env) : chanCore (serviceAckTx s e) = chanCore s := by
  unfold serviceAckTx
  simp only []
  split_ifs <;> rfl

theorem sendCmd_core (s : Hub) (e : Env) (msg : List Char) (dest : Option Mac) :
    chanCore (sendCmd s e msg dest) = chanCore s := by
  unfold sendCmd
  split
  · rfl
  · split_ifs
    · exact sendCmdRaw_core _ _ _ _
    · simp only []
      rw [serviceAckTx_core]
      rfl

theorem sendEvent_core (s : Hub) (e : Env) (k : EvKind) (ch : Nat) (v : Bool) :
    chanCore (sendEvent s e k ch v) = chanCore s := by
  unfold sendEvent
  cases k <;> simp only [] <;> split_ifs <;>
    first
    | rfl
    | (split <;> first | rfl | exact (sendCmdRaw_core _ _ _ _).trans rfl)

theorem startStreaming_core (s : Hub) (r : Bool) : chanCore (startStreaming s r) = chanCore s := by
  unfold startStreaming
  simp only []
  split_ifs <;> rfl

theorem stopStreaming_core (s : Hub) : chanCore (stopStreaming s) = chanCore s := rfl

theorem resetBuffers_core (s : Hub) : chanCore (resetBuffers s) = chanCore s := rfl

theorem trimBuffers_core (s : Hub) : chanCore (trimBuffers s) = chanCore s := rfl

theorem enqueuePending_core (s : Hub) (k : PendingKind) (n : Int) :
    chanCore (enqueuePending s k n) = chanCore s := rfl

theorem replyRaw_core (s : Hub) (e : Env) (msg : List Char) :
    chanCore (replyRaw s e msg) = chanCore s := by
  unfold replyRaw
  split
  · exact sendCmdRaw_core _ _ _ _
  · rfl

theorem replyReliable_core (s : Hub) (e : Env) (msg : List Char) :
    chanCore (replyReliable s e msg) = chanCore s := by
  unfold replyReliable
  split
  · exact sendCmd_core _ _ _ _
  · rfl

theorem checkAllEval_core (r : Bool) (p : Nat → Bool) (a : CheckScan) (ch : Nat) :
    chanCore (checkAllEval r p a ch).hub = chanCore a.hub := by
  unfold checkAllEval
  simp only [setLed_eq]
  split_ifs <;> rfl

theorem monitorLed_core (f : Bool) (p : Nat → Bool) (s : Hub) (ch : Nat) :
    chanCore (monitorLed f p s ch) = chanCore s := by
  unfold monitorLed
  simp only [setLed_eq]
  split_ifs <;> rfl

theorem blinkRounds_core (es : Nat → Env) (n k : Nat) (s : Hub) :
    chanCore (blinkRounds es n k s) = chanCore s := by
  induction n generalizing k s with
  | zero => rfl
  | succ n ih =>
    simp only [blinkRounds]
    rw [ih, serviceAckTx_core, allLeds_core, serviceAckTx_core, allLeds_core]

theorem chaseRound_core (es : Nat → Env) (chs : List Nat) (k : Nat) (s : Hub) :
    chanCore (chaseRound es chs k s) = chanCore s := by
  induction chs generalizing k s with
  | nil => rfl
  | cons c cs ih =>
    simp only [chaseRound]
    rw [ih, serviceAckTx_core, setLed_core, serviceAckTx_core, setLed_core]

theorem chaseRounds_core (es : Nat → Env) (n k : Nat) (s : Hub) :
    chanCore (chaseRounds es n k s) = chanCore s := by
  induction n generalizing k s with
  | zero => rfl
  | succ n ih =>
    simp only [chaseRounds]
    rw [ih, chaseRound_core]

theorem baselineFrames_core (e : Env) (d : Mac) (s : Hub) (ch : Nat) :
    chanCore (baselineFrames e d s ch) = chanCore s := by
  unfold baselineFrames
  simp only []
  split_ifs <;>
    first
    | rfl
    | exact sendCmdRaw_core _ _ _ _
    | exact (sendCmdRaw_core _ _ _ _).trans (sendCmdRaw_core _ _ _ _)

theorem monitorBaseline_core (s : Hub) (e : Env) (pc : PendingCmd) :
    chanCore (monitorBaseline s e pc) = chanCore s := by
  unfold monitorBaseline
  simp only []
  split
  · exact startStreaming_core _ _
  · rw [foldl_chanCore, foldl_chanCore, sendCmdRaw_core, startStreaming_core]
    · exact baselineFrames_core e _
    · intro a x
      split_ifs <;> rfl

theorem triggerHello_core (s : Hub) : chanCore (triggerHello s) = chanCore s := rfl

theorem chanBits_of_core (s t : Hub) (h : chanCore t = chanCore s) (c : Nat) :
    chanBits t c = chanBits s c := by
  have h1 := congrArg ChanCore.monNormal h
  have h2 := congrArg ChanCore.monLatch h
  have h3 := congrArg ChanCore.latched h
  have h4 := congrArg ChanCore.ignoredCh h
  simp only [chanCore] at h1 h2 h3 h4
  simp only [chanBits, h1, h2, h3, h4]

theorem debouncedPressed_bits (s : Hub) (sw : Nat → Bool) (ch now c : Nat) :
    chanBits (debouncedPressed s sw ch now).1 c = chanBits s c := by
  unfold debouncedPressed
  simp only []
  split_ifs <;> rfl

theorem debouncedPressed_frame (s : Hub) (sw : Nat → Bool) (ch now : Nat) :
    (debouncedPressed s sw ch now).1.monNormal = s.monNormal ∧
    (debouncedPressed s sw ch now).1.monLatch = s.monLatch ∧
    (debouncedPressed s sw ch now).1.latched = s.latched ∧
    (debouncedPressed s sw ch now).1.ignoredCh = s.ignoredCh ∧
    (debouncedPressed s sw ch now).1.checkSelect = s.checkSelect ∧
    (debouncedPressed s sw ch now).1.checkActive = s.checkActive ∧
    (debouncedPressed s sw ch now).1.state = s.state ∧
    (debouncedPressed s sw ch now).1.needReleaseGate = s.needReleaseGate ∧
    (debouncedPressed s sw ch now).1.streamActive = s.streamActive := by
  unfold debouncedPressed
  simp only []
  split_ifs <;> exact ⟨rfl, rfl, rfl, rfl, rfl, rfl, rfl, rfl, rfl⟩

theorem classifyChannel_move (s : Hub) (sw : Nat → Bool) (now : Nat) (m : Bool) (ch c : Nat) :
    BitMove (chanBits s c) (chanBits (classifyChannel s sw now m ch) c) := by
  by_cases hc : c = ch
  · subst hc
    unfold BitMove chanBits
    cases hN : s.monNormal c <;> cases hL : s.monLatch c <;> cases m <;>
      simp [classifyChannel, clearAndReseed, reseed, setLed_eq, hN, hL, upd]
  · obtain ⟨g1, g2, g3, g4, _⟩ := classifyChannel_other s sw now m ch c hc
    left
    simp only [chanBits, g1, g2, g3, g4]

theorem classifyChannel_stable (Q : Nat → ChanBits → Prop) (hQ : Stable Q) (s : Hub)
    (sw : Nat → Bool) (now : Nat) (m : Bool) (ch : Nat) (h : ∀ c, Q c (chanBits s c)) :
    ∀ c, Q c (chanBits (classifyChannel s sw now m ch) c) :=
  fun c => hQ c _ _ (classifyChannel_move s sw now m ch c) (h c)

theorem monitorToken_stable (Q : Nat → ChanBits → Prop) (hQ : Stable Q) (sw : Nat → Bool) (now : Nat)
    (a : MonitorScan) (t : List Char) (h : ∀ c, Q c (chanBits a.hub c)) :
    ∀ c, Q c (chanBits (monitorToken sw now a t).hub c) := by
  rw [monitorToken_hub]
  split_ifs
  · cases parsePureInt t with
    | none => exact h
    | some c2 => exact classifyChannel_stable Q hQ a.hub sw now a.latchMode (c2 - 1) h
  · exact h

theorem scan_stable (Q : Nat → ChanBits → Prop) (hQ : Stable Q) (sw : Nat → Bool) (now : Nat)
    (toks : List (List Char)) (a : MonitorScan) (h : ∀ c, Q c (chanBits a.hub c)) :
    ∀ c, Q c (chanBits (toks.foldl (monitorToken sw now) a).hub c) := by
  induction toks generalizing a with
  | nil => exact h
  | cons t ts ih => exact ih _ (monitorToken_stable Q hQ sw now a t h)

theorem parseMonitorPayload_stable (Q : Nat → ChanBits → Prop) (hQ : Stable Q) (s : Hub)
    (sw : Nat → Bool) (now : Nat) (data : List Char) (h : ∀ c, Q c (chanBits s c)) :
    ∀ c, Q c (chanBits (parseMonitorPayload s sw now data) c) := by
  cases htok : monitorTokens (cstr (data.take 199)) with
  | none =>
    unfold parseMonitorPayload
    rw [htok]
    exact h
  | some toks =>
    rw [parseMonitorPayload_eq s sw now data toks htok]
    have := scan_stable Q hQ sw now toks { hub := s, latchMode := false, skipCount := false } h
    split_ifs
    · exact this
    · exact this

theorem emitLatched_core (s : Hub) (e : Env) (ch : Nat) :
    chanCore (emitLatched s e ch) = chanCore s := by
  unfold emitLatched
  exact sendEvent_core s e EvKind.L ch true

theorem emitPressed_core (s : Hub) (e : Env) (ch : Nat) (p : Bool) :
    chanCore (emitPressed s e ch p) = chanCore s := by
  unfold emitPressed
  exact sendEvent_core s e EvKind.P ch p

theorem core_ite (c : Prop) [Decidable c] (x y : Hub) (h : chanCore x = chanCore y) :
    chanCore (if c then x else y) = chanCore y := by
  split_ifs
  · exact h
  · rfl

theorem core_ite_congr (c : Prop) [Decidable c] (x y x2 y2 : Hub)
    (hx : chanCore x = chanCore x2) (hy : chanCore y = chanCore y2) :
    chanCore (if c then x else y) = chanCore (if c then x2 else y2) := by
  split_ifs
  · exact hx
  · exact hy

/-- The core of the Hub after the body of the first loop of `checkAll` for channel `ch`: the
debouncer call, then the latch stores when a latch channel has a pressed edge. -/
theorem checkAllSample_core (e : Env) (a : PressScan) (ch : Nat) :
    chanCore (checkAllSample e a ch).hub =
      chanCore (if ((debouncedPressed a.hub e.sw ch e.now).1.monLatch ch
          && (debouncedPressed a.hub e.sw ch e.now).2.2) = true
        then latchEdge (debouncedPressed a.hub e.sw ch e.now).1 ch
        else (debouncedPressed a.hub e.sw ch e.now).1) := by
  unfold checkAllSample
  simp only []
  generalize debouncedPressed a.hub e.sw ch e.now = r
  refine (core_ite _ _ _ (emitPressed_core _ _ _ _)).trans ?_
  exact core_ite_congr _ _ _ _ _ (core_ite _ _ _ (emitLatched_core _ _ _)) rfl

theorem checkAllSample_pressed (e : Env) (a : PressScan) (ch : Nat) :
    (checkAllSample e a ch).pressed = upd a.pressed ch (debouncedPressed a.hub e.sw ch e.now).2.1 :=
  rfl

/-- The core of the Hub after the body of the first loop of `doMonitoring` for channel `ch`. -/
theorem monitorSample_core (e : Env) (a : PressScan) (ch : Nat) :
    chanCore (monitorSample e a ch).hub =
      chanCore (if ((debouncedPressed a.hub e.sw ch e.now).1.monLatch ch
          && (debouncedPressed a.hub e.sw ch e.now).2.2) = true
        then latchEdge (debouncedPressed a.hub e.sw ch e.now).1 ch
        else (debouncedPressed a.hub e.sw ch e.now).1) := by
  unfold monitorSample
  simp only []
  generalize debouncedPressed a.hub e.sw ch e.now = r
  refine core_ite _ _ _ ?_
  refine (core_ite _ _ _ (emitPressed_core _ _ _ _)).trans ?_
  exact core_ite _ _ _ (emitLatched_core _ _ _)

theorem monitorSample_pressed (e : Env) (a : PressScan) (ch : Nat) :
    (monitorSample e a ch).pressed = upd a.pressed ch (debouncedPressed a.hub e.sw ch e.now).2.1 :=
  rfl

theorem Stable.latch {Q : Nat → ChanBits → Prop} (hQ : Stable Q) : LatchStable Q :=
  fun c b hb hq => hQ c b _ (Or.inr (Or.inr (Or.inr (Or.inr ⟨hb, rfl⟩)))) hq

theorem holdsAll_of_core (Q : Nat → ChanBits → Prop) (s t : Hub) (h : chanCore t = chanCore s)
    (hs : HoldsAll Q s) : HoldsAll Q t := by
  intro c
  rw [chanBits_of_core s t h c]
  exact hs c

theorem latchEdge_bits (s : Hub) (ch c : Nat) :
    chanBits (latchEdge s ch) c =
      (if c = ch then
        { normal := s.monNormal c, latch := s.monLatch c, latched := true, ignored := true }
       else chanBits s c) := by
  unfold chanBits latchEdge
  by_cases hc : c = ch
  · subst hc
    simp [upd]
  · simp [upd, hc]

theorem debouncedPressed_holds (Q : Nat → ChanBits → Prop) (s : Hub) (sw : Nat → Bool) (ch now : Nat)
    (hs : HoldsAll Q s) : HoldsAll Q (debouncedPressed s sw ch now).1 := by
  intro c
  rw [debouncedPressed_bits]
  exact hs c

theorem sampleCore_holds (Q : Nat → ChanBits → Prop) (hQ : LatchStable Q) (s : Hub) (sw : Nat → Bool)
    (ch now : Nat) (hs : HoldsAll Q s) :
    HoldsAll Q (if ((debouncedPressed s sw ch now).1.monLatch ch
          && (debouncedPressed s sw ch now).2.2) = true
        then latchEdge (debouncedPressed s sw ch now).1 ch
        else (debouncedPressed s sw ch now).1) := by
  have h1 := debouncedPressed_holds Q s sw ch now hs
  split_ifs with hc
  · intro c
    simp only [Bool.and_eq_true] at hc
    rw [latchEdge_bits]
    split_ifs with hcc
    · subst hcc
      have := hQ c _ (show (chanBits (debouncedPressed s sw c now).1 c).latch = true from hc.1)
        (h1 c)
      simpa [chanBits, hc.1] using this
    · exact h1 c
  · exact h1

theorem checkAllSample_holds (Q : Nat → ChanBits → Prop) (hQ : LatchStable Q) (e : Env) (a : PressScan)
    (ch : Nat) (hs : HoldsAll Q a.hub) : HoldsAll Q (checkAllSample e a ch).hub :=
  holdsAll_of_core Q _ _ (checkAllSample_core e a ch) (sampleCore_holds Q hQ _ _ _ _ hs)

theorem monitorSample_holds (Q : Nat → ChanBits → Prop) (hQ : LatchStable Q) (e : Env) (a : PressScan)
    (ch : Nat) (hs : HoldsAll Q a.hub) : HoldsAll Q (monitorSample e a ch).hub :=
  holdsAll_of_core Q _ _ (monitorSample_core e a ch) (sampleCore_holds Q hQ _ _ _ _ hs)

/-- A property of the accumulator that every iteration preserves holds after the loop. -/
theorem foldl_preserves {α β : Type} (P : α → Prop) (f : α → β → α) (l : List β) (a : α)
    (hf : ∀ x b, P x → P (f x b)) (ha : P a) : P (l.foldl f a) := by
  induction l generalizing a with
  | nil => exact ha
  | cons b bs ih => exact ih _ (hf a b ha)

theorem checkAllEval_fold_core (r : Bool) (p : Nat → Bool) (l : List Nat) (a : CheckScan) :
    chanCore (l.foldl (checkAllEval r p) a).hub = chanCore a.hub := by
  induction l generalizing a with
  | nil => rfl
  | cons c cs ih =>
    simp only [List.foldl_cons]
    rw [ih, checkAllEval_core]

theorem checkAll_holds (Q : Nat → ChanBits → Prop) (hQ : LatchStable Q) (s : Hub) (e : Env) (r : Bool)
    (hs : HoldsAll Q s) : HoldsAll Q (checkAll s e r).1 := by
  unfold checkAll
  simp only []
  apply holdsAll_of_core Q _ _ (checkAllEval_fold_core _ _ _ _)
  simp only []
  exact foldl_preserves (fun a => HoldsAll Q a.hub) _ _
    { hub := resetBuffers s, pressed := fun _ => false }
    (fun x b hx => checkAllSample_holds Q hQ e x b hx)
    (holdsAll_of_core Q s (resetBuffers s) (resetBuffers_core s) hs)

theorem reseed_bits (s : Hub) (sw : Nat → Bool) (now ch c : Nat) :
    chanBits (reseed s sw now ch) c = chanBits s c := rfl

theorem cleanAll_bits (s : Hub) (e : Env) (c : Nat) :
    chanBits (cleanAll s e) c
      = { normal := false, latch := false, latched := false, ignored := false } := by
  unfold cleanAll
  simp only []
  have : ∀ (l : List Nat) (t : Hub),
      chanBits (l.foldl (fun acc ch => setLed (reseed acc e.sw e.now ch) ch false) t) c
        = chanBits t c := by
    intro l
    induction l with
    | nil => intro t; rfl
    | cons x xs ih =>
      intro t
      simp only [List.foldl_cons]
      rw [ih, chanBits_of_core _ _ (setLed_core _ _ _), reseed_bits]
  exact (this _ _).trans rfl

theorem cleanAll_holds (Q : Nat → ChanBits → Prop) (hQ : Stable Q) (s : Hub) (e : Env)
    (hs : HoldsAll Q s) : HoldsAll Q (cleanAll s e) := by
  intro c
  rw [cleanAll_bits]
  exact hQ c _ _ (Or.inr (Or.inr (Or.inr (Or.inl rfl)))) (hs c)

theorem goDarkAndIdle_bits (s : Hub) (e : Env) (c : Nat) :
    chanBits (goDarkAndIdle s e) c
      = { normal := false, latch := false, latched := false, ignored := false } := by
  unfold goDarkAndIdle
  simp only []
  have h := chanBits_of_core _ _ (allLeds_core (cleanAll (stopStreaming s) e) false) c
  rw [cleanAll_bits] at h
  exact h

theorem goDarkAndIdle_holds (Q : Nat → ChanBits → Prop) (hQ : Stable Q) (s : Hub) (e : Env)
    (hs : HoldsAll Q s) : HoldsAll Q (goDarkAndIdle s e) := by
  intro c
  rw [goDarkAndIdle_bits]
  exact hQ c _ _ (Or.inr (Or.inr (Or.inr (Or.inl rfl)))) (hs c)

theorem holds_ite (Q : Nat → ChanBits → Prop) (c : Prop) [Decidable c] (x y : Hub)
    (hx : HoldsAll Q x) (hy : HoldsAll Q y) : HoldsAll Q (if c then x else y) := by
  split_ifs
  · exact hx
  · exact hy

theorem releaseGate_bits (s : Hub) (e : Env) (c : Nat) :
    chanBits (releaseGate s e) c = chanBits s c := by
  unfold releaseGate
  have : ∀ (l : List Nat) (t : Hub),
      chanBits (l.foldl (fun acc i =>
        if ({ acc with
              rawPrev := upd acc.rawPrev i (isPressedRaw e.sw i)
              rawChangedAt := upd acc.rawChangedAt i e.now
              lastPressed := upd acc.lastPressed i (isPressedRaw e.sw i) } : Hub).streamActive
        then { acc with
              rawPrev := upd acc.rawPrev i (isPressedRaw e.sw i)
              rawChangedAt := upd acc.rawChangedAt i e.now
              lastPressed := upd acc.lastPressed i (isPressedRaw e.sw i)
              prevPressed := upd acc.prevPressed i (isPressedRaw e.sw i) }
        else { acc with
              rawPrev := upd acc.rawPrev i (isPressedRaw e.sw i)
              rawChangedAt := upd acc.rawChangedAt i e.now
              lastPressed := upd acc.lastPressed i (isPressedRaw e.sw i) }) t) c
        = chanBits t c := by
    intro l
    induction l with
    | nil => intro t; rfl
    | cons x xs ih =>
      intro t
      simp only [List.foldl_cons]
      rw [ih]
      split_ifs <;> rfl
  exact (this _ _).trans rfl

theorem releaseGate_holds (Q : Nat → ChanBits → Prop) (s : Hub) (e : Env) (hs : HoldsAll Q s) :
    HoldsAll Q (releaseGate s e) := by
  intro c
  rw [releaseGate_bits]
  exact hs c

theorem monitorLed_fold_core (f : Bool) (p : Nat → Bool) (l : List Nat) (s : Hub) :
    chanCore (l.foldl (monitorLed f p) s) = chanCore s :=
  foldl_chanCore _ _ _ (fun a x => monitorLed_core f p a x)

theorem sendSuccessAndIdle_holds (Q : Nat → ChanBits → Prop) (hQ : Stable Q) (s : Hub) (e : Env)
    (hs : HoldsAll Q s) : HoldsAll Q (sendSuccessAndIdle s e) := by
  unfold sendSuccessAndIdle
  exact goDarkAndIdle_holds Q hQ _ e (holdsAll_of_core Q _ _ (replyReliable_core _ _ _) hs)

theorem doMonitoring_holds (Q : Nat → ChanBits → Prop) (hQ : Stable Q) (s : Hub) (e : Env)
    (hs : HoldsAll Q s) : HoldsAll Q (doMonitoring s e) := by
  unfold doMonitoring
  simp only []
  have h0 : HoldsAll Q (if s.needReleaseGate = true then releaseGate s e else s) :=
    holds_ite Q _ _ _ (releaseGate_holds Q s e hs) hs
  have h1 : HoldsAll Q ((List.range CHANNEL_COUNT).foldl (monitorSample e)
      { hub := if s.needReleaseGate = true then releaseGate s e else s,
        pressed := fun _ => false }).hub :=
    foldl_preserves (fun a => HoldsAll Q a.hub) _ _
      { hub := if s.needReleaseGate = true then releaseGate s e else s,
        pressed := fun _ => false }
      (fun x b hx => monitorSample_holds Q hQ.latch e x b hx) h0
  have h2 := holdsAll_of_core Q _ _ (monitorLed_fold_core
    (allContactlessLatched ((List.range CHANNEL_COUNT).foldl (monitorSample e)
      { hub := if s.needReleaseGate = true then releaseGate s e else s,
        pressed := fun _ => false }).hub)
    ((List.range CHANNEL_COUNT).foldl (monitorSample e)
      { hub := if s.needReleaseGate = true then releaseGate s e else s,
        pressed := fun _ => false }).pressed (List.range CHANNEL_COUNT) _) h1
  refine holds_ite Q _ _ _ (holds_ite Q _ _ _ ?_ ?_) ?_
  · apply sendSuccessAndIdle_holds Q hQ
    apply holdsAll_of_core Q _ _ (replyRaw_core _ _ _)
    exact holds_ite Q _ _ _ h2 h2
  · exact holds_ite Q _ _ _ h2 h2
  · exact h2

theorem voteLoop_holds (Q : Nat → ChanBits → Prop) (hQ : LatchStable Q) (r : Bool) (es : Nat → Env)
    (fuel i : Nat) (s : Hub) (ok : Nat) (hs : HoldsAll Q s) :
    HoldsAll Q (voteLoop r es fuel i s ok).1 := by
  induction fuel generalizing i s ok with
  | zero => exact hs
  | succ f ih =>
    unfold voteLoop
    simp only []
    have h1 := checkAll_holds Q hQ s (es i) r hs
    split_ifs <;> first | exact h1 | exact ih _ _ _ h1

theorem doFinalCheck_holds (Q : Nat → ChanBits → Prop) (hQ : Stable Q) (s : Hub) (es : Nat → Env)
    (hs : HoldsAll Q s) : HoldsAll Q (doFinalCheck s es) := by
  unfold doFinalCheck
  simp only []
  split_ifs
  · apply goDarkAndIdle_holds Q hQ
    exact holdsAll_of_core Q _ _ ((stopStreaming_core _).trans (replyReliable_core _ _ _)) hs
  · apply goDarkAndIdle_holds Q hQ
    apply holdsAll_of_core Q _ _ ((stopStreaming_core _).trans (replyReliable_core _ _ _))
    apply holdsAll_of_core Q _ _ (trimBuffers_core _)
    apply checkAll_holds Q hQ.latch
    apply voteLoop_holds Q hQ.latch
    exact holdsAll_of_core Q _ _ (startStreaming_core _ _) hs
  · have h : HoldsAll Q (replyReliable
        (trimBuffers (checkAll (voteLoop s.checkActive es FINAL_CHECK_SAMPLES 0
          (startStreaming s false) 0).1 (es FINAL_CHECK_SAMPLES) s.checkActive).1)
        (es FINAL_CHECK_SAMPLES)
        (failureText (trimBuffers (checkAll (voteLoop s.checkActive es FINAL_CHECK_SAMPLES 0
          (startStreaming s false) 0).1 (es FINAL_CHECK_SAMPLES) s.checkActive).1))) := by
      apply holdsAll_of_core Q _ _ (replyReliable_core _ _ _)
      apply holdsAll_of_core Q _ _ (trimBuffers_core _)
      apply checkAll_holds Q hQ.latch
      apply voteLoop_holds Q hQ.latch
      exact holdsAll_of_core Q _ _ (startStreaming_core _ _) hs
    exact h

theorem doSelfCheck_holds (Q : Nat → ChanBits → Prop) (s : Hub) (e : Env) (hs : HoldsAll Q s) :
    HoldsAll Q (doSelfCheck s e) := by
  unfold doSelfCheck
  simp only []
  have h : HoldsAll Q ((List.range CHANNEL_COUNT).foldl
      (fun (acc : Hub × Bool) ch =>
        (setLed acc.1 ch (acc.1.blinkState && isPressedRaw e.sw ch),
          acc.2 || isPressedRaw e.sw ch)) (s, false)).1 :=
    foldl_preserves (fun (a : Hub × Bool) => HoldsAll Q a.1) _ _ (s, false)
      (fun x b hx => holdsAll_of_core Q _ _ (setLed_core _ _ _) hx) hs
  split_ifs
  · exact h
  · exact h

theorem idleLeds_core (s : Hub) (e : Env) : chanCore (idleLeds s e) = chanCore s :=
  foldl_chanCore _ _ _ (fun a x => setLed_core a x _)

theorem blinkClock_holds (Q : Nat → ChanBits → Prop) (s : Hub) (now : Nat) (hs : HoldsAll Q s) :
    HoldsAll Q (blinkClock s now) := by
  unfold blinkClock
  simp only []
  refine holds_ite Q _ _ _ (holds_ite Q _ _ _ (holds_ite Q _ _ _ ?_ ?_) hs) hs
  · intro c
    have := chanBits_of_core _ _ (allLeds_core
      { allLeds { s with lastBlinkTick := now, blinkState := !s.blinkState,
                         welcomeEdgeCount := s.welcomeEdgeCount + 1 } (!s.blinkState)
        with welcomeEdgeCount := 0 } false) c
    have h2 := chanBits_of_core _ _ (allLeds_core
      { s with lastBlinkTick := now, blinkState := !s.blinkState,
               welcomeEdgeCount := s.welcomeEdgeCount + 1 } (!s.blinkState)) c
    have h3 : Q c (chanBits (allLeds
      { allLeds { s with lastBlinkTick := now, blinkState := !s.blinkState,
                         welcomeEdgeCount := s.welcomeEdgeCount + 1 } (!s.blinkState)
        with welcomeEdgeCount := 0 } false) c) := by
      rw [this]
      exact (h2 ▸ hs c : Q c (chanBits (allLeds
        { s with lastBlinkTick := now, blinkState := !s.blinkState,
                 welcomeEdgeCount := s.welcomeEdgeCount + 1 } (!s.blinkState)) c))
    exact h3
  · intro c
    have h2 := chanBits_of_core _ _ (allLeds_core
      { s with lastBlinkTick := now, blinkState := !s.blinkState,
               welcomeEdgeCount := s.welcomeEdgeCount + 1 } (!s.blinkState)) c
    rw [h2]
    exact hs c

theorem helloButton_core (s : Hub) (e : Env) : chanCore (helloButton s e) = chanCore s := by
  unfold helloButton
  simp only []
  split_ifs <;> rfl

theorem runState_holds (Q : Nat → ChanBits → Prop) (hQ : Stable Q) (s : Hub) (es : Nat → Env)
    (hs : HoldsAll Q s) : HoldsAll Q (runState s es) := by
  unfold runState
  split
  · exact doSelfCheck_holds Q s _ hs
  · exact holdsAll_of_core Q _ _ (idleLeds_core s _) hs
  · exact doMonitoring_holds Q hQ s _ hs
  · exact doFinalCheck_holds Q hQ s _ hs
  · exact hs

theorem drainPending_core (s : Hub) (es : Nat → Env) :
    chanCore (drainPending s es) = chanCore s := by
  unfold drainPending
  simp only []
  split_ifs
  · split
    · exact (blinkRounds_core _ _ _ _).trans rfl
    · exact (chaseRounds_core _ _ _ _).trans rfl
    · exact (monitorBaseline_core _ _ _).trans rfl
    · rfl
  · rfl

theorem loopTick_holds (Q : Nat → ChanBits → Prop) (hQ : Stable Q) (s : Hub) (es : Nat → Env)
    (hs : HoldsAll Q s) : HoldsAll Q (loopTick s es) := by
  unfold loopTick
  apply holdsAll_of_core Q _ _ (drainPending_core _ _)
  apply holdsAll_of_core Q _ _ (serviceAckTx_core _ _)
  apply runState_holds Q hQ
  apply holdsAll_of_core Q _ _ (helloButton_core _ _)
  exact blinkClock_holds Q s _ hs

theorem checkToken_bits (a : Hub × Bool) (t : List Char) (c : Nat) :
    chanBits (checkToken a t).1 c = chanBits a.1 c := by
  unfold checkToken
  split <;> rfl

theorem parseCheckSelection_bits (s : Hub) (payload : List Char) (c : Nat) :
    chanBits (parseCheckSelection s payload) c = chanBits s c := by
  unfold parseCheckSelection
  simp only []
  split
  · rfl
  · have : ∀ (l : List (List Char)) (a : Hub × Bool),
        chanBits (l.foldl checkToken a).1 c = chanBits a.1 c := by
      intro l
      induction l with
      | nil => intro a; rfl
      | cons x xs ih => intro a; simp only [List.foldl_cons]; rw [ih, checkToken_bits]
    exact (this _ _).trans rfl

theorem autoAck_core (s : Hub) (e : Env) (src : Mac) (rxb : List Char) (n : Nat) :
    chanCore (autoAck s e src rxb n) = chanCore s := by
  unfold autoAck
  split
  · split_ifs
    · exact sendCmdRaw_core _ _ _ _
    · rfl
  · rfl

theorem dispatchVerb_holds (Q : Nat → ChanBits → Prop) (hQ : Stable Q) (s : Hub) (e : Env)
    (rx data : List Char) (hs : HoldsAll Q s) : HoldsAll Q (dispatchVerb s e rx data) := by
  unfold dispatchVerb
  simp only []
  refine holds_ite Q _ _ _ ?_ (holds_ite Q _ _ _ ?_ (holds_ite Q _ _ _ ?_
    (holds_ite Q _ _ _ ?_ (holds_ite Q _ _ _ ?_ (holds_ite Q _ _ _ ?_
      (holds_ite Q _ _ _ ?_ hs))))))
  · have h : HoldsAll Q (replyReliable (replyRaw s e "WELCOME".toList) e "READY".toList) :=
      holdsAll_of_core Q s _ ((replyReliable_core _ _ _).trans (replyRaw_core _ _ _)) hs
    exact fun c => h c
  · exact holdsAll_of_core Q _ _ (replyRaw_core _ _ _) hs
  · exact holdsAll_of_core Q s _
      ((replyReliable_core _ _ _).trans (enqueuePending_core _ _ _)) hs
  · exact holdsAll_of_core Q s _
      ((replyReliable_core _ _ _).trans (enqueuePending_core _ _ _)) hs
  · apply holdsAll_of_core Q _ _ (enqueuePending_core _ _ _)
    apply holdsAll_of_core Q _ _ (replyReliable_core _ _ _)
    have h := parseMonitorPayload_stable Q hQ s e.sw e.now data hs
    exact fun c => h c
  · have hp : HoldsAll Q (parseCheckSelection s rx) := by
      intro c
      rw [parseCheckSelection_bits]
      exact hs c
    refine holds_ite Q _ _ _ ?_ (fun c => hp c)
    apply goDarkAndIdle_holds Q hQ
    exact holdsAll_of_core Q _ _ (replyReliable_core _ _ _) hp
  · apply holdsAll_of_core Q _ _ (replyRaw_core _ _ _)
    have h := cleanAll_holds Q hQ _ e (holdsAll_of_core Q _ _ (stopStreaming_core s) hs)
    exact fun c => h c

theorem onRecv_holds (Q : Nat → ChanBits → Prop) (hQ : Stable Q) (s : Hub) (e : Env) (src : Mac)
    (data : List Char) (hs : HoldsAll Q s) : HoldsAll Q (onRecv s e src data) := by
  unfold onRecv
  simp only []
  refine holds_ite Q _ _ _ hs (holds_ite Q _ _ _ hs (holds_ite Q _ _ _
    (holds_ite Q _ _ _ hs hs) ?_))
  apply dispatchVerb_holds Q hQ
  exact holdsAll_of_core Q _ _ (autoAck_core _ _ _ _ _) hs

theorem step_holds (Q : Nat → ChanBits → Prop) (hQ : Stable Q) (s : Hub) (st : Step)
    (hs : HoldsAll Q s) : HoldsAll Q (step s st) := by
  cases st with
  | recv e src data => exact onRecv_holds Q hQ s e src data hs
  | tick es => exact loopTick_holds Q hQ s es hs

/-- Every property of the model bits that holds of a cleared channel and that no operation
destroys holds of every channel in every reachable state. -/
theorem reachable_holds (Q : Nat → ChanBits → Prop) (hQ : Stable Q)
    (h0 : ∀ c, Q c { normal := false, latch := false, latched := false, ignored := false })
    (s : Hub) (hr : Reachable s) : HoldsAll Q s := by
  induction hr with
  | setup mac sw bootNow => exact fun c => h0 c
  | step s st _ ih => exact step_holds Q hQ s st ih

/-! ## Invariants of the reachable states (C6, C7) -/

theorem exclusive_stable :
    Stable (fun _ b => ¬ (b.normal = true ∧ b.latch = true)) := by
  intro c b b2 hm hq
  rcases hm with h | h | h | h | ⟨hl, h⟩
  · rw [h]; exact hq
  · rw [h]; simp
  · rw [h]; simp
  · rw [h]; simp
  · rw [h]
    intro hh
    exact hq ⟨hh.1, hl⟩

theorem ignored_stable :
    Stable (fun _ b => b.ignored = true → b.latch = true ∧ b.latched = true) := by
  intro c b b2 hm hq
  rcases hm with h | h | h | h | ⟨_, h⟩
  · rw [h]; exact hq
  · rw [h]; simp
  · rw [h]; simp
  · rw [h]; simp
  · rw [h]; simp

/-- C6: in every state the Hub reaches from `setup()` by received frames and main-loop
ticks, no channel is classified both normal and latch. -/
theorem C6_class_exclusive (s : Hub) (hr : Reachable s) (c : Nat) :
    ¬ (s.monNormal c = true ∧ s.monLatch c = true) :=
  reachable_holds (fun _ b => ¬ (b.normal = true ∧ b.latch = true)) exclusive_stable
    (fun _ => by simp) s hr c

theorem C6_class_exclusive_witness :
    Reachable monitoredHub ∧ monitoredHub.monNormal 0 = true ∧
      ¬ (monitoredHub.monNormal 0 = true ∧ monitoredHub.monLatch 0 = true) :=
  ⟨Reachable.step _ _ (Reachable.setup _ _ _), by decide,
    C6_class_exclusive monitoredHub (Reachable.step _ _ (Reachable.setup _ _ _)) 0⟩

/-- C7: in every reachable state an ignored channel is a latch channel that is latched, and
each of `parseMonitorPayload`, `checkAll`, `doMonitoring`, `doFinalCheck`, `cleanAll`,
`goDarkAndIdle` and `onRecv` keeps that invariant. -/
theorem C7_ignored_invariant :
    (∀ s, Reachable s → IgnoredLatched s) ∧
    (∀ s sw now data, IgnoredLatched s → IgnoredLatched (parseMonitorPayload s sw now data)) ∧
    (∀ s e r, IgnoredLatched s → IgnoredLatched (checkAll s e r).1) ∧
    (∀ s e, IgnoredLatched s → IgnoredLatched (doMonitoring s e)) ∧
    (∀ s es, IgnoredLatched s → IgnoredLatched (doFinalCheck s es)) ∧
    (∀ s e, IgnoredLatched s → IgnoredLatched (cleanAll s e)) ∧
    (∀ s e, IgnoredLatched s → IgnoredLatched (goDarkAndIdle s e)) ∧
    (∀ s e src data, IgnoredLatched s → IgnoredLatched (onRecv s e src data)) :=
  ⟨fun s hr => reachable_holds _ ignored_stable (fun _ => by simp) s hr,
   fun s sw now data h => parseMonitorPayload_stable _ ignored_stable s sw now data h,
   fun s e r h => checkAll_holds _ ignored_stable.latch s e r h,
   fun s e h => doMonitoring_holds _ ignored_stable s e h,
   fun s es h => doFinalCheck_holds _ ignored_stable s es h,
   fun s e h => cleanAll_holds _ ignored_stable s e h,
   fun s e h => goDarkAndIdle_holds _ ignored_stable s e h,
   fun s e src data h => onRecv_holds _ ignored_stable s e src data h⟩

/-! ## Latch monotonicity (C8) -/

theorem latched_class_stable :
    Stable (fun _ b => ¬ (b.normal = true ∧ b.latch = true) ∧
      (b.latched = true → b.latch = true)) := by
  intro c b b2 hm hq
  rcases hm with h | h | h | h | ⟨hl, h⟩
  · rw [h]; exact hq
  · rw [h]; simp
  · rw [h]; simp
  · rw [h]; simp
  · rw [h]
    refine ⟨fun hh => hq.1 ⟨hh.1, hl⟩, fun _ => rfl⟩

theorem reachable_latchedLatch (s : Hub) (hr : Reachable s) (c : Nat)
    (hl : s.latched c = true) : LatchedLatch s c := by
  have h := reachable_holds _ latched_class_stable (fun _ => by simp) s hr c
  have h2 : s.monLatch c = true := h.2 hl
  refine ⟨hl, h2, ?_⟩
  cases hn : s.monNormal c
  · rfl
  · exact absurd ⟨hn, h2⟩ h.1

theorem classifyChannel_latch_keeps (h : Hub) (sw : Nat → Bool) (now : Nat) (c : Nat)
    (hj : LatchedLatch h c) : LatchedLatch (classifyChannel h sw now true c) c := by
  obtain ⟨h1, h2, h3⟩ := hj
  simp [LatchedLatch, classifyChannel, clearAndReseed, reseed, setLed_eq, h1, h2, h3, upd]

theorem classifyChannel_other_keeps (h : Hub) (sw : Nat → Bool) (now : Nat) (m : Bool)
    (c ch : Nat) (hne : c ≠ ch) (hj : LatchedLatch h c) :
    LatchedLatch (classifyChannel h sw now m ch) c := by
  obtain ⟨g1, g2, g3, _⟩ := classifyChannel_other h sw now m ch c hne
  unfold LatchedLatch
  rw [g1, g2, g3]
  exact ⟨hj.1, hj.2.1, hj.2.2⟩

theorem scan_latched (s : Hub) (sw : Nat → Bool) (now : Nat) (c : Nat)
    (toks : List (List Char)) (hj : LatchedLatch s c)
    (hno : ∀ i, namesChannel toks i (c + 1) → classAfter (toks.take i) = true) :
    LatchedLatch (toks.foldl (monitorToken sw now)
      { hub := s, latchMode := false, skipCount := false }).hub c := by
  induction toks using List.reverseRecOn with
  | nil => exact hj
  | append_singleton ts t ih =>
    have hno1 : ∀ i, namesChannel ts i (c + 1) → classAfter (ts.take i) = true := by
      intro i hni
      have hil := namesChannel_lt_length ts i _ hni
      rw [← classAfter_take_append ts t i (by omega)]
      exact hno i ((namesChannel_append_lt ts t i _ hil).2 hni)
    have hih := ih hno1
    have hskip := scan_skipCount sw now ts s t
    have hmode : (ts.foldl (monitorToken sw now)
        { hub := s, latchMode := false, skipCount := false }).latchMode = classAfter ts :=
      scan_latchMode sw now ts _
    rw [List.foldl_append]
    simp only [List.foldl_cons, List.foldl_nil]
    rw [monitorToken_hub]
    split_ifs with hcond
    · cases hp : parsePureInt t with
      | none => exact hih
      | some c2 =>
        simp only []
        have hc2 := parsePureInt_range t c2 hp
        by_cases heq : c2 = c + 1
        · have hn : namesChannel (ts ++ [t]) ts.length (c + 1) := by
            rw [namesChannel_append_last]
            exact ⟨hcond.1, by rw [← hskip]; exact hcond.2, by rw [hp, heq]⟩
          have hm := hno ts.length hn
          rw [List.take_left' rfl] at hm
          rw [hmode, hm, heq]
          exact classifyChannel_latch_keeps _ sw now c hih
        · exact classifyChannel_other_keeps _ sw now _ c (c2 - 1) (by omega) hih
    · exact hih

theorem parseMonitorPayload_latched (s : Hub) (sw : Nat → Bool) (now : Nat) (data : List Char)
    (c : Nat) (hj : LatchedLatch s c)
    (hno : ∀ toks i, monitorTokens (cstr (data.take 199)) = some toks →
      namesChannel toks i (c + 1) → classAfter (toks.take i) = true) :
    (parseMonitorPayload s sw now data).latched c = true := by
  cases htok : monitorTokens (cstr (data.take 199)) with
  | none =>
    unfold parseMonitorPayload
    rw [htok]
    exact hj.1
  | some toks =>
    rw [parseMonitorPayload_eq s sw now data toks htok]
    have h := (scan_latched s sw now c toks hj (fun i hi => hno toks i htok hi)).1
    split_ifs <;> exact h

theorem latched_latchStable (c : Nat) :
    LatchStable (fun c2 b => c2 = c → b.latched = true) := by
  intro c2 b _ _ _
  rfl

theorem ite_ind {α : Type} (P : α → Prop) (c : Prop) [Decidable c] (x y : α)
    (hx : P x) (hy : P y) : P (if c then x else y) := by
  split_ifs
  · exact hx
  · exact hy

theorem doMonitoring_keeps (Q : Nat → ChanBits → Prop) (hQ : LatchStable Q) (s : Hub) (e : Env)
    (hs : HoldsAll Q s) :
    HoldsAll Q (doMonitoring s e) ∨ (doMonitoring s e).state = State.WAIT_FOR_TARGET := by
  unfold doMonitoring
  simp only []
  have h0 : HoldsAll Q (if s.needReleaseGate = true then releaseGate s e else s) :=
    holds_ite Q _ _ _ (releaseGate_holds Q s e hs) hs
  have h1 : HoldsAll Q ((List.range CHANNEL_COUNT).foldl (monitorSample e)
      { hub := if s.needReleaseGate = true then releaseGate s e else s,
        pressed := fun _ => false }).hub :=
    foldl_preserves (fun a => HoldsAll Q a.hub) _ _
      { hub := if s.needReleaseGate = true then releaseGate s e else s,
        pressed := fun _ => false }
      (fun x b hx => monitorSample_holds Q hQ e x b hx) h0
  have h2 := holdsAll_of_core Q _ _ (monitorLed_fold_core
    (allContactlessLatched ((List.range CHANNEL_COUNT).foldl (monitorSample e)
      { hub := if s.needReleaseGate = true then releaseGate s e else s,
        pressed := fun _ => false }).hub)
    ((List.range CHANNEL_COUNT).foldl (monitorSample e)
      { hub := if s.needReleaseGate = true then releaseGate s e else s,
        pressed := fun _ => false }).pressed (List.range CHANNEL_COUNT) _) h1
  refine ite_ind (fun h => HoldsAll Q h ∨ h.state = State.WAIT_FOR_TARGET) _ _ _
    (ite_ind (fun h => HoldsAll Q h ∨ h.state = State.WAIT_FOR_TARGET) _ _ _ ?_ ?_) ?_
  · exact Or.inr rfl
  · exact Or.inl (holds_ite Q _ _ _ h2 h2)
  · exact Or.inl h2

theorem doFinalCheck_keeps (Q : Nat → ChanBits → Prop) (hQ : LatchStable Q) (s : Hub)
    (es : Nat → Env) (hs : HoldsAll Q s) :
    HoldsAll Q (doFinalCheck s es) ∨ (doFinalCheck s es).state = State.WAIT_FOR_TARGET := by
  unfold doFinalCheck
  simp only []
  refine ite_ind (fun h => HoldsAll Q h ∨ h.state = State.WAIT_FOR_TARGET) _ _ _ ?_
    (ite_ind (fun h => HoldsAll Q h ∨ h.state = State.WAIT_FOR_TARGET) _ _ _ ?_ ?_)
  · exact Or.inr rfl
  · exact Or.inr rfl
  · left
    have h : HoldsAll Q (replyReliable
        (trimBuffers (checkAll (voteLoop s.checkActive es FINAL_CHECK_SAMPLES 0
          (startStreaming s false) 0).1 (es FINAL_CHECK_SAMPLES) s.checkActive).1)
        (es FINAL_CHECK_SAMPLES)
        (failureText (trimBuffers (checkAll (voteLoop s.checkActive es FINAL_CHECK_SAMPLES 0
          (startStreaming s false) 0).1 (es FINAL_CHECK_SAMPLES) s.checkActive).1))) := by
      apply holdsAll_of_core Q _ _ (replyReliable_core _ _ _)
      apply holdsAll_of_core Q _ _ (trimBuffers_core _)
      apply checkAll_holds Q hQ
      apply voteLoop_holds Q hQ
      exact holdsAll_of_core Q _ _ (startStreaming_core _ _) hs
    exact h

theorem runState_keeps (Q : Nat → ChanBits → Prop) (hQ : LatchStable Q) (s : Hub)
    (es : Nat → Env) (hs : HoldsAll Q s) :
    HoldsAll Q (runState s es) ∨
      ((s.state = State.MONITORING ∨ s.state = State.FINAL_CHECK) ∧
        (runState s es).state = State.WAIT_FOR_TARGET) := by
  cases hst : s.state with
  | SELF_CHECK =>
    have he : runState s es = doSelfCheck s (es 0) := by unfold runState; rw [hst]
    rw [he]
    exact Or.inl (doSelfCheck_holds Q s _ hs)
  | WAIT_FOR_TARGET =>
    have he : runState s es = idleLeds s (es 0) := by unfold runState; rw [hst]
    rw [he]
    exact Or.inl (holdsAll_of_core Q _ _ (idleLeds_core s _) hs)
  | MONITORING =>
    have he : runState s es = doMonitoring s (es 0) := by unfold runState; rw [hst]
    rw [he]
    rcases doMonitoring_keeps Q hQ s (es 0) hs with h | h
    · exact Or.inl h
    · exact Or.inr ⟨Or.inl rfl, h⟩
  | FINAL_CHECK =>
    have he : runState s es = doFinalCheck s (fun k => es (k + 1)) := by
      unfold runState; rw [hst]
    rw [he]
    rcases doFinalCheck_keeps Q hQ s _ hs with h | h
    · exact Or.inl h
    · exact Or.inr ⟨Or.inr rfl, h⟩
  | WELCOME =>
    have he : runState s es = s := by unfold runState; rw [hst]
    rw [he]
    exact Or.inl hs

theorem blinkClock_state (s : Hub) (now : Nat) :
    (blinkClock s now).state = s.state ∨ (blinkClock s now).state = State.WAIT_FOR_TARGET := by
  unfold blinkClock
  simp only []
  refine ite_ind (fun h : Hub => h.state = s.state ∨ h.state = State.WAIT_FOR_TARGET) _ _ _
    (ite_ind (fun h : Hub => h.state = s.state ∨ h.state = State.WAIT_FOR_TARGET) _ _ _
      (ite_ind (fun h : Hub => h.state = s.state ∨ h.state = State.WAIT_FOR_TARGET) _ _ _
        ?_ ?_) ?_) ?_
  · exact Or.inr rfl
  · left
    exact congrArg ChanCore.state (allLeds_core
      { s with lastBlinkTick := now, blinkState := !s.blinkState,
               welcomeEdgeCount := s.welcomeEdgeCount + 1 } (!s.blinkState))
  · exact Or.inl rfl
  · exact Or.inl rfl

theorem loopTick_keeps (Q : Nat → ChanBits → Prop) (hQ : LatchStable Q) (s : Hub)
    (es : Nat → Env) (hs : HoldsAll Q s) :
    HoldsAll Q (loopTick s es) ∨
      ((s.state = State.MONITORING ∨ s.state = State.FINAL_CHECK) ∧
        (loopTick s es).state = State.WAIT_FOR_TARGET) := by
  have h3 : HoldsAll Q (helloButton (blinkClock s (es 0).now) (es 0)) :=
    holdsAll_of_core Q _ _ (helloButton_core _ _) (blinkClock_holds Q s _ hs)
  have hcore : chanCore (loopTick s es)
      = chanCore (runState (helloButton (blinkClock s (es 0).now) (es 0)) es) :=
    (drainPending_core _ _).trans (serviceAckTx_core _ _)
  rcases runState_keeps Q hQ _ es h3 with h | ⟨hst, hw⟩
  · exact Or.inl (holdsAll_of_core Q _ _ hcore h)
  · right
    have hs3 : (helloButton (blinkClock s (es 0).now) (es 0)).state
        = (blinkClock s (es 0).now).state :=
      congrArg ChanCore.state (helloButton_core _ _)
    rw [hs3] at hst
    refine ⟨?_, (congrArg ChanCore.state hcore).trans hw⟩
    rcases blinkClock_state s (es 0).now with hb | hb
    · rw [hb] at hst
      exact hst
    · rw [hb] at hst
      rcases hst with h | h <;> cases h

theorem latchedLatch_of_core (s t : Hub) (c : Nat) (h : chanCore t = chanCore s)
    (hj : LatchedLatch s c) : LatchedLatch t c := by
  unfold LatchedLatch
  have h1 : t.latched = s.latched := congrArg ChanCore.latched h
  have h2 : t.monLatch = s.monLatch := congrArg ChanCore.monLatch h
  have h3 : t.monNormal = s.monNormal := congrArg ChanCore.monNormal h
  rw [h1, h2, h3]
  exact hj

theorem dispatchVerb_latched (s : Hub) (e : Env) (rx data : List Char) (c : Nat)
    (hj : LatchedLatch s c)
    (hclean : startsWith "CLEAN".toList rx = false)
    (hmon : startsWith kwMONITOR rx = true →
      ∀ toks i, monitorTokens (cstr (data.take 199)) = some toks →
        namesChannel toks i (c + 1) → classAfter (toks.take i) = true)
    (hcheck : startsWith kwCHECK rx = true →
      (dispatchVerb s e rx data).state ≠ State.WAIT_FOR_TARGET) :
    (dispatchVerb s e rx data).latched c = true := by
  by_cases hW : startsWith "WELCOME".toList rx = true
  · unfold dispatchVerb
    rw [if_pos hW]
    exact (latchedLatch_of_core s _ c
      ((replyReliable_core _ _ _).trans (replyRaw_core s e _)) hj).1
  by_cases hP : startsWith "PING".toList rx = true
  · unfold dispatchVerb
    rw [if_neg hW, if_pos hP]
    exact (latchedLatch_of_core s _ c (replyRaw_core s e _) hj).1
  by_cases hB : startsWith "BLINK".toList rx = true
  · unfold dispatchVerb
    rw [if_neg hW, if_neg hP, if_pos hB]
    exact (latchedLatch_of_core s _ c
      ((replyReliable_core _ _ _).trans (enqueuePending_core _ _ _)) hj).1
  by_cases hC : startsWith "CHASE".toList rx = true
  · unfold dispatchVerb
    rw [if_neg hW, if_neg hP, if_neg hB, if_pos hC]
    exact (latchedLatch_of_core s _ c
      ((replyReliable_core _ _ _).trans (enqueuePending_core _ _ _)) hj).1
  by_cases hM : startsWith kwMONITOR rx = true
  · unfold dispatchVerb
    rw [if_neg hW, if_neg hP, if_neg hB, if_neg hC, if_pos hM]
    simp only []
    have h := parseMonitorPayload_latched s e.sw e.now data c hj (hmon hM)
    have h2 : (enqueuePending (replyReliable
        { parseMonitorPayload s e.sw e.now data with state := State.MONITORING } e
        "MONITOR-OK".toList) PendingKind.MonitorBaseline 0).latched
        = (parseMonitorPayload s e.sw e.now data).latched :=
      congrArg ChanCore.latched
        ((enqueuePending_core _ PendingKind.MonitorBaseline 0).trans
          (replyReliable_core
            { parseMonitorPayload s e.sw e.now data with state := State.MONITORING } e
            "MONITOR-OK".toList))
    exact (congrFun h2 c).trans h
  by_cases hK : startsWith kwCHECK rx = true
  · have he : dispatchVerb s e rx data =
        (if (!hasWorkToCheck (parseCheckSelection s rx) (parseCheckSelection s rx).checkActive)
            = true then
          goDarkAndIdle (replyReliable (parseCheckSelection s rx) e
            (successText (parseCheckSelection s rx))) e
         else { parseCheckSelection s rx with state := State.FINAL_CHECK }) := by
      unfold dispatchVerb
      rw [if_neg hW, if_neg hP, if_neg hB, if_neg hC, if_neg hM, if_pos hK]
    have hc := hcheck hK
    rw [he] at hc ⊢
    by_cases hw : (!hasWorkToCheck (parseCheckSelection s rx)
        (parseCheckSelection s rx).checkActive) = true
    · rw [if_pos hw] at hc
      exact absurd rfl hc
    · rw [if_neg hw]
      have hb := parseCheckSelection_bits s rx c
      have : (parseCheckSelection s rx).latched c = s.latched c :=
        congrArg ChanBits.latched hb
      exact this.trans hj.1
  · unfold dispatchVerb
    rw [if_neg hW, if_neg hP, if_neg hB, if_neg hC, if_neg hM, if_neg hK,
      if_neg (by rw [hclean]; exact Bool.false_ne_true)]
    exact hj.1

theorem onRecv_latched (s : Hub) (e : Env) (src : Mac) (data : List Char) (c : Nat)
    (hj : LatchedLatch s c) (hx : ¬ Unlatches s c (Step.recv e src data)) :
    (onRecv s e src data).latched c = true := by
  have hclean : startsWith "CLEAN".toList (rxText data) = false := by
    cases h : startsWith "CLEAN".toList (rxText data)
    · rfl
    · exact absurd (Or.inl h) hx
  by_cases h1 : data.length = 0
  · unfold onRecv
    rw [if_pos h1]
    exact hj.1
  by_cases h2 : isZeroMac src = true
  · unfold onRecv
    rw [if_neg h1, if_pos h2]
    exact hj.1
  by_cases h3 : startsWith "ACK ".toList (rxText data) = true
  · unfold onRecv
    rw [if_neg h1, if_neg h2]
    simp only []
    rw [if_pos h3]
    split_ifs <;> exact hj.1
  have he : onRecv s e src data =
      dispatchVerb (autoAck { s with lastSender := src, haveSender := true } e src
        ((cstr (data.take (min data.length 255))).takeWhile isTrimChar ++ rxText data)
        (min data.length 255)) e (rxText data) data := by
    unfold onRecv
    rw [if_neg h1, if_neg h2]
    simp only []
    rw [if_neg h3]
  rw [he]
  apply dispatchVerb_latched
  · exact latchedLatch_of_core s _ c ((autoAck_core _ _ _ _ _).trans rfl) hj
  · exact hclean
  · intro hm toks i htok hn
    cases hcl : classAfter (toks.take i)
    · exact absurd (Or.inr (Or.inl ⟨hm, toks, i, htok, hn, hcl⟩)) hx
    · rfl
  · intro hk hw
    apply hx
    right
    right
    exact ⟨hk, by rw [he]; exact hw⟩

/-- C8 (latch monotonicity), amended. In a reachable state, a latched channel `c` is still
latched after any step, a main-loop tick or the handling of a received frame, other than: the
handling of a `CLEAN` frame; the handling of a `MONITOR` frame that names `c` under NORMAL
within the first 199 bytes of the payload; and the steps in which the Hub goes dark, that is
a tick begun in MONITORING or FINAL_CHECK, or the handling of a `CHECK` frame, that leaves
the Hub in WAIT_FOR_TARGET. -/
theorem C8_latch_monotone (s : Hub) (hr : Reachable s) (c : Nat) (st : Step)
    (hl : s.latched c = true) (hx : ¬ Unlatches s c st) :
    (step s st).latched c = true := by
  have hj := reachable_latchedLatch s hr c hl
  cases st with
  | recv e src data => exact onRecv_latched s e src data c hj hx
  | tick es =>
    rcases loopTick_keeps (fun c2 b => c2 = c → b.latched = true) (latched_latchStable c) s es
      (fun c2 h2 => by subst h2; exact hl) with h | h
    · exact h c rfl
    · exact absurd h hx

theorem latchedHub_reachable : Reachable latchedHub :=
  Reachable.step _ _ (Reachable.step _ _ (Reachable.step _ _
    (Reachable.step _ _ (Reachable.setup _ _ _))))

/-- Witness of C8: channel 3 is latched in `latchedHub` and stays latched over a tick 70 ms
later, before the auto-final hold time has run out. -/
theorem C8_latch_monotone_witness :
    Reachable latchedHub ∧ latchedHub.latched 2 = true ∧
      ¬ Unlatches latchedHub 2 (Step.tick (fun _ => pressEnv 400)) ∧
      (step latchedHub (Step.tick (fun _ => pressEnv 400))).latched 2 = true :=
  ⟨latchedHub_reachable, by decide, fun h => absurd h.2 (by decide),
    C8_latch_monotone latchedHub latchedHub_reachable 2 (Step.tick (fun _ => pressEnv 400))
      (by decide) (fun h => absurd h.2 (by decide))⟩

/-- Counterexample to C8 as stated: channel 3 is latched in the reachable state `latchedHub`,
and it is unlatched by a main-loop tick (the auto-final success, 200 ms after the channels
were satisfied) and by the handling of the frame `CHECK 3` (nothing left to check), neither
of which is the handling of a `CLEAN` or `MONITOR` frame. -/
theorem C8_counterexample :
    Reachable latchedHub ∧ latchedHub.latched 2 = true ∧
      (step latchedHub (Step.tick (fun _ => pressEnv 530))).latched 2 = false ∧
      startsWith "CLEAN".toList (rxText "CHECK 3".toList) = false ∧
      startsWith kwMONITOR (rxText "CHECK 3".toList) = false ∧
      (step latchedHub (Step.recv (pressEnv 400) staMac "CHECK 3".toList)).latched 2 = false :=
  ⟨latchedHub_reachable, by decide, by decide, by decide, by decide, by decide⟩

/-! ## Release gate (C9) -/

theorem chanView_of_core (s t : Hub) (h : chanCore t = chanCore s) (c : Nat) :
    chanView t c = chanView s c := by
  have h1 := congrArg ChanCore.monNormal h
  have h2 := congrArg ChanCore.monLatch h
  have h3 := congrArg ChanCore.latched h
  have h4 := congrArg ChanCore.ignoredCh h
  have h5 := congrArg ChanCore.lastPressed h
  have h6 := congrArg ChanCore.rawPrev h
  have h7 := congrArg ChanCore.rawChangedAt h
  simp only [chanCore] at h1 h2 h3 h4 h5 h6 h7
  simp only [chanView, h1, h2, h3, h4, h5, h6, h7]

/-- The debouncer call and latch stores of a sampling loop on channel `x`, seen from channel
`c`. -/
theorem sample_view (s : Hub) (sw : Nat → Bool) (x now c : Nat) :
    chanView (if ((debouncedPressed s sw x now).1.monLatch x
          && (debouncedPressed s sw x now).2.2) = true
        then latchEdge (debouncedPressed s sw x now).1 x
        else (debouncedPressed s sw x now).1) c
      = if x = c then sampleView (chanView s c) (isPressedRaw sw c) now else chanView s c := by
  by_cases hx : x = c
  · subst hx
    rw [if_pos rfl]
    unfold debouncedPressed sampleView chanView latchEdge
    simp only []
    by_cases h1 : isPressedRaw sw x ≠ s.rawPrev x
    · simp only [if_pos h1, upd_same]
      by_cases h2 : subU32 now now ≥ CH_DEBOUNCE_MS ∧ s.lastPressed x ≠ isPressedRaw sw x
      · simp only [if_pos h2, upd_same]
        cases hL : s.monLatch x <;> cases hR : isPressedRaw sw x <;> simp [upd, hL, hR]
      · simp only [if_neg h2]
        simp [upd]
    · simp only [if_neg h1]
      have h1b : s.rawPrev x = isPressedRaw sw x := by
        by_contra hh
        exact h1 (fun h => hh h.symm)
      by_cases h2 : subU32 now (s.rawChangedAt x) ≥ CH_DEBOUNCE_MS
          ∧ s.lastPressed x ≠ isPressedRaw sw x
      · simp only [if_pos h2, upd_same]
        cases hL : s.monLatch x <;> cases hR : isPressedRaw sw x <;>
          simp [upd, hL, hR, h1b]
      · simp only [if_neg h2]
        simp [upd, h1b]
  · rw [if_neg hx]
    have hcx : c ≠ x := fun h => hx h.symm
    unfold debouncedPressed chanView latchEdge
    simp only []
    split_ifs <;> simp [upd, hcx]

theorem foldl_range_at {α π : Type} (f : α → Nat → α) (proj : α → π) (g : π → π) (c : Nat)
    (hself : ∀ a, proj (f a c) = g (proj a))
    (hother : ∀ a x, x ≠ c → proj (f a x) = proj a) (n : Nat) (a : α) :
    proj ((List.range n).foldl f a) = if c < n then g (proj a) else proj a := by
  induction n with
  | zero => simp
  | succ n ih =>
    rw [List.range_succ, List.foldl_append]
    simp only [List.foldl_cons, List.foldl_nil]
    by_cases hn : n = c
    · subst hn
      rw [hself, ih]
      simp
    · rw [hother _ _ hn, ih]
      have : (c < n + 1) ↔ (c < n) := by omega
      simp only [this]

theorem monitorSample_view (e : Env) (a : PressScan) (x c : Nat) :
    chanView (monitorSample e a x).hub c
      = if x = c then sampleView (chanView a.hub c) (isPressedRaw e.sw c) e.now
        else chanView a.hub c :=
  (chanView_of_core _ _ (monitorSample_core e a x) c).trans (sample_view a.hub e.sw x e.now c)

theorem checkAllSample_view (e : Env) (a : PressScan) (x c : Nat) :
    chanView (checkAllSample e a x).hub c
      = if x = c then sampleView (chanView a.hub c) (isPressedRaw e.sw c) e.now
        else chanView a.hub c :=
  (chanView_of_core _ _ (checkAllSample_core e a x) c).trans (sample_view a.hub e.sw x e.now c)

/-- The value `debouncedPressed` returns is the stable value it leaves in `lastPressed`. -/
theorem debouncedPressed_value (s : Hub) (sw : Nat → Bool) (ch now : Nat) :
    (debouncedPressed s sw ch now).2.1
      = (sampleView (chanView s ch) (isPressedRaw sw ch) now).lastPressed := by
  unfold debouncedPressed sampleView chanView
  simp only []
  by_cases h1 : isPressedRaw sw ch ≠ s.rawPrev ch
  · simp only [if_pos h1, upd_same]
    split_ifs <;> rfl
  · simp only [if_neg h1]
    split_ifs <;> rfl

theorem monitorSample_fold_view (e : Env) (a : PressScan) (c n : Nat) (hc : c < n) :
    chanView ((List.range n).foldl (monitorSample e) a).hub c
        = sampleView (chanView a.hub c) (isPressedRaw e.sw c) e.now ∧
      ((List.range n).foldl (monitorSample e) a).pressed c
        = (sampleView (chanView a.hub c) (isPressedRaw e.sw c) e.now).lastPressed := by
  have h := foldl_range_at (monitorSample e)
    (fun (b : PressScan) => (chanView b.hub c, b.pressed c))
    (fun p => (sampleView p.1 (isPressedRaw e.sw c) e.now,
      (sampleView p.1 (isPressedRaw e.sw c) e.now).lastPressed)) c
    (fun b => by
      simp only [monitorSample_view, monitorSample_pressed, if_pos, upd_same,
        debouncedPressed_value])
    (fun b x hx => by
      have hcx : c ≠ x := fun h => hx h.symm
      simp only [monitorSample_view, monitorSample_pressed, if_neg hx, upd_other _ _ _ _ hcx])
    n a
  rw [if_pos hc] at h
  exact ⟨congrArg Prod.fst h, congrArg Prod.snd h⟩

theorem checkAllSample_fold_view (e : Env) (a : PressScan) (c n : Nat) (hc : c < n) :
    chanView ((List.range n).foldl (checkAllSample e) a).hub c
        = sampleView (chanView a.hub c) (isPressedRaw e.sw c) e.now ∧
      ((List.range n).foldl (checkAllSample e) a).pressed c
        = (sampleView (chanView a.hub c) (isPressedRaw e.sw c) e.now).lastPressed := by
  have h := foldl_range_at (checkAllSample e)
    (fun (b : PressScan) => (chanView b.hub c, b.pressed c))
    (fun p => (sampleView p.1 (isPressedRaw e.sw c) e.now,
      (sampleView p.1 (isPressedRaw e.sw c) e.now).lastPressed)) c
    (fun b => by
      simp only [checkAllSample_view, checkAllSample_pressed, if_pos, upd_same,
        debouncedPressed_value])
    (fun b x hx => by
      have hcx : c ≠ x := fun h => hx h.symm
      simp only [checkAllSample_view, checkAllSample_pressed, if_neg hx,
        upd_other _ _ _ _ hcx])
    n a
  rw [if_pos hc] at h
  exact ⟨congrArg Prod.fst h, congrArg Prod.snd h⟩

theorem releaseGate_view (s : Hub) (e : Env) (c : Nat) (hc : c < CHANNEL_COUNT) :
    chanView (releaseGate s e) c = seededView (chanView s c) (isPressedRaw e.sw c) e.now := by
  unfold releaseGate
  have h := foldl_range_at
    (fun (acc : Hub) i =>
      if ({ acc with
            rawPrev := upd acc.rawPrev i (isPressedRaw e.sw i)
            rawChangedAt := upd acc.rawChangedAt i e.now
            lastPressed := upd acc.lastPressed i (isPressedRaw e.sw i) } : Hub).streamActive
      then { acc with
            rawPrev := upd acc.rawPrev i (isPressedRaw e.sw i)
            rawChangedAt := upd acc.rawChangedAt i e.now
            lastPressed := upd acc.lastPressed i (isPressedRaw e.sw i)
            prevPressed := upd acc.prevPressed i (isPressedRaw e.sw i) }
      else { acc with
            rawPrev := upd acc.rawPrev i (isPressedRaw e.sw i)
            rawChangedAt := upd acc.rawChangedAt i e.now
            lastPressed := upd acc.lastPressed i (isPressedRaw e.sw i) })
    (fun h => chanView h c) (fun v => seededView v (isPressedRaw e.sw c) e.now) c
    (fun a => by
      simp only []
      split_ifs <;> simp [chanView, seededView, upd])
    (fun a x hx => by
      have hcx : c ≠ x := fun h => hx h.symm
      simp only []
      split_ifs <;> simp [chanView, upd, hcx])
    CHANNEL_COUNT { s with needReleaseGate := false }
  rw [if_pos hc] at h
  exact h

theorem releaseGate_gate (s : Hub) (e : Env) :
    (releaseGate s e).needReleaseGate = false ∧ (releaseGate s e).state = s.state := by
  unfold releaseGate
  exact foldl_preserves (fun (h : Hub) => h.needReleaseGate = false ∧ h.state = s.state) _ _
    { s with needReleaseGate := false }
    (fun x b hx => by
      simp only []
      split_ifs <;> exact hx)
    ⟨rfl, rfl⟩

theorem cleanAll_view (s : Hub) (e : Env) (c : Nat) (hc : c < CHANNEL_COUNT) :
    chanView (cleanAll s e) c =
      { normal := false, latch := false, latched := false, ignored := false,
        lastPressed := isPressedRaw e.sw c, rawPrev := isPressedRaw e.sw c,
        rawChangedAt := e.now } := by
  unfold cleanAll
  simp only []
  have h := foldl_range_at (fun (acc : Hub) ch => setLed (reseed acc e.sw e.now ch) ch false)
    (fun h => chanView h c) (fun v => seededView v (isPressedRaw e.sw c) e.now) c
    (fun a => by
      simp only []
      rw [chanView_of_core _ _ (setLed_core _ _ _)]
      simp [chanView, seededView, reseed, upd])
    (fun a x hx => by
      have hcx : c ≠ x := fun h => hx h.symm
      simp only []
      rw [chanView_of_core _ _ (setLed_core _ _ _)]
      simp [chanView, reseed, upd, hcx])
    CHANNEL_COUNT
    { s with
      monNormal := fun _ => false
      monLatch := fun _ => false
      latched := fun _ => false
      ignoredCh := fun _ => false
      checkSelect := fun _ => false
      checkActive := false }
  rw [if_pos hc] at h
  exact h

theorem goDarkAndIdle_view (s : Hub) (e : Env) (c : Nat) (hc : c < CHANNEL_COUNT) :
    chanView (goDarkAndIdle s e) c =
      { normal := false, latch := false, latched := false, ignored := false,
        lastPressed := isPressedRaw e.sw c, rawPrev := isPressedRaw e.sw c,
        rawChangedAt := e.now } := by
  have h1 : chanView (goDarkAndIdle s e) c = chanView (cleanAll (stopStreaming s) e) c :=
    chanView_of_core _ (allLeds (cleanAll (stopStreaming s) e) false)
      (allLeds_core _ _) c
  rw [h1]
  exact cleanAll_view _ e c hc

theorem monitorSample_gate (e : Env) (l : List Nat) (a : PressScan) :
    (l.foldl (monitorSample e) a).hub.state = a.hub.state ∧
      (l.foldl (monitorSample e) a).hub.needReleaseGate = a.hub.needReleaseGate := by
  refine foldl_preserves (fun (b : PressScan) => b.hub.state = a.hub.state ∧
    b.hub.needReleaseGate = a.hub.needReleaseGate) _ l a (fun x ch hx => ?_) ⟨rfl, rfl⟩
  have hcore := monitorSample_core e x ch
  have h1 := congrArg ChanCore.state hcore
  have h2 := congrArg ChanCore.needReleaseGate hcore
  obtain ⟨_, _, _, _, _, _, f7, f8, _⟩ := debouncedPressed_frame x.hub e.sw ch e.now
  have g1 : (monitorSample e x ch).hub.state = x.hub.state := by
    refine h1.trans ?_
    split_ifs <;> exact f7
  have g2 : (monitorSample e x ch).hub.needReleaseGate = x.hub.needReleaseGate := by
    refine h2.trans ?_
    split_ifs <;> exact f8
  exact ⟨g1.trans hx.1, g2.trans hx.2⟩

/-- One pass of `doMonitoring` seen from channel `c`: either the Hub went dark (auto-final
success), or the channel is sampled once, from the reseeded debouncer when the release gate
was set. -/
theorem doMonitoring_view (s : Hub) (e : Env) (c : Nat) (hc : c < CHANNEL_COUNT) :
    ((doMonitoring s e).state = State.WAIT_FOR_TARGET ∧
      (doMonitoring s e).needReleaseGate = false ∧
      chanView (doMonitoring s e) c =
        { normal := false, latch := false, latched := false, ignored := false,
          lastPressed := isPressedRaw e.sw c, rawPrev := isPressedRaw e.sw c,
          rawChangedAt := e.now }) ∨
    ((doMonitoring s e).state = s.state ∧
      (doMonitoring s e).needReleaseGate = false ∧
      chanView (doMonitoring s e) c =
        sampleView (if s.needReleaseGate = true
            then seededView (chanView s c) (isPressedRaw e.sw c) e.now else chanView s c)
          (isPressedRaw e.sw c) e.now) := by
  have hg0 : (if s.needReleaseGate = true then releaseGate s e else s).needReleaseGate = false ∧
      (if s.needReleaseGate = true then releaseGate s e else s).state = s.state ∧
      chanView (if s.needReleaseGate = true then releaseGate s e else s) c =
        (if s.needReleaseGate = true
          then seededView (chanView s c) (isPressedRaw e.sw c) e.now else chanView s c) := by
    split_ifs with h
    · exact ⟨(releaseGate_gate s e).1, (releaseGate_gate s e).2, releaseGate_view s e c hc⟩
    · exact ⟨by simpa using h, rfl, rfl⟩
  have hA := monitorSample_gate e (List.range CHANNEL_COUNT)
    { hub := if s.needReleaseGate = true then releaseGate s e else s, pressed := fun _ => false }
  have hV := (monitorSample_fold_view e
    { hub := if s.needReleaseGate = true then releaseGate s e else s, pressed := fun _ => false }
    c CHANNEL_COUNT hc).1
  have hcore := monitorLed_fold_core
    (allContactlessLatched ((List.range CHANNEL_COUNT).foldl (monitorSample e)
      { hub := if s.needReleaseGate = true then releaseGate s e else s,
        pressed := fun _ => false }).hub)
    ((List.range CHANNEL_COUNT).foldl (monitorSample e)
      { hub := if s.needReleaseGate = true then releaseGate s e else s,
        pressed := fun _ => false }).pressed (List.range CHANNEL_COUNT)
    ((List.range CHANNEL_COUNT).foldl (monitorSample e)
      { hub := if s.needReleaseGate = true then releaseGate s e else s,
        pressed := fun _ => false }).hub
  have h1 := (congrArg ChanCore.state hcore).trans (hA.1.trans hg0.2.1)
  have h2 := (congrArg ChanCore.needReleaseGate hcore).trans (hA.2.trans hg0.1)
  have h3 := (chanView_of_core _ _ hcore c).trans (hV.trans (by rw [hg0.2.2]))
  have key : ∀ P : Hub → Prop,
      (∀ x, P (goDarkAndIdle x e)) →
      (∀ x : Hub, chanCore x = chanCore ((List.range CHANNEL_COUNT).foldl
        (monitorLed
          (allContactlessLatched ((List.range CHANNEL_COUNT).foldl (monitorSample e)
            { hub := if s.needReleaseGate = true then releaseGate s e else s,
              pressed := fun _ => false }).hub)
          ((List.range CHANNEL_COUNT).foldl (monitorSample e)
            { hub := if s.needReleaseGate = true then releaseGate s e else s,
              pressed := fun _ => false }).pressed)
        ((List.range CHANNEL_COUNT).foldl (monitorSample e)
          { hub := if s.needReleaseGate = true then releaseGate s e else s,
            pressed := fun _ => false }).hub) → P x) →
      P (doMonitoring s e) := by
    intro P hd hk
    unfold doMonitoring
    simp only []
    refine ite_ind P _ _ _ (ite_ind P _ _ _ ?_ ?_) ?_
    · exact hd _
    · apply hk
      split_ifs <;> rfl
    · apply hk
      rfl
  refine key (fun h : Hub =>
      (h.state = State.WAIT_FOR_TARGET ∧ h.needReleaseGate = false ∧
        chanView h c =
          { normal := false, latch := false, latched := false, ignored := false,
            lastPressed := isPressedRaw e.sw c, rawPrev := isPressedRaw e.sw c,
            rawChangedAt := e.now }) ∨
      (h.state = s.state ∧ h.needReleaseGate = false ∧
        chanView h c =
          sampleView (if s.needReleaseGate = true
              then seededView (chanView s c) (isPressedRaw e.sw c) e.now else chanView s c)
            (isPressedRaw e.sw c) e.now)) ?_ ?_
  · intro x
    exact Or.inl ⟨rfl, rfl, goDarkAndIdle_view _ e c hc⟩
  · intro x hx
    right
    exact ⟨(congrArg ChanCore.state hx).trans h1,
      (congrArg ChanCore.needReleaseGate hx).trans h2,
      (chanView_of_core _ _ hx c).trans h3⟩

theorem subU32_self (a : Nat) : subU32 a a = 0 := by
  unfold subU32
  have h : a + U32 - a % U32 = U32 * (a / U32 + 1) := by
    have := Nat.div_add_mod a U32
    have h2 : a % U32 ≤ a := Nat.mod_le _ _
    rw [Nat.mul_add, Nat.mul_one]
    omega
  rw [h]
  exact Nat.mul_mod_right _ _

theorem sampleView_rawPrev (v : ChanView) (raw : Bool) (now : Nat) :
    (sampleView v raw now).rawPrev = raw := by
  unfold sampleView
  simp only []
  split_ifs <;> rfl

theorem sampleView_rawChangedAt (v : ChanView) (raw : Bool) (now : Nat) :
    (sampleView v raw now).rawChangedAt = if raw ≠ v.rawPrev then now else v.rawChangedAt := by
  unfold sampleView
  simp only []
  split_ifs <;> rfl

theorem sampleView_lastPressed_false (v : ChanView) (raw : Bool) (now : Nat)
    (h : (sampleView v raw now).lastPressed = false) : v.lastPressed = false ∨ raw = false := by
  unfold sampleView at h
  simp only [] at h
  split_ifs at h <;> first | exact Or.inr h | exact Or.inl h

theorem sampleView_latched (v : ChanView) (raw : Bool) (now : Nat)
    (h : (sampleView v raw now).latched = true) :
    v.latched = true ∨
      (raw = true ∧ v.lastPressed = false ∧ raw = v.rawPrev ∧
        CH_DEBOUNCE_MS ≤ subU32 now v.rawChangedAt) := by
  unfold sampleView at h
  simp only [] at h
  by_cases h1 : raw ≠ v.rawPrev
  · simp only [if_pos h1, subU32_self] at h
    have : ¬ (0 ≥ CH_DEBOUNCE_MS ∧ v.lastPressed ≠ raw) := by
      intro hh
      exact absurd hh.1 (by decide)
    rw [if_neg this] at h
    exact Or.inl h
  · simp only [if_neg h1] at h
    have h1b : raw = v.rawPrev := by
      by_contra hh
      exact h1 hh
    by_cases h2 : subU32 now v.rawChangedAt ≥ CH_DEBOUNCE_MS ∧ v.lastPressed ≠ raw
    · rw [if_pos h2] at h
      simp only [] at h
      by_cases h3 : (v.latch && raw) = true
      · right
        simp only [Bool.and_eq_true] at h3
        refine ⟨h3.2, ?_, h1b, h2.1⟩
        have := h2.2
        rw [h3.2] at this
        cases hv : v.lastPressed
        · rfl
        · exact absurd hv this
      · rw [if_neg h3] at h
        exact Or.inl h
    · rw [if_neg h2] at h
      exact Or.inl h

theorem blinkClock_frame (s : Hub) (now : Nat) (h : s.state ≠ State.WELCOME) (c : Nat) :
    (blinkClock s now).state = s.state ∧
      (blinkClock s now).needReleaseGate = s.needReleaseGate ∧
      chanView (blinkClock s now) c = chanView s c := by
  unfold blinkClock
  simp only []
  have hn : ¬ (({ s with lastBlinkTick := now, blinkState := !s.blinkState } : Hub).state
      = State.WELCOME) := h
  rw [if_neg hn]
  split_ifs
  · exact ⟨rfl, rfl, rfl⟩
  · exact ⟨rfl, rfl, rfl⟩

/-- One pass of `loop()` begun in MONITORING, seen from channel `c`. -/
theorem loopTick_monitoring_view (s : Hub) (es : Nat → Env) (c : Nat) (hc : c < CHANNEL_COUNT)
    (hst : s.state = State.MONITORING) :
    ((loopTick s es).state = State.WAIT_FOR_TARGET ∧
      (loopTick s es).needReleaseGate = false ∧
      chanView (loopTick s es) c =
        { normal := false, latch := false, latched := false, ignored := false,
          lastPressed := isPressedRaw (es 0).sw c, rawPrev := isPressedRaw (es 0).sw c,
          rawChangedAt := (es 0).now }) ∨
    ((loopTick s es).state = State.MONITORING ∧
      (loopTick s es).needReleaseGate = false ∧
      chanView (loopTick s es) c =
        sampleView (if s.needReleaseGate = true
            then seededView (chanView s c) (isPressedRaw (es 0).sw c) (es 0).now
            else chanView s c)
          (isPressedRaw (es 0).sw c) (es 0).now) := by
  have hne : s.state ≠ State.WELCOME := by rw [hst]; decide
  obtain ⟨b1, b2, b3⟩ := blinkClock_frame s (es 0).now hne c
  have hb := helloButton_core (blinkClock s (es 0).now) (es 0)
  have c1 : (helloButton (blinkClock s (es 0).now) (es 0)).state = State.MONITORING :=
    ((congrArg ChanCore.state hb).trans b1).trans hst
  have c2 : (helloButton (blinkClock s (es 0).now) (es 0)).needReleaseGate
      = s.needReleaseGate := (congrArg ChanCore.needReleaseGate hb).trans b2
  have c3 : chanView (helloButton (blinkClock s (es 0).now) (es 0)) c = chanView s c :=
    (chanView_of_core _ _ hb c).trans b3
  have hrun : runState (helloButton (blinkClock s (es 0).now) (es 0)) es
      = doMonitoring (helloButton (blinkClock s (es 0).now) (es 0)) (es 0) := by
    unfold runState
    rw [c1]
  have hcore : chanCore (loopTick s es)
      = chanCore (doMonitoring (helloButton (blinkClock s (es 0).now) (es 0)) (es 0)) := by
    rw [← hrun]
    exact (drainPending_core _ _).trans (serviceAckTx_core _ _)
  have k1 := congrArg ChanCore.state hcore
  have k2 := congrArg ChanCore.needReleaseGate hcore
  have k3 := chanView_of_core _ _ hcore c
  rcases doMonitoring_view (helloButton (blinkClock s (es 0).now) (es 0)) (es 0) c hc
    with ⟨d1, d2, d3⟩ | ⟨d1, d2, d3⟩
  · exact Or.inl ⟨k1.trans d1, k2.trans d2, k3.trans d3⟩
  · right
    rw [c2, c3] at d3
    exact ⟨k1.trans (d1.trans c1), k2.trans d2, k3.trans d3⟩

/-- One pass of `loop()` begun in WAIT_FOR_TARGET leaves the channels alone. -/
theorem loopTick_wait_view (s : Hub) (es : Nat → Env) (c : Nat)
    (hst : s.state = State.WAIT_FOR_TARGET) :
    (loopTick s es).state = State.WAIT_FOR_TARGET ∧
      chanView (loopTick s es) c = chanView s c := by
  have hne : s.state ≠ State.WELCOME := by rw [hst]; decide
  obtain ⟨b1, _, b3⟩ := blinkClock_frame s (es 0).now hne c
  have hb := helloButton_core (blinkClock s (es 0).now) (es 0)
  have c1 : (helloButton (blinkClock s (es 0).now) (es 0)).state = State.WAIT_FOR_TARGET :=
    ((congrArg ChanCore.state hb).trans b1).trans hst
  have hrun : runState (helloButton (blinkClock s (es 0).now) (es 0)) es
      = idleLeds (helloButton (blinkClock s (es 0).now) (es 0)) (es 0) := by
    unfold runState
    rw [c1]
  have hcore : chanCore (loopTick s es)
      = chanCore (helloButton (blinkClock s (es 0).now) (es 0)) := by
    refine ((drainPending_core _ _).trans (serviceAckTx_core _ _)).trans ?_
    rw [hrun]
    exact idleLeds_core _ _
  exact ⟨(congrArg ChanCore.state hcore).trans c1,
    (chanView_of_core _ _ hcore c).trans ((chanView_of_core _ _ hb c).trans b3)⟩

theorem releasedThenHeld_mono (es : Nat → Nat → Env) (c n : Nat)
    (h : ReleasedThenHeld es c n) : ReleasedThenHeld es c (n + 1) := by
  obtain ⟨j, m, k, h1, h2, h3, h4⟩ := h
  exact ⟨j, m, k, h1, h2, by omega, h4⟩

/-- Invariant of the passes that follow a set release gate, for one channel. -/
theorem gate_ticks (s : Hub) (es : Nat → Nat → Env) (c : Nat)
    (hst : s.state = State.MONITORING) (hg : s.needReleaseGate = true)
    (hc : c < CHANNEL_COUNT) (hl : s.latched c = false) (n : Nat) :
    ((runTicks s es (n + 1)).state = State.WAIT_FOR_TARGET ∧
      (runTicks s es (n + 1)).latched c = false) ∨
    ((runTicks s es (n + 1)).state = State.MONITORING ∧
      (runTicks s es (n + 1)).needReleaseGate = false ∧
      (runTicks s es (n + 1)).rawPrev c = tickRaw es c n ∧
      (∃ m, m ≤ n ∧ (runTicks s es (n + 1)).rawChangedAt c = tickNow es m ∧
        ∀ i, m ≤ i → i ≤ n → tickRaw es c i = tickRaw es c n) ∧
      ((runTicks s es (n + 1)).lastPressed c = false → ∃ j, j ≤ n ∧ tickRaw es c j = false) ∧
      ((runTicks s es (n + 1)).latched c = true → ReleasedThenHeld es c (n + 1))) := by
  induction n with
  | zero =>
    have hrun : runTicks s es 1 = loopTick s (es 0) := rfl
    rw [hrun]
    rcases loopTick_monitoring_view s (es 0) c hc hst with ⟨d1, _, d3⟩ | ⟨d1, d2, d3⟩
    · exact Or.inl ⟨d1, congrArg ChanView.latched d3⟩
    · right
      rw [if_pos hg] at d3
      have e1 : (loopTick s (es 0)).rawPrev c = _ := congrArg ChanView.rawPrev d3
      have e2 : (loopTick s (es 0)).rawChangedAt c = _ := congrArg ChanView.rawChangedAt d3
      have e3 : (loopTick s (es 0)).lastPressed c = _ := congrArg ChanView.lastPressed d3
      have e4 : (loopTick s (es 0)).latched c = _ := congrArg ChanView.latched d3
      rw [sampleView_rawPrev] at e1
      rw [sampleView_rawChangedAt] at e2
      refine ⟨d1, d2, e1, ⟨0, le_refl _, ?_, ?_⟩, ?_, ?_⟩
      · rw [e2]
        simp [seededView, tickNow]
      · intro i h1 h2
        have : i = 0 := by omega
        rw [this]
      · intro hlp
        rw [e3] at hlp
        refine ⟨0, le_refl _, ?_⟩
        rcases sampleView_lastPressed_false _ _ _ hlp with h | h
        · exact h
        · exact h
      · intro hla
        rw [e4] at hla
        rcases sampleView_latched _ _ _ hla with h | ⟨h1, h2, _, _⟩
        · have : s.latched c = true := h
          rw [hl] at this
          exact absurd this (by decide)
        · have h2b : isPressedRaw (es 0 0).sw c = false := h2
          rw [h1] at h2b
          exact absurd h2b (by decide)
  | succ n ih =>
    have hrun : runTicks s es (n + 1 + 1) = loopTick (runTicks s es (n + 1)) (es (n + 1)) := rfl
    rw [hrun]
    rcases ih with ⟨i1, i2⟩ | ⟨i1, i2, i3, ⟨m, im1, im2, im3⟩, i5, i6⟩
    · left
      obtain ⟨w1, w2⟩ := loopTick_wait_view (runTicks s es (n + 1)) (es (n + 1)) c i1
      exact ⟨w1, (congrArg ChanView.latched w2).trans i2⟩
    · rcases loopTick_monitoring_view (runTicks s es (n + 1)) (es (n + 1)) c hc i1
        with ⟨d1, _, d3⟩ | ⟨d1, d2, d3⟩
      · exact Or.inl ⟨d1, congrArg ChanView.latched d3⟩
      · right
        rw [i2] at d3
        simp only [Bool.false_eq_true, if_false] at d3
        have e1 : (loopTick (runTicks s es (n + 1)) (es (n + 1))).rawPrev c = _ :=
          congrArg ChanView.rawPrev d3
        have e2 : (loopTick (runTicks s es (n + 1)) (es (n + 1))).rawChangedAt c = _ :=
          congrArg ChanView.rawChangedAt d3
        have e3 : (loopTick (runTicks s es (n + 1)) (es (n + 1))).lastPressed c = _ :=
          congrArg ChanView.lastPressed d3
        have e4 : (loopTick (runTicks s es (n + 1)) (es (n + 1))).latched c = _ :=
          congrArg ChanView.latched d3
        rw [sampleView_rawPrev] at e1
        rw [sampleView_rawChangedAt] at e2
        have hprev : (chanView (runTicks s es (n + 1)) c).rawPrev = tickRaw es c n := i3
        have hraw : isPressedRaw (es (n + 1) 0).sw c = tickRaw es c (n + 1) := rfl
        refine ⟨d1, d2, e1, ?_, ?_, ?_⟩
        · by_cases hch : isPressedRaw (es (n + 1) 0).sw c
              ≠ (chanView (runTicks s es (n + 1)) c).rawPrev
          · rw [if_pos hch] at e2
            refine ⟨n + 1, le_refl _, e2, ?_⟩
            intro i h1 h2
            have : i = n + 1 := by omega
            rw [this]
          · rw [if_neg hch] at e2
            have hsame : tickRaw es c (n + 1) = tickRaw es c n := by
              rw [← hraw, ← hprev]
              by_contra hh
              exact hch hh
            refine ⟨m, by omega, e2.trans im2, ?_⟩
            intro i h1 h2
            rcases Nat.lt_or_ge i (n + 1) with hlt | hge
            · rw [hsame]
              exact im3 i h1 (by omega)
            · have : i = n + 1 := by omega
              rw [this]
        · intro hlp
          rw [e3] at hlp
          rcases sampleView_lastPressed_false _ _ _ hlp with h | h
          · obtain ⟨j, hj1, hj2⟩ := i5 h
            exact ⟨j, by omega, hj2⟩
          · exact ⟨n + 1, le_refl _, h⟩
        · intro hla
          rw [e4] at hla
          rcases sampleView_latched _ _ _ hla with h | ⟨h1, h2, h3, h4⟩
          · exact releasedThenHeld_mono es c _ (i6 h)
          · obtain ⟨j, hj1, hj2⟩ := i5 h2
            have hn1 : tickRaw es c (n + 1) = true := h1
            have hn0 : tickRaw es c n = true := by
              rw [← hprev]
              exact h3.symm.trans h1
            have hjm : j < m := by
              by_contra hh
              have := im3 j (by omega) hj1
              rw [hj2, hn0] at this
              exact absurd this (by decide)
            refine ⟨j, m, n + 1, hjm, by omega, by omega, hj2, ?_, ?_⟩
            · intro i g1 g2
              rcases Nat.lt_or_ge i (n + 1) with hlt | hge
              · rw [im3 i g1 (by omega)]
                exact hn0
              · have : i = n + 1 := by omega
                rw [this]
                exact hn1
            · have h4b : CH_DEBOUNCE_MS ≤ subU32 (es (n + 1) 0).now
                  ((runTicks s es (n + 1)).rawChangedAt c) := h4
              rw [im2] at h4b
              exact h4b

/-- C9 (release gate). When `doMonitoring` runs with `needReleaseGate` set, it clears the
gate, leaves the debouncer of every channel seeded from the raw level of that tick
(`rawPrev = lastPressed = raw`, `rawChangedAt = now`) and latches no channel. Over the passes
of `loop()` that follow, from a MONITORING state with the gate set, a channel `c` that was not
latched becomes latched only after its switch has been sampled released and then sampled
pressed for the debounce time; in particular it is never latched while every pass samples
the switch pressed. -/
theorem C9_release_gate (s : Hub) (es : Nat → Nat → Env) (c : Nat)
    (hst : s.state = State.MONITORING) (hg : s.needReleaseGate = true)
    (hc : c < CHANNEL_COUNT) (hl : s.latched c = false) :
    (doMonitoring s (es 0 0)).needReleaseGate = false ∧
    (∀ i, i < CHANNEL_COUNT →
      (doMonitoring s (es 0 0)).rawPrev i = isPressedRaw (es 0 0).sw i ∧
      (doMonitoring s (es 0 0)).lastPressed i = isPressedRaw (es 0 0).sw i ∧
      (doMonitoring s (es 0 0)).rawChangedAt i = (es 0 0).now ∧
      ((doMonitoring s (es 0 0)).latched i = true → s.latched i = true)) ∧
    (∀ n, (runTicks s es n).latched c = true → ReleasedThenHeld es c n) ∧
    (∀ n, (∀ k, k < n → tickRaw es c k = true) → (runTicks s es n).latched c = false) := by
  have h3 : ∀ n, (runTicks s es n).latched c = true → ReleasedThenHeld es c n := by
    intro n hn
    cases n with
    | zero =>
      have : s.latched c = true := hn
      rw [hl] at this
      exact absurd this (by decide)
    | succ n =>
      rcases gate_ticks s es c hst hg hc hl n with ⟨_, h⟩ | ⟨_, _, _, _, _, h⟩
      · rw [h] at hn
        exact absurd hn (by decide)
      · exact h hn
  refine ⟨?_, ?_, h3, ?_⟩
  · rcases doMonitoring_view s (es 0 0) 0 (by decide) with ⟨_, d, _⟩ | ⟨_, d, _⟩ <;> exact d
  · intro i hi
    rcases doMonitoring_view s (es 0 0) i hi with ⟨_, _, d⟩ | ⟨_, _, d⟩
    · refine ⟨congrArg ChanView.rawPrev d, congrArg ChanView.lastPressed d,
        congrArg ChanView.rawChangedAt d, fun h => ?_⟩
      have : (doMonitoring s (es 0 0)).latched i = false := congrArg ChanView.latched d
      rw [this] at h
      exact absurd h (by decide)
    · rw [if_pos hg] at d
      have e1 : (doMonitoring s (es 0 0)).rawPrev i = _ := congrArg ChanView.rawPrev d
      have e2 : (doMonitoring s (es 0 0)).rawChangedAt i = _ := congrArg ChanView.rawChangedAt d
      have e3 : (doMonitoring s (es 0 0)).lastPressed i = _ := congrArg ChanView.lastPressed d
      have e4 : (doMonitoring s (es 0 0)).latched i = _ := congrArg ChanView.latched d
      refine ⟨?_, ?_, ?_, ?_⟩
      · rw [e1]
        simp [sampleView, seededView]
      · rw [e3]
        simp [sampleView, seededView]
      · rw [e2]
        simp [sampleView, seededView]
      · rw [e4]
        simp [sampleView, seededView, chanView]
  · intro n hall
    cases hlat : (runTicks s es n).latched c
    · rfl
    · obtain ⟨j, m, k, h1, h2, h3, h4, _⟩ := h3 n hlat
      have := hall j (by omega)
      rw [h4] at this
      exact absurd this (by decide)

/-- Witness of C9: after the `MONITOR` frame the gate is set; channel 3 (latch) is held pressed
from the first pass on and is not latched after three passes, 60 ms later. -/
theorem C9_release_gate_witness :
    monitoredHub.state = State.MONITORING ∧ monitoredHub.needReleaseGate = true ∧
      monitoredHub.monLatch 2 = true ∧ monitoredHub.latched 2 = false ∧
      (runTicks monitoredHub heldTicks 3).latched 2 = false :=
  ⟨by decide, by decide, by decide, by decide,
    (C9_release_gate monitoredHub heldTicks 2 (by decide) (by decide) (by decide)
      (by decide)).2.2.2 3 (fun _ _ => rfl)⟩

/-! ## Verdict of `checkAll` (C10) -/

theorem eval_ignored (k : ChanCore) (r : Bool) (p : Nat → Bool) (ch : Nat)
    (hI : k.ignoredCh ch = true) : evalMissing k r p ch = false ∧ evalExtra k p ch = false := by
  simp [evalMissing, evalExtra, hI]

theorem eval_normal (k : ChanCore) (r : Bool) (p : Nat → Bool) (ch : Nat)
    (hI : k.ignoredCh ch = false) (hN : k.monNormal ch = true) :
    evalMissing k r p ch = (evalSelected k r ch && !p ch) ∧ evalExtra k p ch = false := by
  simp [evalMissing, evalExtra, hI, hN]

theorem eval_latch (k : ChanCore) (r : Bool) (p : Nat → Bool) (ch : Nat)
    (hI : k.ignoredCh ch = false) (hN : k.monNormal ch = false) (hL : k.monLatch ch = true) :
    evalMissing k r p ch = (evalSelected k r ch && !k.latched ch) ∧
      evalExtra k p ch = false := by
  simp [evalMissing, evalExtra, hI, hN, hL]

theorem eval_untracked (k : ChanCore) (r : Bool) (p : Nat → Bool) (ch : Nat)
    (hI : k.ignoredCh ch = false) (hN : k.monNormal ch = false) (hL : k.monLatch ch = false) :
    evalMissing k r p ch = false ∧ evalExtra k p ch = p ch := by
  simp [evalMissing, evalExtra, hI, hN, hL]

theorem setLed_bufs (s : Hub) (ch : Nat) (v : Bool) :
    (setLed s ch v).missingBuf = s.missingBuf ∧ (setLed s ch v).missingLen = s.missingLen ∧
      (setLed s ch v).extraBuf = s.extraBuf ∧ (setLed s ch v).extraLen = s.extraLen := by
  rw [setLed_eq]
  exact ⟨rfl, rfl, rfl, rfl⟩

theorem checkAllEval_step (r : Bool) (p : Nat → Bool) (a : CheckScan) (ch : Nat) :
    (checkAllEval r p a ch).ok
      = (a.ok && !evalMissing (chanCore a.hub) r p ch && !evalExtra (chanCore a.hub) p ch) ∧
    ((checkAllEval r p a ch).hub.missingBuf, (checkAllEval r p a ch).hub.missingLen)
      = (if evalMissing (chanCore a.hub) r p ch = true
          then appendCsv a.hub.missingBuf a.hub.missingLen (ch + 1)
          else (a.hub.missingBuf, a.hub.missingLen)) ∧
    ((checkAllEval r p a ch).hub.extraBuf, (checkAllEval r p a ch).hub.extraLen)
      = (if evalExtra (chanCore a.hub) p ch = true
          then appendCsv a.hub.extraBuf a.hub.extraLen (ch + 1)
          else (a.hub.extraBuf, a.hub.extraLen)) := by
  by_cases hI : a.hub.ignoredCh ch = true
  · obtain ⟨e1, e2⟩ := eval_ignored (chanCore a.hub) r p ch hI
    have he : checkAllEval r p a ch = { a with hub := setLed a.hub ch false } := by
      unfold checkAllEval
      simp only []
      rw [if_pos hI]
    obtain ⟨b1, b2, b3, b4⟩ := setLed_bufs a.hub ch false
    rw [he, e1, e2]
    simp only [b1, b2, b3, b4]
    simp
  have hI2 : a.hub.ignoredCh ch = false := by simpa using hI
  by_cases hN : a.hub.monNormal ch = true
  · obtain ⟨e1, e2⟩ := eval_normal (chanCore a.hub) r p ch hI2 hN
    rw [e1, e2]
    have hcode : (evalSelected (chanCore a.hub) r ch && !p ch)
        = ((if r = true then a.hub.checkActive && a.hub.checkSelect ch && !a.hub.ignoredCh ch
            else (a.hub.monNormal ch || a.hub.monLatch ch) && !a.hub.ignoredCh ch) && !p ch) := rfl
    by_cases hc : (evalSelected (chanCore a.hub) r ch && !p ch) = true
    · have hc1 := hc
      rw [hcode] at hc1
      have he : checkAllEval r p a ch =
          { hub := setLed { a.hub with
              missingBuf := (appendCsv a.hub.missingBuf a.hub.missingLen (ch + 1)).1
              missingLen := (appendCsv a.hub.missingBuf a.hub.missingLen (ch + 1)).2 }
              ch (!p ch), ok := false } := by
        unfold checkAllEval
        simp only []
        rw [if_neg hI, if_pos hN, if_pos hc1]
      rw [he, hc]
      simp only [setLed_bufs]
      simp
    · have hc1 := hc
      rw [hcode] at hc1
      have he : checkAllEval r p a ch = { a with hub := setLed a.hub ch (!p ch) } := by
        unfold checkAllEval
        simp only []
        rw [if_neg hI, if_pos hN, if_neg hc1]
      have hc2 : (evalSelected (chanCore a.hub) r ch && !p ch) = false := by simpa using hc
      rw [he, hc2]
      simp only [setLed_bufs]
      simp
  have hN2 : a.hub.monNormal ch = false := by simpa using hN
  by_cases hL : a.hub.monLatch ch = true
  · obtain ⟨e1, e2⟩ := eval_latch (chanCore a.hub) r p ch hI2 hN2 hL
    rw [e1, e2]
    have hcode : (evalSelected (chanCore a.hub) r ch && !(chanCore a.hub).latched ch)
        = ((if r = true then a.hub.checkActive && a.hub.checkSelect ch && !a.hub.ignoredCh ch
            else (a.hub.monNormal ch || a.hub.monLatch ch) && !a.hub.ignoredCh ch)
            && !a.hub.latched ch) := rfl
    by_cases hc : (evalSelected (chanCore a.hub) r ch && !(chanCore a.hub).latched ch) = true
    · have hc1 := hc
      rw [hcode] at hc1
      have he : checkAllEval r p a ch =
          { hub := setLed { a.hub with
              missingBuf := (appendCsv a.hub.missingBuf a.hub.missingLen (ch + 1)).1
              missingLen := (appendCsv a.hub.missingBuf a.hub.missingLen (ch + 1)).2 }
              ch (!a.hub.latched ch), ok := false } := by
        unfold checkAllEval
        simp only []
        rw [if_neg hI, if_neg hN, if_pos hL, if_pos hc1]
      rw [he, hc]
      simp only [setLed_bufs]
      simp
    · have hc1 := hc
      rw [hcode] at hc1
      have he : checkAllEval r p a ch = { a with hub := setLed a.hub ch (!a.hub.latched ch) } := by
        unfold checkAllEval
        simp only []
        rw [if_neg hI, if_neg hN, if_pos hL, if_neg hc1]
      have hc2 : (evalSelected (chanCore a.hub) r ch && !(chanCore a.hub).latched ch) = false := by
        simpa using hc
      rw [he, hc2]
      simp only [setLed_bufs]
      simp
  have hL2 : a.hub.monLatch ch = false := by simpa using hL
  obtain ⟨e1, e2⟩ := eval_untracked (chanCore a.hub) r p ch hI2 hN2 hL2
  rw [e1, e2]
  by_cases hp : p ch = true
  · have he : checkAllEval r p a ch =
        { hub := setLed { a.hub with
            extraBuf := (appendCsv a.hub.extraBuf a.hub.extraLen (ch + 1)).1
            extraLen := (appendCsv a.hub.extraBuf a.hub.extraLen (ch + 1)).2 }
            ch a.hub.blinkState, ok := false } := by
      unfold checkAllEval
      simp only []
      rw [if_neg hI, if_neg hN, if_neg hL, if_pos hp]
    rw [he, hp]
    simp only [setLed_bufs]
    simp
  · have he : checkAllEval r p a ch = { a with hub := setLed a.hub ch false } := by
      unfold checkAllEval
      simp only []
      rw [if_neg hI, if_neg hN, if_neg hL, if_neg hp]
    have hp2 : p ch = false := by simpa using hp
    rw [he, hp2]
    simp only [setLed_bufs]
    simp

theorem checkAllEval_fold (r : Bool) (p : Nat → Bool) (l : List Nat) (a : CheckScan) :
    (l.foldl (checkAllEval r p) a).ok
      = (a.ok && l.all (fun ch =>
          !evalMissing (chanCore a.hub) r p ch && !evalExtra (chanCore a.hub) p ch)) ∧
    ((l.foldl (checkAllEval r p) a).hub.missingBuf, (l.foldl (checkAllEval r p) a).hub.missingLen)
      = csvFrom (a.hub.missingBuf, a.hub.missingLen)
          (l.filter (evalMissing (chanCore a.hub) r p)) ∧
    ((l.foldl (checkAllEval r p) a).hub.extraBuf, (l.foldl (checkAllEval r p) a).hub.extraLen)
      = csvFrom (a.hub.extraBuf, a.hub.extraLen)
          (l.filter (evalExtra (chanCore a.hub) p)) := by
  induction l generalizing a with
  | nil => simp [csvFrom]
  | cons x xs ih =>
    obtain ⟨i1, i2, i3⟩ := ih (checkAllEval r p a x)
    obtain ⟨s1, s2, s3⟩ := checkAllEval_step r p a x
    have hk := checkAllEval_core r p a x
    simp only [List.foldl_cons]
    rw [i1, i2, i3, hk, s1, s2, s3]
    refine ⟨?_, ?_, ?_⟩
    · simp only [List.all_cons, Bool.and_assoc]
    · simp only [List.filter_cons]
      split_ifs <;> rfl
    · simp only [List.filter_cons]
      split_ifs <;> rfl

theorem bufs_ite (c : Prop) [Decidable c] (x y : Hub) (h : msgBufs x = msgBufs y) :
    msgBufs (if c then x else y) = msgBufs y := by
  split_ifs
  · exact h
  · rfl

theorem sendCmdRaw_bufs (s : Hub) (e : Env) (msg : List Char) (dest : Option Mac) :
    msgBufs (sendCmdRaw s e msg dest) = msgBufs s := by
  unfold sendCmdRaw
  split
  · rfl
  · split_ifs <;> rfl

theorem sendEvent_bufs (s : Hub) (e : Env) (k : EvKind) (ch : Nat) (v : Bool) :
    msgBufs (sendEvent s e k ch v) = msgBufs s := by
  unfold sendEvent
  cases k <;> simp only [] <;> split_ifs <;>
    first
    | rfl
    | (split <;> first | rfl | exact (sendCmdRaw_bufs _ _ _ _).trans rfl)

theorem emitLatched_bufs (s : Hub) (e : Env) (ch : Nat) :
    msgBufs (emitLatched s e ch) = msgBufs s := by
  unfold emitLatched
  exact sendEvent_bufs s e EvKind.L ch true

theorem emitPressed_bufs (s : Hub) (e : Env) (ch : Nat) (p : Bool) :
    msgBufs (emitPressed s e ch p) = msgBufs s := by
  unfold emitPressed
  exact sendEvent_bufs s e EvKind.P ch p

theorem debouncedPressed_bufs (s : Hub) (sw : Nat → Bool) (ch now : Nat) :
    msgBufs (debouncedPressed s sw ch now).1 = msgBufs s := by
  unfold debouncedPressed
  simp only []
  split_ifs <;> rfl

theorem checkAllSample_bufs (e : Env) (a : PressScan) (ch : Nat) :
    msgBufs (checkAllSample e a ch).hub = msgBufs a.hub := by
  have hd := debouncedPressed_bufs a.hub e.sw ch e.now
  unfold checkAllSample
  simp only []
  generalize debouncedPressed a.hub e.sw ch e.now = r at hd
  refine (bufs_ite _ _ _ (emitPressed_bufs _ _ _ _)).trans ?_
  refine (bufs_ite _ _ _ ((bufs_ite _ _ _ (emitLatched_bufs _ _ _)).trans ?_)).trans hd
  rfl

/-- The class and selection words are not written by the sampling loop of `checkAll`. -/
theorem checkAllSample_frame (e : Env) (l : List Nat) (a : PressScan) :
    (l.foldl (checkAllSample e) a).hub.checkSelect = a.hub.checkSelect ∧
      (l.foldl (checkAllSample e) a).hub.checkActive = a.hub.checkActive ∧
      msgBufs (l.foldl (checkAllSample e) a).hub = msgBufs a.hub := by
  refine foldl_preserves (fun (b : PressScan) => b.hub.checkSelect = a.hub.checkSelect ∧
    b.hub.checkActive = a.hub.checkActive ∧ msgBufs b.hub = msgBufs a.hub) _ l a
    (fun x ch hx => ?_) ⟨rfl, rfl, rfl⟩
  have hcore := checkAllSample_core e x ch
  have h1 := congrArg ChanCore.checkSelect hcore
  have h2 := congrArg ChanCore.checkActive hcore
  obtain ⟨_, _, _, _, f5, f6, _⟩ := debouncedPressed_frame x.hub e.sw ch e.now
  have g1 : (checkAllSample e x ch).hub.checkSelect = x.hub.checkSelect := by
    refine h1.trans ?_
    split_ifs <;> exact f5
  have g2 : (checkAllSample e x ch).hub.checkActive = x.hub.checkActive := by
    refine h2.trans ?_
    split_ifs <;> exact f6
  exact ⟨g1.trans hx.1, g2.trans hx.2.1, (checkAllSample_bufs e x ch).trans hx.2.2⟩

theorem checkAll_eval (s : Hub) (e : Env) (r : Bool) :
    (checkAll s e r).2 = (List.range CHANNEL_COUNT).all (fun ch =>
        !evalMissing (chanCore (checkSampled s e).hub) r (checkSampled s e).pressed ch
          && !evalExtra (chanCore (checkSampled s e).hub) (checkSampled s e).pressed ch) ∧
    ((checkAll s e r).1.missingBuf, (checkAll s e r).1.missingLen)
      = csvFrom ([], 0) ((List.range CHANNEL_COUNT).filter
          (evalMissing (chanCore (checkSampled s e).hub) r (checkSampled s e).pressed)) ∧
    ((checkAll s e r).1.extraBuf, (checkAll s e r).1.extraLen)
      = csvFrom ([], 0) ((List.range CHANNEL_COUNT).filter
          (evalExtra (chanCore (checkSampled s e).hub) (checkSampled s e).pressed)) := by
  obtain ⟨h1, h2, h3⟩ := checkAllEval_fold r (checkSampled s e).pressed
    (List.range CHANNEL_COUNT) { hub := (checkSampled s e).hub, ok := true }
  have hb : msgBufs (checkSampled s e).hub = (([], 0), ([], 0)) :=
    (checkAllSample_frame e (List.range CHANNEL_COUNT)
      { hub := resetBuffers s, pressed := fun _ => false }).2.2
  have hb1 : ((checkSampled s e).hub.missingBuf, (checkSampled s e).hub.missingLen) = ([], 0) :=
    congrArg Prod.fst hb
  have hb2 : ((checkSampled s e).hub.extraBuf, (checkSampled s e).hub.extraLen) = ([], 0) :=
    congrArg Prod.snd hb
  simp only [hb1, hb2, Bool.true_and] at h1 h2 h3
  exact ⟨h1, h2, h3⟩

theorem sampleView_class (v : ChanView) (raw : Bool) (now : Nat) :
    (sampleView v raw now).normal = v.normal ∧ (sampleView v raw now).latch = v.latch ∧
      ((sampleView v raw now).ignored = true → v.ignored = true ∨ v.latch = true) := by
  unfold sampleView
  simp only []
  split_ifs <;> refine ⟨rfl, rfl, fun h => ?_⟩ <;>
    first
    | exact Or.inl h
    | (rename_i h3
       simp only [Bool.and_eq_true] at h3
       exact Or.inr h3.1)

theorem evalMissing_bool (I N L La P CS CA r : Bool) (hA : r = true → CA = true)
    (hex : ¬ (N = true ∧ L = true)) :
    (!I && (if N then (if r then CA && CS && !I else (N || L) && !I) && !P
        else if L then (if r then CA && CS && !I else (N || L) && !I) && !La else false))
      = (!I && (if r then CS else (N || L)) && ((N && !P) || (L && !La))) := by
  cases r
  · cases I <;> cases N <;> cases L <;> cases La <;> cases P <;> simp_all
  · have := hA rfl
    subst this
    cases I <;> cases N <;> cases L <;> cases La <;> cases P <;> cases CS <;> simp_all

theorem evalExtra_bool (I N L P : Bool) (hI : I = true → L = true) :
    (!I && !N && !L && P) = (!N && !L && P) := by
  cases I <;> cases N <;> cases L <;> cases P <;> simp_all

theorem verdict_bool (I N L La P S : Bool) :
    ((!(!I && S && ((N && !P) || (L && !La))) && !(!N && !L && P)) = true) ↔
      (¬ (I = false ∧ N = true ∧ S = true ∧ P = false) ∧
        ¬ (I = false ∧ L = true ∧ S = true ∧ La = false) ∧
        ¬ (N = false ∧ L = false ∧ P = true)) := by
  cases I <;> cases N <;> cases L <;> cases La <;> cases P <;> cases S <;> decide

theorem checkSampled_view (s : Hub) (e : Env) (ch : Nat) (hch : ch < CHANNEL_COUNT) :
    chanView (checkSampled s e).hub ch = passView s e ch ∧
      (checkSampled s e).pressed ch = (passView s e ch).lastPressed :=
  checkAllSample_fold_view e { hub := resetBuffers s, pressed := fun _ => false } ch
    CHANNEL_COUNT hch

theorem evalMissing_sampled (s : Hub) (e : Env) (r : Bool)
    (hcls : ∀ ch, ¬ (s.monNormal ch = true ∧ s.monLatch ch = true))
    (hsel : r = true → s.checkActive = true) (ch : Nat) (hch : ch < CHANNEL_COUNT) :
    evalMissing (chanCore (checkSampled s e).hub) r (checkSampled s e).pressed ch
      = missingIn s e r ch := by
  obtain ⟨hv, hp⟩ := checkSampled_view s e ch hch
  obtain ⟨c1, c2, _⟩ := sampleView_class (chanView s ch) (isPressedRaw e.sw ch) e.now
  have hfr := checkAllSample_frame e (List.range CHANNEL_COUNT)
    { hub := resetBuffers s, pressed := fun _ => false }
  have hcs : (checkSampled s e).hub.checkSelect = s.checkSelect := hfr.1
  have hca : (checkSampled s e).hub.checkActive = s.checkActive := hfr.2.1
  have hI : (checkSampled s e).hub.ignoredCh ch = (passView s e ch).ignored :=
    congrArg ChanView.ignored hv
  have hN : (checkSampled s e).hub.monNormal ch = s.monNormal ch :=
    (congrArg ChanView.normal hv).trans c1
  have hL : (checkSampled s e).hub.monLatch ch = s.monLatch ch :=
    (congrArg ChanView.latch hv).trans c2
  have hLa : (checkSampled s e).hub.latched ch = (passView s e ch).latched :=
    congrArg ChanView.latched hv
  unfold evalMissing evalSelected missingIn selectedIn
  simp only [chanCore]
  rw [hI, hN, hL, hLa, hp, hcs, hca]
  exact evalMissing_bool _ _ _ _ _ _ _ _ hsel (hcls ch)

theorem evalExtra_sampled (s : Hub) (e : Env)
    (hign : ∀ ch, s.ignoredCh ch = true → s.monLatch ch = true)
    (ch : Nat) (hch : ch < CHANNEL_COUNT) :
    evalExtra (chanCore (checkSampled s e).hub) (checkSampled s e).pressed ch
      = extraIn s e ch := by
  obtain ⟨hv, hp⟩ := checkSampled_view s e ch hch
  obtain ⟨c1, c2, c3⟩ := sampleView_class (chanView s ch) (isPressedRaw e.sw ch) e.now
  have hI : (checkSampled s e).hub.ignoredCh ch = (passView s e ch).ignored :=
    congrArg ChanView.ignored hv
  have hN : (checkSampled s e).hub.monNormal ch = s.monNormal ch :=
    (congrArg ChanView.normal hv).trans c1
  have hL : (checkSampled s e).hub.monLatch ch = s.monLatch ch :=
    (congrArg ChanView.latch hv).trans c2
  unfold evalExtra extraIn
  simp only [chanCore]
  rw [hI, hN, hL, hp]
  refine evalExtra_bool _ _ _ _ (fun h => ?_)
  rcases c3 h with h2 | h2
  · exact hign ch h2
  · exact h2

theorem checkAll_checkActive (s : Hub) (e : Env) (r : Bool) :
    (checkAll s e r).1.checkActive = s.checkActive := by
  have h1 := congrArg ChanCore.checkActive (checkAllEval_fold_core r (checkSampled s e).pressed
    (List.range CHANNEL_COUNT) { hub := (checkSampled s e).hub, ok := true })
  have h2 := (checkAllSample_frame e (List.range CHANNEL_COUNT)
    { hub := resetBuffers s, pressed := fun _ => false }).2.1
  exact h1.trans h2

theorem checkAll_invariants (s : Hub) (e : Env) (r : Bool)
    (hcls : ∀ ch, ¬ (s.monNormal ch = true ∧ s.monLatch ch = true))
    (hign : ∀ ch, s.ignoredCh ch = true → s.monLatch ch = true) :
    (∀ ch, ¬ ((checkAll s e r).1.monNormal ch = true ∧ (checkAll s e r).1.monLatch ch = true)) ∧
    (∀ ch, (checkAll s e r).1.ignoredCh ch = true → (checkAll s e r).1.monLatch ch = true) := by
  have h := checkAll_holds
    (fun _ b => ¬ (b.normal = true ∧ b.latch = true) ∧ (b.ignored = true → b.latch = true))
    (fun c b hb hq => ⟨fun hh => hq.1 ⟨hh.1, hb⟩, fun _ => rfl⟩) s e r (fun ch => ⟨hcls ch, hign ch⟩)
  exact ⟨fun ch => (h ch).1, fun ch => (h ch).2⟩

/-- C10 (`checkAll` verdict). In a state where no channel is both normal and latch and an
ignored channel is a latch channel, and with `restrict` set only when a CHECK selection is
active (as `doFinalCheck` calls it), `checkAll(restrict, now)` returns true iff, with the
debounced pressed values and latches of this pass, no channel below `CHANNEL_COUNT` is a
non-ignored normal channel that is selected and not pressed, or a non-ignored latch channel
that is selected and not latched, or an untracked channel that is pressed. `MISSING` is the
CSV of the non-ignored selected channels that are normal and not pressed or latch and not
latched, so a channel left out of the CHECK list is not recorded in it. The three hypotheses
hold again in the state the pass leaves, hence in every pass of `doFinalCheck`. -/
theorem C10_checkAll_verdict (s : Hub) (e : Env) (restrict : Bool)
    (hcls : ∀ ch, ¬ (s.monNormal ch = true ∧ s.monLatch ch = true))
    (hign : ∀ ch, s.ignoredCh ch = true → s.monLatch ch = true)
    (hsel : restrict = true → s.checkActive = true) :
    ((checkAll s e restrict).2 = true ↔
      ∀ ch, ch < CHANNEL_COUNT →
        ¬ ((passView s e ch).ignored = false ∧ s.monNormal ch = true ∧
            selectedIn s restrict ch = true ∧ (passView s e ch).lastPressed = false) ∧
        ¬ ((passView s e ch).ignored = false ∧ s.monLatch ch = true ∧
            selectedIn s restrict ch = true ∧ (passView s e ch).latched = false) ∧
        ¬ (s.monNormal ch = false ∧ s.monLatch ch = false ∧
            (passView s e ch).lastPressed = true)) ∧
    ((checkAll s e restrict).1.missingBuf, (checkAll s e restrict).1.missingLen)
      = csvFrom ([], 0) ((List.range CHANNEL_COUNT).filter (missingIn s e restrict)) ∧
    (∀ ch, restrict = true → s.checkSelect ch = false → missingIn s e restrict ch = false) ∧
    ((∀ ch, ¬ ((checkAll s e restrict).1.monNormal ch = true ∧
        (checkAll s e restrict).1.monLatch ch = true)) ∧
      (∀ ch, (checkAll s e restrict).1.ignoredCh ch = true →
        (checkAll s e restrict).1.monLatch ch = true) ∧
      (restrict = true → (checkAll s e restrict).1.checkActive = true)) := by
  obtain ⟨h1, h2, _⟩ := checkAll_eval s e restrict
  refine ⟨?_, ?_, ?_, (checkAll_invariants s e restrict hcls hign).1,
    (checkAll_invariants s e restrict hcls hign).2,
    fun hr => (checkAll_checkActive s e restrict).trans (hsel hr)⟩
  · rw [h1, List.all_eq_true]
    constructor
    · intro h ch hch
      have h3 := h ch (List.mem_range.2 hch)
      rw [evalMissing_sampled s e restrict hcls hsel ch hch,
        evalExtra_sampled s e hign ch hch] at h3
      exact (verdict_bool _ _ _ _ _ _).1 h3
    · intro h ch hch
      have hch2 := List.mem_range.1 hch
      rw [evalMissing_sampled s e restrict hcls hsel ch hch2,
        evalExtra_sampled s e hign ch hch2]
      exact (verdict_bool _ _ _ _ _ _).2 (h ch hch2)
  · rw [h2]
    congr 1
    apply List.filter_congr
    intro ch hch
    exact evalMissing_sampled s e restrict hcls hsel ch (List.mem_range.1 hch)
  · intro ch hr hcs
    simp [missingIn, selectedIn, hr, hcs]

theorem checkHub_reachable : Reachable checkHub :=
  Reachable.step _ _ (Reachable.step _ _ (Reachable.step _ _
    (Reachable.step _ _ (Reachable.step _ _ (Reachable.setup _ _ _)))))

/-- Witness of C10: after `CHECK 1,3` with channels 1 and 3 held, the restricted pass returns
true and records nothing in MISSING although the tracked channel 2 is released; the
unrestricted pass fails and records channel 2. -/
theorem C10_checkAll_verdict_witness :
    checkHub.monNormal 1 = true ∧ checkHub.checkSelect 1 = false ∧
      (passView checkHub (press13 400) 1).lastPressed = false ∧
      (checkAll checkHub (press13 400) true).2 = true ∧
      (checkAll checkHub (press13 400) true).1.missingBuf = [] ∧
      (checkAll checkHub (press13 400) false).2 = false ∧
      (checkAll checkHub (press13 400) false).1.missingBuf = "2,".toList ∧
      missingIn checkHub (press13 400) true 1 = false :=
  ⟨by decide, by decide, by decide, by decide, by decide, by decide, by decide,
    (C10_checkAll_verdict checkHub (press13 400) true
      (fun ch => reachable_holds _ exclusive_stable (fun _ => by simp) checkHub
        checkHub_reachable ch)
      (fun ch h => (reachable_holds _ ignored_stable (fun _ => by simp) checkHub
        checkHub_reachable ch h).1)
      (fun _ => by decide)).2.2.1 1 rfl (by decide)⟩

theorem foldl_keep {α β π : Type} (proj : α → π) (f : α → β → α) (l : List β) (a : α)
    (hf : ∀ x b, proj (f x b) = proj x) : proj (l.foldl f a) = proj a :=
  foldl_preserves (fun x => proj x = proj a) f l a (fun x b hx => (hf x b).trans hx) rfl

theorem proj_ite {π : Type} (proj : Hub → π) (c : Prop) [Decidable c] (x y : Hub)
    (h : proj x = proj y) : proj (if c then x else y) = proj y := by
  split_ifs
  · exact h
  · rfl

theorem setLed_slot (s : Hub) (ch : Nat) (v : Bool) : slotCore (setLed s ch v) = slotCore s := by
  rw [setLed_eq]; rfl

theorem allLeds_slot (s : Hub) (v : Bool) : slotCore (allLeds s v) = slotCore s :=
  foldl_keep slotCore _ _ _ (fun a x => setLed_slot a x v)

theorem sendCmdRaw_slot (s : Hub) (e : Env) (msg : List Char) (dest : Option Mac) :
    slotCore (sendCmdRaw s e msg dest) = slotCore s := by
  unfold sendCmdRaw
  split
  · rfl
  · split_ifs <;> rfl

theorem sendEvent_slot (s : Hub) (e : Env) (k : EvKind) (ch : Nat) (v : Bool) :
    slotCore (sendEvent s e k ch v) = slotCore s := by
  unfold sendEvent
  cases k <;> simp only [] <;> split_ifs <;>
    first
    | rfl
    | (split <;> first | rfl | exact (sendCmdRaw_slot _ _ _ _).trans rfl)

theorem emitLatched_slot (s : Hub) (e : Env) (ch : Nat) :
    slotCore (emitLatched s e ch) = slotCore s := by
  unfold emitLatched
  exact sendEvent_slot s e EvKind.L ch true

theorem emitPressed_slot (s : Hub) (e : Env) (ch : Nat) (p : Bool) :
    slotCore (emitPressed s e ch p) = slotCore s := by
  unfold emitPressed
  exact sendEvent_slot s e EvKind.P ch p

theorem debouncedPressed_slot (s : Hub) (sw : Nat → Bool) (ch now : Nat) :
    slotCore (debouncedPressed s sw ch now).1 = slotCore s := by
  unfold debouncedPressed
  simp only []
  split_ifs <;> rfl

theorem checkAllSample_slot (e : Env) (a : PressScan) (ch : Nat) :
    slotCore (checkAllSample e a ch).hub = slotCore a.hub := by
  have hd := debouncedPressed_slot a.hub e.sw ch e.now
  unfold checkAllSample
  simp only []
  generalize debouncedPressed a.hub e.sw ch e.now = r at hd
  refine (proj_ite slotCore _ _ _ (emitPressed_slot _ _ _ _)).trans ?_
  refine (proj_ite slotCore _ _ _
    ((proj_ite slotCore _ _ _ (emitLatched_slot _ _ _)).trans ?_)).trans hd
  rfl

theorem checkAllEval_slot (r : Bool) (p : Nat → Bool) (a : CheckScan) (ch : Nat) :
    slotCore (checkAllEval r p a ch).hub = slotCore a.hub := by
  unfold checkAllEval
  simp only [setLed_eq]
  split_ifs <;> rfl

theorem checkAll_slot (s : Hub) (e : Env) (r : Bool) :
    slotCore (checkAll s e r).1 = slotCore s := by
  unfold checkAll
  simp only []
  refine (foldl_keep (fun (b : CheckScan) => slotCore b.hub) _ _ _
    (fun a x => checkAllEval_slot r _ a x)).trans ?_
  exact foldl_keep (fun (b : PressScan) => slotCore b.hub) _ _ _
    (fun a x => checkAllSample_slot e a x)

theorem startStreaming_slot (s : Hub) (r : Bool) :
    slotCore (startStreaming s r) = slotCore s := by
  unfold startStreaming
  simp only []
  split_ifs <;> rfl

theorem checkAll_state (s : Hub) (e : Env) (r : Bool) : (checkAll s e r).1.state = s.state := by
  have h1 := congrArg ChanCore.state (checkAllEval_fold_core r (checkSampled s e).pressed
    (List.range CHANNEL_COUNT) { hub := (checkSampled s e).hub, ok := true })
  refine h1.trans ?_
  have h2 := foldl_preserves (fun (b : PressScan) => b.hub.state = s.state)
    (checkAllSample e) (List.range CHANNEL_COUNT)
    { hub := resetBuffers s, pressed := fun _ => false }
    (fun x ch hx => by
      have hcore := congrArg ChanCore.state (checkAllSample_core e x ch)
      obtain ⟨_, _, _, _, _, _, f7, _⟩ := debouncedPressed_frame x.hub e.sw ch e.now
      refine (hcore.trans ?_).trans hx
      split_ifs <;> exact f7) rfl
  exact h2

theorem voteLoop_all (r : Bool) (es : Nat → Env) (s1 : Hub) (fuel i : Nat)
    (hi : i + fuel = FINAL_CHECK_SAMPLES)
    (hall : ∀ k, i ≤ k → k < FINAL_CHECK_SAMPLES → passOk r es s1 k = true) :
    voteLoop r es fuel i (passState r es s1 i) i
      = (passState r es s1 FINAL_CHECK_SAMPLES, FINAL_CHECK_SAMPLES) := by
  have h5 : FINAL_CHECK_SAMPLES = 5 := rfl
  have hp : PASS_THRESHOLD = 5 := rfl
  induction fuel generalizing i with
  | zero =>
    have : i = FINAL_CHECK_SAMPLES := by omega
    subst this
    rfl
  | succ f ih =>
    have hok : (checkAll (passState r es s1 i) (es i) r).2 = true := hall i (le_refl _) (by omega)
    unfold voteLoop
    simp only [hok, if_true]
    by_cases h1 : i + 1 ≥ PASS_THRESHOLD
    · rw [if_pos h1]
      have : i + 1 = FINAL_CHECK_SAMPLES := by omega
      rw [← this]
      rfl
    · rw [if_neg h1]
      have h2 : ¬ (FINAL_CHECK_SAMPLES - i - 1 + (i + 1) < PASS_THRESHOLD) := by omega
      rw [if_neg h2]
      exact ih (i + 1) (by omega) (fun k hk1 hk2 => hall k (by omega) hk2)

theorem voteLoop_fail (r : Bool) (es : Nat → Env) (s1 : Hub) (fuel i j : Nat)
    (hi : i + fuel = FINAL_CHECK_SAMPLES) (hij : i ≤ j) (hj : j < FINAL_CHECK_SAMPLES)
    (hall : ∀ k, i ≤ k → k < j → passOk r es s1 k = true)
    (hfail : passOk r es s1 j = false) :
    voteLoop r es fuel i (passState r es s1 i) i = (passState r es s1 (j + 1), j) := by
  have h5 : FINAL_CHECK_SAMPLES = 5 := rfl
  have hp : PASS_THRESHOLD = 5 := rfl
  induction fuel generalizing i with
  | zero => omega
  | succ f ih =>
    unfold voteLoop
    by_cases hEq : i = j
    · subst hEq
      have hok : (checkAll (passState r es s1 i) (es i) r).2 = false := hfail
      simp only [hok]
      have h1 : ¬ (i ≥ PASS_THRESHOLD) := by omega
      have h2 : FINAL_CHECK_SAMPLES - i - 1 + i < PASS_THRESHOLD := by omega
      simp only [Bool.false_eq_true, if_false, if_neg h1, if_pos h2]
      rfl
    · have hok : (checkAll (passState r es s1 i) (es i) r).2 = true :=
        hall i (le_refl _) (by omega)
      simp only [hok, if_true]
      have h1 : ¬ (i + 1 ≥ PASS_THRESHOLD) := by omega
      have h2 : ¬ (FINAL_CHECK_SAMPLES - i - 1 + (i + 1) < PASS_THRESHOLD) := by omega
      rw [if_neg h1, if_neg h2]
      exact ih (i + 1) (by omega) (by omega) (fun k hk1 hk2 => hall k (by omega) hk2)

/-- What `sendCmd` does for a unicast peer outside SELF_CHECK when the driver accepts the
peer: the slot is loaded with the new transaction and the frame is handed to the radio
once. -/
theorem sendCmd_unicast (s : Hub) (e : Env) (msg : List Char) (peer : Mac)
    (hz : isZeroMac peer = false) (hb : (peer == bcastMac) = false)
    (hst : s.state ≠ State.SELF_CHECK) (hok : e.peerOk = true) :
    (sendCmd s e msg (some peer)).sent
        = s.sent ++ [{ dest := peer, text := framed msg s.seq }] ∧
      (sendCmd s e msg (some peer)).hubAckActive = true ∧
      (sendCmd s e msg (some peer)).hubAckMac = peer ∧
      (sendCmd s e msg (some peer)).hubAckMsg = framed msg s.seq ∧
      (sendCmd s e msg (some peer)).hubAckId = s.seq ∧
      (sendCmd s e msg (some peer)).seq = (s.seq + 1) % U32 ∧
      (sendCmd s e msg (some peer)).hubAckRetriesLeft = 3 ∧
      (sendCmd s e msg (some peer)).hubAckLastSend = e.now ∧
      chanCore (sendCmd s e msg (some peer)) = chanCore s := by
  have hens : ensurePeer e peer = true := by
    unfold ensurePeer isBroadcastAddr
    rw [hb]
    simpa using hok
  unfold sendCmd resolveTarget
  simp only [hz, Bool.false_eq_true, if_false, hb]
  unfold serviceAckTx
  simp only [Bool.not_true, Bool.false_eq_true, if_false, if_neg hst, true_or, if_true, hens]
  refine ⟨rfl, rfl, rfl, rfl, rfl, rfl, ?_, rfl, rfl⟩
  rfl

theorem startsWith_iff (p l : List Char) : startsWith p l = true ↔ p <+: l := by
  induction p generalizing l with
  | nil => simp [startsWith]
  | cons a p ih =>
    cases l with
    | nil => simp [startsWith]
    | cons b l =>
      simp only [startsWith, Bool.and_eq_true, beq_iff_eq, ih, List.cons_prefix_cons]

theorem prefix_take (p l : List Char) (n : Nat) (h : p <+: l) (hn : p.length ≤ n) :
    p <+: l.take n := by
  obtain ⟨t, rfl⟩ := h
  rw [List.take_append_eq_append_take, List.take_of_length_le hn]
  exact List.prefix_append _ _

theorem first_fail (v : Nat → Bool) (n : Nat) (h : ¬ ∀ k, k < n → v k = true) :
    ∃ j, j < n ∧ (∀ k, k < j → v k = true) ∧ v j = false := by
  induction n with
  | zero => exact absurd (fun k hk => absurd hk (Nat.not_lt_zero k)) h
  | succ n ih =>
    by_cases hn : ∀ k, k < n → v k = true
    · refine ⟨n, Nat.lt_succ_self n, hn, ?_⟩
      cases hv : v n
      · rfl
      · exfalso
        apply h
        intro k hk
        rcases Nat.lt_succ_iff_lt_or_eq.1 hk with h1 | h1
        · exact hn k h1
        · rw [h1]; exact hv
    · obtain ⟨j, hj, h1, h2⟩ := ih hn
      exact ⟨j, Nat.lt_succ_of_lt hj, h1, h2⟩

theorem goDarkAndIdle_sent (s : Hub) (e : Env) : (goDarkAndIdle s e).sent = s.sent := by
  unfold goDarkAndIdle
  simp only []
  have h1 : (allLeds (cleanAll (stopStreaming s) e) false).sent
      = (cleanAll (stopStreaming s) e).sent :=
    foldl_keep Hub.sent _ _ _ (fun a x => by rw [setLed_eq])
  refine h1.trans ?_
  unfold cleanAll
  simp only []
  exact foldl_keep Hub.sent _ _ _ (fun a x => by rw [setLed_eq]; rfl)

theorem passState_slot (r : Bool) (es : Nat → Env) (s1 : Hub) (k : Nat) :
    slotCore (passState r es s1 k) = slotCore s1 := by
  induction k with
  | zero => rfl
  | succ k ih => exact (checkAll_slot _ _ _).trans ih

theorem passState_state (r : Bool) (es : Nat → Env) (s1 : Hub) (k : Nat) :
    (passState r es s1 k).state = s1.state := by
  induction k with
  | zero => rfl
  | succ k ih => exact (checkAll_state _ _ _).trans ih

theorem doFinalCheck_pass (s : Hub) (es : Nat → Env)
    (hwork : hasWorkToCheck s s.checkActive = true)
    (hall : ∀ k, k < FINAL_CHECK_SAMPLES →
      passOk s.checkActive es (startStreaming s false) k = true) :
    doFinalCheck s es =
      goDarkAndIdle (stopStreaming (replyReliable (afterVote s es FINAL_CHECK_SAMPLES)
        (es FINAL_CHECK_SAMPLES) (successText (afterVote s es FINAL_CHECK_SAMPLES))))
        (es FINAL_CHECK_SAMPLES) := by
  have hv := voteLoop_all s.checkActive es (startStreaming s false) FINAL_CHECK_SAMPLES 0
    (by simp) (fun k _ hk => hall k hk)
  have hv2 : voteLoop s.checkActive es FINAL_CHECK_SAMPLES 0 (startStreaming s false) 0
      = (passState s.checkActive es (startStreaming s false) FINAL_CHECK_SAMPLES,
          FINAL_CHECK_SAMPLES) := hv
  unfold doFinalCheck
  simp only [hwork, Bool.not_true, Bool.false_eq_true, if_false, hv2]
  rw [if_pos (by decide)]
  rfl

theorem doFinalCheck_fail (s : Hub) (es : Nat → Env) (j : Nat)
    (hwork : hasWorkToCheck s s.checkActive = true) (hj : j < FINAL_CHECK_SAMPLES)
    (hall : ∀ k, k < j → passOk s.checkActive es (startStreaming s false) k = true)
    (hfail : passOk s.checkActive es (startStreaming s false) j = false) :
    doFinalCheck s es =
      { replyReliable (afterVote s es (j + 1)) (es FINAL_CHECK_SAMPLES)
          (failureText (afterVote s es (j + 1))) with state := State.MONITORING } := by
  have hv := voteLoop_fail s.checkActive es (startStreaming s false) FINAL_CHECK_SAMPLES 0 j
    (by simp) (Nat.zero_le _) hj (fun k _ hk => hall k hk) hfail
  have hv2 : voteLoop s.checkActive es FINAL_CHECK_SAMPLES 0 (startStreaming s false) 0
      = (passState s.checkActive es (startStreaming s false) (j + 1), j) := hv
  have hlt : ¬ (j ≥ PASS_THRESHOLD) := by
    have : PASS_THRESHOLD = FINAL_CHECK_SAMPLES := rfl
    omega
  unfold doFinalCheck
  simp only [hwork, Bool.not_true, Bool.false_eq_true, if_false, hv2]
  rw [if_neg hlt]
  rfl

theorem getTarget_some (s : Hub) (peer : Mac) (h : getTarget s = some peer) :
    s.haveSender = true ∧ s.lastSender = peer ∧ isZeroMac peer = false := by
  unfold getTarget at h
  split_ifs at h with hc
  simp only [Bool.and_eq_true, Bool.not_eq_true'] at hc
  have : s.lastSender = peer := Option.some.inj h
  exact ⟨hc.1, this, this ▸ hc.2⟩

theorem getTarget_of_slot (s t : Hub) (h : slotCore t = slotCore s) :
    getTarget t = getTarget s := by
  have h1 : t.haveSender = s.haveSender := congrArg SlotCore.haveSender h
  have h2 : t.lastSender = s.lastSender := congrArg SlotCore.lastSender h
  unfold getTarget
  rw [h1, h2]

/-- A reliable reply to the session peer `peer` (not the broadcast address), outside
SELF_CHECK and with the driver accepting the peer. -/
theorem replyReliable_unicast (s : Hub) (e : Env) (msg : List Char) (peer : Mac)
    (hpeer : getTarget s = some peer) (hb : (peer == bcastMac) = false)
    (hst : s.state ≠ State.SELF_CHECK) (hok : e.peerOk = true) :
    (replyReliable s e msg).sent = s.sent ++ [{ dest := peer, text := framed msg s.seq }] ∧
      (replyReliable s e msg).hubAckActive = true ∧
      (replyReliable s e msg).hubAckMac = peer ∧
      (replyReliable s e msg).hubAckMsg = framed msg s.seq ∧
      (replyReliable s e msg).hubAckId = s.seq ∧
      (replyReliable s e msg).seq = (s.seq + 1) % U32 ∧
      (replyReliable s e msg).hubAckRetriesLeft = 3 ∧
      (replyReliable s e msg).hubAckLastSend = e.now ∧
      chanCore (replyReliable s e msg) = chanCore s := by
  have hz := (getTarget_some s peer hpeer).2.2
  have he : replyReliable s e msg = sendCmd s e msg (some peer) := by
    unfold replyReliable
    rw [hpeer]
  rw [he]
  exact sendCmd_unicast s e msg peer hz hb hst hok

theorem debouncedPressed_mac (s : Hub) (sw : Nat → Bool) (ch now : Nat) :
    (debouncedPressed s sw ch now).1.BOARD_MAC = s.BOARD_MAC := by
  unfold debouncedPressed
  simp only []
  split_ifs <;> rfl

theorem checkAll_mac (s : Hub) (e : Env) (r : Bool) :
    (checkAll s e r).1.BOARD_MAC = s.BOARD_MAC := by
  have h1 := congrArg ChanCore.BOARD_MAC (checkAllEval_fold_core r (checkSampled s e).pressed
    (List.range CHANNEL_COUNT) { hub := (checkSampled s e).hub, ok := true })
  refine h1.trans ?_
  have h2 := foldl_preserves (fun (b : PressScan) => b.hub.BOARD_MAC = s.BOARD_MAC)
    (checkAllSample e) (List.range CHANNEL_COUNT)
    { hub := resetBuffers s, pressed := fun _ => false }
    (fun x ch hx => by
      have hcore := congrArg ChanCore.BOARD_MAC (checkAllSample_core e x ch)
      have f := debouncedPressed_mac x.hub e.sw ch e.now
      refine (hcore.trans ?_).trans hx
      split_ifs <;> exact f) rfl
  exact h2

theorem passState_mac (r : Bool) (es : Nat → Env) (s1 : Hub) (k : Nat) :
    (passState r es s1 k).BOARD_MAC = s1.BOARD_MAC := by
  induction k with
  | zero => rfl
  | succ k ih => exact (checkAll_mac _ _ _).trans ih

theorem afterVote_frame (s : Hub) (es : Nat → Env) (n : Nat) :
    slotCore (afterVote s es n) = slotCore s ∧ (afterVote s es n).state = s.state ∧
      (afterVote s es n).BOARD_MAC = s.BOARD_MAC := by
  refine ⟨?_, ?_, ?_⟩
  · exact ((checkAll_slot _ _ _).trans (passState_slot _ _ _ _)).trans (startStreaming_slot s false)
  · exact ((checkAll_state _ _ _).trans (passState_state _ _ _ _)).trans
      (congrArg ChanCore.state (startStreaming_core s false))
  · exact ((checkAll_mac _ _ _).trans (passState_mac _ _ _ _)).trans
      (congrArg ChanCore.BOARD_MAC (startStreaming_core s false))

theorem appCore_starts (p core str : List Char) (h : p <+: core)
    (hp : p.length ≤ MAX_MSG_LEN * 2 - 1) : p <+: appCore core str := by
  unfold appCore
  simp only []
  split_ifs
  · exact h
  · exact prefix_take p _ _ (h.trans (List.prefix_append _ _)) hp

theorem failureText_starts (s : Hub) : "RESULT FAILURE".toList <+: failureText s := by
  have h0 : "FAILURE".toList <+: appCore [] "FAILURE".toList := by decide
  have hp : "FAILURE".toList.length ≤ MAX_MSG_LEN * 2 - 1 := by decide
  unfold failureText
  simp only []
  apply prefix_take
  · have key : ∀ c2 : List Char, "FAILURE".toList <+: c2 →
        "RESULT FAILURE".toList <+: "RESULT ".toList ++ c2 ++ [' '] ++ s.BOARD_MAC := by
      intro c2 ⟨t, ht⟩
      rw [← ht]
      exact ⟨t ++ [' '] ++ s.BOARD_MAC, by simp⟩
    apply key
    split_ifs <;>
      first
      | exact h0
      | exact appCore_starts _ _ _ (appCore_starts _ _ _ h0 hp) hp
      | exact appCore_starts _ _ _ (appCore_starts _ _ _ (appCore_starts _ _ _
          (appCore_starts _ _ _ h0 hp) hp) hp) hp
  · decide

theorem successText_starts (s : Hub) : "RESULT SUCCESS".toList <+: successText s := by
  unfold successText snprintf
  apply prefix_take
  · exact ⟨' ' :: s.BOARD_MAC, by simp⟩
  · decide

theorem framed_starts (p msg : List Char) (id : Nat) (h : p <+: msg) (hp : p.length ≤ 255) :
    p <+: framed msg id := by
  unfold framed snprintf
  apply prefix_take _ _ _ _ hp
  rw [List.append_assoc]
  exact h.trans (List.prefix_append _ _)

theorem lastSentText_concat (s : Hub) (l : List Frame) (f : Frame) (h : s.sent = l ++ [f]) :
    lastSentText s = f.text := by
  unfold lastSentText
  rw [h, List.getLast?_concat]

theorem stopStreaming_sent (s : Hub) : (stopStreaming s).sent = s.sent := rfl

theorem goDarkAndIdle_state (s : Hub) (e : Env) :
    (goDarkAndIdle s e).state = State.WAIT_FOR_TARGET := rfl

theorem doFinalCheck_pass_sent (s : Hub) (es : Nat → Env) (peer : Mac)
    (hst : s.state = State.FINAL_CHECK)
    (hwork : hasWorkToCheck s s.checkActive = true)
    (hpeer : getTarget s = some peer) (hb : (peer == bcastMac) = false)
    (hok : (es FINAL_CHECK_SAMPLES).peerOk = true)
    (hall : ∀ k, k < FINAL_CHECK_SAMPLES →
      passOk s.checkActive es (startStreaming s false) k = true) :
    (doFinalCheck s es).state = State.WAIT_FOR_TARGET ∧
      (doFinalCheck s es).sent = (afterVote s es FINAL_CHECK_SAMPLES).sent ++
        [{ dest := peer, text := framed (successText s) s.seq }] := by
  obtain ⟨f1, f2, f3⟩ := afterVote_frame s es FINAL_CHECK_SAMPLES
  have hp : getTarget (afterVote s es FINAL_CHECK_SAMPLES) = some peer :=
    (getTarget_of_slot _ _ f1).trans hpeer
  have hs : (afterVote s es FINAL_CHECK_SAMPLES).state ≠ State.SELF_CHECK := by
    rw [f2, hst]; decide
  have hr := (replyReliable_unicast (afterVote s es FINAL_CHECK_SAMPLES)
    (es FINAL_CHECK_SAMPLES) (successText (afterVote s es FINAL_CHECK_SAMPLES)) peer
    hp hb hs hok).1
  have hseq : (afterVote s es FINAL_CHECK_SAMPLES).seq = s.seq := congrArg SlotCore.seq f1
  have htxt : successText (afterVote s es FINAL_CHECK_SAMPLES) = successText s := by
    unfold successText
    rw [f3]
  rw [doFinalCheck_pass s es hwork hall]
  refine ⟨goDarkAndIdle_state _ _, ?_⟩
  rw [goDarkAndIdle_sent, stopStreaming_sent, hr, htxt, hseq]

theorem doFinalCheck_fail_sent (s : Hub) (es : Nat → Env) (peer : Mac) (j : Nat)
    (hst : s.state = State.FINAL_CHECK)
    (hwork : hasWorkToCheck s s.checkActive = true)
    (hpeer : getTarget s = some peer) (hb : (peer == bcastMac) = false)
    (hok : (es FINAL_CHECK_SAMPLES).peerOk = true) (hj : j < FINAL_CHECK_SAMPLES)
    (hall : ∀ k, k < j → passOk s.checkActive es (startStreaming s false) k = true)
    (hfail : passOk s.checkActive es (startStreaming s false) j = false) :
    (doFinalCheck s es).state = State.MONITORING ∧
      (doFinalCheck s es).sent = (afterVote s es (j + 1)).sent ++
        [{ dest := peer, text := framed (failureText (afterVote s es (j + 1))) s.seq }] := by
  obtain ⟨f1, f2, f3⟩ := afterVote_frame s es (j + 1)
  have hp : getTarget (afterVote s es (j + 1)) = some peer :=
    (getTarget_of_slot _ _ f1).trans hpeer
  have hs : (afterVote s es (j + 1)).state ≠ State.SELF_CHECK := by
    rw [f2, hst]; decide
  have hr := (replyReliable_unicast (afterVote s es (j + 1))
    (es FINAL_CHECK_SAMPLES) (failureText (afterVote s es (j + 1))) peer hp hb hs hok).1
  have hseq : (afterVote s es (j + 1)).seq = s.seq := congrArg SlotCore.seq f1
  rw [doFinalCheck_fail s es j hwork hj hall hfail]
  refine ⟨rfl, ?_⟩
  rw [hseq] at hr
  exact hr

/-- C11 (strict vote). When there is work to check, `doFinalCheck` ends in WAIT_FOR_TARGET
iff the five voting samples all return true; in that case five samples are taken. When
sample `j` is the first to return false, the voting loop stops right after it (`j + 1`
samples taken, `ok = j`) and the state becomes MONITORING. Frames go to the session peer:
when `doFinalCheck` runs in FINAL_CHECK with a session peer (not the broadcast address) that
the driver accepts, the last frame sent is a `RESULT SUCCESS ...` frame iff the five samples
all return true (it is `RESULT SUCCESS <MAC> ID=<seq>`, to the peer), and after a first
failing sample it is a `RESULT FAILURE ...` frame to the peer. -/
theorem C11_strict_vote (s : Hub) (es : Nat → Env)
    (hwork : hasWorkToCheck s s.checkActive = true) :
    ((doFinalCheck s es).state = State.WAIT_FOR_TARGET ↔
      ∀ k, k < 5 → passOk s.checkActive es (startStreaming s false) k = true) ∧
    ((∀ k, k < 5 → passOk s.checkActive es (startStreaming s false) k = true) →
      voteLoop s.checkActive es FINAL_CHECK_SAMPLES 0 (startStreaming s false) 0
        = (passState s.checkActive es (startStreaming s false) 5, 5)) ∧
    (∀ j, j < 5 →
      (∀ k, k < j → passOk s.checkActive es (startStreaming s false) k = true) →
      passOk s.checkActive es (startStreaming s false) j = false →
      voteLoop s.checkActive es FINAL_CHECK_SAMPLES 0 (startStreaming s false) 0
        = (passState s.checkActive es (startStreaming s false) (j + 1), j) ∧
      (doFinalCheck s es).state = State.MONITORING) ∧
    (∀ peer, s.state = State.FINAL_CHECK → getTarget s = some peer →
      (peer == bcastMac) = false → (es FINAL_CHECK_SAMPLES).peerOk = true →
      (startsWith "RESULT SUCCESS".toList (lastSentText (doFinalCheck s es)) = true ↔
        ∀ k, k < 5 → passOk s.checkActive es (startStreaming s false) k = true) ∧
      ((∀ k, k < 5 → passOk s.checkActive es (startStreaming s false) k = true) →
        (doFinalCheck s es).sent.getLast?
          = some { dest := peer, text := framed (successText s) s.seq }) ∧
      (∀ j, j < 5 →
        (∀ k, k < j → passOk s.checkActive es (startStreaming s false) k = true) →
        passOk s.checkActive es (startStreaming s false) j = false →
        startsWith "RESULT FAILURE".toList (lastSentText (doFinalCheck s es)) = true ∧
        (doFinalCheck s es).sent.getLast?
          = some { dest := peer,
                   text := framed (failureText (afterVote s es (j + 1))) s.seq })) := by
  have hW : (∀ k, k < 5 → passOk s.checkActive es (startStreaming s false) k = true) →
      (doFinalCheck s es).state = State.WAIT_FOR_TARGET := by
    intro hall
    rw [doFinalCheck_pass s es hwork hall]
    exact goDarkAndIdle_state _ _
  have hM : ∀ j, j < 5 →
      (∀ k, k < j → passOk s.checkActive es (startStreaming s false) k = true) →
      passOk s.checkActive es (startStreaming s false) j = false →
      (doFinalCheck s es).state = State.MONITORING := by
    intro j hj hall hfail
    rw [doFinalCheck_fail s es j hwork hj hall hfail]
  refine ⟨⟨?_, hW⟩, ?_, ?_, ?_⟩
  · intro hw
    by_contra hne
    obtain ⟨j, hj, h1, h2⟩ := first_fail _ 5 hne
    have := hM j hj h1 h2
    rw [hw] at this
    exact absurd this (by decide)
  · intro hall
    exact voteLoop_all s.checkActive es (startStreaming s false) FINAL_CHECK_SAMPLES 0
      (by simp) (fun k _ hk => hall k hk)
  · intro j hj hall hfail
    exact ⟨voteLoop_fail s.checkActive es (startStreaming s false) FINAL_CHECK_SAMPLES 0 j
      (by simp) (Nat.zero_le _) hj (fun k _ hk => hall k hk) hfail, hM j hj hall hfail⟩
  · intro peer hst hpeer hb hok
    have hsucc : (∀ k, k < 5 → passOk s.checkActive es (startStreaming s false) k = true) →
        startsWith "RESULT SUCCESS".toList (lastSentText (doFinalCheck s es)) = true ∧
        (doFinalCheck s es).sent.getLast?
          = some { dest := peer, text := framed (successText s) s.seq } := by
      intro hall
      obtain ⟨_, h2⟩ := doFinalCheck_pass_sent s es peer hst hwork hpeer hb hok hall
      refine ⟨?_, ?_⟩
      · rw [lastSentText_concat _ _ _ h2, startsWith_iff]
        exact framed_starts _ _ _ (successText_starts s) (by decide)
      · rw [h2, List.getLast?_concat]
    have hfailure : ∀ j, j < 5 →
        (∀ k, k < j → passOk s.checkActive es (startStreaming s false) k = true) →
        passOk s.checkActive es (startStreaming s false) j = false →
        startsWith "RESULT FAILURE".toList (lastSentText (doFinalCheck s es)) = true ∧
        (doFinalCheck s es).sent.getLast?
          = some { dest := peer,
                   text := framed (failureText (afterVote s es (j + 1))) s.seq } := by
      intro j hj hall hfail
      obtain ⟨_, h2⟩ := doFinalCheck_fail_sent s es peer j hst hwork hpeer hb hok hj hall hfail
      refine ⟨?_, ?_⟩
      · rw [lastSentText_concat _ _ _ h2, startsWith_iff]
        exact framed_starts _ _ _ (failureText_starts _) (by decide)
      · rw [h2, List.getLast?_concat]
    refine ⟨⟨?_, fun hall => (hsucc hall).1⟩, fun hall => (hsucc hall).2, hfailure⟩
    intro hs
    by_contra hne
    obtain ⟨j, hj, h1, h2⟩ := first_fail _ 5 hne
    have hf := (hfailure j hj h1 h2).1
    rw [startsWith_iff] at hs hf
    have hpp := List.prefix_of_prefix_length_le hs hf (by decide)
    have := hpp.eq_of_length (by decide)
    exact absurd this (by decide)

/-- Witness of C11: in `checkHub` (after `CHECK 1,3`, channels 1 and 3 held) all five samples
pass and `RESULT SUCCESS AA:BB:CC:DD:EE:01 ID=1001` is the last frame sent, to the station. -/
theorem C11_strict_vote_witness :
    checkHub.state = State.FINAL_CHECK ∧ getTarget checkHub = some staMac ∧
      (doFinalCheck checkHub voteHeld).sent.getLast?
        = some { dest := staMac, text := framed (successText checkHub) checkHub.seq } ∧
      framed (successText checkHub) checkHub.seq
        = "RESULT SUCCESS AA:BB:CC:DD:EE:01 ID=1001".toList :=
  ⟨by decide, by decide,
    ((C11_strict_vote checkHub voteHeld (by decide)).2.2.2 staMac (by decide) (by decide)
      (by decide) (by decide)).2.1 (by decide),
    by decide⟩

theorem appCore_fit (core str : List Char) (h : core.length + str.length ≤ MAX_MSG_LEN * 2 - 1) :
    appCore core str = core ++ str := by
  unfold appCore
  simp only []
  split_ifs with h1
  · rw [h1, List.append_nil]
  · exact List.take_of_length_le (by rw [List.length_append]; exact h)

/-- The text built by `doFinalCheck` on failure, from buffers that hold C strings of the
recorded lengths and are short enough for the 256-byte `core` and the 272-byte `pkt`. -/
theorem failureText_format (s : Hub) (hm : s.missingLen = s.missingBuf.length)
    (he : s.extraLen = s.extraBuf.length)
    (hcore : s.missingBuf.length + s.extraBuf.length ≤ 232)
    (hpkt : s.missingBuf.length + s.extraBuf.length + s.BOARD_MAC.length ≤ 240) :
    failureText s = failureFormat s.missingBuf s.extraBuf s.BOARD_MAC := by
  have hM : MAX_MSG_LEN * 2 - 1 = 255 := rfl
  have c0 : appCore [] "FAILURE".toList = "FAILURE".toList := by decide
  have c1 : appCore "FAILURE".toList " MISSING ".toList = "FAILURE MISSING ".toList := by decide
  have c2 : appCore "FAILURE".toList " EXTRA ".toList = "FAILURE EXTRA ".toList := by decide
  have c3 : appCore "FAILURE MISSING ".toList s.missingBuf
      = "FAILURE MISSING ".toList ++ s.missingBuf :=
    appCore_fit _ _ (by rw [hM]; simp; omega)
  have c4 : appCore "FAILURE EXTRA ".toList s.extraBuf
      = "FAILURE EXTRA ".toList ++ s.extraBuf :=
    appCore_fit _ _ (by rw [hM]; simp; omega)
  have c5 : appCore ("FAILURE MISSING ".toList ++ s.missingBuf) ";EXTRA ".toList
      = "FAILURE MISSING ".toList ++ s.missingBuf ++ ";EXTRA ".toList :=
    appCore_fit _ _ (by rw [hM]; simp; omega)
  have c6 : appCore ("FAILURE MISSING ".toList ++ s.missingBuf ++ ";EXTRA ".toList) s.extraBuf
      = "FAILURE MISSING ".toList ++ s.missingBuf ++ ";EXTRA ".toList ++ s.extraBuf :=
    appCore_fit _ _ (by rw [hM]; simp; omega)
  unfold failureText failureFormat snprintf
  simp only [c0, hm, he]
  by_cases h1 : s.missingBuf = []
  · by_cases h2 : s.extraBuf = []
    · simp only [h1, h2, List.length_nil, ne_eq, not_true_eq_false, if_false, if_true]
      rw [List.take_of_length_le]
      · simp
      · rw [h1, h2] at hpkt
        simp at hpkt ⊢
        omega
    · have h2l : s.extraBuf.length ≠ 0 := fun h => h2 (List.length_eq_zero.1 h)
      simp only [h1, List.length_nil, ne_eq, not_true_eq_false, if_false, if_true, h2l,
        not_false_eq_true, h2, c2, c4]
      rw [List.take_of_length_le]
      · simp
      · rw [h1] at hpkt
        simp at hpkt ⊢
        omega
  · have h1l : s.missingBuf.length ≠ 0 := fun h => h1 (List.length_eq_zero.1 h)
    by_cases h2 : s.extraBuf = []
    · simp only [h2, List.length_nil, ne_eq, not_true_eq_false, if_false, if_true, h1l,
        not_false_eq_true, h1, c1, c3]
      rw [List.take_of_length_le]
      · simp
      · rw [h2] at hpkt
        simp at hpkt ⊢
        omega
    · have h2l : s.extraBuf.length ≠ 0 := fun h => h2 (List.length_eq_zero.1 h)
      simp only [ne_eq, not_true_eq_false, if_false, if_true, h1l, h2l,
        not_false_eq_true, h1, h2, c1, c3, c5, c6]
      rw [List.take_of_length_le]
      · simp
      · simp
        omega

theorem appendCsv_fit (buf : List Char) (x : Nat)
    (h : buf.length + (fmtDec x).length + 1 < MAX_MSG_LEN - 1) :
    appendCsv buf buf.length x
      = (buf ++ (fmtDec x ++ [',']), buf.length + ((fmtDec x).length + 1)) := by
  have h128 : MAX_MSG_LEN = 128 := rfl
  rw [h128] at h
  unfold appendCsv
  simp only [h128, List.length_append, List.length_singleton, List.take_length]
  rw [if_neg (by omega), if_neg (by omega)]

theorem csvFrom_run (chs : List Nat) (acc : List Char)
    (h : acc.length + (csvRun chs).length < MAX_MSG_LEN - 1) :
    csvFrom (acc, acc.length) chs = (acc ++ csvRun chs, acc.length + (csvRun chs).length) := by
  induction chs generalizing acc with
  | nil => simp [csvFrom, csvRun]
  | cons c cs ih =>
    have hl : (csvRun (c :: cs)).length = (fmtDec (c + 1)).length + 1 + (csvRun cs).length := by
      simp [csvRun]
      omega
    rw [hl] at h
    have h1 := appendCsv_fit acc (c + 1) (by omega)
    have hstep : csvFrom (acc, acc.length) (c :: cs)
        = csvFrom (appendCsv acc acc.length (c + 1)) cs := rfl
    rw [hstep, h1]
    have h2 := ih (acc ++ (fmtDec (c + 1) ++ [','])) (by
      simp only [List.length_append, List.length_singleton]
      omega)
    simp only [List.length_append, List.length_singleton] at h2
    rw [h2, hl]
    simp [csvRun]
    omega

theorem csvRun_sublist (l1 l2 : List Nat) (h : l1.Sublist l2) :
    (csvRun l1).length ≤ (csvRun l2).length := by
  induction h with
  | slnil => exact le_refl _
  | cons a _ ih =>
    simp only [csvRun, List.length_append, List.length_cons]
    omega
  | cons₂ a _ ih =>
    simp only [csvRun, List.length_append, List.length_cons]
    omega

theorem csvRun_range : (csvRun (List.range CHANNEL_COUNT)).length = 111 := by decide

theorem csvRun_filter_le (p : Nat → Bool) :
    (csvRun ((List.range CHANNEL_COUNT).filter p)).length ≤ 111 := by
  rw [← csvRun_range]
  exact csvRun_sublist _ _ (List.filter_sublist _)

theorem csvRun_eq (chs : List Nat) (h : chs ≠ []) :
    csvRun chs = csvList (chs.map (· + 1)) ++ [','] := by
  induction chs with
  | nil => exact absurd rfl h
  | cons c cs ih =>
    cases cs with
    | nil => simp [csvRun, csvList]
    | cons d ds =>
      have := ih (by simp)
      simp only [csvRun, List.map_cons, csvList] at this ⊢
      rw [this]
      simp

theorem trimCsv_comma (b : List Char) :
    trimCsv (b ++ [',']) (b.length + 1) = (b, b.length) := by
  unfold trimCsv
  have h1 : (b ++ [','])[b.length + 1 - 1]? = some ',' := by
    simp
  rw [if_pos ⟨by omega, h1⟩]
  simp

/-- The buffer that `trimBuffers` leaves after the `appendCsv` calls for the channels of
`range CHANNEL_COUNT` that satisfy `p`: the CSV of their 1-based numbers. -/
theorem trimCsv_csvFrom (p : Nat → Bool) :
    trimCsv (csvFrom ([], 0) ((List.range CHANNEL_COUNT).filter p)).1
        (csvFrom ([], 0) ((List.range CHANNEL_COUNT).filter p)).2
      = (csvList (((List.range CHANNEL_COUNT).filter p).map (· + 1)),
          (csvList (((List.range CHANNEL_COUNT).filter p).map (· + 1))).length) := by
  have hb := csvRun_filter_le p
  have h0 := csvFrom_run ((List.range CHANNEL_COUNT).filter p) [] (by
    have h128 : MAX_MSG_LEN = 128 := rfl
    rw [h128]
    simp only [List.length_nil, Nat.zero_add]
    omega)
  simp only [List.length_nil, List.nil_append, Nat.zero_add] at h0
  rw [h0]
  by_cases hn : (List.range CHANNEL_COUNT).filter p = []
  · rw [hn]
    rfl
  · rw [csvRun_eq _ hn]
    simp only [List.length_append, List.length_singleton]
    exact trimCsv_comma _

theorem csvList_filter_le (p : Nat → Bool) :
    (csvList (((List.range CHANNEL_COUNT).filter p).map (· + 1))).length ≤ 110 := by
  by_cases hn : (List.range CHANNEL_COUNT).filter p = []
  · rw [hn]
    decide
  · have h := csvRun_filter_le p
    rw [csvRun_eq _ hn, List.length_append, List.length_singleton] at h
    omega

theorem checkAll_buffers (s : Hub) (e : Env) (r : Bool)
    (hcls : ∀ ch, ¬ (s.monNormal ch = true ∧ s.monLatch ch = true))
    (hign : ∀ ch, s.ignoredCh ch = true → s.monLatch ch = true)
    (hsel : r = true → s.checkActive = true) :
    ((checkAll s e r).1.missingBuf, (checkAll s e r).1.missingLen)
        = csvFrom ([], 0) ((List.range CHANNEL_COUNT).filter (missingIn s e r)) ∧
      ((checkAll s e r).1.extraBuf, (checkAll s e r).1.extraLen)
        = csvFrom ([], 0) ((List.range CHANNEL_COUNT).filter (extraIn s e)) := by
  obtain ⟨_, h2, h3⟩ := checkAll_eval s e r
  refine ⟨?_, ?_⟩
  · rw [h2]
    congr 1
    apply List.filter_congr
    intro ch hch
    exact evalMissing_sampled s e r hcls hsel ch (List.mem_range.1 hch)
  · rw [h3]
    congr 1
    apply List.filter_congr
    intro ch hch
    exact evalExtra_sampled s e hign ch (List.mem_range.1 hch)

theorem passState_invariants (s : Hub) (es : Nat → Env) (n : Nat)
    (hcls : ∀ ch, ¬ (s.monNormal ch = true ∧ s.monLatch ch = true))
    (hign : ∀ ch, s.ignoredCh ch = true → s.monLatch ch = true) :
    (∀ ch, ¬ ((passState s.checkActive es (startStreaming s false) n).monNormal ch = true ∧
        (passState s.checkActive es (startStreaming s false) n).monLatch ch = true)) ∧
      (∀ ch, (passState s.checkActive es (startStreaming s false) n).ignoredCh ch = true →
        (passState s.checkActive es (startStreaming s false) n).monLatch ch = true) ∧
      (passState s.checkActive es (startStreaming s false) n).checkActive = s.checkActive := by
  induction n with
  | zero =>
    have hc := startStreaming_core s false
    have h1 : (startStreaming s false).monNormal = s.monNormal := congrArg ChanCore.monNormal hc
    have h2 : (startStreaming s false).monLatch = s.monLatch := congrArg ChanCore.monLatch hc
    have h3 : (startStreaming s false).ignoredCh = s.ignoredCh := congrArg ChanCore.ignoredCh hc
    have h4 : (startStreaming s false).checkActive = s.checkActive :=
      congrArg ChanCore.checkActive hc
    refine ⟨fun ch => ?_, fun ch => ?_, h4⟩
    · show ¬ ((startStreaming s false).monNormal ch = true ∧
        (startStreaming s false).monLatch ch = true)
      rw [h1, h2]
      exact hcls ch
    · show (startStreaming s false).ignoredCh ch = true →
        (startStreaming s false).monLatch ch = true
      rw [h2, h3]
      exact hign ch
  | succ n ih =>
    obtain ⟨i1, i2, i3⟩ := ih
    obtain ⟨j1, j2⟩ := checkAll_invariants
      (passState s.checkActive es (startStreaming s false) n) (es n) s.checkActive i1 i2
    exact ⟨j1, j2, (checkAll_checkActive _ _ _).trans i3⟩

/-- The buffers `trimBuffers` leaves after the pass that follows `n` voting samples. -/
theorem afterVote_buffers (s : Hub) (es : Nat → Env) (n : Nat)
    (hcls : ∀ ch, ¬ (s.monNormal ch = true ∧ s.monLatch ch = true))
    (hign : ∀ ch, s.ignoredCh ch = true → s.monLatch ch = true) :
    ((afterVote s es n).missingBuf, (afterVote s es n).missingLen)
        = (csvList (((List.range CHANNEL_COUNT).filter
            (missingIn (passState s.checkActive es (startStreaming s false) n)
              (es FINAL_CHECK_SAMPLES) s.checkActive)).map (· + 1)),
          (csvList (((List.range CHANNEL_COUNT).filter
            (missingIn (passState s.checkActive es (startStreaming s false) n)
              (es FINAL_CHECK_SAMPLES) s.checkActive)).map (· + 1))).length) ∧
      ((afterVote s es n).extraBuf, (afterVote s es n).extraLen)
        = (csvList (((List.range CHANNEL_COUNT).filter
            (extraIn (passState s.checkActive es (startStreaming s false) n)
              (es FINAL_CHECK_SAMPLES))).map (· + 1)),
          (csvList (((List.range CHANNEL_COUNT).filter
            (extraIn (passState s.checkActive es (startStreaming s false) n)
              (es FINAL_CHECK_SAMPLES))).map (· + 1))).length) := by
  obtain ⟨i1, i2, i3⟩ := passState_invariants s es n hcls hign
  obtain ⟨b1, b2⟩ := checkAll_buffers (passState s.checkActive es (startStreaming s false) n)
    (es FINAL_CHECK_SAMPLES) s.checkActive i1 i2 (fun h => i3.trans h)
  have t1 := trimCsv_csvFrom (missingIn (passState s.checkActive es (startStreaming s false) n)
    (es FINAL_CHECK_SAMPLES) s.checkActive)
  have t2 := trimCsv_csvFrom (extraIn (passState s.checkActive es (startStreaming s false) n)
    (es FINAL_CHECK_SAMPLES))
  rw [← b1] at t1
  rw [← b2] at t2
  exact ⟨t1, t2⟩

theorem s4Hub_reachable : Reachable s4Hub :=
  Reachable.step _ _ (Reachable.step _ _ (Reachable.step _ _
    (Reachable.step _ _ (Reachable.step _ _ (Reachable.setup _ _ _)))))

theorem extraHub_reachable : Reachable extraHub :=
  Reachable.step _ _ (Reachable.step _ _ (Reachable.step _ _
    (Reachable.step _ _ (Reachable.step _ _ (Reachable.setup _ _ _)))))

theorem sorted_filter_succ (p : Nat → Bool) :
    List.Pairwise (· < ·) (((List.range CHANNEL_COUNT).filter p).map (· + 1)) ∧
      ∀ c, c ∈ ((List.range CHANNEL_COUNT).filter p).map (· + 1) →
        1 ≤ c ∧ c ≤ CHANNEL_COUNT ∧ p (c - 1) = true := by
  refine ⟨?_, ?_⟩
  · rw [List.pairwise_map]
    exact (List.pairwise_lt_range _).filter p |>.imp (fun h => Nat.succ_lt_succ h)
  · intro c hc
    obtain ⟨ch, hch, rfl⟩ := List.mem_map.1 hc
    obtain ⟨h1, h2⟩ := List.mem_filter.1 hch
    have := List.mem_range.1 h1
    exact ⟨by omega, by omega, by simpa using h2⟩

theorem reachable_exclusive (s : Hub) (hr : Reachable s) (ch : Nat) :
    ¬ (s.monNormal ch = true ∧ s.monLatch ch = true) :=
  reachable_holds (fun _ b => ¬ (b.normal = true ∧ b.latch = true)) exclusive_stable
    (fun _ => by simp) s hr ch

theorem reachable_ignored_latch (s : Hub) (hr : Reachable s) (ch : Nat)
    (h : s.ignoredCh ch = true) : s.monLatch ch = true :=
  (reachable_holds (fun _ b => b.ignored = true → b.latch = true ∧ b.latched = true)
    ignored_stable (fun _ => by simp) s hr ch h).1

/-- C12 (voter soundness). Let `t` be the state before the `checkAll` pass that `doFinalCheck`
runs after `n` voting samples, in a state where no channel is both normal and latch and an
ignored channel is a latch channel. The failure text built after that pass is `RESULT FAILURE`
with the MISSING list made of exactly the channels that the pass finds selected, not ignored
and normal but not pressed or latch but not latched, and the EXTRA list made of exactly the
untracked channels it finds pressed, as 1-based numbers in ascending order, each once. -/
theorem C12_voter_soundness (s : Hub) (es : Nat → Env) (n : Nat)
    (hcls : ∀ ch, ¬ (s.monNormal ch = true ∧ s.monLatch ch = true))
    (hign : ∀ ch, s.ignoredCh ch = true → s.monLatch ch = true)
    (hmac : s.BOARD_MAC.length ≤ 17) :
    failureText (afterVote s es n)
        = failureFormat
            (csvList (((List.range CHANNEL_COUNT).filter
              (missingIn (passState s.checkActive es (startStreaming s false) n)
                (es FINAL_CHECK_SAMPLES) s.checkActive)).map (· + 1)))
            (csvList (((List.range CHANNEL_COUNT).filter
              (extraIn (passState s.checkActive es (startStreaming s false) n)
                (es FINAL_CHECK_SAMPLES))).map (· + 1)))
            s.BOARD_MAC ∧
      List.Pairwise (· < ·) (((List.range CHANNEL_COUNT).filter
        (missingIn (passState s.checkActive es (startStreaming s false) n)
          (es FINAL_CHECK_SAMPLES) s.checkActive)).map (· + 1)) ∧
      List.Pairwise (· < ·) (((List.range CHANNEL_COUNT).filter
        (extraIn (passState s.checkActive es (startStreaming s false) n)
          (es FINAL_CHECK_SAMPLES))).map (· + 1)) ∧
      (∀ c, c ∈ ((List.range CHANNEL_COUNT).filter
          (missingIn (passState s.checkActive es (startStreaming s false) n)
            (es FINAL_CHECK_SAMPLES) s.checkActive)).map (· + 1) ↔
        (1 ≤ c ∧ c ≤ CHANNEL_COUNT ∧
          missingIn (passState s.checkActive es (startStreaming s false) n)
            (es FINAL_CHECK_SAMPLES) s.checkActive (c - 1) = true)) ∧
      (∀ c, c ∈ ((List.range CHANNEL_COUNT).filter
          (extraIn (passState s.checkActive es (startStreaming s false) n)
            (es FINAL_CHECK_SAMPLES))).map (· + 1) ↔
        (1 ≤ c ∧ c ≤ CHANNEL_COUNT ∧
          extraIn (passState s.checkActive es (startStreaming s false) n)
            (es FINAL_CHECK_SAMPLES) (c - 1) = true)) ∧
      (∀ (peer : Mac) (j : Nat), n = j + 1 → j < FINAL_CHECK_SAMPLES →
        s.state = State.FINAL_CHECK → hasWorkToCheck s s.checkActive = true →
        getTarget s = some peer → (peer == bcastMac) = false →
        (es FINAL_CHECK_SAMPLES).peerOk = true →
        (∀ k, k < j → passOk s.checkActive es (startStreaming s false) k = true) →
        passOk s.checkActive es (startStreaming s false) j = false →
        (doFinalCheck s es).sent.getLast?
          = some { dest := peer, text := framed (failureText (afterVote s es n)) s.seq }) := by
  obtain ⟨b1, b2⟩ := afterVote_buffers s es n hcls hign
  obtain ⟨m1, m2⟩ := Prod.mk.inj b1
  obtain ⟨e1, e2⟩ := Prod.mk.inj b2
  have hm := (afterVote_frame s es n).2.2
  have l1 := csvList_filter_le (missingIn (passState s.checkActive es (startStreaming s false) n)
    (es FINAL_CHECK_SAMPLES) s.checkActive)
  have l2 := csvList_filter_le (extraIn (passState s.checkActive es (startStreaming s false) n)
    (es FINAL_CHECK_SAMPLES))
  have hmem : ∀ (p : Nat → Bool) (c : Nat),
      c ∈ ((List.range CHANNEL_COUNT).filter p).map (· + 1) ↔
        (1 ≤ c ∧ c ≤ CHANNEL_COUNT ∧ p (c - 1) = true) := by
    intro p c
    constructor
    · exact (sorted_filter_succ p).2 c
    · intro ⟨h1, h2, h3⟩
      refine List.mem_map.2 ⟨c - 1, List.mem_filter.2 ⟨List.mem_range.2 (by omega), h3⟩, ?_⟩
      show c - 1 + 1 = c
      omega
  refine ⟨?_, (sorted_filter_succ _).1, (sorted_filter_succ _).1, hmem _, hmem _, ?_⟩
  swap
  · intro peer j hn hj hst hwork hpeer hb hok hall hfail
    subst hn
    rw [(doFinalCheck_fail_sent s es peer j hst hwork hpeer hb hok hj hall hfail).2]
    simp
  have hf := failureText_format (afterVote s es n) (by rw [m2, m1]) (by rw [e2, e1])
    (by rw [m1, e1]; omega) (by rw [m1, e1, hm]; omega)
  rw [hf, m1, e1, hm]

theorem s4Hub_pass :
    s4Hub.state = State.FINAL_CHECK ∧
      passOk s4Hub.checkActive vote19 (startStreaming s4Hub false) 0 = false ∧
      (List.range CHANNEL_COUNT).filter (missingIn (passState s4Hub.checkActive vote19
        (startStreaming s4Hub false) 1) (vote19 FINAL_CHECK_SAMPLES) s4Hub.checkActive) = [1] ∧
      (List.range CHANNEL_COUNT).filter (extraIn (passState s4Hub.checkActive vote19
        (startStreaming s4Hub false) 1) (vote19 FINAL_CHECK_SAMPLES)) = [8] ∧
      s4Hub.BOARD_MAC = "AA:BB:CC:DD:EE:01".toList ∧ s4Hub.seq = 1001 ∧
      hasWorkToCheck s4Hub s4Hub.checkActive = true ∧ getTarget s4Hub = some staMac :=
  ⟨by decide, by decide, by decide, by decide, by decide, by decide, by decide, by decide⟩

theorem extraHub_pass :
    extraHub.state = State.FINAL_CHECK ∧
      passOk extraHub.checkActive vote19 (startStreaming extraHub false) 0 = false ∧
      (List.range CHANNEL_COUNT).filter (missingIn (passState extraHub.checkActive vote19
        (startStreaming extraHub false) 1) (vote19 FINAL_CHECK_SAMPLES) extraHub.checkActive)
        = [] ∧
      (List.range CHANNEL_COUNT).filter (extraIn (passState extraHub.checkActive vote19
        (startStreaming extraHub false) 1) (vote19 FINAL_CHECK_SAMPLES)) = [8] ∧
      extraHub.BOARD_MAC = "AA:BB:CC:DD:EE:01".toList ∧ extraHub.seq = 1001 ∧
      hasWorkToCheck extraHub extraHub.checkActive = true ∧ getTarget extraHub = some staMac :=
  ⟨by decide, by decide, by decide, by decide, by decide, by decide, by decide, by decide⟩

/-- Witness of C12: in `s4Hub` (channels 1 and 2 normal, switches of channels 1 and 9 held) the
first voting sample fails, the pass after it finds channel 2 missing and channel 9 extra, and
the frame sent to the station is `RESULT FAILURE MISSING 2;EXTRA 9 AA:BB:CC:DD:EE:01 ID=1001`. -/
theorem C12_voter_soundness_witness :
    (∀ ch, ¬ (s4Hub.monNormal ch = true ∧ s4Hub.monLatch ch = true)) ∧
      (List.range CHANNEL_COUNT).filter (missingIn (passState s4Hub.checkActive vote19
        (startStreaming s4Hub false) 1) (vote19 FINAL_CHECK_SAMPLES) s4Hub.checkActive) = [1] ∧
      (List.range CHANNEL_COUNT).filter (extraIn (passState s4Hub.checkActive vote19
        (startStreaming s4Hub false) 1) (vote19 FINAL_CHECK_SAMPLES)) = [8] ∧
      failureText (afterVote s4Hub vote19 1)
        = "RESULT FAILURE MISSING 2;EXTRA 9 AA:BB:CC:DD:EE:01".toList ∧
      (doFinalCheck s4Hub vote19).sent.getLast?
        = some { dest := staMac
                 text := "RESULT FAILURE MISSING 2;EXTRA 9 AA:BB:CC:DD:EE:01 ID=1001".toList } := by
  obtain ⟨h0, h1, hM, hE, hmac, hseq, hw, hp⟩ := s4Hub_pass
  have h := C12_voter_soundness s4Hub vote19 1 (reachable_exclusive s4Hub s4Hub_reachable)
    (reachable_ignored_latch s4Hub s4Hub_reachable) (by rw [hmac]; decide)
  have hf : failureText (afterVote s4Hub vote19 1)
      = "RESULT FAILURE MISSING 2;EXTRA 9 AA:BB:CC:DD:EE:01".toList := by
    rw [h.1, hM, hE, hmac]; decide
  refine ⟨reachable_exclusive s4Hub s4Hub_reachable, hM, hE, hf, ?_⟩
  rw [h.2.2.2.2.2 staMac 0 rfl (by decide) h0 hw hp (by decide) (by decide)
    (fun k hk => absurd hk (Nat.not_lt_zero k)) h1, hf, hseq]
  decide

/-- C13 (failure serialisation), amended: for a MISSING text `m` and an EXTRA text `e` held
in the buffers with their recorded lengths, short enough for the 256-byte frame buffer, the
failure text is `RESULT FAILURE`, then ` MISSING m` when `m` is not empty, then the EXTRA part
when `e` is not empty, introduced by `;EXTRA ` after a MISSING part and by ` EXTRA ` when there
is no MISSING part, then a blank and the board MAC. -/
theorem C13_failure_format (s : Hub)
    (hm : s.missingLen = s.missingBuf.length) (he : s.extraLen = s.extraBuf.length)
    (hcore : s.missingBuf.length + s.extraBuf.length ≤ 232)
    (hpkt : s.missingBuf.length + s.extraBuf.length + s.BOARD_MAC.length ≤ 240) :
    (s.missingBuf = [] → s.extraBuf = [] →
        failureText s = "RESULT FAILURE".toList ++ ' ' :: s.BOARD_MAC) ∧
      (s.missingBuf ≠ [] → s.extraBuf = [] →
        failureText s = "RESULT FAILURE".toList ++ (" MISSING ".toList ++ s.missingBuf ++
          ' ' :: s.BOARD_MAC)) ∧
      (s.missingBuf = [] → s.extraBuf ≠ [] →
        failureText s = "RESULT FAILURE".toList ++ (" EXTRA ".toList ++ s.extraBuf ++
          ' ' :: s.BOARD_MAC)) ∧
      (s.missingBuf ≠ [] → s.extraBuf ≠ [] →
        failureText s = "RESULT FAILURE".toList ++ (" MISSING ".toList ++ s.missingBuf ++
          (";EXTRA ".toList ++ s.extraBuf ++ ' ' :: s.BOARD_MAC))) := by
  have h := failureText_format s hm he hcore hpkt
  refine ⟨fun a b => ?_, fun a b => ?_, fun a b => ?_, fun a b => ?_⟩ <;>
    rw [h] <;> simp [failureFormat, a, b]

/-- Witness of C13: the scenario `MONITOR NORMAL 2 1,2`, channels 1 and 9 pressed, `CHECK`:
the buffers hold `2` and `9` and the text is `RESULT FAILURE MISSING 2;EXTRA 9 <MAC>`. -/
theorem C13_failure_format_witness :
    (afterVote s4Hub vote19 1).missingBuf = "2".toList ∧
      (afterVote s4Hub vote19 1).extraBuf = "9".toList ∧
      failureText (afterVote s4Hub vote19 1)
        = "RESULT FAILURE MISSING 2;EXTRA 9 AA:BB:CC:DD:EE:01".toList := by
  obtain ⟨_, _, hM, hE, hmac, _, _, _⟩ := s4Hub_pass
  obtain ⟨b1, b2⟩ := afterVote_buffers s4Hub vote19 1
    (reachable_exclusive s4Hub s4Hub_reachable) (reachable_ignored_latch s4Hub s4Hub_reachable)
  rw [hM] at b1
  rw [hE] at b2
  obtain ⟨m1, m2⟩ := Prod.mk.inj b1
  obtain ⟨e1, e2⟩ := Prod.mk.inj b2
  have mb : (afterVote s4Hub vote19 1).missingBuf = "2".toList := m1.trans (by decide)
  have eb : (afterVote s4Hub vote19 1).extraBuf = "9".toList := e1.trans (by decide)
  have hb : (afterVote s4Hub vote19 1).BOARD_MAC = "AA:BB:CC:DD:EE:01".toList :=
    (afterVote_frame s4Hub vote19 1).2.2.trans hmac
  refine ⟨mb, eb, ?_⟩
  rw [(C13_failure_format (afterVote s4Hub vote19 1) (by rw [m2, mb]; decide)
    (by rw [e2, eb]; decide) (by rw [mb, eb]; decide) (by rw [mb, eb, hb]; decide)).2.2.2
    (by rw [mb]; decide) (by rw [eb]; decide), mb, eb, hb]
  decide

/-- Counterexample to C13 as stated: after `MONITOR NORMAL 1 1` and `CHECK` with channels 1
and 9 pressed the MISSING list is empty, the EXTRA list is `9`, and the frame sent is
`RESULT FAILURE EXTRA 9 <MAC>`: the EXTRA part is introduced by a blank, not by `;EXTRA `. -/
theorem C13_counterexample :
    Reachable extraHub ∧
      (afterVote extraHub vote19 1).missingBuf = [] ∧
      (afterVote extraHub vote19 1).extraBuf = "9".toList ∧
      failureText (afterVote extraHub vote19 1)
        = "RESULT FAILURE EXTRA 9 AA:BB:CC:DD:EE:01".toList ∧
      failureText (afterVote extraHub vote19 1)
        ≠ failureGrammar (afterVote extraHub vote19 1).missingBuf
            (afterVote extraHub vote19 1).extraBuf (afterVote extraHub vote19 1).BOARD_MAC ∧
      (doFinalCheck extraHub vote19).sent.getLast?
        = some { dest := staMac
                 text := "RESULT FAILURE EXTRA 9 AA:BB:CC:DD:EE:01 ID=1001".toList } := by
  obtain ⟨h0, h1, hM, hE, hmac, hseq, hw, hp⟩ := extraHub_pass
  obtain ⟨b1, b2⟩ := afterVote_buffers extraHub vote19 1
    (reachable_exclusive extraHub extraHub_reachable)
    (reachable_ignored_latch extraHub extraHub_reachable)
  rw [hM] at b1
  rw [hE] at b2
  obtain ⟨m1, m2⟩ := Prod.mk.inj b1
  obtain ⟨e1, e2⟩ := Prod.mk.inj b2
  have mb : (afterVote extraHub vote19 1).missingBuf = [] := m1.trans (by decide)
  have eb : (afterVote extraHub vote19 1).extraBuf = "9".toList := e1.trans (by decide)
  have hb : (afterVote extraHub vote19 1).BOARD_MAC = "AA:BB:CC:DD:EE:01".toList :=
    (afterVote_frame extraHub vote19 1).2.2.trans hmac
  have hf : failureText (afterVote extraHub vote19 1)
      = "RESULT FAILURE EXTRA 9 AA:BB:CC:DD:EE:01".toList := by
    rw [failureText_format (afterVote extraHub vote19 1) (by rw [m2, mb]; decide)
      (by rw [e2, eb]; decide) (by rw [mb, eb]; decide) (by rw [mb, eb, hb]; decide), mb, eb, hb]
    decide
  refine ⟨extraHub_reachable, mb, eb, hf, ?_, ?_⟩
  · rw [hf, mb, eb, hb]; decide
  · rw [(doFinalCheck_fail_sent extraHub vote19 staMac 0 h0 hw hp (by decide) (by decide)
      (by decide) (fun k hk => absurd hk (Nat.not_lt_zero k)) h1).2, List.getLast?_append,
      hf, hseq]
    decide

theorem readDigits_all (l : List Char) (acc v : Nat) (h : readDigits l acc = (v, [])) :
    ∀ x ∈ l, isdigit x = true := by
  induction l generalizing acc with
  | nil => intro x hx; cases hx
  | cons c cs ih =>
    unfold readDigits at h
    by_cases hc : isdigit c = true
    · rw [if_pos hc] at h
      intro x hx
      rcases List.mem_cons.1 hx with rfl | hx
      · exact hc
      · exact ih _ h x hx
    · rw [if_neg hc] at h
      cases h

theorem checkFold_spec (toks : List (List Char)) (a : Hub × Bool) :
    (∀ ch, (toks.foldl checkToken a).1.checkSelect ch = true ↔
        (a.1.checkSelect ch = true ∨ ∃ tok ∈ toks, parsePureInt tok = some (ch + 1))) ∧
      ((toks.foldl checkToken a).2 = true ↔
        (a.2 = true ∨ ∃ tok ∈ toks, ∃ c, parsePureInt tok = some c)) := by
  induction toks generalizing a with
  | nil => simp
  | cons t ts ih =>
    rw [List.foldl_cons]
    obtain ⟨i1, i2⟩ := ih (checkToken a t)
    cases hp : parsePureInt t with
    | none =>
      have hc : checkToken a t = a := by unfold checkToken; rw [hp]
      rw [hc] at i1 i2 ⊢
      refine ⟨fun ch => ?_, ?_⟩
      · rw [i1 ch]; simp [hp]
      · rw [i2]; simp [hp]
    | some c =>
      have hc : checkToken a t
          = ({ a.1 with checkSelect := upd a.1.checkSelect (c - 1) true }, true) := by
        unfold checkToken; rw [hp]
      have hr := parsePureInt_range t c hp
      refine ⟨fun ch => ?_, ?_⟩
      · rw [i1 ch, hc]
        show (upd a.1.checkSelect (c - 1) true ch = true ∨ _) ↔ _
        have hu : upd a.1.checkSelect (c - 1) true ch = true ↔
            (c = ch + 1 ∨ a.1.checkSelect ch = true) := by
          unfold upd
          by_cases hch : ch = c - 1
          · rw [if_pos hch]; simp; left; omega
          · rw [if_neg hch]
            constructor
            · exact fun h => Or.inr h
            · rintro (h | h)
              · omega
              · exact h
        rw [hu]
        simp only [List.mem_cons, exists_eq_or_imp, hp, Option.some.injEq]
        tauto
      · rw [i2, hc]
        simp [hp]

theorem strtol_eq (tok : List Char) :
    strtol tok = strtolFrom tok (strtolSign (tok.dropWhile isspace)) := rfl

theorem strtolSign_cases (t1 : List Char) :
    (∃ r, t1 = '-' :: r ∧ strtolSign t1 = (true, r)) ∨
      (∃ r, t1 = '+' :: r ∧ strtolSign t1 = (false, r)) ∨ strtolSign t1 = (false, t1) := by
  unfold strtolSign
  split
  · exact Or.inl ⟨_, rfl, rfl⟩
  · exact Or.inr (Or.inl ⟨_, rfl, rfl⟩)
  · exact Or.inr (Or.inr rfl)

theorem strtolFrom_digits (t : List Char) (neg : Bool) (r : List Char) (hne : t ≠ [])
    (h2 : (strtolFrom t (neg, r)).2 = []) (h1 : 1 ≤ (strtolFrom t (neg, r)).1) :
    neg = false ∧ r ≠ [] ∧ (∀ x ∈ r, isdigit x = true) ∧
      (strtolFrom t (neg, r)).1 = max LONG_MIN (min LONG_MAX ((readDigits r 0).1 : Int)) := by
  cases r with
  | nil => exact absurd h2 hne
  | cons c cs =>
    by_cases hc : isdigit c = true
    · have hr : strtolFrom t (neg, c :: cs)
          = (max LONG_MIN (min LONG_MAX
              (if neg then - ((readDigits (c :: cs) 0).1 : Int)
                else ((readDigits (c :: cs) 0).1 : Int))), (readDigits (c :: cs) 0).2) := by
        simp [strtolFrom, hc]
      rw [hr] at h1 h2 ⊢
      have hall := readDigits_all (c :: cs) 0 (readDigits (c :: cs) 0).1 (Prod.ext rfl h2)
      cases neg with
      | true =>
        simp only [if_true] at h1
        have : (LONG_MIN : Int) = -2147483648 := rfl
        have : (LONG_MAX : Int) = 2147483647 := rfl
        omega
      | false => exact ⟨rfl, by simp, hall, by simp⟩
    · have hr : strtolFrom t (neg, c :: cs) = (0, t) := by simp [strtolFrom, hc]
      rw [hr] at h2
      exact absurd h2 hne

theorem strtol_digits (t : List Char) (hne : t ≠ []) (h2 : (strtol t).2 = [])
    (h1 : 1 ≤ (strtol t).1) :
    ∃ ds, ds ≠ [] ∧ (∀ x ∈ ds, isdigit x = true) ∧
      (t.dropWhile isspace = ds ∨ t.dropWhile isspace = '+' :: ds) ∧
      (strtol t).1 = max LONG_MIN (min LONG_MAX ((readDigits ds 0).1 : Int)) := by
  rw [strtol_eq] at h1 h2 ⊢
  rcases strtolSign_cases (t.dropWhile isspace) with ⟨r, hd, hs⟩ | ⟨r, hd, hs⟩ | hs
  · rw [hs] at h1 h2
    exact absurd (strtolFrom_digits t true r hne h2 h1).1 (by simp)
  · rw [hs] at h1 h2 ⊢
    obtain ⟨_, a, b, c⟩ := strtolFrom_digits t false r hne h2 h1
    exact ⟨r, a, b, Or.inr hd, c⟩
  · rw [hs] at h1 h2 ⊢
    obtain ⟨_, a, b, c⟩ := strtolFrom_digits t false _ hne h2 h1
    exact ⟨_, a, b, Or.inl rfl, c⟩

theorem parsePureInt_digits (t : List Char) (c : Nat) (h : parsePureInt t = some c) :
    ∃ ds, ds ≠ [] ∧ (∀ x ∈ ds, isdigit x = true) ∧
      (t.dropWhile isspace = ds ∨ t.dropWhile isspace = '+' :: ds) ∧
      (readDigits ds 0).1 = c := by
  unfold parsePureInt at h
  by_cases h1 : t = []
  · simp [h1] at h
  · by_cases h2 : isMacToken t = true
    · simp [h1, h2] at h
    · by_cases h3 : (strtol t).2 = []
      · by_cases h4 : (strtol t).1 < 1 ∨ (strtol t).1 > (CHANNEL_COUNT : Int)
        · simp [h1, h2, h3, h4] at h
        · simp only [h1, h2, h3, h4, if_false, ne_eq, not_true_eq_false, Bool.false_eq_true,
            Option.some.injEq] at h
          push_neg at h4
          obtain ⟨ds, d1, d2, d3, d4⟩ := strtol_digits t h1 h3 h4.1
          refine ⟨ds, d1, d2, d3, ?_⟩
          have e1 : (LONG_MIN : Int) = -2147483648 := rfl
          have e2 : (LONG_MAX : Int) = 2147483647 := rfl
          have e3 : ((CHANNEL_COUNT : Nat) : Int) = 40 := rfl
          omega
      · simp [h1, h2, h3] at h

theorem strstr_CHECK (rest : List Char) :
    strstr (kwCHECK ++ rest) kwCHECK = some (kwCHECK ++ rest) := by
  simp [kwCHECK, strstr, startsWith]

theorem parseCheckSelection_eq (s : Hub) (payload p : List Char)
    (hp : strstr (cstr (payload.take 159)) kwCHECK = some p) :
    (parseCheckSelection s payload).checkSelect
        = ((strtok checkDelims ((p.drop 5).dropWhile (fun c => c == ' '))).foldl checkToken
            ({ s with checkSelect := fun _ => false, checkActive := false }, false)).1.checkSelect ∧
      (parseCheckSelection s payload).checkActive
        = ((strtok checkDelims ((p.drop 5).dropWhile (fun c => c == ' '))).foldl checkToken
            ({ s with checkSelect := fun _ => false, checkActive := false }, false)).2 := by
  unfold parseCheckSelection
  rw [hp]
  exact ⟨rfl, rfl⟩

/-- C14 (CHECK selection), amended: with the tokens taken from the first 159 bytes of the
frame (text after the verb, split at blanks and commas), after `parseCheckSelection` the flag
`checkSelect[c-1]` is true exactly for the numbers `c` that `parsePureInt` reads from one of
the tokens, whatever was selected before; `checkActive` is true iff some channel is selected;
`parsePureInt` reads a number only from a token that is not a MAC token and consists, after
optional white space and `+`, of decimal digits with a value in 1..40, so a token starting
with `ID=` selects nothing. -/
theorem C14_check_selection (s : Hub) (payload p : List Char)
    (hp : strstr (cstr (payload.take 159)) kwCHECK = some p) :
    (∀ ch, (parseCheckSelection s payload).checkSelect ch = true ↔
        ∃ tok ∈ strtok checkDelims ((p.drop 5).dropWhile (fun c => c == ' ')),
          parsePureInt tok = some (ch + 1)) ∧
      ((parseCheckSelection s payload).checkActive = true ↔
        ∃ ch, (parseCheckSelection s payload).checkSelect ch = true) ∧
      (∀ rest, payload = kwCHECK ++ rest → p = kwCHECK ++ cstr (rest.take 154)) ∧
      (∀ tok c, parsePureInt tok = some c →
        1 ≤ c ∧ c ≤ CHANNEL_COUNT ∧ isMacToken tok = false ∧
          ∃ ds, ds ≠ [] ∧ (∀ x ∈ ds, isdigit x = true) ∧
            (tok.dropWhile isspace = ds ∨ tok.dropWhile isspace = '+' :: ds) ∧
            (readDigits ds 0).1 = c) ∧
      (∀ rest, parsePureInt ("ID=".toList ++ rest) = none) := by
  obtain ⟨e1, e2⟩ := parseCheckSelection_eq s payload p hp
  obtain ⟨f1, f2⟩ := checkFold_spec (strtok checkDelims ((p.drop 5).dropWhile (fun c => c == ' ')))
    ({ s with checkSelect := fun _ => false, checkActive := false }, false)
  have hsel : ∀ ch, (parseCheckSelection s payload).checkSelect ch = true ↔
      ∃ tok ∈ strtok checkDelims ((p.drop 5).dropWhile (fun c => c == ' ')),
        parsePureInt tok = some (ch + 1) := by
    intro ch
    rw [e1, f1 ch]
    simp
  have hdig : ∀ tok c, parsePureInt tok = some c →
      1 ≤ c ∧ c ≤ CHANNEL_COUNT ∧ isMacToken tok = false ∧
        ∃ ds, ds ≠ [] ∧ (∀ x ∈ ds, isdigit x = true) ∧
          (tok.dropWhile isspace = ds ∨ tok.dropWhile isspace = '+' :: ds) ∧
          (readDigits ds 0).1 = c := by
    intro tok c h
    refine ⟨(parsePureInt_range tok c h).1, (parsePureInt_range tok c h).2, ?_,
      parsePureInt_digits tok c h⟩
    by_contra hmac
    rw [parsePureInt_mac tok (by simpa using hmac)] at h
    exact absurd h (by simp)
  refine ⟨hsel, ?_, ?_, hdig, ?_⟩
  · rw [e2, f2]
    constructor
    · rintro (h | ⟨tok, ht, c, hc⟩)
      · exact absurd h (by simp)
      · refine ⟨c - 1, (hsel (c - 1)).2 ⟨tok, ht, ?_⟩⟩
        have := (parsePureInt_range tok c hc).1
        rw [hc]
        congr 1
        omega
    · rintro ⟨ch, h⟩
      obtain ⟨tok, ht, hc⟩ := (hsel ch).1 h
      exact Or.inr ⟨tok, ht, ch + 1, hc⟩
  · intro rest hpay
    subst hpay
    have h5 : kwCHECK.length = 5 := rfl
    have hc : cstr ((kwCHECK ++ rest).take 159) = kwCHECK ++ cstr (rest.take 154) := by
      rw [List.take_append_eq_append_take, h5]
      simp [cstr, kwCHECK, NUL, List.takeWhile]
    rw [hc, strstr_CHECK] at hp
    exact (Option.some.inj hp).symm
  · intro rest
    cases h : parsePureInt ("ID=".toList ++ rest) with
    | none => rfl
    | some c =>
      obtain ⟨ds, _, d2, d3, _⟩ := (hdig _ c h).2.2.2
      have hd : ("ID=".toList ++ rest).dropWhile isspace = 'I' :: ('D' :: '=' :: rest) := by
        simp [List.dropWhile, isspace]
      rw [hd] at d3
      rcases d3 with d3 | d3
      · have := d2 'I' (by rw [← d3]; simp)
        exact absurd this (by decide)
      · exact absurd (List.cons.inj d3).1 (by decide)

/-- Witness of C14: the frame `CHECK 2,3 41 0 x7 AA:BB:CC:DD:EE:01 ID=12` received after
`CHECK 1,3` selects channels 2 and 3 and nothing else; channel 1 is no longer selected. -/
theorem C14_check_selection_witness :
    checkHub.checkSelect 0 = true ∧
      (parseCheckSelection checkHub mixedCheck).checkSelect 0 = false ∧
      (parseCheckSelection checkHub mixedCheck).checkSelect 1 = true ∧
      (parseCheckSelection checkHub mixedCheck).checkSelect 2 = true ∧
      (parseCheckSelection checkHub mixedCheck).checkSelect 6 = false ∧
      (parseCheckSelection checkHub mixedCheck).checkSelect 11 = false ∧
      (parseCheckSelection checkHub mixedCheck).checkActive = true := by
  have h := C14_check_selection checkHub mixedCheck mixedCheck (by decide)
  refine ⟨by decide, ?_, (h.1 1).2 (by decide), (h.1 2).2 (by decide), ?_, ?_,
    h.2.1.2 ⟨1, (h.1 1).2 (by decide)⟩⟩
  · exact Bool.eq_false_iff.2 (fun hc => absurd ((h.1 0).1 hc) (by decide))
  · exact Bool.eq_false_iff.2 (fun hc => absurd ((h.1 6).1 hc) (by decide))
  · exact Bool.eq_false_iff.2 (fun hc => absurd ((h.1 11).1 hc) (by decide))

/-- Counterexample to C14 as stated: the 164-byte frame `longCheck` names channel 40 by the
pure-integer token `40` after the verb, but the parser reads only the first 159 bytes and
channel 40 is not selected. -/
theorem C14_counterexample :
    longCheck.length = 164 ∧ startsWith kwCHECK longCheck = true ∧
      "40".toList ∈ strtok checkDelims (longCheck.drop 5) ∧
      parsePureInt "40".toList = some 40 ∧
      (parseCheckSelection idleHub longCheck).checkSelect 39 = false := by
  refine ⟨by decide, by decide, by decide, by decide, by decide⟩

theorem allLeds_led (s : Hub) (lit : Bool) (c : Nat) (hc : c < CHANNEL_COUNT) :
    (allLeds s lit).ledState c = lit := by
  unfold allLeds
  have h := foldl_range_at (fun (acc : Hub) ch => setLed acc ch lit) (fun h => h.ledState c)
    (fun _ => lit) c
    (fun a => by simp only [setLed_eq]; simp [upd])
    (fun a x hx => by
      have hcx : c ≠ x := fun h => hx h.symm
      simp only [setLed_eq]; simp [upd, hcx]) CHANNEL_COUNT s
  rw [h, if_pos hc]

theorem goDarkAndIdle_led (s : Hub) (e : Env) (c : Nat) (hc : c < CHANNEL_COUNT) :
    (goDarkAndIdle s e).ledState c = false :=
  allLeds_led (cleanAll (stopStreaming s) e) false c hc

theorem goDarkAndIdle_peer (s : Hub) (e : Env) :
    (goDarkAndIdle s e).needReleaseGate = false ∧ (goDarkAndIdle s e).haveSender = false ∧
      (goDarkAndIdle s e).lastSender = zeroMac ∧ getTarget (goDarkAndIdle s e) = none :=
  ⟨rfl, rfl, rfl, rfl⟩

theorem goDarkAndIdle_ack (s : Hub) (e : Env) :
    ackView (goDarkAndIdle s e)
      = (false, s.hubAckActive, s.hubAckMac, s.hubAckMsg, s.hubAckId, s.seq) := by
  unfold goDarkAndIdle
  simp only []
  have h1 : ackView (allLeds (cleanAll (stopStreaming s) e) false)
      = ackView (cleanAll (stopStreaming s) e) :=
    foldl_keep ackView _ _ _ (fun a x => by rw [setLed_eq]; rfl)
  refine Eq.trans (b := ackView (allLeds (cleanAll (stopStreaming s) e) false)) rfl ?_
  refine h1.trans ?_
  unfold cleanAll
  simp only []
  refine Eq.trans (b := ackView ((List.range CHANNEL_COUNT).foldl
    (fun acc ch => setLed (reseed acc e.sw e.now ch) ch false)
      { stopStreaming s with
        monNormal := fun _ => false
        monLatch := fun _ => false
        latched := fun _ => false
        ignoredCh := fun _ => false
        checkSelect := fun _ => false
        checkActive := false })) rfl ?_
  exact (foldl_keep ackView _ _ _ (fun a x => by rw [setLed_eq]; rfl)).trans rfl

theorem check_verb_excl (rx : List Char) (h : startsWith kwCHECK rx = true) :
    startsWith "ACK ".toList rx = false ∧ startsWith "WELCOME".toList rx = false ∧
      startsWith "PING".toList rx = false ∧ startsWith "BLINK".toList rx = false ∧
      startsWith "CHASE".toList rx = false ∧ startsWith kwMONITOR rx = false := by
  obtain ⟨rest, rfl⟩ := (startsWith_iff _ _).1 h
  refine ⟨?_, ?_, ?_, ?_, ?_, ?_⟩ <;> simp [startsWith, kwCHECK, kwMONITOR]

theorem dispatchVerb_CHECK (s1 : Hub) (e : Env) (rx data : List Char)
    (h : startsWith kwCHECK rx = true) :
    dispatchVerb s1 e rx data =
      if !hasWorkToCheck (parseCheckSelection s1 rx) (parseCheckSelection s1 rx).checkActive then
        goDarkAndIdle (replyReliable (parseCheckSelection s1 rx) e
          (successText (parseCheckSelection s1 rx))) e
      else { parseCheckSelection s1 rx with state := State.FINAL_CHECK } := by
  obtain ⟨_, hW, hP, hB, hC, hM⟩ := check_verb_excl rx h
  unfold dispatchVerb
  rw [if_neg (by rw [hW]; simp), if_neg (by rw [hP]; simp), if_neg (by rw [hB]; simp),
    if_neg (by rw [hC]; simp), if_neg (by rw [hM]; simp), if_pos h]

theorem onRecv_CHECK (s : Hub) (e : Env) (src : Mac) (data : List Char)
    (hlen : data.length ≠ 0) (hsrc : isZeroMac src = false)
    (h : startsWith kwCHECK (rxText data) = true) :
    onRecv s e src data =
      dispatchVerb (autoAck { s with lastSender := src, haveSender := true } e src
        ((cstr (data.take (min data.length 255))).takeWhile isTrimChar ++ rxText data)
        (min data.length 255)) e (rxText data) data := by
  obtain ⟨hA, _⟩ := check_verb_excl _ h
  unfold onRecv
  rw [if_neg hlen, if_neg (by rw [hsrc]; simp)]
  simp only []
  rw [if_neg (by rw [hA]; simp)]

theorem checkFold_keep {π : Type} (proj : Hub → π)
    (h1 : ∀ (h : Hub) (f : Nat → Bool), proj { h with checkSelect := f } = proj h)
    (l : List (List Char)) (a : Hub × Bool) : proj (l.foldl checkToken a).1 = proj a.1 := by
  induction l generalizing a with
  | nil => rfl
  | cons t ts ih =>
    rw [List.foldl_cons, ih]
    unfold checkToken
    cases parsePureInt t with
    | none => rfl
    | some c => exact h1 _ _

theorem parseCheckSelection_keep {π : Type} (proj : Hub → π)
    (h1 : ∀ (h : Hub) (f : Nat → Bool), proj { h with checkSelect := f } = proj h)
    (h2 : ∀ (h : Hub) (b : Bool), proj { h with checkActive := b } = proj h)
    (s : Hub) (rx : List Char) : proj (parseCheckSelection s rx) = proj s := by
  unfold parseCheckSelection
  simp only []
  split
  · exact (h1 { s with checkActive := false } _).trans (h2 s false)
  · rw [h2, checkFold_keep proj h1]
    exact (h1 { s with checkActive := false } _).trans (h2 s false)

theorem autoAck_slot (s : Hub) (e : Env) (src : Mac) (rxb : List Char) (n : Nat) :
    slotCore (autoAck s e src rxb n) = slotCore s := by
  unfold autoAck
  split
  · split_ifs
    · exact sendCmdRaw_slot _ _ _ _
    · rfl
  · rfl

theorem hasWorkToCheck_of_core (s t : Hub) (h : chanCore s = chanCore t) (r : Bool) :
    hasWorkToCheck s r = hasWorkToCheck t r := by
  have a1 : s.checkSelect = t.checkSelect := congrArg ChanCore.checkSelect h
  have a2 : s.ignoredCh = t.ignoredCh := congrArg ChanCore.ignoredCh h
  have a3 : s.monNormal = t.monNormal := congrArg ChanCore.monNormal h
  have a4 : s.monLatch = t.monLatch := congrArg ChanCore.monLatch h
  unfold hasWorkToCheck
  rw [a1, a2, a3, a4]

theorem checkFold_congr (l : List (List Char)) (a b : Hub × Bool)
    (h1 : chanCore a.1 = chanCore b.1) (h2 : a.2 = b.2) :
    chanCore (l.foldl checkToken a).1 = chanCore (l.foldl checkToken b).1 ∧
      (l.foldl checkToken a).2 = (l.foldl checkToken b).2 := by
  induction l generalizing a b with
  | nil => exact ⟨h1, h2⟩
  | cons t ts ih =>
    rw [List.foldl_cons, List.foldl_cons]
    apply ih
    · unfold checkToken
      cases parsePureInt t with
      | none => exact h1
      | some c =>
        show ({ chanCore a.1 with checkSelect := upd (chanCore a.1).checkSelect (c - 1) true }
          : ChanCore) = { chanCore b.1 with
            checkSelect := upd (chanCore b.1).checkSelect (c - 1) true }
        rw [h1]
    · unfold checkToken
      cases parsePureInt t with
      | none => exact h2
      | some c => rfl

theorem chanCore_setActive (h : Hub) (b : Bool) :
    chanCore { h with checkActive := b } = { chanCore h with checkActive := b } := rfl

theorem setActive_congr (a b : Hub × Bool) (h1 : chanCore a.1 = chanCore b.1)
    (h2 : a.2 = b.2) :
    chanCore { a.1 with checkActive := a.2 } = chanCore { b.1 with checkActive := b.2 } :=
  calc chanCore { a.1 with checkActive := a.2 }
      = { chanCore a.1 with checkActive := a.2 } := rfl
    _ = { chanCore b.1 with checkActive := b.2 } := by rw [h1, h2]
    _ = chanCore { b.1 with checkActive := b.2 } := rfl

theorem parseCheckSelection_congr (s t : Hub) (rx : List Char) (h : chanCore s = chanCore t) :
    chanCore (parseCheckSelection s rx) = chanCore (parseCheckSelection t rx) := by
  have h0 : chanCore ({ s with checkSelect := fun _ => false, checkActive := false } : Hub)
      = chanCore ({ t with checkSelect := fun _ => false, checkActive := false } : Hub) := by
    show ({ chanCore s with checkSelect := fun _ => false, checkActive := false } : ChanCore)
      = { chanCore t with checkSelect := fun _ => false, checkActive := false }
    rw [h]
  unfold parseCheckSelection
  simp only []
  split
  · exact h0
  · rename_i p _
    obtain ⟨c1, c2⟩ := checkFold_congr
      (strtok checkDelims ((p.drop 5).dropWhile (fun c => c == ' ')))
      ({ s with checkSelect := fun _ => false, checkActive := false }, false)
      ({ t with checkSelect := fun _ => false, checkActive := false }, false) h0 rfl
    exact setActive_congr _ _ c1 c2

theorem autoAck_sent (s : Hub) (e : Env) (src : Mac) (rxb : List Char) (n : Nat) :
    (autoAck s e src rxb n).sent = s.sent ∨ ∃ d id, (autoAck s e src rxb n).sent = s.sent ++
      [{ dest := d, text := snprintf 24 ("ACK ".toList ++ fmtDec id) }] := by
  unfold autoAck
  split
  · rename_i id _
    split_ifs
    · unfold sendCmdRaw
      split
      · exact Or.inl rfl
      · rename_i target _
        split_ifs
        · exact Or.inl rfl
        · exact Or.inr ⟨target, id, rfl⟩
    · exact Or.inl rfl
  · exact Or.inl rfl

theorem check_reduce (s : Hub) (e : Env) (src : Mac) (data : List Char)
    (hlen : data.length ≠ 0) (hsrc : isZeroMac src = false)
    (h : startsWith kwCHECK (rxText data) = true) :
    ∃ s1 : Hub, chanCore s1 = chanCore s ∧
      slotCore s1 = slotCore { s with lastSender := src, haveSender := true } ∧
      ackView s1 = ackView s ∧
      (s1.sent = s.sent ∨ ∃ d id, s1.sent = s.sent ++
        [{ dest := d, text := snprintf 24 ("ACK ".toList ++ fmtDec id) }]) ∧
      onRecv s e src data =
        if !hasWorkToCheck (parseCheckSelection s (rxText data))
            (parseCheckSelection s (rxText data)).checkActive then
          goDarkAndIdle (replyReliable (parseCheckSelection s1 (rxText data)) e
            (successText s)) e
        else { parseCheckSelection s1 (rxText data) with state := State.FINAL_CHECK } := by
  refine ⟨autoAck { s with lastSender := src, haveSender := true } e src
    ((cstr (data.take (min data.length 255))).takeWhile isTrimChar ++ rxText data)
    (min data.length 255), ?_, autoAck_slot _ _ _ _ _, ?_, autoAck_sent _ _ _ _ _, ?_⟩
  · exact (autoAck_core _ _ _ _ _).trans rfl
  · unfold autoAck
    split
    · split_ifs
      · unfold sendCmdRaw
        split
        · rfl
        · split_ifs <;> rfl
      · rfl
    · rfl
  · rw [onRecv_CHECK s e src data hlen hsrc h, dispatchVerb_CHECK _ e _ data h]
    have hc1 : chanCore (autoAck { s with lastSender := src, haveSender := true } e src
        ((cstr (data.take (min data.length 255))).takeWhile isTrimChar ++ rxText data)
        (min data.length 255)) = chanCore s := (autoAck_core _ _ _ _ _).trans rfl
    generalize autoAck { s with lastSender := src, haveSender := true } e src
      ((cstr (data.take (min data.length 255))).takeWhile isTrimChar ++ rxText data)
      (min data.length 255) = s1 at hc1 ⊢
    have hc2 := parseCheckSelection_congr s1 s (rxText data) hc1
    have hm : (parseCheckSelection s1 (rxText data)).BOARD_MAC = s.BOARD_MAC :=
      (congrArg ChanCore.BOARD_MAC hc2).trans
        (parseCheckSelection_keep Hub.BOARD_MAC (fun _ _ => rfl) (fun _ _ => rfl) s _)
    have ht : successText (parseCheckSelection s1 (rxText data)) = successText s := by
      unfold successText; rw [hm]
    have ha : (parseCheckSelection s1 (rxText data)).checkActive
        = (parseCheckSelection s (rxText data)).checkActive :=
      congrArg ChanCore.checkActive hc2
    rw [hasWorkToCheck_of_core _ _ hc2, ha, ht]

theorem onRecv_check_idle (s : Hub) (e : Env) (src : Mac) (data : List Char)
    (hlen : data.length ≠ 0) (hsrc : isZeroMac src = false)
    (h : startsWith kwCHECK (rxText data) = true)
    (hno : hasWorkToCheck (parseCheckSelection s (rxText data))
      (parseCheckSelection s (rxText data)).checkActive = false) :
    (onRecv s e src data).state = State.WAIT_FOR_TARGET ∧
      (onRecv s e src data).streamActive = false ∧
      (∀ ch, chanBits (onRecv s e src data) ch
        = { normal := false, latch := false, latched := false, ignored := false }) ∧
      (∀ ch, ch < CHANNEL_COUNT → (onRecv s e src data).ledState ch = false) ∧
      (onRecv s e src data).needReleaseGate = false ∧
      (onRecv s e src data).haveSender = false ∧
      (onRecv s e src data).lastSender = zeroMac ∧
      getTarget (onRecv s e src data) = none ∧
      ((src == bcastMac) = false → e.peerOk = true → s.state ≠ State.SELF_CHECK →
        (onRecv s e src data).sent.getLast?
            = some { dest := src, text := framed (successText s) s.seq } ∧
          (onRecv s e src data).hubAckActive = true ∧
          (onRecv s e src data).hubAckMac = src ∧
          (onRecv s e src data).hubAckMsg = framed (successText s) s.seq ∧
          (onRecv s e src data).hubAckId = s.seq) := by
  obtain ⟨s1, hc1, hsl, hav, _, hrw⟩ := check_reduce s e src data hlen hsrc h
  rw [hrw, hno]
  simp only [Bool.not_false, if_true]
  refine ⟨goDarkAndIdle_state _ _, congrArg Prod.fst (goDarkAndIdle_ack _ _),
    fun ch => goDarkAndIdle_bits _ _ ch, fun ch hc => goDarkAndIdle_led _ _ ch hc,
    (goDarkAndIdle_peer _ _).1, (goDarkAndIdle_peer _ _).2.1, (goDarkAndIdle_peer _ _).2.2.1,
    (goDarkAndIdle_peer _ _).2.2.2, ?_⟩
  intro hb hok hst
  have hsl2 : slotCore (parseCheckSelection s1 (rxText data))
      = slotCore { s with lastSender := src, haveSender := true } :=
    (parseCheckSelection_keep slotCore (fun _ _ => rfl) (fun _ _ => rfl) s1 _).trans hsl
  have hpeer : getTarget (parseCheckSelection s1 (rxText data)) = some src := by
    rw [getTarget_of_slot _ _ hsl2]
    unfold getTarget
    simp [hsrc]
  have hst2 : (parseCheckSelection s1 (rxText data)).state ≠ State.SELF_CHECK := by
    rw [parseCheckSelection_keep Hub.state (fun _ _ => rfl) (fun _ _ => rfl) s1 _,
      show s1.state = s.state from congrArg ChanCore.state hc1]
    exact hst
  have hseq : (parseCheckSelection s1 (rxText data)).seq = s.seq :=
    congrArg SlotCore.seq hsl2
  obtain ⟨r1, r2, r3, r4, r5, _⟩ := replyReliable_unicast
    (parseCheckSelection s1 (rxText data)) e (successText s) src hpeer hb hst2 hok
  have hg := goDarkAndIdle_ack
    (replyReliable (parseCheckSelection s1 (rxText data)) e (successText s)) e
  have g2 : (goDarkAndIdle (replyReliable (parseCheckSelection s1 (rxText data)) e
      (successText s)) e).hubAckActive = _ := congrArg (fun x => x.2.1) hg
  have g3 : (goDarkAndIdle (replyReliable (parseCheckSelection s1 (rxText data)) e
      (successText s)) e).hubAckMac = _ := congrArg (fun x => x.2.2.1) hg
  have g4 : (goDarkAndIdle (replyReliable (parseCheckSelection s1 (rxText data)) e
      (successText s)) e).hubAckMsg = _ := congrArg (fun x => x.2.2.2.1) hg
  have g5 : (goDarkAndIdle (replyReliable (parseCheckSelection s1 (rxText data)) e
      (successText s)) e).hubAckId = _ := congrArg (fun x => x.2.2.2.2.1) hg
  refine ⟨?_, g2.trans r2, g3.trans r3, ?_, ?_⟩
  · rw [goDarkAndIdle_sent, r1, hseq]
    simp
  · rw [g4.trans r4, hseq]
  · rw [g5.trans r5, hseq]

theorem onRecv_check_work (s : Hub) (e : Env) (src : Mac) (data : List Char)
    (hlen : data.length ≠ 0) (hsrc : isZeroMac src = false)
    (h : startsWith kwCHECK (rxText data) = true)
    (hw : hasWorkToCheck (parseCheckSelection s (rxText data))
      (parseCheckSelection s (rxText data)).checkActive = true) :
    (onRecv s e src data).state = State.FINAL_CHECK ∧
      (∀ ch, chanBits (onRecv s e src data) ch = chanBits s ch) ∧
      ackView (onRecv s e src data) = ackView s ∧
      ((onRecv s e src data).sent = s.sent ∨ ∃ d id, (onRecv s e src data).sent = s.sent ++
        [{ dest := d, text := snprintf 24 ("ACK ".toList ++ fmtDec id) }]) := by
  obtain ⟨s1, hc1, hsl, hav, hsent, hrw⟩ := check_reduce s e src data hlen hsrc h
  rw [hrw, hw, if_neg (by decide)]
  refine ⟨rfl, fun ch => ?_, ?_, ?_⟩
  · refine Eq.trans (b := chanBits (parseCheckSelection s1 (rxText data)) ch) rfl ?_
    rw [parseCheckSelection_bits]
    exact chanBits_of_core _ _ hc1 ch
  · refine Eq.trans (b := ackView (parseCheckSelection s1 (rxText data))) rfl ?_
    rw [parseCheckSelection_keep ackView (fun _ _ => rfl) (fun _ _ => rfl) s1 _, hav]
  · have hs : ({ parseCheckSelection s1 (rxText data) with state := State.FINAL_CHECK }
        : Hub).sent = s1.sent :=
      Eq.trans (b := (parseCheckSelection s1 (rxText data)).sent) rfl
        (parseCheckSelection_keep Hub.sent (fun _ _ => rfl) (fun _ _ => rfl) s1 _)
    rw [hs]
    exact hsent

theorem waitHub_reachable : Reachable waitHub :=
  Reachable.step _ _ (Reachable.setup _ _ _)

/-- C15 (CHECK in MONITORING): for a CHECK frame from the station `src` (not the zero or the
broadcast address, accepted by the driver as a peer) received in MONITORING: when nothing is
left to check, `RESULT SUCCESS <MAC>` with the next id is the last frame sent, to `src`, the
reliable-TX slot holds it, and the Hub is dark (streaming stopped, model bits of every channel
cleared, LEDs off, release gate cleared, session peer cleared, state WAIT_FOR_TARGET);
otherwise the state becomes FINAL_CHECK and the model bits of every channel are unchanged. -/
theorem C15_check_in_monitoring (s : Hub) (e : Env) (src : Mac) (data : List Char)
    (hlen : data.length ≠ 0) (hsrc : isZeroMac src = false) (hb : (src == bcastMac) = false)
    (hok : e.peerOk = true) (h : startsWith kwCHECK (rxText data) = true)
    (hst : s.state = State.MONITORING) :
    (hasWorkToCheck (parseCheckSelection s (rxText data))
        (parseCheckSelection s (rxText data)).checkActive = false →
      (onRecv s e src data).sent.getLast?
          = some { dest := src, text := framed (successText s) s.seq } ∧
        (onRecv s e src data).hubAckActive = true ∧
        (onRecv s e src data).hubAckMac = src ∧
        (onRecv s e src data).hubAckMsg = framed (successText s) s.seq ∧
        (onRecv s e src data).streamActive = false ∧
        (∀ ch, (onRecv s e src data).monNormal ch = false ∧
          (onRecv s e src data).monLatch ch = false ∧
          (onRecv s e src data).latched ch = false ∧
          (onRecv s e src data).ignoredCh ch = false) ∧
        (∀ ch, ch < CHANNEL_COUNT → (onRecv s e src data).ledState ch = false) ∧
        (onRecv s e src data).needReleaseGate = false ∧
        getTarget (onRecv s e src data) = none ∧
        (onRecv s e src data).state = State.WAIT_FOR_TARGET) ∧
      (hasWorkToCheck (parseCheckSelection s (rxText data))
          (parseCheckSelection s (rxText data)).checkActive = true →
        (onRecv s e src data).state = State.FINAL_CHECK ∧
          ∀ ch, (onRecv s e src data).monNormal ch = s.monNormal ch ∧
            (onRecv s e src data).monLatch ch = s.monLatch ch ∧
            (onRecv s e src data).latched ch = s.latched ch ∧
            (onRecv s e src data).ignoredCh ch = s.ignoredCh ch) := by
  refine ⟨fun hno => ?_, fun hw => ?_⟩
  · obtain ⟨a1, a2, a3, a4, a5, _, _, a8, a9⟩ := onRecv_check_idle s e src data hlen hsrc h hno
    obtain ⟨b1, b2, b3, b4, _⟩ := a9 hb hok (by rw [hst]; decide)
    refine ⟨b1, b2, b3, b4, a2, fun ch => ?_, a4, a5, a8, a1⟩
    have := a3 ch
    exact ⟨congrArg ChanBits.normal this, congrArg ChanBits.latch this,
      congrArg ChanBits.latched this, congrArg ChanBits.ignored this⟩
  · obtain ⟨a1, a2, _⟩ := onRecv_check_work s e src data hlen hsrc h hw
    refine ⟨a1, fun ch => ?_⟩
    have := a2 ch
    exact ⟨congrArg ChanBits.normal this, congrArg ChanBits.latch this,
      congrArg ChanBits.latched this, congrArg ChanBits.ignored this⟩

/-- C16 (CHECK outside MONITORING), amended: a CHECK frame is handled in every state, also
outside MONITORING, as it is in MONITORING. When there is work to check, the state becomes
FINAL_CHECK, the model bits of every channel and the reliable-TX slot are unchanged, and
nothing but the ACK of an id-framed frame is sent. When there is none, the Hub goes dark to
WAIT_FOR_TARGET and, outside SELF_CHECK, `RESULT SUCCESS <MAC>` is sent reliably to the
sender (not the broadcast address, accepted by the driver). -/
theorem C16_check_any_state (s : Hub) (e : Env) (src : Mac) (data : List Char)
    (hlen : data.length ≠ 0) (hsrc : isZeroMac src = false)
    (h : startsWith kwCHECK (rxText data) = true) :
    (hasWorkToCheck (parseCheckSelection s (rxText data))
        (parseCheckSelection s (rxText data)).checkActive = true →
      (onRecv s e src data).state = State.FINAL_CHECK ∧
        (∀ ch, chanBits (onRecv s e src data) ch = chanBits s ch) ∧
        (onRecv s e src data).hubAckActive = s.hubAckActive ∧
        (onRecv s e src data).hubAckMac = s.hubAckMac ∧
        (onRecv s e src data).hubAckMsg = s.hubAckMsg ∧
        (onRecv s e src data).hubAckId = s.hubAckId ∧
        (onRecv s e src data).seq = s.seq ∧
        ((onRecv s e src data).sent = s.sent ∨ ∃ d id, (onRecv s e src data).sent = s.sent ++
          [{ dest := d, text := snprintf 24 ("ACK ".toList ++ fmtDec id) }])) ∧
      (hasWorkToCheck (parseCheckSelection s (rxText data))
          (parseCheckSelection s (rxText data)).checkActive = false →
        (onRecv s e src data).state = State.WAIT_FOR_TARGET ∧
          (∀ ch, chanBits (onRecv s e src data) ch
            = { normal := false, latch := false, latched := false, ignored := false }) ∧
          getTarget (onRecv s e src data) = none ∧
          ((src == bcastMac) = false → e.peerOk = true → s.state ≠ State.SELF_CHECK →
            (onRecv s e src data).sent.getLast?
                = some { dest := src, text := framed (successText s) s.seq } ∧
              (onRecv s e src data).hubAckActive = true ∧
              (onRecv s e src data).hubAckMsg = framed (successText s) s.seq)) := by
  refine ⟨fun hw => ?_, fun hno => ?_⟩
  · obtain ⟨a1, a2, a3, a4⟩ := onRecv_check_work s e src data hlen hsrc h hw
    exact ⟨a1, a2, congrArg (fun x => x.2.1) a3, congrArg (fun x => x.2.2.1) a3,
      congrArg (fun x => x.2.2.2.1) a3, congrArg (fun x => x.2.2.2.2.1) a3,
      congrArg (fun x => x.2.2.2.2.2) a3, a4⟩
  · obtain ⟨a1, _, a3, _, _, _, _, a8, a9⟩ := onRecv_check_idle s e src data hlen hsrc h hno
    refine ⟨a1, a3, a8, fun hb hok hs => ?_⟩
    obtain ⟨b1, b2, _, b4, _⟩ := a9 hb hok hs
    exact ⟨b1, b2, b4⟩

/-- Witness of C15: in `latchedHub` (MONITORING, channel 3 latched and ignored) the frame
`CHECK 3` leaves nothing to check: the Hub sends `RESULT SUCCESS AA:BB:CC:DD:EE:01 ID=1001` to
the station and goes to WAIT_FOR_TARGET. -/
theorem C15_check_in_monitoring_witness :
    latchedHub.state = State.MONITORING ∧ latchedHub.ignoredCh 2 = true ∧
      (onRecv latchedHub (pressEnv 400) staMac "CHECK 3".toList).state
        = State.WAIT_FOR_TARGET ∧
      (onRecv latchedHub (pressEnv 400) staMac "CHECK 3".toList).sent.getLast?
        = some { dest := staMac
                 text := "RESULT SUCCESS AA:BB:CC:DD:EE:01 ID=1001".toList } := by
  have hst : latchedHub.state = State.MONITORING := by decide
  have hig : latchedHub.ignoredCh 2 = true := by decide
  have hmac : latchedHub.BOARD_MAC = "AA:BB:CC:DD:EE:01".toList := by decide
  have hseq : latchedHub.seq = 1001 := by decide
  have hno : hasWorkToCheck (parseCheckSelection latchedHub (rxText "CHECK 3".toList))
      (parseCheckSelection latchedHub (rxText "CHECK 3".toList)).checkActive = false := by
    decide
  have h := (C15_check_in_monitoring latchedHub (pressEnv 400) staMac "CHECK 3".toList
    (by decide) (by decide) (by decide) (by decide) (by decide) hst).1 hno
  refine ⟨hst, hig, h.2.2.2.2.2.2.2.2.2, ?_⟩
  rw [h.1]
  unfold successText
  rw [hmac, hseq]
  decide

/-- Witness of C16: in `waitHub` (WAIT_FOR_TARGET) the frame `CHECK 5` selects channel 5, so
there is work to check and the state becomes FINAL_CHECK. -/
theorem C16_check_any_state_witness :
    waitHub.state = State.WAIT_FOR_TARGET ∧
      (onRecv waitHub (quietEnv 100) staMac "CHECK 5".toList).state = State.FINAL_CHECK ∧
      (onRecv waitHub (quietEnv 100) staMac "CHECK 5".toList).hubAckActive
        = waitHub.hubAckActive := by
  have hw : hasWorkToCheck (parseCheckSelection waitHub (rxText "CHECK 5".toList))
      (parseCheckSelection waitHub (rxText "CHECK 5".toList)).checkActive = true := by decide
  have h := (C16_check_any_state waitHub (quietEnv 100) staMac "CHECK 5".toList
    (by decide) (by decide) (by decide)).1 hw
  exact ⟨by decide, h.1, h.2.2.1⟩

/-- Counterexample to C16 as stated: in the reachable state `waitHub` (WAIT_FOR_TARGET, empty
reliable-TX slot) the frame `CHECK 5` changes the state to FINAL_CHECK, and the frame `CHECK`
loads the slot and sends `RESULT SUCCESS AA:BB:CC:DD:EE:01 ID=1000` to the station. -/
theorem C16_counterexample :
    Reachable waitHub ∧ waitHub.state = State.WAIT_FOR_TARGET ∧
      waitHub.hubAckActive = false ∧
      (step waitHub (Step.recv (quietEnv 100) staMac "CHECK 5".toList)).state
        = State.FINAL_CHECK ∧
      (step waitHub (Step.recv (quietEnv 100) staMac "CHECK".toList)).hubAckActive = true ∧
      (step waitHub (Step.recv (quietEnv 100) staMac "CHECK".toList)).sent.getLast?
        = some { dest := staMac
                 text := "RESULT SUCCESS AA:BB:CC:DD:EE:01 ID=1000".toList } :=
  ⟨waitHub_reachable, by decide, by decide, by decide, by decide, by decide⟩

theorem doMonitoring_eq (s : Hub) (e : Env) :
    doMonitoring s e =
      if autoFinalReady s e then
        (if subU32 e.now (holdStart s e) ≥ AUTO_FINAL_HOLD_MS then
          sendSuccessAndIdle (replyRaw
            (if (monitorLit s e).liveOkSince = 0 then
              { monitorLit s e with liveOkSince := e.now } else monitorLit s e) e
            "AUTO-FINAL".toList) e
        else (if (monitorLit s e).liveOkSince = 0 then
              { monitorLit s e with liveOkSince := e.now } else monitorLit s e))
      else { monitorLit s e with liveOkSince := 0 } := by
  have hh : holdStart s e = (if (monitorLit s e).liveOkSince = 0 then
      ({ monitorLit s e with liveOkSince := e.now } : Hub) else monitorLit s e).liveOkSince := by
    unfold holdStart
    split_ifs <;> rfl
  rw [hh]
  rfl

theorem setLed_keep (s : Hub) (ch : Nat) (v : Bool) : tickKeep (setLed s ch v) = tickKeep s := by
  rw [setLed_eq]; rfl

theorem sendCmdRaw_keep (s : Hub) (e : Env) (msg : List Char) (dest : Option Mac) :
    tickKeep (sendCmdRaw s e msg dest) = tickKeep s := by
  unfold sendCmdRaw
  split
  · rfl
  · split_ifs <;> rfl

theorem sendEvent_keep (s : Hub) (e : Env) (k : EvKind) (ch : Nat) (v : Bool) :
    tickKeep (sendEvent s e k ch v) = tickKeep s := by
  unfold sendEvent
  cases k <;> simp only [] <;> split_ifs <;>
    first
    | rfl
    | (split <;> first | rfl | exact (sendCmdRaw_keep _ _ _ _).trans rfl)

theorem emitLatched_keep (s : Hub) (e : Env) (ch : Nat) :
    tickKeep (emitLatched s e ch) = tickKeep s := by
  unfold emitLatched
  exact sendEvent_keep s e EvKind.L ch true

theorem emitPressed_keep (s : Hub) (e : Env) (ch : Nat) (p : Bool) :
    tickKeep (emitPressed s e ch p) = tickKeep s := by
  unfold emitPressed
  exact sendEvent_keep s e EvKind.P ch p

theorem debouncedPressed_keep (s : Hub) (sw : Nat → Bool) (ch now : Nat) :
    tickKeep (debouncedPressed s sw ch now).1 = tickKeep s := by
  unfold debouncedPressed
  simp only []
  split_ifs <;> rfl

theorem monitorSample_keep (e : Env) (a : PressScan) (ch : Nat) :
    tickKeep (monitorSample e a ch).hub = tickKeep a.hub := by
  have hd := debouncedPressed_keep a.hub e.sw ch e.now
  unfold monitorSample
  simp only []
  generalize debouncedPressed a.hub e.sw ch e.now = r at hd
  have hl : tickKeep (if (r.1.monLatch ch && r.2.2) = true then latchEdge r.1 ch else r.1)
      = tickKeep a.hub := by
    split_ifs
    · exact Eq.trans rfl hd
    · exact hd
  generalize (if (r.1.monLatch ch && r.2.2) = true then latchEdge r.1 ch else r.1) = s2 at hl
  refine (proj_ite tickKeep _ _ _ ?_).trans hl
  refine (proj_ite tickKeep _ _ _ (emitPressed_keep _ _ _ _)).trans ?_
  exact proj_ite tickKeep _ _ _ (emitLatched_keep _ _ _)

theorem releaseGate_keep (s : Hub) (e : Env) : tickKeep (releaseGate s e) = tickKeep s := by
  unfold releaseGate
  exact (foldl_keep tickKeep _ _ _ (fun a x => by simp only []; split_ifs <;> rfl)).trans rfl

theorem monitorSampled_keep (s : Hub) (e : Env) :
    tickKeep (monitorSampled s e).hub = tickKeep s := by
  unfold monitorSampled
  refine (foldl_keep (fun (b : PressScan) => tickKeep b.hub) _ _ _
    (fun a x => monitorSample_keep e a x)).trans ?_
  show tickKeep (if s.needReleaseGate = true then releaseGate s e else s) = tickKeep s
  split_ifs
  · exact releaseGate_keep s e
  · rfl

theorem monitorLed_keep (f : Bool) (p : Nat → Bool) (s : Hub) (ch : Nat) :
    tickKeep (monitorLed f p s ch) = tickKeep s := by
  unfold monitorLed
  simp only [setLed_eq]
  split_ifs <;> rfl

theorem monitorLit_keep (s : Hub) (e : Env) : tickKeep (monitorLit s e) = tickKeep s := by
  unfold monitorLit
  exact (foldl_keep tickKeep _ _ _ (fun a x => monitorLed_keep _ _ a x)).trans
    (monitorSampled_keep s e)

theorem monitorLit_sent (s : Hub) (e : Env) :
    (monitorLit s e).sent = (monitorSampled s e).hub.sent := by
  unfold monitorLit
  exact foldl_keep Hub.sent _ _ _ (fun a x => by
    unfold monitorLed
    simp only [setLed_eq]
    split_ifs <;> rfl)

theorem EvOnly.refl (l : List Frame) : EvOnly l l :=
  ⟨[], by simp, fun f hf => by cases hf⟩

theorem EvOnly.trans {a b c : List Frame} (h1 : EvOnly a b) (h2 : EvOnly b c) : EvOnly a c := by
  obtain ⟨x, rfl, hx⟩ := h1
  obtain ⟨y, rfl, hy⟩ := h2
  refine ⟨x ++ y, by simp, fun f hf => ?_⟩
  rcases List.mem_append.1 hf with h | h
  · exact hx f h
  · exact hy f h

theorem EvOnly.of_eq {a b : List Frame} (h : b = a) : EvOnly a b := h ▸ EvOnly.refl a

theorem sendCmdRaw_ev (s : Hub) (e : Env) (msg : List Char) (dest : Option Mac)
    (hmsg : startsWith "EV ".toList msg = true) :
    EvOnly s.sent (sendCmdRaw s e msg dest).sent := by
  unfold sendCmdRaw
  split
  · exact EvOnly.refl _
  · split_ifs
    · exact EvOnly.refl _
    · exact ⟨[_], rfl, fun f hf => by rw [List.mem_singleton.1 hf]; exact hmsg⟩

theorem evText_starts (rest : List Char) :
    startsWith "EV ".toList (snprintf 48 ("EV ".toList ++ rest)) = true := by
  rw [startsWith_iff]
  unfold snprintf
  exact prefix_take _ _ _ (List.prefix_append _ _) (by decide)

theorem sendEvent_ev (s : Hub) (e : Env) (k : EvKind) (ch : Nat) (v : Bool) :
    EvOnly s.sent (sendEvent s e k ch v).sent := by
  unfold sendEvent
  cases k <;> simp only [] <;> split_ifs <;>
    first
    | exact EvOnly.refl _
    | (split
       · exact EvOnly.refl _
       · refine EvOnly.trans (EvOnly.of_eq rfl) (sendCmdRaw_ev _ e _ _ ?_)
         simp only [List.append_assoc]
         exact evText_starts _)

theorem emitLatched_ev (s : Hub) (e : Env) (ch : Nat) :
    EvOnly s.sent (emitLatched s e ch).sent := by
  unfold emitLatched
  exact sendEvent_ev s e EvKind.L ch true

theorem emitPressed_ev (s : Hub) (e : Env) (ch : Nat) (p : Bool) :
    EvOnly s.sent (emitPressed s e ch p).sent := by
  unfold emitPressed
  exact sendEvent_ev s e EvKind.P ch p

theorem debouncedPressed_sent (s : Hub) (sw : Nat → Bool) (ch now : Nat) :
    (debouncedPressed s sw ch now).1.sent = s.sent := by
  unfold debouncedPressed
  simp only []
  split_ifs <;> rfl

theorem monitorSample_ev (e : Env) (a : PressScan) (ch : Nat) :
    EvOnly a.hub.sent (monitorSample e a ch).hub.sent := by
  have hd := debouncedPressed_sent a.hub e.sw ch e.now
  unfold monitorSample
  simp only []
  generalize debouncedPressed a.hub e.sw ch e.now = r at hd
  have hl : (if (r.1.monLatch ch && r.2.2) = true then latchEdge r.1 ch else r.1).sent
      = a.hub.sent := by
    split_ifs
    · exact Eq.trans rfl hd
    · exact hd
  generalize (if (r.1.monLatch ch && r.2.2) = true then latchEdge r.1 ch else r.1) = s2 at hl
  rw [← hl]
  split_ifs
  · exact EvOnly.trans (emitLatched_ev _ _ _) (emitPressed_ev _ _ _ _)
  · exact emitLatched_ev _ _ _
  · exact emitPressed_ev _ _ _ _
  · exact EvOnly.refl _
  · exact EvOnly.refl _

theorem releaseGate_sent (s : Hub) (e : Env) : (releaseGate s e).sent = s.sent := by
  unfold releaseGate
  exact (foldl_keep Hub.sent _ _ _ (fun a x => by simp only []; split_ifs <;> rfl)).trans rfl

theorem monitorSampled_ev (s : Hub) (e : Env) : EvOnly s.sent (monitorSampled s e).hub.sent := by
  unfold monitorSampled
  have h0 : (if s.needReleaseGate = true then releaseGate s e else s).sent = s.sent := by
    split_ifs
    · exact releaseGate_sent s e
    · rfl
  have key : ∀ (l : List Nat) (a : PressScan),
      EvOnly a.hub.sent (l.foldl (monitorSample e) a).hub.sent := by
    intro l
    induction l with
    | nil => intro a; exact EvOnly.refl _
    | cons x xs ih =>
      intro a
      rw [List.foldl_cons]
      exact EvOnly.trans (monitorSample_ev e a x) (ih _)
  have := key (List.range CHANNEL_COUNT)
    { hub := if s.needReleaseGate then releaseGate s e else s, pressed := fun _ => false }
  rw [← h0]
  exact this

theorem serviceAckTx_live (s : Hub) (e : Env) :
    (serviceAckTx s e).liveOkSince = s.liveOkSince := by
  unfold serviceAckTx
  simp only []
  split_ifs <;> rfl

theorem sendCmd_live (s : Hub) (e : Env) (msg : List Char) (dest : Option Mac) :
    (sendCmd s e msg dest).liveOkSince = s.liveOkSince := by
  unfold sendCmd
  split
  · rfl
  · split_ifs
    · exact congrArg (fun x => x.1) (sendCmdRaw_keep _ _ _ _)
    · exact (serviceAckTx_live _ _).trans rfl

theorem replyReliable_live (s : Hub) (e : Env) (msg : List Char) :
    (replyReliable s e msg).liveOkSince = s.liveOkSince := by
  unfold replyReliable
  split
  · exact sendCmd_live _ _ _ _
  · rfl

theorem replyRaw_keep (s : Hub) (e : Env) (msg : List Char) :
    tickKeep (replyRaw s e msg) = tickKeep s := by
  unfold replyRaw
  split
  · exact sendCmdRaw_keep _ _ _ _
  · rfl

theorem goDarkAndIdle_live (s : Hub) (e : Env) :
    (goDarkAndIdle s e).liveOkSince = s.liveOkSince := by
  unfold goDarkAndIdle
  simp only []
  have h1 : (allLeds (cleanAll (stopStreaming s) e) false).liveOkSince
      = (cleanAll (stopStreaming s) e).liveOkSince :=
    foldl_keep Hub.liveOkSince _ _ _ (fun a x => by rw [setLed_eq])
  refine h1.trans ?_
  unfold cleanAll
  simp only []
  exact foldl_keep Hub.liveOkSince _ _ _ (fun a x => by rw [setLed_eq]; rfl)

theorem sendSuccessAndIdle_live (s : Hub) (e : Env) :
    (sendSuccessAndIdle s e).liveOkSince = s.liveOkSince := by
  unfold sendSuccessAndIdle
  rw [goDarkAndIdle_live, replyReliable_live]

/-- What a `doMonitoring` call leaves in `liveOkSince`. -/
theorem doMonitoring_live (s : Hub) (e : Env) :
    (doMonitoring s e).liveOkSince =
      if autoFinalReady s e then (if s.liveOkSince = 0 then e.now else s.liveOkSince) else 0 := by
  have hk : (monitorLit s e).liveOkSince = s.liveOkSince :=
    congrArg (fun x => x.1) (monitorLit_keep s e)
  have h2 : (if (monitorLit s e).liveOkSince = 0 then
      ({ monitorLit s e with liveOkSince := e.now } : Hub) else monitorLit s e).liveOkSince
      = if s.liveOkSince = 0 then e.now else s.liveOkSince := by
    rw [← hk]
    split_ifs <;> rfl
  rw [doMonitoring_eq]
  generalize (if (monitorLit s e).liveOkSince = 0 then
      ({ monitorLit s e with liveOkSince := e.now } : Hub) else monitorLit s e) = s2 at h2 ⊢
  by_cases hr : autoFinalReady s e = true
  · rw [if_pos hr, if_pos hr]
    by_cases hf : subU32 e.now (holdStart s e) ≥ AUTO_FINAL_HOLD_MS
    · rw [if_pos hf, sendSuccessAndIdle_live,
        show (replyRaw s2 e "AUTO-FINAL".toList).liveOkSince = s2.liveOkSince from
          congrArg (fun x => x.1) (replyRaw_keep s2 e _)]
      exact h2
    · rw [if_neg hf]
      exact h2
  · rw [if_neg hr, if_neg hr]

theorem holdStart_eq (s : Hub) (e : Env) :
    holdStart s e = if s.liveOkSince = 0 then e.now else s.liveOkSince := by
  unfold holdStart
  rw [show (monitorLit s e).liveOkSince = s.liveOkSince from
    congrArg (fun x => x.1) (monitorLit_keep s e)]

theorem mono_chain (t : Nat → Nat) (n : Nat) (hmono : ∀ k, k < n → t k ≤ t (k + 1))
    (a b : Nat) (hab : a ≤ b) (hb : b ≤ n) : t a ≤ t b := by
  induction b with
  | zero =>
    have : a = 0 := by omega
    rw [this]
  | succ b ih =>
    by_cases h : a = b + 1
    · rw [h]
    · exact le_trans (ih (by omega) (by omega)) (hmono b (by omega))

/-- The hold timer over a run of `doMonitoring` calls: `L k` is `liveOkSince` before call
`k`, `t k` the time of call `k`, `p k` the auto-final condition at call `k`. -/
theorem hold_run (L t : Nat → Nat) (p : Nat → Bool) (n : Nat) (h0 : L 0 = 0)
    (hstep : ∀ k, k < n → L (k + 1) = if p k then (if L k = 0 then t k else L k) else 0)
    (hpos : ∀ k, k ≤ n → 0 < t k) (hlt : ∀ k, k ≤ n → t k < U32)
    (hmono : ∀ k, k < n → t k ≤ t (k + 1)) :
    (p n = true ∧ subU32 (t n) (if L n = 0 then t n else L n) ≥ AUTO_FINAL_HOLD_MS) ↔
      ∃ j, j ≤ n ∧ (∀ i, j ≤ i → i ≤ n → p i = true) ∧ t j + AUTO_FINAL_HOLD_MS ≤ t n := by
  have h200 : AUTO_FINAL_HOLD_MS = 200 := rfl
  have invA : ∀ k, k ≤ n → (L k = 0 ∨ ∃ j, j < k ∧ L k = t j ∧
      ∀ i, j ≤ i → i < k → p i = true) := by
    intro k
    induction k with
    | zero => intro _; exact Or.inl h0
    | succ k ih =>
      intro hk
      rw [hstep k (by omega)]
      by_cases hp : p k = true
      · rw [if_pos hp]
        rcases ih (by omega) with hz | ⟨j, hj, hL, hall⟩
        · rw [if_pos hz]
          exact Or.inr ⟨k, by omega, rfl, fun i h1 h2 => by
            have : i = k := by omega
            rw [this]; exact hp⟩
        · by_cases hz : L k = 0
          · rw [if_pos hz]
            exact Or.inr ⟨k, by omega, rfl, fun i h1 h2 => by
              have : i = k := by omega
              rw [this]; exact hp⟩
          · rw [if_neg hz]
            refine Or.inr ⟨j, by omega, hL, fun i h1 h2 => ?_⟩
            by_cases hik : i = k
            · rw [hik]; exact hp
            · exact hall i h1 (by omega)
      · rw [if_neg hp]
        exact Or.inl rfl
  constructor
  · rintro ⟨hp, hsub⟩
    rcases invA n (le_refl n) with hz | ⟨j, hj, hL, hall⟩
    · rw [if_pos hz, subU32_of_le _ _ (le_refl _) (hlt n (le_refl n))] at hsub
      omega
    · have hne : L n ≠ 0 := by
        rw [hL]
        have := hpos j (by omega)
        omega
      rw [if_neg hne, hL,
        subU32_of_le _ _ (mono_chain t n hmono j n (by omega) (le_refl n))
          (hlt n (le_refl n))] at hsub
      refine ⟨j, by omega, fun i h1 h2 => ?_, ?_⟩
      · by_cases hin : i = n
        · rw [hin]; exact hp
        · exact hall i h1 (by omega)
      · have := mono_chain t n hmono j n (by omega) (le_refl n)
        omega
  · rintro ⟨j, hj, hall, hspan⟩
    have hjn : j < n := by
      by_contra hc
      have : j = n := by omega
      rw [this] at hspan
      omega
    have invB : ∀ k, j < k → k ≤ n → L k ≠ 0 ∧ L k ≤ t j := by
      intro k
      induction k with
      | zero => intro h; omega
      | succ k ih =>
        intro h1 h2
        rw [hstep k (by omega), if_pos (hall k (by omega) (by omega))]
        by_cases hkj : k = j
        · subst hkj
          by_cases hz : L k = 0
          · rw [if_pos hz]
            have := hpos k (by omega)
            exact ⟨by omega, le_refl _⟩
          · rw [if_neg hz]
            refine ⟨hz, ?_⟩
            rcases invA k (by omega) with h | ⟨j2, hj2, hL, _⟩
            · exact absurd h hz
            · rw [hL]
              exact mono_chain t n hmono j2 k (by omega) (by omega)
        · obtain ⟨a, b⟩ := ih (by omega) (by omega)
          rw [if_neg a]
          exact ⟨a, b⟩
    obtain ⟨a, b⟩ := invB n hjn (le_refl n)
    refine ⟨hall n (by omega) (le_refl n), ?_⟩
    have hle : L n ≤ t n := le_trans b (mono_chain t n hmono j n (by omega) (le_refl n))
    rw [if_neg a, subU32_of_le _ _ hle (hlt n (le_refl n))]
    omega

theorem ensurePeer_unicast (e : Env) (peer : Mac) (hb : (peer == bcastMac) = false)
    (hok : e.peerOk = true) : ensurePeer e peer = true := by
  unfold ensurePeer isBroadcastAddr
  rw [hb]
  simpa using hok

theorem replyRaw_unicast (s : Hub) (e : Env) (msg : List Char) (peer : Mac)
    (hpeer : getTarget s = some peer) (hb : (peer == bcastMac) = false)
    (hok : e.peerOk = true) :
    (replyRaw s e msg).sent = s.sent ++ [{ dest := peer, text := msg }] := by
  have hz := (getTarget_some s peer hpeer).2.2
  have hens := ensurePeer_unicast e peer hb hok
  unfold replyRaw
  rw [hpeer]
  unfold sendCmdRaw resolveTarget
  simp only [hz, Bool.false_eq_true, if_false, hens, Bool.not_true]
  rfl

theorem holdSet_facts (lit : Hub) (now : Nat) :
    slotCore (if lit.liveOkSince = 0 then ({ lit with liveOkSince := now } : Hub) else lit)
        = slotCore lit ∧
      (if lit.liveOkSince = 0 then ({ lit with liveOkSince := now } : Hub) else lit).state
        = lit.state ∧
      (if lit.liveOkSince = 0 then ({ lit with liveOkSince := now } : Hub) else lit).BOARD_MAC
        = lit.BOARD_MAC ∧
      (if lit.liveOkSince = 0 then ({ lit with liveOkSince := now } : Hub) else lit).sent
        = lit.sent := by
  split_ifs <;> exact ⟨rfl, rfl, rfl, rfl⟩

/-- The frames of a `doMonitoring` call that runs the auto-final block, with a session peer
that is not the broadcast address and that the driver accepts. -/
theorem doMonitoring_fires (s : Hub) (e : Env) (peer : Mac)
    (hf : autoFinalFires s e = true) (hpeer : getTarget s = some peer)
    (hb : (peer == bcastMac) = false) (hok : e.peerOk = true)
    (hst : s.state ≠ State.SELF_CHECK) :
    (doMonitoring s e).sent = (monitorSampled s e).hub.sent ++
        [{ dest := peer, text := "AUTO-FINAL".toList },
         { dest := peer, text := framed (successText s) s.seq }] ∧
      (doMonitoring s e).state = State.WAIT_FOR_TARGET := by
  unfold autoFinalFires at hf
  simp only [Bool.and_eq_true, decide_eq_true_eq] at hf
  obtain ⟨hr, hh⟩ := hf
  obtain ⟨k1, k2, k3, k4⟩ := holdSet_facts (monitorLit s e) e.now
  have hk := monitorLit_keep s e
  have l2 : (monitorLit s e).state = s.state := congrArg (fun x => x.2.1) hk
  have l3 : slotCore (monitorLit s e) = slotCore s := congrArg (fun x => x.2.2.1) hk
  have l4 : (monitorLit s e).BOARD_MAC = s.BOARD_MAC := congrArg (fun x => x.2.2.2) hk
  rw [doMonitoring_eq, if_pos hr, if_pos hh]
  generalize (if (monitorLit s e).liveOkSince = 0 then
      ({ monitorLit s e with liveOkSince := e.now } : Hub) else monitorLit s e) = s2
      at k1 k2 k3 k4 ⊢
  have hp2 : getTarget s2 = some peer := by
    rw [getTarget_of_slot _ _ (k1.trans l3)]; exact hpeer
  have hraw := replyRaw_unicast s2 e "AUTO-FINAL".toList peer hp2 hb hok
  have hkeep := replyRaw_keep s2 e "AUTO-FINAL".toList
  generalize replyRaw s2 e "AUTO-FINAL".toList = s3 at hraw hkeep ⊢
  have m2 : s3.state = s2.state := congrArg (fun x => x.2.1) hkeep
  have m3 : slotCore s3 = slotCore s2 := congrArg (fun x => x.2.2.1) hkeep
  have m4 : s3.BOARD_MAC = s2.BOARD_MAC := congrArg (fun x => x.2.2.2) hkeep
  have hp3 : getTarget s3 = some peer := by
    rw [getTarget_of_slot _ _ m3]; exact hp2
  have hst3 : s3.state ≠ State.SELF_CHECK := by
    rw [m2, k2, l2]; exact hst
  have hseq : s3.seq = s.seq := congrArg SlotCore.seq (m3.trans (k1.trans l3))
  have htxt : successText s3 = successText s := by
    unfold successText
    rw [m4, k3, l4]
  have hrel := (replyReliable_unicast s3 e (successText s3) peer hp3 hb hst3 hok).1
  unfold sendSuccessAndIdle
  refine ⟨?_, goDarkAndIdle_state _ _⟩
  rw [goDarkAndIdle_sent, hrel, hraw, k4, monitorLit_sent, htxt, hseq]
  simp

/-- A `doMonitoring` call that does not run the auto-final block sends live events only and
keeps the state. -/
theorem doMonitoring_quiet (s : Hub) (e : Env) (hf : autoFinalFires s e = false) :
    (doMonitoring s e).sent = (monitorSampled s e).hub.sent ∧
      (doMonitoring s e).state = s.state := by
  obtain ⟨_, k2, _, k4⟩ := holdSet_facts (monitorLit s e) e.now
  have l2 : (monitorLit s e).state = s.state := congrArg (fun x => x.2.1) (monitorLit_keep s e)
  rw [doMonitoring_eq]
  by_cases hr : autoFinalReady s e = true
  · have hh : ¬ subU32 e.now (holdStart s e) ≥ AUTO_FINAL_HOLD_MS := by
      intro hc
      unfold autoFinalFires at hf
      rw [hr, Bool.true_and, decide_eq_false_iff_not] at hf
      exact hf hc
    rw [if_pos hr, if_neg hh, k4, k2, monitorLit_sent]
    exact ⟨rfl, l2⟩
  · rw [if_neg hr]
    exact ⟨(monitorLit_sent s e), l2⟩

theorem autoFinalReady_iff (s : Hub) (e : Env) :
    autoFinalReady s e = true ↔
      (∀ ch, ch < CHANNEL_COUNT → (monitorSampled s e).hub.monLatch ch = true →
        (monitorSampled s e).hub.latched ch = true) ∧
      (∀ ch, ch < CHANNEL_COUNT → (monitorSampled s e).hub.monNormal ch = true →
        (monitorSampled s e).hub.ignoredCh ch = false →
        (monitorSampled s e).pressed ch = true) ∧
      (∃ ch, ch < CHANNEL_COUNT ∧
        ((monitorSampled s e).hub.monNormal ch = true ∨
          (monitorSampled s e).hub.monLatch ch = true) ∧
        (monitorSampled s e).hub.ignoredCh ch = false) := by
  have hc : chanCore (monitorLit s e) = chanCore (monitorSampled s e).hub :=
    monitorLed_fold_core _ _ _ _
  have a1 : (monitorLit s e).monNormal = (monitorSampled s e).hub.monNormal :=
    congrArg ChanCore.monNormal hc
  have a2 : (monitorLit s e).monLatch = (monitorSampled s e).hub.monLatch :=
    congrArg ChanCore.monLatch hc
  have a3 : (monitorLit s e).ignoredCh = (monitorSampled s e).hub.ignoredCh :=
    congrArg ChanCore.ignoredCh hc
  unfold autoFinalReady allContactlessLatched hasWorkToCheck
  rw [a1, a2, a3]
  simp only [Bool.and_eq_true, List.all_eq_true, List.any_eq_true, List.mem_range,
    Bool.not_eq_true', Bool.and_eq_false_imp, Bool.not_eq_false', Bool.or_eq_true,
    Bool.false_eq_true, if_false]
  constructor
  · rintro ⟨⟨h1, h2⟩, ch, hch, h3, h4⟩
    exact ⟨h1, fun ch hc hn hi => h2 ch hc ⟨hn, hi⟩, ch, hch, h3, h4⟩
  · rintro ⟨h1, h2, ch, hch, h3, h4⟩
    exact ⟨⟨h1, fun ch hc hn => h2 ch hc hn.1 hn.2⟩, ch, hch, h3, h4⟩

theorem autoRun_facts :
    (autoRun 0).liveOkSince = 0 ∧ autoFinalReady (autoRun 0) (autoEnv 0) = true ∧
      (autoRun 1).state = State.MONITORING ∧ autoFinalReady (autoRun 1) (autoEnv 1) = true ∧
      (autoRun 2).state = State.MONITORING ∧ autoFinalReady (autoRun 2) (autoEnv 2) = true ∧
      getTarget (autoRun 2) = some staMac ∧ (autoRun 2).seq = 1001 ∧
      (autoRun 2).BOARD_MAC = "AA:BB:CC:DD:EE:01".toList :=
  ⟨by decide, by decide, by decide, by decide, by decide, by decide, by decide, by decide,
    by decide⟩

/-- Auto-final hold from a cleared timer. Over a run of `doMonitoring` calls, call `k` made in
state `u k` at time `(e k).now`, where `liveOkSince` is 0 before the first call and nothing
writes it between two calls, and the times are positive, below 2^32 and do not decrease: call
`n` runs the auto-final block iff for some call `j ≤ n` made at least 200 ms before call `n`
the condition (every latch channel latched, every normal channel that is not ignored pressed,
some tracked channel not ignored) held at every call from `j` to `n`. A call that runs the
block sends `AUTO-FINAL` and then `RESULT SUCCESS <MAC>` with the next id to the session peer
and leaves MONITORING; any other call sends live events only; a call at which the condition
is false leaves `liveOkSince` at 0. The run has to start with `liveOkSince` at 0: only a call
at which the condition is false clears it, the call that runs the block does not. -/
theorem autoFinal_hold_from_clear (u : Nat → Hub) (e : Nat → Env) (n : Nat)
    (h0 : (u 0).liveOkSince = 0)
    (hlink : ∀ k, k < n → (u (k + 1)).liveOkSince = (doMonitoring (u k) (e k)).liveOkSince)
    (hpos : ∀ k, k ≤ n → 0 < (e k).now) (hlt : ∀ k, k ≤ n → (e k).now < U32)
    (hmono : ∀ k, k < n → (e k).now ≤ (e (k + 1)).now) :
    (autoFinalFires (u n) (e n) = true ↔
        ∃ j, j ≤ n ∧ (∀ i, j ≤ i → i ≤ n → autoFinalReady (u i) (e i) = true) ∧
          (e j).now + AUTO_FINAL_HOLD_MS ≤ (e n).now) ∧
      (autoFinalFires (u n) (e n) = true → ∀ peer, getTarget (u n) = some peer →
        (peer == bcastMac) = false → (e n).peerOk = true → (u n).state = State.MONITORING →
        (doMonitoring (u n) (e n)).sent = (monitorSampled (u n) (e n)).hub.sent ++
            [{ dest := peer, text := "AUTO-FINAL".toList },
             { dest := peer, text := framed (successText (u n)) (u n).seq }] ∧
          (doMonitoring (u n) (e n)).state = State.WAIT_FOR_TARGET) ∧
      (autoFinalFires (u n) (e n) = false →
        (doMonitoring (u n) (e n)).sent = (monitorSampled (u n) (e n)).hub.sent ∧
          (doMonitoring (u n) (e n)).state = (u n).state) ∧
      EvOnly (u n).sent (monitorSampled (u n) (e n)).hub.sent ∧
      (autoFinalReady (u n) (e n) = false → (doMonitoring (u n) (e n)).liveOkSince = 0) ∧
      (autoFinalReady (u n) (e n) = true ↔
        (∀ ch, ch < CHANNEL_COUNT → (monitorSampled (u n) (e n)).hub.monLatch ch = true →
          (monitorSampled (u n) (e n)).hub.latched ch = true) ∧
        (∀ ch, ch < CHANNEL_COUNT → (monitorSampled (u n) (e n)).hub.monNormal ch = true →
          (monitorSampled (u n) (e n)).hub.ignoredCh ch = false →
          (monitorSampled (u n) (e n)).pressed ch = true) ∧
        (∃ ch, ch < CHANNEL_COUNT ∧
          ((monitorSampled (u n) (e n)).hub.monNormal ch = true ∨
            (monitorSampled (u n) (e n)).hub.monLatch ch = true) ∧
          (monitorSampled (u n) (e n)).hub.ignoredCh ch = false)) := by
  refine ⟨?_, ?_, doMonitoring_quiet _ _, monitorSampled_ev _ _, ?_, autoFinalReady_iff _ _⟩
  · have hrun := hold_run (fun k => (u k).liveOkSince) (fun k => (e k).now)
      (fun k => autoFinalReady (u k) (e k)) n h0
      (fun k hk => by
        show (u (k + 1)).liveOkSince = _
        rw [hlink k hk, doMonitoring_live])
      hpos hlt hmono
    rw [← hrun]
    unfold autoFinalFires
    rw [holdStart_eq]
    simp only [Bool.and_eq_true, decide_eq_true_eq]
  · intro hf peer hp hb hok hst
    exact doMonitoring_fires _ _ peer hf hp hb hok (by rw [hst]; decide)
  · intro hr
    rw [doMonitoring_live, hr]
    rfl

/-- The run `autoRun`: on `armedHub` (channels 1, 2 and 3 normal) with the three switches
held, `doMonitoring` calls at 300, 400 and 500 ms all find the condition true; the third,
200 ms after the first, sends `AUTO-FINAL` and `RESULT SUCCESS AA:BB:CC:DD:EE:01 ID=1001`, and
the second does not run the auto-final block. -/
theorem autoFinal_hold_from_clear_run :
    autoFinalFires (autoRun 1) (autoEnv 1) = false ∧
      autoFinalFires (autoRun 2) (autoEnv 2) = true ∧
      (doMonitoring (autoRun 2) (autoEnv 2)).sent
        = (monitorSampled (autoRun 2) (autoEnv 2)).hub.sent ++
          [{ dest := staMac, text := "AUTO-FINAL".toList },
           { dest := staMac, text := "RESULT SUCCESS AA:BB:CC:DD:EE:01 ID=1001".toList }] := by
  obtain ⟨f0, p0, _, p1, s2, p2, t2, q2, m2⟩ := autoRun_facts
  have hpos : ∀ n k, k ≤ n → 0 < (autoEnv k).now := fun n k _ => by
    show 0 < 300 + 100 * k
    omega
  have hmono : ∀ n k, k < n → (autoEnv k).now ≤ (autoEnv (k + 1)).now := fun n k _ => by
    show 300 + 100 * k ≤ 300 + 100 * (k + 1)
    omega
  have hlt : ∀ n, n ≤ 2 → ∀ k, k ≤ n → (autoEnv k).now < U32 := fun n hn k hk => by
    show 300 + 100 * k < 4294967296
    omega
  have h1 := (autoFinal_hold_from_clear autoRun autoEnv 1 f0 (fun k _ => rfl) (hpos 1)
    (hlt 1 (by omega)) (hmono 1)).1
  have h2 := autoFinal_hold_from_clear autoRun autoEnv 2 f0 (fun k _ => rfl) (hpos 2)
    (hlt 2 (by omega)) (hmono 2)
  have hf2 : autoFinalFires (autoRun 2) (autoEnv 2) = true :=
    h2.1.2 ⟨0, by omega, fun i _ hi => by
      have : i = 0 ∨ i = 1 ∨ i = 2 := by omega
      rcases this with rfl | rfl | rfl
      · exact p0
      · exact p1
      · exact p2, by
      show 300 + 100 * 0 + 200 ≤ 300 + 100 * 2
      omega⟩
  refine ⟨?_, hf2, ?_⟩
  · apply Bool.eq_false_iff.2
    intro hc
    obtain ⟨j, hj, _, hspan⟩ := h1.1 hc
    have hs : 300 + 100 * j + 200 ≤ 300 + 100 * 1 := hspan
    omega
  · rw [(h2.2.1 hf2 staMac t2 (by decide) (by decide) s2).1]
    unfold successText
    rw [m2, q2]
    rfl

theorem loopTick_entry (s : Hub) (es : Nat → Env) :
    loopTick s es = drainPending (serviceAckTx (runState (tickEntry s es) es) (es 7)) es := rfl

theorem monitorLed_rule (f : Bool) (p : Nat → Bool) (s : Hub) (ch : Nat) :
    monitorLed f p s ch = setLed s ch (ledRule f p (chanCore s) ch) := by
  unfold monitorLed ledRule
  simp only [chanCore]
  split_ifs <;> rfl

theorem monitorLit_led (s : Hub) (e : Env) (c : Nat) (hc : c < CHANNEL_COUNT) :
    (monitorLit s e).ledState c
      = ledRule (allContactlessLatched (monitorSampled s e).hub) (monitorSampled s e).pressed
          (chanCore (monitorSampled s e).hub) c := by
  unfold monitorLit
  have h := foldl_range_at
    (monitorLed (allContactlessLatched (monitorSampled s e).hub) (monitorSampled s e).pressed)
    (fun h => (chanCore h, h.ledState c))
    (fun p => (p.1, ledRule (allContactlessLatched (monitorSampled s e).hub)
      (monitorSampled s e).pressed p.1 c)) c
    (fun a => by
      simp only []
      rw [monitorLed_core, monitorLed_rule, setLed_eq]
      simp [upd])
    (fun a x hx => by
      have hcx : c ≠ x := fun h => hx h.symm
      simp only []
      rw [monitorLed_core, monitorLed_rule, setLed_eq]
      simp [upd, hcx]) CHANNEL_COUNT (monitorSampled s e).hub
  rw [if_pos hc] at h
  exact congrArg Prod.snd h

theorem latched_ignored_stable :
    Stable (fun _ b => b.latched = true → b.ignored = true) := by
  intro c b b2 hm hq
  rcases hm with h | h | h | h | ⟨_, h⟩
  · rw [h]; exact hq
  · rw [h]; simp
  · rw [h]; simp
  · rw [h]; simp
  · rw [h]; simp

theorem monitorSampled_holds (Q : Nat → ChanBits → Prop) (hQ : LatchStable Q) (s : Hub) (e : Env)
    (hs : HoldsAll Q s) : HoldsAll Q (monitorSampled s e).hub := by
  unfold monitorSampled
  have h0 : HoldsAll Q (if s.needReleaseGate = true then releaseGate s e else s) :=
    holds_ite Q _ _ _ (releaseGate_holds Q s e hs) hs
  exact foldl_preserves (fun a => HoldsAll Q a.hub) _ _
    { hub := if s.needReleaseGate = true then releaseGate s e else s,
      pressed := fun _ => false }
    (fun x b hx => monitorSample_holds Q hQ e x b hx) h0

theorem tickEntry_holds (Q : Nat → ChanBits → Prop) (s : Hub) (es : Nat → Env)
    (hs : HoldsAll Q s) : HoldsAll Q (tickEntry s es) :=
  holdsAll_of_core Q _ _ (helloButton_core _ _) (blinkClock_holds Q s _ hs)

theorem reachable_latched_ignored (s : Hub) (hr : Reachable s) :
    HoldsAll (fun _ b => b.latched = true → b.ignored = true) s :=
  reachable_holds _ latched_ignored_stable (fun _ => by simp) s hr

/-- C18 (LED policy). For a reachable state `s` and a main-loop tick begun in it, after the
LED-policy loop of `doMonitoring` (run in the state `tickEntry s es` of that tick) every
channel `c` below 40 has: LED off if ignored; else, if normal, LED on iff not pressed; else,
if latch, LED on iff not latched; else LED equal to `blinkState` when pressed and off
otherwise. The class, latched and ignored flags are those after the sampling loop of the tick,
`pressed` is its array `pressed[]`. -/
theorem C18_led_policy (s : Hub) (hr : Reachable s) (es : Nat → Env) (c : Nat)
    (hc : c < CHANNEL_COUNT) :
    ((monitorLit (tickEntry s es) (es 0)).ignoredCh c = true →
        (monitorLit (tickEntry s es) (es 0)).ledState c = false) ∧
      ((monitorLit (tickEntry s es) (es 0)).ignoredCh c = false →
        (monitorLit (tickEntry s es) (es 0)).monNormal c = true →
        (monitorLit (tickEntry s es) (es 0)).ledState c
          = !(monitorSampled (tickEntry s es) (es 0)).pressed c) ∧
      ((monitorLit (tickEntry s es) (es 0)).ignoredCh c = false →
        (monitorLit (tickEntry s es) (es 0)).monNormal c = false →
        (monitorLit (tickEntry s es) (es 0)).monLatch c = true →
        (monitorLit (tickEntry s es) (es 0)).ledState c
          = !(monitorLit (tickEntry s es) (es 0)).latched c) ∧
      ((monitorLit (tickEntry s es) (es 0)).ignoredCh c = false →
        (monitorLit (tickEntry s es) (es 0)).monNormal c = false →
        (monitorLit (tickEntry s es) (es 0)).monLatch c = false →
        (monitorLit (tickEntry s es) (es 0)).ledState c
          = (if (monitorSampled (tickEntry s es) (es 0)).pressed c
              then (monitorLit (tickEntry s es) (es 0)).blinkState else false)) := by
  have hinv := monitorSampled_holds _ latched_ignored_stable.latch (tickEntry s es) (es 0)
    (tickEntry_holds _ s es (reachable_latched_ignored s hr)) c
  have hcore : chanCore (monitorLit (tickEntry s es) (es 0))
      = chanCore (monitorSampled (tickEntry s es) (es 0)).hub := monitorLed_fold_core _ _ _ _
  have a1 : (monitorLit (tickEntry s es) (es 0)).ignoredCh c
      = (chanCore (monitorSampled (tickEntry s es) (es 0)).hub).ignoredCh c :=
    congrFun (congrArg ChanCore.ignoredCh hcore) c
  have a2 : (monitorLit (tickEntry s es) (es 0)).monNormal c
      = (chanCore (monitorSampled (tickEntry s es) (es 0)).hub).monNormal c :=
    congrFun (congrArg ChanCore.monNormal hcore) c
  have a3 : (monitorLit (tickEntry s es) (es 0)).monLatch c
      = (chanCore (monitorSampled (tickEntry s es) (es 0)).hub).monLatch c :=
    congrFun (congrArg ChanCore.monLatch hcore) c
  have a4 : (monitorLit (tickEntry s es) (es 0)).latched c
      = (chanCore (monitorSampled (tickEntry s es) (es 0)).hub).latched c :=
    congrFun (congrArg ChanCore.latched hcore) c
  have a5 : (monitorLit (tickEntry s es) (es 0)).blinkState
      = (chanCore (monitorSampled (tickEntry s es) (es 0)).hub).blinkState :=
    congrArg ChanCore.blinkState hcore
  have hfr : allContactlessLatched (monitorSampled (tickEntry s es) (es 0)).hub = true →
      (chanCore (monitorSampled (tickEntry s es) (es 0)).hub).monLatch c = true →
      (chanCore (monitorSampled (tickEntry s es) (es 0)).hub).ignoredCh c = true := by
    intro hall hl
    unfold allContactlessLatched at hall
    rw [List.all_eq_true] at hall
    have := hall c (List.mem_range.2 hc)
    have hla : (monitorSampled (tickEntry s es) (es 0)).hub.latched c = true := by
      have hl2 : (monitorSampled (tickEntry s es) (es 0)).hub.monLatch c = true := hl
      rw [hl2] at this
      simpa using this
    exact hinv hla
  rw [monitorLit_led _ _ c hc, a1, a2, a3, a4, a5]
  generalize (chanCore (monitorSampled (tickEntry s es) (es 0)).hub) = k at hfr ⊢
  generalize (monitorSampled (tickEntry s es) (es 0)).pressed = p
  generalize allContactlessLatched (monitorSampled (tickEntry s es) (es 0)).hub = fr at hfr ⊢
  unfold ledRule
  refine ⟨fun h1 => ?_, fun h1 h2 => ?_, fun h1 h2 h3 => ?_, fun h1 h2 h3 => ?_⟩
  · cases fr <;> simp [h1]
  · cases fr <;> cases hp : p c <;> simp [h1, h2, hp]
  · cases fr
    · simp [h1, h2, h3]
    · have := hfr rfl h3
      rw [h1] at this
      exact absurd this (by simp)
  · cases fr <;> simp [h1, h2, h3]

/-- Witness of C18: in the tick of `armedHub` with the switches of channels 1 to 3 held,
channel 1 is normal and pressed and its LED is off, channel 9 is untracked and released and
its LED is off. -/
theorem C18_led_policy_witness :
    (monitorLit (tickEntry armedHub autoEnv) (autoEnv 0)).monNormal 0 = true ∧
      (monitorSampled (tickEntry armedHub autoEnv) (autoEnv 0)).pressed 0 = true ∧
      (monitorLit (tickEntry armedHub autoEnv) (autoEnv 0)).ledState 0
        = !(monitorSampled (tickEntry armedHub autoEnv) (autoEnv 0)).pressed 0 ∧
      (monitorLit (tickEntry armedHub autoEnv) (autoEnv 0)).ledState 0 = false := by
  have h1 : (tickEntry armedHub autoEnv).state = State.MONITORING := by decide
  have h2 : (monitorLit (tickEntry armedHub autoEnv) (autoEnv 0)).ignoredCh 0 = false := by
    decide
  have h3 : (monitorLit (tickEntry armedHub autoEnv) (autoEnv 0)).monNormal 0 = true := by
    decide
  have h4 : (monitorSampled (tickEntry armedHub autoEnv) (autoEnv 0)).pressed 0 = true := by
    decide
  have h := (C18_led_policy armedHub (Reachable.step _ _ (Reachable.setup _ _ _)) autoEnv 0
    (by decide)).2.1 h2 h3
  refine ⟨h3, h4, h, ?_⟩
  rw [h, h4]
  rfl

theorem digitVal_digitChar (k : Nat) (h : k < 10) : digitVal (Nat.digitChar k) = k := by
  interval_cases k <;> decide

theorem toDigitsCore_append (fuel n : Nat) (ds : List Char) :
    Nat.toDigitsCore 10 fuel n ds = Nat.toDigitsCore 10 fuel n [] ++ ds := by
  induction fuel generalizing n ds with
  | zero => simp [Nat.toDigitsCore]
  | succ f ih =>
    unfold Nat.toDigitsCore
    simp only []
    split_ifs
    · simp
    · rw [ih (n / 10) (Nat.digitChar (n % 10) :: ds), ih (n / 10) [Nat.digitChar (n % 10)]]
      simp

theorem idValue_toDigitsCore (fuel n : Nat) (hf : n < fuel) (hn : n < U32) :
    idValue (Nat.toDigitsCore 10 fuel n []) 0 = n := by
  induction fuel generalizing n with
  | zero => omega
  | succ f ih =>
    unfold Nat.toDigitsCore
    simp only []
    have hd : digitVal (Nat.digitChar (n % 10)) = n % 10 :=
      digitVal_digitChar _ (Nat.mod_lt _ (by decide))
    by_cases h0 : n / 10 = 0
    · rw [if_pos h0]
      unfold idValue
      simp only [List.foldl_cons, List.foldl_nil, hd]
      have : n < 10 := by omega
      unfold U32 at *
      omega
    · rw [if_neg h0, toDigitsCore_append]
      unfold idValue
      rw [List.foldl_append]
      have hi := ih (n / 10) (by omega) (by omega)
      unfold idValue at hi
      rw [hi]
      simp only [List.foldl_cons, List.foldl_nil, hd]
      unfold U32 at *
      omega

theorem idValue_fmtDec (n : Nat) (hn : n < U32) : idValue (fmtDec n) 0 = n :=
  idValue_toDigitsCore (n + 1) n (by omega) hn

theorem idDigits_digits (ds : List Char) (v : Nat) (any : Bool)
    (h : ∀ c ∈ ds, isdigit c = true) :
    idDigits ds v any = (idValue ds v, any || !ds.isEmpty) := by
  induction ds generalizing v any with
  | nil => simp [idDigits, idValue]
  | cons c cs ih =>
    unfold idDigits
    rw [if_pos (h c (List.mem_cons_self _ _)),
      ih _ _ (fun x hx => h x (List.mem_cons_of_mem _ hx))]
    simp [idValue]

theorem idDigits_fmtDec (n : Nat) (hn : n < U32) : idDigits (fmtDec n) 0 false = (n, true) := by
  rw [idDigits_digits _ _ _ (fmtDec_isdigit n), idValue_fmtDec n hn]
  have := fmtDec_ne_nil n
  cases h : fmtDec n with
  | nil => exact absurd h this
  | cons a b => rfl

theorem idDigits_stop (rest : List Char)
    (h : ∀ c t, rest = c :: t → isdigit c = false) : idDigits rest 0 false = (0, false) := by
  cases rest with
  | nil => rfl
  | cons c t =>
    unfold idDigits
    rw [if_neg (by rw [h c t rfl]; simp)]

theorem strstr_some (l pat p : List Char) (h : strstr l pat = some p) :
    ∃ pre, l = pre ++ p ∧ startsWith pat p = true := by
  induction l with
  | nil =>
    unfold strstr at h
    split_ifs at h with hp
    cases h
    exact ⟨[], rfl, by rw [hp]; rfl⟩
  | cons c cs ih =>
    unfold strstr at h
    split_ifs at h with hs
    · cases h
      exact ⟨[], rfl, hs⟩
    · obtain ⟨pre, hpre, hp⟩ := ih h
      exact ⟨c :: pre, by rw [hpre]; rfl, hp⟩

theorem strstr_none_of_not_infix (l pat : List Char) (h : ¬ pat <:+: l) :
    strstr l pat = none := by
  cases hs : strstr l pat with
  | none => rfl
  | some p =>
    exfalso
    obtain ⟨pre, hpre, hp⟩ := strstr_some l pat p hs
    obtain ⟨t, ht⟩ := (startsWith_iff _ _).1 hp
    exact h ⟨pre, t, by rw [hpre, ← ht]; simp⟩

theorem strstr_idToken (m rest : List Char) (h : ¬ idToken <:+: m) :
    strstr (m ++ (idToken ++ rest)) idToken = some (idToken ++ rest) := by
  induction m with
  | nil => simp [idToken, strstr, startsWith]
  | cons c cs ih =>
    have hcs : ¬ idToken <:+: cs := fun hi => h (hi.trans (List.infix_cons (List.infix_refl _)))
    have hno : startsWith idToken (c :: cs ++ (idToken ++ rest)) = false := by
      cases cs with
      | nil => simp [idToken, startsWith]
      | cons a t1 =>
        cases t1 with
        | nil => simp [idToken, startsWith]
        | cons b t2 =>
          cases t2 with
          | nil => simp [idToken, startsWith]
          | cons d t3 =>
            apply Bool.eq_false_iff.2
            intro hc
            apply h
            simp only [idToken, List.cons_append, startsWith, Bool.and_eq_true, beq_iff_eq]
              at hc
            obtain ⟨h1, h2, h3, h4, _⟩ := hc
            subst h1 h2 h3 h4
            exact ⟨[], t3, rfl⟩
    show strstr (c :: (cs ++ (idToken ++ rest))) idToken = _
    unfold strstr
    rw [if_neg (by
      have : startsWith idToken (c :: (cs ++ (idToken ++ rest))) = false := hno
      rw [this]; simp)]
    exact ih hcs

theorem extractIdToken_framed (m : List Char) (n len : Nat) (hm : ¬ idToken <:+: m)
    (hn : n < U32) (hlen : len ≠ 0) :
    extractIdToken (m ++ (idToken ++ fmtDec n)) len = some n := by
  unfold extractIdToken
  rw [if_neg hlen]
  have h := strstr_idToken m (fmtDec n) hm
  rw [show " ID=".toList = idToken from rfl, h]
  have hd : (idToken ++ fmtDec n).drop 4 = fmtDec n := rfl
  simp only [hd, idDigits_fmtDec n hn, if_true]

theorem extractIdToken_nodigit (m rest : List Char) (len : Nat) (hm : ¬ idToken <:+: m)
    (hrest : ∀ c t, rest = c :: t → isdigit c = false) :
    extractIdToken (m ++ (idToken ++ rest)) len = none := by
  unfold extractIdToken
  split_ifs
  · rfl
  · have h := strstr_idToken m rest hm
    rw [show " ID=".toList = idToken from rfl, h]
    have hd : (idToken ++ rest).drop 4 = rest := rfl
    simp only [hd, idDigits_stop rest hrest]
    rfl

theorem extractIdToken_absent (msg : List Char) (len : Nat) (hm : ¬ idToken <:+: msg) :
    extractIdToken msg len = none := by
  unfold extractIdToken
  split_ifs
  · rfl
  · rw [show " ID=".toList = idToken from rfl, strstr_none_of_not_infix msg idToken hm]

theorem station_extractIdToken_eq (msg : List Char) (len : Nat) :
    Station.extractIdToken msg len = extractIdToken msg len := rfl

/-- C19 (ID framing round trip). For a message `m` that does not contain ` ID=` and an id
`n` below 2^32, `extractIdToken` of the Hub and of the Station, called with a positive length
on `m ++ " ID=" ++ decimal n`, returns `n`. A message that does not contain ` ID=`, or whose
first ` ID=` is not followed by a digit, makes both fail. -/
theorem C19_id_round_trip (m : List Char) (hm : ¬ idToken <:+: m) (len : Nat) :
    (∀ n, n < U32 → len ≠ 0 →
        extractIdToken (m ++ (" ID=".toList ++ fmtDec n)) len = some n ∧
        Station.extractIdToken (m ++ (" ID=".toList ++ fmtDec n)) len = some n) ∧
      (extractIdToken m len = none ∧ Station.extractIdToken m len = none) ∧
      (∀ rest, (∀ c t, rest = c :: t → isdigit c = false) →
        extractIdToken (m ++ (" ID=".toList ++ rest)) len = none ∧
        Station.extractIdToken (m ++ (" ID=".toList ++ rest)) len = none) := by
  refine ⟨fun n hn hlen => ?_, ?_, fun rest hrest => ?_⟩
  · rw [station_extractIdToken_eq]
    exact ⟨extractIdToken_framed m n len hm hn hlen, extractIdToken_framed m n len hm hn hlen⟩
  · rw [station_extractIdToken_eq]
    exact ⟨extractIdToken_absent m len hm, extractIdToken_absent m len hm⟩
  · rw [station_extractIdToken_eq]
    exact ⟨extractIdToken_nodigit m rest len hm hrest, extractIdToken_nodigit m rest len hm hrest⟩

theorem not_infix_of_strstr (msg pat : List Char) (hp : pat ≠ [])
    (h : strstr msg pat = none) : ¬ pat <:+: msg := by
  rintro ⟨pre, post, rfl⟩
  induction pre with
  | nil =>
    cases pat with
    | nil => exact hp rfl
    | cons a t =>
      simp only [List.nil_append, List.cons_append, List.append_assoc] at h
      unfold strstr at h
      rw [if_pos ((startsWith_iff _ _).2 ⟨post, by simp⟩)] at h
      cases h
  | cons c cs ih =>
    simp only [List.cons_append, List.append_assoc] at h ih
    unfold strstr at h
    split_ifs at h
    exact ih h

/-- Witness of C19: `RESULT SUCCESS AA:BB:CC:DD:EE:01` framed with id 1001 gives 1001 back. -/
theorem C19_id_round_trip_witness :
    extractIdToken "RESULT SUCCESS AA:BB:CC:DD:EE:01 ID=1001".toList 40 = some 1001 ∧
      Station.extractIdToken "RESULT SUCCESS AA:BB:CC:DD:EE:01 ID=1001".toList 40
        = some 1001 ∧
      extractIdToken "PING ID=x".toList 9 = none :=
  have hm : ¬ idToken <:+: "RESULT SUCCESS AA:BB:CC:DD:EE:01".toList :=
    not_infix_of_strstr _ _ (by decide) (by decide)
  have hp : ¬ idToken <:+: "PING".toList := not_infix_of_strstr _ _ (by decide) (by decide)
  ⟨((C19_id_round_trip _ hm 40).1 1001 (by decide) (by decide)).1,
    ((C19_id_round_trip _ hm 40).1 1001 (by decide) (by decide)).2,
    ((C19_id_round_trip _ hp 9).2.2 "x".toList (fun c t h => by
      cases h
      decide)).1⟩

theorem framed_fit (msg : List Char) (id : Nat)
    (h : (msg ++ " ID=".toList ++ fmtDec id).length ≤ 255) :
    framed msg id = msg ++ " ID=".toList ++ fmtDec id := by
  unfold framed snprintf
  exact List.take_of_length_le h

theorem serviceAckTx_ids (s : Hub) (e : Env) :
    (serviceAckTx s e).seq = s.seq ∧ (serviceAckTx s e).hubAckId = s.hubAckId := by
  unfold serviceAckTx
  simp only []
  split_ifs <;> exact ⟨rfl, rfl⟩

/-- The id that `sendCmd` takes for a unicast peer, in any state. -/
theorem sendCmd_ids (s : Hub) (e : Env) (msg : List Char) (peer : Mac)
    (hz : isZeroMac peer = false) (hb : (peer == bcastMac) = false) :
    (sendCmd s e msg (some peer)).seq = (s.seq + 1) % U32 ∧
      (sendCmd s e msg (some peer)).hubAckId = s.seq := by
  unfold sendCmd resolveTarget
  simp only [hz, Bool.false_eq_true, if_false, hb]
  exact ⟨(serviceAckTx_ids _ e).1.trans rfl, (serviceAckTx_ids _ e).2.trans rfl⟩

/-- Ids over a run of unicast `sendCmd` calls that starts with `seq = 1000`. -/
theorem send_run (u : Nat → Hub) (e : Nat → Env) (msg : Nat → List Char) (peer : Nat → Mac)
    (n : Nat) (h0 : (u 0).seq = 1000)
    (hlink : ∀ k, k < n → (u (k + 1)).seq = (sendCmd (u k) (e k) (msg k) (some (peer k))).seq)
    (hz : ∀ k, k ≤ n → isZeroMac (peer k) = false)
    (hb : ∀ k, k ≤ n → (peer k == bcastMac) = false) (hn : 1000 + n < U32) :
    ∀ k, k ≤ n → (u k).seq = 1000 + k ∧
      (sendCmd (u k) (e k) (msg k) (some (peer k))).hubAckId = 1000 + k := by
  have hseq : ∀ k, k ≤ n → (u k).seq = 1000 + k := by
    intro k
    induction k with
    | zero => intro _; exact h0
    | succ k ih =>
      intro hk
      rw [hlink k (by omega), (sendCmd_ids _ _ _ _ (hz k (by omega)) (hb k (by omega))).1,
        ih (by omega)]
      exact Nat.mod_eq_of_lt (by omega)
  intro k hk
  exact ⟨hseq k hk, by rw [(sendCmd_ids _ _ _ _ (hz k hk) (hb k hk)).2, hseq k hk]⟩

theorem onRecv_ack_keep (s : Hub) (e : Env) (src : Mac) (data : List Char)
    (hack : startsWith "ACK ".toList (rxText data) = true)
    (hid : strtoul ((rxText data).drop 4) ≠ s.hubAckId) :
    (onRecv s e src data).hubAckActive = s.hubAckActive := by
  unfold onRecv
  split_ifs with h1 h2
  · rfl
  · rfl
  · simp only []
    rw [if_pos hack]
    have hne : (strtoul ((rxText data).drop 4) == s.hubAckId) = false := by
      simpa using hid
    have hc : (({ s with lastSender := src, haveSender := true } : Hub).hubAckActive
        && strtoul ((rxText data).drop 4)
          == ({ s with lastSender := src, haveSender := true } : Hub).hubAckId
        && src == ({ s with lastSender := src, haveSender := true } : Hub).hubAckMac)
        = false := by
      show (s.hubAckActive && strtoul ((rxText data).drop 4) == s.hubAckId
        && src == s.hubAckMac) = false
      rw [hne]
      simp
    rw [if_neg (by rw [hc]; simp)]

theorem readDigits_digits (ds : List Char) (acc : Nat) (h : ∀ c ∈ ds, isdigit c = true) :
    readDigits ds acc = (ds.foldl (fun a c => a * 10 + digitVal c) acc, []) := by
  induction ds generalizing acc with
  | nil => rfl
  | cons c cs ih =>
    unfold readDigits
    rw [if_pos (h c (List.mem_cons_self _ _)),
      ih _ (fun x hx => h x (List.mem_cons_of_mem _ hx))]
    rfl

theorem decValue_toDigitsCore (fuel n : Nat) (hf : n < fuel) :
    (Nat.toDigitsCore 10 fuel n []).foldl (fun a c => a * 10 + digitVal c) 0 = n := by
  induction fuel generalizing n with
  | zero => omega
  | succ f ih =>
    unfold Nat.toDigitsCore
    simp only []
    have hd : digitVal (Nat.digitChar (n % 10)) = n % 10 :=
      digitVal_digitChar _ (Nat.mod_lt _ (by decide))
    by_cases h0 : n / 10 = 0
    · rw [if_pos h0]
      simp only [List.foldl_cons, List.foldl_nil, hd]
      omega
    · rw [if_neg h0, toDigitsCore_append, List.foldl_append, ih (n / 10) (by omega)]
      simp only [List.foldl_cons, List.foldl_nil, hd]
      omega

theorem fmtDec_head (k : Nat) : ∃ d t, fmtDec k = d :: t ∧ isdigit d = true := by
  cases h : fmtDec k with
  | nil => exact absurd h (fmtDec_ne_nil k)
  | cons d t => exact ⟨d, t, rfl, fmtDec_isdigit k d (by rw [h]; exact List.mem_cons_self _ _)⟩

theorem digit_plain (d : Char) (h : isdigit d = true) :
    isspace d = false ∧ isTrimChar d = false ∧ d ≠ '-' ∧ d ≠ '+' := by
  obtain ⟨n, h1, h2, rfl⟩ := isdigit_cases d h
  interval_cases n <;> decide

theorem strtoul_fmtDec (k : Nat) (hk : k < U32) : strtoul (fmtDec k) = k := by
  obtain ⟨d, t, hdt, hd⟩ := fmtDec_head k
  obtain ⟨p1, _, p3, p4⟩ := digit_plain d hd
  have hdrop : (fmtDec k).dropWhile isspace = fmtDec k := by
    rw [hdt, List.dropWhile_cons_of_neg (by rw [p1]; simp)]
  have hsign : strtolSign (fmtDec k) = (false, fmtDec k) := by
    rcases strtolSign_cases (fmtDec k) with ⟨r, hr, _⟩ | ⟨r, hr, _⟩ | h
    · rw [hdt] at hr
      exact absurd (List.cons.inj hr).1 p3
    · rw [hdt] at hr
      exact absurd (List.cons.inj hr).1 p4
    · exact h
  have hval : (readDigits (fmtDec k) 0).1 = k := by
    rw [readDigits_digits _ _ (fmtDec_isdigit k)]
    exact decValue_toDigitsCore (k + 1) k (by omega)
  have he : strtoul (fmtDec k) =
      (if (readDigits (strtolSign ((fmtDec k).dropWhile isspace)).2 0).1 ≥ U32 then U32 - 1
       else if (strtolSign ((fmtDec k).dropWhile isspace)).1 then
        (U32 - (readDigits (strtolSign ((fmtDec k).dropWhile isspace)).2 0).1) % U32
       else (readDigits (strtolSign ((fmtDec k).dropWhile isspace)).2 0).1) := rfl
  rw [he, hdrop, hsign]
  simp only [hval, Bool.false_eq_true, if_false]
  rw [if_neg (by omega)]

theorem fmtDec_length (k : Nat) (hk : k < U32) : (fmtDec k).length ≤ 10 :=
  Nat.toDigitsCore_length 10 (by decide) (k + 1) k 10
    (lt_of_lt_of_le hk (by decide)) (by decide)

theorem rxText_ack (k : Nat) (hk : k < U32) :
    rxText ("ACK ".toList ++ fmtDec k) = "ACK ".toList ++ fmtDec k := by
  have hlen := fmtDec_length k hk
  have hl : ("ACK ".toList ++ fmtDec k).length ≤ 255 := by
    rw [List.length_append]
    have : "ACK ".toList.length = 4 := rfl
    omega
  have hnul : ∀ c ∈ "ACK ".toList ++ fmtDec k, (c != NUL) = true := by
    intro c hc
    rcases List.mem_append.1 hc with h | h
    · have hall : ∀ x ∈ "ACK ".toList, (x != NUL) = true := by decide
      exact hall c h
    · exact (isdigit_props c (fmtDec_isdigit k c h)).2.2
  unfold rxText
  rw [Nat.min_eq_left hl, List.take_length, cstr_of_noNul _ hnul]
  have hlt : ltrim ("ACK ".toList ++ fmtDec k) = "ACK ".toList ++ fmtDec k := rfl
  rw [hlt]
  unfold rtrim
  obtain ⟨d, t, hdt, hd⟩ := fmtDec_head k
  have hlast : ∃ init l, fmtDec k = init ++ [l] ∧ isdigit l = true := by
    have hne := fmtDec_ne_nil k
    refine ⟨(fmtDec k).dropLast, (fmtDec k).getLast hne, (List.dropLast_append_getLast hne).symm,
      fmtDec_isdigit k _ (List.getLast_mem hne)⟩
  obtain ⟨init, l, hil, hl2⟩ := hlast
  rw [hil, ← List.append_assoc, List.reverse_append, List.reverse_singleton,
    List.singleton_append,
    List.dropWhile_cons_of_neg (by rw [(digit_plain l hl2).2.1]; simp)]
  simp

theorem onRecv_stale_ack (s : Hub) (e : Env) (src : Mac) (k : Nat) (hk : k < U32)
    (hne : k ≠ s.hubAckId) :
    (onRecv s e src ("ACK ".toList ++ fmtDec k)).hubAckActive = s.hubAckActive := by
  apply onRecv_ack_keep
  · rw [rxText_ack k hk, startsWith_iff]
    exact List.prefix_append _ _
  · rw [rxText_ack k hk]
    have : ("ACK ".toList ++ fmtDec k).drop 4 = fmtDec k := rfl
    rw [this, strtoul_fmtDec k hk]
    exact hne

/-- C20 (single slot, new send cancels prior). Over a run of `sendCmd` calls to peers that
are neither the zero nor the broadcast address, call `k` made in state `u k`, where `seq` is
1000 before the first call and nothing writes it between two calls, and `1000 + n < 2^32`:
call `n`, made outside SELF_CHECK with the driver accepting the peer and a text that fits the
256-byte slot buffer, leaves the slot active with `hubAckMac` the peer, the id `1000 + n`
and `hubAckMsg = msg ++ " ID=" ++ decimal id`, whatever the slot held before; the frame is
appended to the radio log once; every earlier call took a smaller id (`1000 + k`); and a
later frame `ACK k` with any other id `k` leaves the slot active. -/
theorem C20_single_slot (u : Nat → Hub) (e : Nat → Env) (msg : Nat → List Char)
    (peer : Nat → Mac) (n : Nat) (h0 : (u 0).seq = 1000)
    (hlink : ∀ k, k < n → (u (k + 1)).seq = (sendCmd (u k) (e k) (msg k) (some (peer k))).seq)
    (hz : ∀ k, k ≤ n → isZeroMac (peer k) = false)
    (hb : ∀ k, k ≤ n → (peer k == bcastMac) = false) (hn : 1000 + n < U32)
    (hst : (u n).state ≠ State.SELF_CHECK) (hok : (e n).peerOk = true)
    (hfit : (msg n ++ " ID=".toList ++ fmtDec (1000 + n)).length ≤ 255) :
    (sendCmd (u n) (e n) (msg n) (some (peer n))).hubAckActive = true ∧
      (sendCmd (u n) (e n) (msg n) (some (peer n))).hubAckMac = peer n ∧
      (sendCmd (u n) (e n) (msg n) (some (peer n))).hubAckId = 1000 + n ∧
      (sendCmd (u n) (e n) (msg n) (some (peer n))).hubAckMsg
        = msg n ++ " ID=".toList ++ fmtDec (1000 + n) ∧
      (sendCmd (u n) (e n) (msg n) (some (peer n))).sent
        = (u n).sent ++
          [{ dest := peer n, text := msg n ++ " ID=".toList ++ fmtDec (1000 + n) }] ∧
      (∀ k, k < n →
        (sendCmd (u k) (e k) (msg k) (some (peer k))).hubAckId = 1000 + k ∧
        (sendCmd (u k) (e k) (msg k) (some (peer k))).hubAckId
          < (sendCmd (u n) (e n) (msg n) (some (peer n))).hubAckId) ∧
      (∀ k src e2, k < U32 → k ≠ 1000 + n →
        (onRecv (sendCmd (u n) (e n) (msg n) (some (peer n))) e2 src
          ("ACK ".toList ++ fmtDec k)).hubAckActive = true) := by
  have hrun := send_run u e msg peer n h0 hlink hz hb hn
  obtain ⟨hseq, hid⟩ := hrun n (le_refl n)
  obtain ⟨a1, a2, a3, a4, a5, _⟩ :=
    sendCmd_unicast (u n) (e n) (msg n) (peer n) (hz n (le_refl n)) (hb n (le_refl n)) hst hok
  rw [hseq] at a1 a4
  rw [framed_fit _ _ hfit] at a1 a4
  refine ⟨a2, a3, hid, a4, a1, fun k hk => ?_, fun k src e2 hk hne => ?_⟩
  · rw [hid, (hrun k (by omega)).2]
    exact ⟨rfl, by omega⟩
  · rw [onRecv_stale_ack _ e2 src k hk (by rw [hid]; exact hne)]
    exact a2

/-- Witness of C20: the second reliable `PING` of `sendRun` takes id 1001; the slot holds
`PING ID=1001` and a late `ACK 1000` leaves it active. -/
theorem C20_single_slot_witness :
    (sendRun 1).hubAckId = 1000 ∧ (sendRun 2).hubAckId = 1001 ∧
      (sendRun 2).hubAckMsg = "PING ID=1001".toList ∧
      (onRecv (sendRun 2) (quietEnv 200) staMac "ACK 1000".toList).hubAckActive = true := by
  have h0 : waitHub.seq = 1000 := by decide
  have hs : (sendRun 1).state ≠ State.SELF_CHECK := by decide
  have hz : isZeroMac staMac = false := by decide
  have hb : (staMac == bcastMac) = false := by decide
  have h := C20_single_slot sendRun (fun k => quietEnv (100 + k)) (fun _ => "PING".toList)
    (fun _ => staMac) 1 h0 (fun k _ => rfl) (fun _ _ => hz) (fun _ _ => hb)
    (by decide) hs rfl (by decide)
  exact ⟨(h.2.2.2.2.2.1 0 (by omega)).1, h.2.2.1, h.2.2.2.1,
    h.2.2.2.2.2.2 1000 staMac (quietEnv 200) (by decide) (by decide)⟩

/-! ## Pin map (C38) -/

theorem pinMap_facts :
    (∀ c, c < CHANNEL_COUNT →
      (buildPins c).mcpIndex < EXPANDER_COUNT ∧ (buildPins c).ledPin < 16 ∧
        (buildPins c).swPin < 16 ∧ (buildPins c).ledPin ≠ (buildPins c).swPin) ∧
    pinPairs.length = 80 ∧ pinPairs.Nodup := by
  decide

/-- C38: after `buildPins`, every channel `c` in 0..39 has an expander index below 5 and both
pins below 16; its LED pin and its switch pin are on the same expander (the entry holds one
expander index for both) and differ; the 80 (expander, pin) pairs of all LEDs and switches
are pairwise distinct. -/
theorem C38_pin_map (c : Nat) (hc : c < CHANNEL_COUNT) :
    (buildPins c).mcpIndex < EXPANDER_COUNT ∧ (buildPins c).ledPin < 16 ∧
      (buildPins c).swPin < 16 ∧ (buildPins c).ledPin ≠ (buildPins c).swPin ∧
      ((buildPins c).mcpIndex, (buildPins c).ledPin) ∈ pinPairs ∧
      ((buildPins c).mcpIndex, (buildPins c).swPin) ∈ pinPairs ∧
      pinPairs.length = 2 * CHANNEL_COUNT ∧ pinPairs.Nodup := by
  obtain ⟨h1, h2, h3⟩ := pinMap_facts
  obtain ⟨a, b, d, e⟩ := h1 c hc
  refine ⟨a, b, d, e, ?_, ?_, h2, h3⟩
  · unfold pinPairs
    rw [List.mem_flatMap]
    exact ⟨c, List.mem_range.mpr hc, by simp⟩
  · unfold pinPairs
    rw [List.mem_flatMap]
    exact ⟨c, List.mem_range.mpr hc, by simp⟩

theorem C38_pin_map_witness :
    (buildPins 7).mcpIndex < EXPANDER_COUNT ∧ (buildPins 7).ledPin < 16 ∧
      (buildPins 7).swPin < 16 ∧ (buildPins 7).ledPin ≠ (buildPins 7).swPin ∧
      ((buildPins 7).mcpIndex, (buildPins 7).ledPin) ∈ pinPairs ∧
      ((buildPins 7).mcpIndex, (buildPins 7).swPin) ∈ pinPairs ∧
      pinPairs.length = 2 * CHANNEL_COUNT ∧ pinPairs.Nodup :=
  C38_pin_map 7 (by decide)

/-! ## ID framing and the MONITOR parser (C35) -/

/-- C35 (evaluation of the code): the id digits of a framed MONITOR payload classify a
channel. `MONITOR NORMAL 1 5 <MAC>` makes channel 5 normal and leaves channel 7 untracked;
the same payload framed with ` ID=7` also makes channel 7 normal, because the tokenizer of
`parseMonitorPayload` splits `ID=7` at the `=` and reads the token `7` as a channel number.
The CHECK parser, which splits at blanks and commas only, ignores the same suffix. -/
theorem C35_id_classifies_channel :
    (parseMonitorPayload idleHub (fun _ => true) 100 monitor5).monNormal 6 = false ∧
    (parseMonitorPayload idleHub (fun _ => true) 100 monitor5Framed).monNormal 6 = true ∧
    (parseMonitorPayload idleHub (fun _ => true) 100 monitor5).monNormal 4 = true ∧
    (parseMonitorPayload idleHub (fun _ => true) 100 monitor5Framed).monNormal 4 = true ∧
    (onRecv idleHub (quietEnv 100) staMac monitor5Framed).monNormal 6 = true ∧
    (parseCheckSelection idleHub ("CHECK 5 AA:BB:CC:DD:EE:01".toList ++ " ID=".toList
      ++ fmtDec 7)).checkSelect 6 = false := by
  decide

/-- The class bits of a channel after the release-gate block and the sampling loop of
`doMonitoring` are those before the call. -/
theorem monitorSampled_class (s : Hub) (e : Env) (c : Nat) (hc : c < CHANNEL_COUNT) :
    (monitorSampled s e).hub.monNormal c = s.monNormal c ∧
      (monitorSampled s e).hub.monLatch c = s.monLatch c := by
  have hv := (monitorSample_fold_view e
    { hub := if s.needReleaseGate then releaseGate s e else s, pressed := fun _ => false }
    c CHANNEL_COUNT hc).1
  have h0 : (chanView (if s.needReleaseGate then releaseGate s e else s) c).normal
        = s.monNormal c ∧
      (chanView (if s.needReleaseGate then releaseGate s e else s) c).latch = s.monLatch c := by
    split_ifs
    · rw [releaseGate_view s e c hc]
      exact ⟨rfl, rfl⟩
    · exact ⟨rfl, rfl⟩
  obtain ⟨k1, k2, _⟩ := sampleView_class
    (chanView (if s.needReleaseGate then releaseGate s e else s) c) (isPressedRaw e.sw c) e.now
  have e1 : (monitorSampled s e).hub.monNormal c
      = (chanView (monitorSampled s e).hub c).normal := rfl
  have e2 : (monitorSampled s e).hub.monLatch c
      = (chanView (monitorSampled s e).hub c).latch := rfl
  have hv2 : chanView (monitorSampled s e).hub c
      = sampleView (chanView (if s.needReleaseGate then releaseGate s e else s) c)
          (isPressedRaw e.sw c) e.now := hv
  rw [e1, e2, hv2, k1, k2]
  exact h0

theorem tickEntry_normal (s : Hub) (es : Nat → Env) (c : Nat) :
    (tickEntry s es).monNormal c = s.monNormal c :=
  tickEntry_holds (fun c b => b.normal = s.monNormal c) s es (fun _ => rfl) c

/-- When the auto-final condition of `doMonitoring` holds in a state where every latched
channel is ignored, some normal channel is not ignored and pressed. -/
theorem ready_normal_held (t : Hub) (e : Env)
    (hinv : HoldsAll (fun _ b => b.latched = true → b.ignored = true) (monitorSampled t e).hub)
    (hr : autoFinalReady t e = true) :
    ∃ c, c < CHANNEL_COUNT ∧ (monitorSampled t e).hub.monNormal c = true ∧
      (monitorSampled t e).hub.ignoredCh c = false ∧ (monitorSampled t e).pressed c = true := by
  obtain ⟨h1, h2, c, hc, h3, h4⟩ := (autoFinalReady_iff t e).1 hr
  rcases h3 with hn | hl
  · exact ⟨c, hc, hn, h4, h2 c hc hn h4⟩
  · have hla := h1 c hc hl
    have hig : (monitorSampled t e).hub.ignoredCh c = true := hinv c hla
    rw [h4] at hig
    exact absurd hig (by simp)

theorem fires_ready (t : Hub) (e : Env) (h : autoFinalFires t e = true) :
    autoFinalReady t e = true := by
  unfold autoFinalFires at h
  rw [Bool.and_eq_true] at h
  exact h.1

/-- C36 (auto-final needs a held normal channel). For a reachable state `s` and a main-loop
tick begun in it (`doMonitoring` runs in the state `tickEntry s es` of that tick): when the
auto-final condition holds, and so whenever the call runs the auto-final block that emits
`AUTO-FINAL`, some channel below 40 is normal, not ignored and pressed in this call; a call
that does not run the block adds live-event frames (`EV ...`) only to the radio log; and
when no channel is normal (a session that tracks latch channels only) the block is not run,
whatever the switch levels are. -/
theorem C36_auto_final_needs_normal (s : Hub) (hr : Reachable s) (es : Nat → Env) :
    (autoFinalFires (tickEntry s es) (es 0) = true →
        autoFinalReady (tickEntry s es) (es 0) = true) ∧
      (autoFinalReady (tickEntry s es) (es 0) = true →
        ∃ c, c < CHANNEL_COUNT ∧
          (monitorSampled (tickEntry s es) (es 0)).hub.monNormal c = true ∧
          (monitorSampled (tickEntry s es) (es 0)).hub.ignoredCh c = false ∧
          (monitorSampled (tickEntry s es) (es 0)).pressed c = true) ∧
      (autoFinalFires (tickEntry s es) (es 0) = false →
        EvOnly (tickEntry s es).sent (doMonitoring (tickEntry s es) (es 0)).sent) ∧
      ((∀ c, c < CHANNEL_COUNT → s.monNormal c = false) →
        autoFinalFires (tickEntry s es) (es 0) = false) := by
  have hinv := monitorSampled_holds _ latched_ignored_stable.latch (tickEntry s es) (es 0)
    (tickEntry_holds _ s es (reachable_latched_ignored s hr))
  refine ⟨fires_ready _ _, ready_normal_held _ _ hinv, fun hq => ?_, fun hno => ?_⟩
  · rw [(doMonitoring_quiet _ _ hq).1]
    exact monitorSampled_ev _ _
  · apply Bool.eq_false_iff.2
    intro hf
    obtain ⟨c, hc, hn, _, _⟩ := ready_normal_held _ _ hinv (fires_ready _ _ hf)
    rw [(monitorSampled_class _ _ c hc).1, tickEntry_normal, hno c hc] at hn
    exact absurd hn (by simp)

theorem latchHub_facts :
    (∀ c, c < CHANNEL_COUNT → latchHub.monNormal c = false) ∧ latchHub.monLatch 2 = true ∧
      latchHub.state = State.MONITORING :=
  ⟨by decide, by decide, by decide⟩

/-- Witness of C36: in the tick of `armedHub` (channels 1, 2, 3 normal) with the three
switches held the condition holds and channel 1 is normal, not ignored and pressed; in
`latchHub` (channel 3 latch, no normal channel) a tick with the switches held does not run
the auto-final block. -/
theorem C36_auto_final_needs_normal_witness :
    autoFinalReady (tickEntry armedHub autoEnv) (autoEnv 0) = true ∧
      (∃ c, c < CHANNEL_COUNT ∧
        (monitorSampled (tickEntry armedHub autoEnv) (autoEnv 0)).hub.monNormal c = true ∧
        (monitorSampled (tickEntry armedHub autoEnv) (autoEnv 0)).hub.ignoredCh c = false ∧
        (monitorSampled (tickEntry armedHub autoEnv) (autoEnv 0)).pressed c = true) ∧
      (∀ c, c < CHANNEL_COUNT → latchHub.monNormal c = false) ∧
      autoFinalFires (tickEntry latchHub autoEnv) (autoEnv 0) = false := by
  have h1 : (tickEntry armedHub autoEnv).state = State.MONITORING := by decide
  have h2 : autoFinalReady (tickEntry armedHub autoEnv) (autoEnv 0) = true := by decide
  exact ⟨h2,
    (C36_auto_final_needs_normal armedHub (Reachable.step _ _ (Reachable.setup _ _ _))
      autoEnv).2.1 h2,
    latchHub_facts.1,
    (C36_auto_final_needs_normal latchHub (Reachable.step _ _ (Reachable.setup _ _ _))
      autoEnv).2.2.2 latchHub_facts.1⟩

theorem csvList_eq_nil (l : List Nat) : csvList l = [] ↔ l = [] := by
  constructor
  · intro h
    cases l with
    | nil => rfl
    | cons a t =>
      cases t with
      | nil => exact absurd h (fmtDec_ne_nil a)
      | cons b r =>
        obtain ⟨d, u, hd, _⟩ := fmtDec_head a
        simp [csvList, hd] at h
  · rintro rfl
    rfl

theorem csvRun_disjoint (p q : Nat → Bool) (l : List Nat)
    (h : ∀ x, ¬ (p x = true ∧ q x = true)) :
    (csvRun (l.filter p)).length + (csvRun (l.filter q)).length ≤ (csvRun l).length := by
  induction l with
  | nil => simp [csvRun]
  | cons a t ih =>
    have ha := h a
    cases hp : p a <;> cases hq : q a
    · simp only [List.filter_cons, hp, hq, Bool.false_eq_true, if_false, csvRun,
        List.length_append, List.length_cons]
      omega
    · simp only [List.filter_cons, hp, hq, Bool.false_eq_true, if_false, if_true, csvRun,
        List.length_append, List.length_cons]
      omega
    · simp only [List.filter_cons, hp, hq, Bool.false_eq_true, if_false, if_true, csvRun,
        List.length_append, List.length_cons]
      omega
    · exact absurd ⟨hp, hq⟩ ha

theorem eval_disjoint (k : ChanCore) (r : Bool) (p : Nat → Bool) (ch : Nat) :
    ¬ (evalMissing k r p ch = true ∧ evalExtra k p ch = true) := by
  unfold evalMissing evalExtra
  cases k.monNormal ch <;> cases k.monLatch ch <;> simp

/-- The buffers a `checkAll` pass leaves: `appendCsv` truncated nothing, each buffer holds the
numbers of its channels, each followed by a comma, and the two together hold at most 111
characters. -/
theorem checkAll_run (s : Hub) (e : Env) (r : Bool) :
    (checkAll s e r).1.missingBuf = csvRun ((List.range CHANNEL_COUNT).filter
        (evalMissing (chanCore (checkSampled s e).hub) r (checkSampled s e).pressed)) ∧
      (checkAll s e r).1.missingLen = (checkAll s e r).1.missingBuf.length ∧
      (checkAll s e r).1.extraBuf = csvRun ((List.range CHANNEL_COUNT).filter
        (evalExtra (chanCore (checkSampled s e).hub) (checkSampled s e).pressed)) ∧
      (checkAll s e r).1.extraLen = (checkAll s e r).1.extraBuf.length ∧
      (checkAll s e r).1.missingBuf.length + (checkAll s e r).1.extraBuf.length ≤ 111 := by
  obtain ⟨_, h2, h3⟩ := checkAll_eval s e r
  have h128 : MAX_MSG_LEN = 128 := rfl
  have b1 := csvRun_filter_le
    (evalMissing (chanCore (checkSampled s e).hub) r (checkSampled s e).pressed)
  have b2 := csvRun_filter_le
    (evalExtra (chanCore (checkSampled s e).hub) (checkSampled s e).pressed)
  have r1 := csvFrom_run ((List.range CHANNEL_COUNT).filter
    (evalMissing (chanCore (checkSampled s e).hub) r (checkSampled s e).pressed)) [] (by
      rw [h128]; simp only [List.length_nil, Nat.zero_add]; omega)
  have r2 := csvFrom_run ((List.range CHANNEL_COUNT).filter
    (evalExtra (chanCore (checkSampled s e).hub) (checkSampled s e).pressed)) [] (by
      rw [h128]; simp only [List.length_nil, Nat.zero_add]; omega)
  simp only [List.length_nil, List.nil_append, Nat.zero_add] at r1 r2
  rw [r1] at h2
  rw [r2] at h3
  obtain ⟨m1, m2⟩ := Prod.mk.inj h2
  obtain ⟨e1, e2⟩ := Prod.mk.inj h3
  have hd := csvRun_disjoint
    (evalMissing (chanCore (checkSampled s e).hub) r (checkSampled s e).pressed)
    (evalExtra (chanCore (checkSampled s e).hub) (checkSampled s e).pressed)
    (List.range CHANNEL_COUNT) (fun x => eval_disjoint _ _ _ x)
  rw [csvRun_range] at hd
  refine ⟨m1, by rw [m2, m1], e1, by rw [e2, e1], ?_⟩
  rw [m1, e1]
  exact hd

/-- The verdict of a `checkAll` pass and its buffers: the pass returns true iff it leaves
both buffers empty. -/
theorem checkAll_cause (s : Hub) (e : Env) (r : Bool) :
    (checkAll s e r).2 = true ↔
      (checkAll s e r).1.missingBuf = [] ∧ (checkAll s e r).1.extraBuf = [] := by
  obtain ⟨h1, _, _⟩ := checkAll_eval s e r
  obtain ⟨m1, _, e1, _, _⟩ := checkAll_run s e r
  have hrun : ∀ l : List Nat, csvRun l = [] ↔ l = [] := by
    intro l
    cases l with
    | nil => simp [csvRun]
    | cons a t => simp [csvRun]
  rw [h1, m1, e1, hrun, hrun, List.all_eq_true]
  simp only [List.filter_eq_nil_iff, Bool.and_eq_true, Bool.not_eq_true']
  constructor
  · intro h
    exact ⟨fun a ha => by simpa using (h a ha).1, fun a ha => by simpa using (h a ha).2⟩
  · rintro ⟨ha, hb⟩ a hmem
    exact ⟨by simpa using ha a hmem, by simpa using hb a hmem⟩

/-- The buffers after `trimBuffers()`: each list without its trailing comma. -/
theorem afterVote_lists (s : Hub) (es : Nat → Env) (n : Nat) :
    ∃ M E : List Nat,
      (afterVote s es n).missingBuf = csvList (M.map (· + 1)) ∧
      (afterVote s es n).missingLen = (afterVote s es n).missingBuf.length ∧
      (afterVote s es n).extraBuf = csvList (E.map (· + 1)) ∧
      (afterVote s es n).extraLen = (afterVote s es n).extraBuf.length ∧
      (afterVote s es n).missingBuf.length + (afterVote s es n).extraBuf.length ≤ 111 ∧
      ((checkAll (passState s.checkActive es (startStreaming s false) n)
          (es FINAL_CHECK_SAMPLES) s.checkActive).2 = true ↔ M = [] ∧ E = []) := by
  generalize ht : passState s.checkActive es (startStreaming s false) n = t
  obtain ⟨_, h2, h3⟩ := checkAll_eval t (es FINAL_CHECK_SAMPLES) s.checkActive
  obtain ⟨m1, _, e1, _, hsum⟩ := checkAll_run t (es FINAL_CHECK_SAMPLES) s.checkActive
  have hc := checkAll_cause t (es FINAL_CHECK_SAMPLES) s.checkActive
  have t1 := trimCsv_csvFrom (evalMissing (chanCore (checkSampled t (es FINAL_CHECK_SAMPLES)).hub)
    s.checkActive (checkSampled t (es FINAL_CHECK_SAMPLES)).pressed)
  have t2 := trimCsv_csvFrom (evalExtra (chanCore (checkSampled t (es FINAL_CHECK_SAMPLES)).hub)
    (checkSampled t (es FINAL_CHECK_SAMPLES)).pressed)
  rw [← h2] at t1
  rw [← h3] at t2
  have a1 : ((afterVote s es n).missingBuf, (afterVote s es n).missingLen)
      = trimCsv (checkAll t (es FINAL_CHECK_SAMPLES) s.checkActive).1.missingBuf
          (checkAll t (es FINAL_CHECK_SAMPLES) s.checkActive).1.missingLen := by
    rw [← ht]; rfl
  have a2 : ((afterVote s es n).extraBuf, (afterVote s es n).extraLen)
      = trimCsv (checkAll t (es FINAL_CHECK_SAMPLES) s.checkActive).1.extraBuf
          (checkAll t (es FINAL_CHECK_SAMPLES) s.checkActive).1.extraLen := by
    rw [← ht]; rfl
  rw [t1] at a1
  rw [t2] at a2
  obtain ⟨p1, p2⟩ := Prod.mk.inj a1
  obtain ⟨q1, q2⟩ := Prod.mk.inj a2
  have hrunM : ∀ l : List Nat, (csvList (l.map (· + 1))).length ≤ (csvRun l).length := by
    intro l
    by_cases hl : l = []
    · rw [hl]; simp [csvList]
    · rw [csvRun_eq l hl]; simp
  refine ⟨_, _, p1, by rw [p2, p1], q1, by rw [q2, q1], ?_, ?_⟩
  · rw [p1, q1]
    have := hrunM ((List.range CHANNEL_COUNT).filter
      (evalMissing (chanCore (checkSampled t (es FINAL_CHECK_SAMPLES)).hub)
        s.checkActive (checkSampled t (es FINAL_CHECK_SAMPLES)).pressed))
    have := hrunM ((List.range CHANNEL_COUNT).filter
      (evalExtra (chanCore (checkSampled t (es FINAL_CHECK_SAMPLES)).hub)
        (checkSampled t (es FINAL_CHECK_SAMPLES)).pressed))
    rw [m1, e1] at hsum
    omega
  · rw [hc, m1, e1]
    have hrun : ∀ l : List Nat, csvRun l = [] ↔ l = [] := by
      intro l
      cases l with
      | nil => simp [csvRun]
      | cons a t => simp [csvRun]
    rw [hrun, hrun]

/-- After the pass that follows the vote, the buffers are empty iff that pass returned
true. -/
theorem afterVote_cause (s : Hub) (es : Nat → Env) (n : Nat) :
    (checkAll (passState s.checkActive es (startStreaming s false) n)
        (es FINAL_CHECK_SAMPLES) s.checkActive).2 = true ↔
      (afterVote s es n).missingBuf = [] ∧ (afterVote s es n).extraBuf = [] := by
  obtain ⟨M, E, p1, _, q1, _, _, hc⟩ := afterVote_lists s es n
  rw [hc, p1, q1, csvList_eq_nil, csvList_eq_nil]
  simp

theorem failureFormat_length (m e mac : List Char) :
    (failureFormat m e mac).length ≤ 31 + m.length + e.length + mac.length := by
  have h1 : "RESULT FAILURE".toList.length = 14 := rfl
  have h2 : " MISSING ".toList.length = 9 := rfl
  have h3 : " EXTRA ".toList.length = 7 := rfl
  have h4 : ";EXTRA ".toList.length = 7 := rfl
  unfold failureFormat
  by_cases hm : m = [] <;> by_cases he : e = [] <;>
    simp only [hm, he, if_true, if_false, List.length_append, List.length_cons, List.length_nil,
      h1, h2, h3, h4] <;> omega

/-- The failure frame of `doFinalCheck` after `n` voting samples fits every buffer it goes
through. -/
theorem failure_frame_fits (s : Hub) (es : Nat → Env) (n : Nat)
    (hmac : s.BOARD_MAC.length ≤ 17) (hseq : s.seq < U32) :
    failureText (afterVote s es n)
        = failureFormat (afterVote s es n).missingBuf (afterVote s es n).extraBuf s.BOARD_MAC ∧
      framed (failureText (afterVote s es n)) s.seq
        = failureText (afterVote s es n) ++ " ID=".toList ++ fmtDec s.seq ∧
      (framed (failureText (afterVote s es n)) s.seq).length + 1 ≤ 174 := by
  obtain ⟨M, E, _, p2, _, q2, hsum, _⟩ := afterVote_lists s es n
  have hb : (afterVote s es n).BOARD_MAC = s.BOARD_MAC := (afterVote_frame s es n).2.2
  have hf := failureText_format (afterVote s es n) p2 q2 (by omega) (by rw [hb]; omega)
  rw [hb] at hf
  have hl := failureFormat_length (afterVote s es n).missingBuf (afterVote s es n).extraBuf
    s.BOARD_MAC
  have hd := fmtDec_length s.seq hseq
  have h4 : " ID=".toList.length = 4 := rfl
  have hlen : (failureText (afterVote s es n) ++ " ID=".toList ++ fmtDec s.seq).length ≤ 173 := by
    rw [hf, List.length_append, List.length_append, h4]
    omega
  have hfit := framed_fit (failureText (afterVote s es n)) s.seq (by omega)
  refine ⟨hf, hfit, ?_⟩
  rw [hfit]
  omega

/-- C34 (frame size). For the state `s` in which `doFinalCheck` runs (its board MAC at most
17 characters, as the 18-byte `BOARD_MAC` holds, and its id counter a 32-bit value) and the
failure frame built after `n` voting samples: the frame with both CSV lists, the MAC, the
` ID=<n>` suffix and the terminating NUL is at most 250 bytes (at most 174); it is the
untruncated text `<failure text> ID=<id>` (it fits `hubAckMsg`), and the failure text is the
untruncated format (it fits `core` and `pkt`); and in every `checkAll` pass, from any state
and for any switch levels, `appendCsv` truncates nothing: each buffer holds exactly the
numbers of its channels, each followed by a comma, its length variable is the length of the
text, and the two buffers together hold at most 111 characters, below the cap
`MAX_MSG_LEN - 2` at which `appendCsv` stops appending. When the first failing sample is
sample `j`, that frame is the one handed to the radio and stored in `hubAckMsg`. -/
theorem C34_frame_size (s : Hub) (es : Nat → Env) (n : Nat)
    (hmac : s.BOARD_MAC.length ≤ 17) (hseq : s.seq < U32) :
    (framed (failureText (afterVote s es n)) s.seq).length + 1 ≤ 250 ∧
      framed (failureText (afterVote s es n)) s.seq
        = failureText (afterVote s es n) ++ " ID=".toList ++ fmtDec s.seq ∧
      failureText (afterVote s es n)
        = failureFormat (afterVote s es n).missingBuf (afterVote s es n).extraBuf
            s.BOARD_MAC ∧
      (∀ (u : Hub) (e : Env) (r : Bool),
        (checkAll u e r).1.missingBuf = csvRun ((List.range CHANNEL_COUNT).filter
          (evalMissing (chanCore (checkSampled u e).hub) r (checkSampled u e).pressed)) ∧
        (checkAll u e r).1.missingLen = (checkAll u e r).1.missingBuf.length ∧
        (checkAll u e r).1.extraBuf = csvRun ((List.range CHANNEL_COUNT).filter
          (evalExtra (chanCore (checkSampled u e).hub) (checkSampled u e).pressed)) ∧
        (checkAll u e r).1.extraLen = (checkAll u e r).1.extraBuf.length ∧
        (checkAll u e r).1.missingLen + (checkAll u e r).1.extraLen ≤ 111 ∧
        (checkAll u e r).1.missingLen < MAX_MSG_LEN - 2 ∧
        (checkAll u e r).1.extraLen < MAX_MSG_LEN - 2) ∧
      (∀ (peer : Mac) (j : Nat), n = j + 1 → s.state = State.FINAL_CHECK →
        hasWorkToCheck s s.checkActive = true → getTarget s = some peer →
        (peer == bcastMac) = false → (es FINAL_CHECK_SAMPLES).peerOk = true →
        j < FINAL_CHECK_SAMPLES →
        (∀ k, k < j → passOk s.checkActive es (startStreaming s false) k = true) →
        passOk s.checkActive es (startStreaming s false) j = false →
        (doFinalCheck s es).sent = (afterVote s es n).sent ++
          [{ dest := peer, text := framed (failureText (afterVote s es n)) s.seq }]) := by
  obtain ⟨f1, f2, f3⟩ := failure_frame_fits s es n hmac hseq
  refine ⟨by omega, f2, f1, fun u e r => ?_, ?_⟩
  · obtain ⟨a, b, c, d, h⟩ := checkAll_run u e r
    have h128 : MAX_MSG_LEN = 128 := rfl
    refine ⟨a, b, c, d, ?_, ?_, ?_⟩
    · rw [b, d]; exact h
    · rw [b, h128]; omega
    · rw [d, h128]; omega
  · intro peer j hn hst hwork hpeer hb hok hj hall hfail
    subst hn
    exact (doFinalCheck_fail_sent s es peer j hst hwork hpeer hb hok hj hall hfail).2

/-- Witness of C34: in the scenario of `s4Hub` the failure frame
`RESULT FAILURE MISSING 2;EXTRA 9 AA:BB:CC:DD:EE:01 ID=1001` is 58 characters long. -/
theorem C34_frame_size_witness :
    s4Hub.BOARD_MAC.length ≤ 17 ∧ s4Hub.seq < U32 ∧
      (framed (failureText (afterVote s4Hub vote19 1)) s4Hub.seq).length + 1 ≤ 250 ∧
      framed (failureText (afterVote s4Hub vote19 1)) s4Hub.seq
        = failureText (afterVote s4Hub vote19 1) ++ " ID=".toList ++ fmtDec s4Hub.seq := by
  obtain ⟨_, _, _, _, hmac, hseq, _, _⟩ := s4Hub_pass
  have h1 : s4Hub.BOARD_MAC.length ≤ 17 := by rw [hmac]; decide
  have h2 : s4Hub.seq < U32 := by rw [hseq]; decide
  exact ⟨h1, h2, (C34_frame_size s4Hub vote19 1 h1 h2).1, (C34_frame_size s4Hub vote19 1 h1 h2).2.1⟩

/-- C37 (a failure and its cause), amended. When `doFinalCheck` runs in FINAL_CHECK with work
to check and sample `j` is the first voting sample that returns false, the frame handed to the
radio is the failure text built from the buffers that the `checkAll` pass run after the vote
leaves: the text has a non-empty MISSING or EXTRA list iff that later pass returned false,
and it is the bare `RESULT FAILURE <MAC>` when that pass returned true. -/
theorem C37_failure_cause (s : Hub) (es : Nat → Env) (peer : Mac) (j : Nat)
    (hst : s.state = State.FINAL_CHECK)
    (hwork : hasWorkToCheck s s.checkActive = true)
    (hpeer : getTarget s = some peer) (hb : (peer == bcastMac) = false)
    (hok : (es FINAL_CHECK_SAMPLES).peerOk = true) (hj : j < FINAL_CHECK_SAMPLES)
    (hall : ∀ k, k < j → passOk s.checkActive es (startStreaming s false) k = true)
    (hfail : passOk s.checkActive es (startStreaming s false) j = false)
    (hmac : s.BOARD_MAC.length ≤ 17) :
    (doFinalCheck s es).sent = (afterVote s es (j + 1)).sent ++
        [{ dest := peer, text := framed (failureText (afterVote s es (j + 1))) s.seq }] ∧
      failureText (afterVote s es (j + 1))
        = failureFormat (afterVote s es (j + 1)).missingBuf (afterVote s es (j + 1)).extraBuf
            s.BOARD_MAC ∧
      (((afterVote s es (j + 1)).missingBuf ≠ [] ∨ (afterVote s es (j + 1)).extraBuf ≠ []) ↔
        (checkAll (passState s.checkActive es (startStreaming s false) (j + 1))
          (es FINAL_CHECK_SAMPLES) s.checkActive).2 = false) ∧
      ((checkAll (passState s.checkActive es (startStreaming s false) (j + 1))
          (es FINAL_CHECK_SAMPLES) s.checkActive).2 = true →
        failureText (afterVote s es (j + 1)) = "RESULT FAILURE".toList ++ ' ' :: s.BOARD_MAC) := by
  obtain ⟨M, E, _, p2, _, q2, hsum, _⟩ := afterVote_lists s es (j + 1)
  have hbm : (afterVote s es (j + 1)).BOARD_MAC = s.BOARD_MAC := (afterVote_frame s es (j + 1)).2.2
  have hf := failureText_format (afterVote s es (j + 1)) p2 q2 (by omega) (by rw [hbm]; omega)
  rw [hbm] at hf
  have hc := afterVote_cause s es (j + 1)
  refine ⟨(doFinalCheck_fail_sent s es peer j hst hwork hpeer hb hok hj hall hfail).2, hf,
    ?_, fun ht => ?_⟩
  · constructor
    · intro h
      apply Bool.eq_false_iff.2
      intro ht
      obtain ⟨a, b⟩ := hc.1 ht
      rcases h with h | h
      · exact h a
      · exact h b
    · intro h
      by_contra hn
      push_neg at hn
      rw [hc.2 hn] at h
      exact absurd h (by simp)
  · obtain ⟨a, b⟩ := hc.1 ht
    rw [hf, a, b]
    rfl

/-- Witness of C37: in the scenario of `s4Hub` the first voting sample fails, the pass after
the vote fails too, and the frame names channel 2 as missing and channel 9 as extra. -/
theorem C37_failure_cause_witness :
    (checkAll (passState s4Hub.checkActive vote19 (startStreaming s4Hub false) 1)
        (vote19 FINAL_CHECK_SAMPLES) s4Hub.checkActive).2 = false ∧
      (afterVote s4Hub vote19 1).missingBuf = "2".toList ∧
      failureText (afterVote s4Hub vote19 1)
        = failureFormat (afterVote s4Hub vote19 1).missingBuf
            (afterVote s4Hub vote19 1).extraBuf s4Hub.BOARD_MAC := by
  obtain ⟨h0, h1, hM, hE, hmac, hseq, hw, hp⟩ := s4Hub_pass
  obtain ⟨b1, _⟩ := afterVote_buffers s4Hub vote19 1
    (reachable_exclusive s4Hub s4Hub_reachable) (reachable_ignored_latch s4Hub s4Hub_reachable)
  rw [hM] at b1
  have mb : (afterVote s4Hub vote19 1).missingBuf = "2".toList :=
    (Prod.mk.inj b1).1.trans (by decide)
  have h := C37_failure_cause s4Hub vote19 staMac 0 h0 hw hp (by decide) (by decide)
    (by decide) (fun k hk => absurd hk (Nat.not_lt_zero k)) h1 (by rw [hmac]; decide)
  exact ⟨h.2.2.1.1 (Or.inl (by rw [mb]; decide)), mb, h.2.1⟩

theorem lateHub_reachable : Reachable lateHub :=
  Reachable.step _ _ (Reachable.step _ _ (Reachable.step _ _ (Reachable.step _ _
    (Reachable.setup _ _ _))))

theorem lateHub_pass :
    lateHub.state = State.FINAL_CHECK ∧
      passOk lateHub.checkActive lateVote (startStreaming lateHub false) 0 = false ∧
      (List.range CHANNEL_COUNT).filter (missingIn (passState lateHub.checkActive lateVote
        (startStreaming lateHub false) 1) (lateVote FINAL_CHECK_SAMPLES) lateHub.checkActive)
        = [] ∧
      (List.range CHANNEL_COUNT).filter (extraIn (passState lateHub.checkActive lateVote
        (startStreaming lateHub false) 1) (lateVote FINAL_CHECK_SAMPLES)) = [] ∧
      lateHub.BOARD_MAC = "AA:BB:CC:DD:EE:01".toList ∧ lateHub.seq = 1001 ∧
      hasWorkToCheck lateHub lateHub.checkActive = true ∧ getTarget lateHub = some staMac :=
  ⟨by decide, by decide, by decide, by decide, by decide, by decide, by decide, by decide⟩

/-- Counterexample to C37 as stated: channel 1 is normal and its switch is pressed 20 ms
before the only voting sample, which therefore still finds it released and fails the vote;
the pass run after the vote, 6 ms later, finds it pressed and returns true, so both buffers
are empty and the frame handed to the radio is `RESULT FAILURE AA:BB:CC:DD:EE:01 ID=1001`,
with neither a MISSING nor an EXTRA list. -/
theorem C37_counterexample :
    Reachable lateHub ∧
      passOk lateHub.checkActive lateVote (startStreaming lateHub false) 0 = false ∧
      (checkAll (passState lateHub.checkActive lateVote (startStreaming lateHub false) 1)
        (lateVote FINAL_CHECK_SAMPLES) lateHub.checkActive).2 = true ∧
      (afterVote lateHub lateVote 1).missingBuf = [] ∧
      (afterVote lateHub lateVote 1).extraBuf = [] ∧
      (doFinalCheck lateHub lateVote).sent.getLast?
        = some { dest := staMac
                 text := "RESULT FAILURE AA:BB:CC:DD:EE:01 ID=1001".toList } := by
  obtain ⟨h0, h1, hM, hE, hmac, hseq, hw, hp⟩ := lateHub_pass
  obtain ⟨b1, b2⟩ := afterVote_buffers lateHub lateVote 1
    (reachable_exclusive lateHub lateHub_reachable)
    (reachable_ignored_latch lateHub lateHub_reachable)
  rw [hM] at b1
  rw [hE] at b2
  obtain ⟨m1, m2⟩ := Prod.mk.inj b1
  obtain ⟨e1, e2⟩ := Prod.mk.inj b2
  have mb : (afterVote lateHub lateVote 1).missingBuf = [] := m1.trans (by decide)
  have eb : (afterVote lateHub lateVote 1).extraBuf = [] := e1.trans (by decide)
  have hb : (afterVote lateHub lateVote 1).BOARD_MAC = "AA:BB:CC:DD:EE:01".toList :=
    (afterVote_frame lateHub lateVote 1).2.2.trans hmac
  have hf : failureText (afterVote lateHub lateVote 1)
      = "RESULT FAILURE AA:BB:CC:DD:EE:01".toList := by
    rw [failureText_format (afterVote lateHub lateVote 1) (by rw [m2, mb]; decide)
      (by rw [e2, eb]; decide) (by rw [mb, eb]; decide) (by rw [mb, eb, hb]; decide), mb, eb, hb]
    decide
  refine ⟨lateHub_reachable, h1, (afterVote_cause lateHub lateVote 1).2 ⟨mb, eb⟩, mb, eb, ?_⟩
  rw [(doFinalCheck_fail_sent lateHub lateVote staMac 0 h0 hw hp (by decide) (by decide)
    (by decide) (fun k hk => absurd hk (Nat.not_lt_zero k)) h1).2, List.getLast?_append,
    hf, hseq]
  decide

theorem sendCmdRaw_blind {π : Type} (proj : Hub → π) (hp : RadioBlind proj) (s : Hub) (e : Env)
    (msg : List Char) (dest : Option Mac) : proj (sendCmdRaw s e msg dest) = proj s := by
  unfold sendCmdRaw
  split
  · rfl
  · split_ifs
    · rfl
    · exact hp s _ _ _ s.hubAckActive s.hubAckId s.hubAckMac s.hubAckLastSend
        s.hubAckRetriesLeft s.hubAckMsg s.hubAckTimeoutMs s.seq

theorem serviceAckTx_blind {π : Type} (proj : Hub → π) (hp : RadioBlind proj) (s : Hub)
    (e : Env) : proj (serviceAckTx s e) = proj s := by
  unfold serviceAckTx
  simp only []
  split_ifs <;> first | rfl | exact hp s _ _ _ _ _ _ _ _ _ _ _

theorem sendCmd_blind {π : Type} (proj : Hub → π) (hp : RadioBlind proj) (s : Hub) (e : Env)
    (msg : List Char) (dest : Option Mac) : proj (sendCmd s e msg dest) = proj s := by
  unfold sendCmd
  split
  · rfl
  · split_ifs
    · exact sendCmdRaw_blind proj hp _ _ _ _
    · simp only []
      rw [serviceAckTx_blind proj hp]
      exact hp s s.sent s.lastTxMac s.lastTxMacValid _ _ _ _ _ _ _ _

theorem replyRaw_blind {π : Type} (proj : Hub → π) (hp : RadioBlind proj) (s : Hub) (e : Env)
    (msg : List Char) : proj (replyRaw s e msg) = proj s := by
  unfold replyRaw
  split
  · exact sendCmdRaw_blind proj hp _ _ _ _
  · rfl

theorem replyReliable_blind {π : Type} (proj : Hub → π) (hp : RadioBlind proj) (s : Hub)
    (e : Env) (msg : List Char) : proj (replyReliable s e msg) = proj s := by
  unfold replyReliable
  split
  · exact sendCmd_blind proj hp _ _ _ _
  · rfl

theorem autoAck_blind {π : Type} (proj : Hub → π) (hp : RadioBlind proj) (s : Hub) (e : Env)
    (src : Mac) (rxb : List Char) (n : Nat) : proj (autoAck s e src rxb n) = proj s := by
  unfold autoAck
  split
  · split_ifs
    · exact sendCmdRaw_blind proj hp _ _ _ _
    · rfl
  · rfl

theorem afterAck_blind {π : Type} (proj : Hub → π) (hp : RadioBlind proj)
    (hs : ∀ (h : Hub) (m : Mac) (b : Bool),
      proj { h with lastSender := m, haveSender := b } = proj h)
    (s : Hub) (e : Env) (src : Mac) (data : List Char) :
    proj (afterAck s e src data) = proj s := by
  unfold afterAck
  rw [autoAck_blind proj hp]
  exact hs s src true

theorem afterAck_peer (s : Hub) (e : Env) (src : Mac) (data : List Char)
    (hsrc : isZeroMac src = false) : getTarget (afterAck s e src data) = some src := by
  have h : slotCore (afterAck s e src data)
      = slotCore { s with lastSender := src, haveSender := true } := autoAck_slot _ _ _ _ _
  rw [getTarget_of_slot _ _ h]
  unfold getTarget
  simp [hsrc]

/-- A frame that is not an ACK reaches the verb dispatch. -/
theorem onRecv_verb (s : Hub) (e : Env) (src : Mac) (data : List Char)
    (hlen : data.length ≠ 0) (hsrc : isZeroMac src = false)
    (hA : startsWith "ACK ".toList (rxText data) = false) :
    onRecv s e src data = dispatchVerb (afterAck s e src data) e (rxText data) data := by
  unfold onRecv afterAck
  rw [if_neg hlen, if_neg (by rw [hsrc]; simp)]
  simp only []
  rw [if_neg (by rw [hA]; simp)]

/-- An ACK frame is handled by the ACK block alone. -/
theorem onRecv_ack (s : Hub) (e : Env) (src : Mac) (data : List Char)
    (hlen : data.length ≠ 0) (hsrc : isZeroMac src = false)
    (hA : startsWith "ACK ".toList (rxText data) = true) :
    onRecv s e src data =
      if (s.hubAckActive && strtoul ((rxText data).drop 4) == s.hubAckId
          && src == s.hubAckMac) = true then
        { s with lastSender := src, haveSender := true, hubAckActive := false }
      else { s with lastSender := src, haveSender := true } := by
  unfold onRecv
  rw [if_neg hlen, if_neg (by rw [hsrc]; simp)]
  simp only []
  rw [if_pos hA]

theorem verb_excl (v rx : List Char) (h : startsWith v rx = true) (w : List Char)
    (hw : startsWith w v = false) (hv : startsWith v w = false) : startsWith w rx = false := by
  induction w generalizing v rx with
  | nil => cases v <;> simp [startsWith] at hw
  | cons a w ih =>
    cases v with
    | nil => simp [startsWith] at hv
    | cons b v =>
      cases rx with
      | nil => simp [startsWith] at h
      | cons c rx =>
        simp only [startsWith, Bool.and_eq_true, beq_iff_eq] at h
        obtain ⟨rfl, h2⟩ := h
        by_cases hab : a = b
        · subst hab
          simp only [startsWith, beq_self_eq_true, Bool.true_and] at hw hv ⊢
          exact ih v rx h2 hw hv
        · simp [startsWith, hab]

theorem dispatchVerb_BLINK (s1 : Hub) (e : Env) (rx data : List Char)
    (h : startsWith "BLINK".toList rx = true) :
    dispatchVerb s1 e rx data =
      replyReliable (enqueuePending s1 PendingKind.Blink (repeatCount rx 3)) e
        "BLINK-OK".toList := by
  have hW := verb_excl _ rx h "WELCOME".toList (by decide) (by decide)
  have hP := verb_excl _ rx h "PING".toList (by decide) (by decide)
  unfold dispatchVerb
  rw [if_neg (by rw [hW]; simp), if_neg (by rw [hP]; simp), if_pos h]

theorem dispatchVerb_CHASE (s1 : Hub) (e : Env) (rx data : List Char)
    (h : startsWith "CHASE".toList rx = true) :
    dispatchVerb s1 e rx data =
      replyReliable (enqueuePending s1 PendingKind.Chase (repeatCount rx 1)) e
        "CHASE-OK".toList := by
  have hW := verb_excl _ rx h "WELCOME".toList (by decide) (by decide)
  have hP := verb_excl _ rx h "PING".toList (by decide) (by decide)
  have hB := verb_excl _ rx h "BLINK".toList (by decide) (by decide)
  unfold dispatchVerb
  rw [if_neg (by rw [hW]; simp), if_neg (by rw [hP]; simp), if_neg (by rw [hB]; simp),
    if_pos h]

theorem strchrSpace_none (rx : List Char) (h : ' ' ∉ rx) : strchrSpace rx = none := by
  induction rx with
  | nil => rfl
  | cons c cs ih =>
    have hc : c ≠ ' ' := fun hh => h (by rw [hh]; exact List.mem_cons_self _ _)
    have hcs : ' ' ∉ cs := fun hh => h (List.mem_cons_of_mem _ hh)
    unfold strchrSpace
    rw [if_neg (by simpa using hc)]
    exact ih hcs

theorem strchrSpace_first (verb arg : List Char) (h : ' ' ∉ verb) :
    strchrSpace (verb ++ ' ' :: arg) = some (' ' :: arg) := by
  induction verb with
  | nil => simp [strchrSpace]
  | cons c cs ih =>
    have hc : c ≠ ' ' := fun hh => h (by rw [hh]; exact List.mem_cons_self _ _)
    have hcs : ' ' ∉ cs := fun hh => h (List.mem_cons_of_mem _ hh)
    rw [List.cons_append]
    unfold strchrSpace
    rw [if_neg (by simpa using hc)]
    exact ih hcs

theorem readDigits_stop (ds rest : List Char) (acc : Nat) (h : ∀ c ∈ ds, isdigit c = true)
    (hr : ∀ c, rest.head? = some c → isdigit c = false) :
    readDigits (ds ++ rest) acc = (ds.foldl (fun a c => a * 10 + digitVal c) acc, rest) := by
  induction ds generalizing acc with
  | nil =>
    cases rest with
    | nil => rfl
    | cons c cs =>
      have := hr c rfl
      simp [readDigits, this]
  | cons c cs ih =>
    rw [List.cons_append]
    unfold readDigits
    rw [if_pos (h c (List.mem_cons_self _ _)),
      ih _ (fun x hx => h x (List.mem_cons_of_mem _ hx))]
    rfl

/-- `atoi` of a text that starts with the decimal digits of `n`, not followed by a further
digit. -/
theorem atoi_fmtDec (n : Nat) (rest : List Char) (hn : (n : Int) ≤ LONG_MAX)
    (hr : ∀ c, rest.head? = some c → isdigit c = false) : atoi (fmtDec n ++ rest) = n := by
  obtain ⟨d, t, hdt, hd⟩ := fmtDec_head n
  obtain ⟨p1, _, p3, p4⟩ := digit_plain d hd
  have hdrop : (fmtDec n ++ rest).dropWhile isspace = fmtDec n ++ rest := by
    rw [hdt, List.cons_append, List.dropWhile_cons_of_neg (by rw [p1]; simp)]
  have hsign : strtolSign (fmtDec n ++ rest) = (false, fmtDec n ++ rest) := by
    rcases strtolSign_cases (fmtDec n ++ rest) with ⟨r, hr2, _⟩ | ⟨r, hr2, _⟩ | h
    · rw [hdt, List.cons_append] at hr2
      exact absurd (List.cons.inj hr2).1 p3
    · rw [hdt, List.cons_append] at hr2
      exact absurd (List.cons.inj hr2).1 p4
    · exact h
  have hval : readDigits (fmtDec n ++ rest) 0 = (n, rest) := by
    rw [readDigits_stop _ _ _ (fmtDec_isdigit n) hr]
    exact congrArg (fun x => (x, rest)) (decValue_toDigitsCore (n + 1) n (by omega))
  unfold atoi
  rw [strtol_eq, hdrop, hsign]
  unfold strtolFrom
  simp only []
  rw [hdt, List.cons_append]
  simp only [hd, if_true]
  rw [← List.cons_append, ← hdt, hval]
  simp only [Bool.false_eq_true, if_false]
  have e1 : (LONG_MIN : Int) = -2147483648 := rfl
  have e2 : (LONG_MAX : Int) = 2147483647 := rfl
  rw [e2] at hn
  rw [e1, e2]
  omega

/-- `atoi` of a text that starts with a character that is no digit, no white space and no
sign. -/
theorem atoi_nondigit (c : Char) (rest : List Char) (hd : isdigit c = false)
    (hs : isspace c = false) (hm : c ≠ '-') (hp : c ≠ '+') : atoi (c :: rest) = 0 := by
  have hdrop : (c :: rest).dropWhile isspace = c :: rest :=
    List.dropWhile_cons_of_neg (by rw [hs]; simp)
  have hsign : strtolSign (c :: rest) = (false, c :: rest) := by
    rcases strtolSign_cases (c :: rest) with ⟨r, hr2, _⟩ | ⟨r, hr2, _⟩ | h
    · exact absurd (List.cons.inj hr2).1 hm
    · exact absurd (List.cons.inj hr2).1 hp
    · exact h
  unfold atoi
  rw [strtol_eq, hdrop, hsign]
  unfold strtolFrom
  simp [hd]

theorem repeatCount_arg (verb arg : List Char) (dflt : Int) (h : ' ' ∉ verb) (ha : arg ≠ []) :
    repeatCount (verb ++ ' ' :: arg) dflt = max 1 (atoi arg) := by
  unfold repeatCount
  rw [strchrSpace_first verb arg h]
  cases arg with
  | nil => exact absurd rfl ha
  | cons c r => rfl

/-- What an `onRecv` call leaves in the deferred-work slot for a BLINK or CHASE frame. -/
theorem onRecv_pending (s : Hub) (e : Env) (src : Mac) (data : List Char)
    (hlen : data.length ≠ 0) (hsrc : isZeroMac src = false) :
    (startsWith "BLINK".toList (rxText data) = true →
        (onRecv s e src data).havePending = true ∧
        (onRecv s e src data).pending
          = { kind := PendingKind.Blink, n := repeatCount (rxText data) 3, hasMac := true,
              mac := src }) ∧
      (startsWith "CHASE".toList (rxText data) = true →
        (onRecv s e src data).havePending = true ∧
        (onRecv s e src data).pending
          = { kind := PendingKind.Chase, n := repeatCount (rxText data) 1, hasMac := true,
              mac := src }) := by
  have hb : RadioBlind (fun h : Hub => (h.havePending, h.pending)) :=
    fun _ _ _ _ _ _ _ _ _ _ _ _ => rfl
  have hp := afterAck_peer s e src data hsrc
  constructor
  · intro h
    have hA := verb_excl _ _ h "ACK ".toList (by decide) (by decide)
    rw [onRecv_verb s e src data hlen hsrc hA, dispatchVerb_BLINK _ e _ data h]
    have := replyReliable_blind _ hb
      (enqueuePending (afterAck s e src data) PendingKind.Blink (repeatCount (rxText data) 3))
      e "BLINK-OK".toList
    obtain ⟨q1, q2⟩ := Prod.mk.inj this
    refine ⟨q1.trans rfl, q2.trans ?_⟩
    unfold enqueuePending
    simp only [hp]
    rfl
  · intro h
    have hA := verb_excl _ _ h "ACK ".toList (by decide) (by decide)
    rw [onRecv_verb s e src data hlen hsrc hA, dispatchVerb_CHASE _ e _ data h]
    have := replyReliable_blind _ hb
      (enqueuePending (afterAck s e src data) PendingKind.Chase (repeatCount (rxText data) 1))
      e "CHASE-OK".toList
    obtain ⟨q1, q2⟩ := Prod.mk.inj this
    refine ⟨q1.trans rfl, q2.trans ?_⟩
    unfold enqueuePending
    simp only [hp]
    rfl

/-- The counts that the BLINK and CHASE handlers enqueue. For a BLINK frame from a non-zero
source the deferred-work slot receives the kind `Blink` and the count `repeatCount rx 3`, for
a CHASE frame the kind `Chase` and `repeatCount rx 1`, where `rx` is the trimmed frame text.
The count is the default (3 or 1) when `rx` contains no blank; when text `arg` follows the
first blank it is `max(1, atoi(arg))`: `max(1, n)` when `arg` starts with the decimal number
`n` (at most `LONG_MAX`) not followed by a further digit, and 1 when `arg` starts with a
character that is no digit, white space or sign, as the MAC token `AA:...` or the suffix
`ID=<n>` do. -/
theorem blinkChase_counts (s : Hub) (e : Env) (src : Mac) (data : List Char)
    (hlen : data.length ≠ 0) (hsrc : isZeroMac src = false) :
    (startsWith "BLINK".toList (rxText data) = true →
        (onRecv s e src data).havePending = true ∧
        (onRecv s e src data).pending.kind = PendingKind.Blink ∧
        (onRecv s e src data).pending.n = repeatCount (rxText data) 3) ∧
      (startsWith "CHASE".toList (rxText data) = true →
        (onRecv s e src data).havePending = true ∧
        (onRecv s e src data).pending.kind = PendingKind.Chase ∧
        (onRecv s e src data).pending.n = repeatCount (rxText data) 1) ∧
      (∀ (rx : List Char) (dflt : Int), ' ' ∉ rx → repeatCount rx dflt = dflt) ∧
      (∀ (verb arg : List Char) (dflt : Int), ' ' ∉ verb → arg ≠ [] →
        repeatCount (verb ++ ' ' :: arg) dflt = max 1 (atoi arg)) ∧
      (∀ (n : Nat) (rest : List Char), (n : Int) ≤ LONG_MAX →
        (∀ c, rest.head? = some c → isdigit c = false) → atoi (fmtDec n ++ rest) = n) ∧
      (∀ (c : Char) (rest : List Char), isdigit c = false → isspace c = false → c ≠ '-' →
        c ≠ '+' → atoi (c :: rest) = 0) := by
  obtain ⟨h1, h2⟩ := onRecv_pending s e src data hlen hsrc
  refine ⟨fun h => ?_, fun h => ?_, fun rx dflt h => ?_, repeatCount_arg, atoi_fmtDec,
    atoi_nondigit⟩
  · obtain ⟨a, b⟩ := h1 h
    exact ⟨a, by rw [b], by rw [b]⟩
  · obtain ⟨a, b⟩ := h2 h
    exact ⟨a, by rw [b], by rw [b]⟩
  · unfold repeatCount
    rw [strchrSpace_none rx h]

/-- Two frames under `blinkChase_counts`: `BLINK 5 <MAC> ID=7` enqueues five rounds, a bare
`CHASE` one round. -/
theorem blinkChase_counts_run :
    (onRecv waitHub (quietEnv 100) staMac "BLINK 5 AA:BB:CC:DD:EE:01 ID=7".toList).pending.n
        = 5 ∧
      (onRecv waitHub (quietEnv 100) staMac "CHASE".toList).pending.n = 1 := by
  have h1 := (blinkChase_counts waitHub (quietEnv 100) staMac
    "BLINK 5 AA:BB:CC:DD:EE:01 ID=7".toList (by decide) (by decide)).1 (by decide)
  have h2 := (blinkChase_counts waitHub (quietEnv 100) staMac "CHASE".toList
    (by decide) (by decide)).2.1 (by decide)
  refine ⟨h1.2.2.trans (by decide), h2.2.2.trans (by decide)⟩

/-! ## The RX callback and the port expanders (C32) -/

theorem replyRaw_sw (s : Hub) (e : Env) (sw : Nat → Bool) (msg : List Char) :
    replyRaw s (withSw e sw) msg = replyRaw s e msg := rfl

theorem replyReliable_sw (s : Hub) (e : Env) (sw : Nat → Bool) (msg : List Char) :
    replyReliable s (withSw e sw) msg = replyReliable s e msg := rfl

theorem afterAck_sw (s : Hub) (e : Env) (sw : Nat → Bool) (src : Mac) (data : List Char) :
    afterAck s (withSw e sw) src data = afterAck s e src data := rfl

theorem afterAck_core (s : Hub) (e : Env) (src : Mac) (data : List Char) :
    chanCore (afterAck s e src data) = chanCore s :=
  (autoAck_core _ _ _ _ _).trans rfl

theorem afterAck_led (s : Hub) (e : Env) (src : Mac) (data : List Char) :
    (afterAck s e src data).ledState = s.ledState :=
  afterAck_blind Hub.ledState (fun _ _ _ _ _ _ _ _ _ _ _ _ => rfl) (fun _ _ _ => rfl) s e src data

/-- The verb dispatch for a frame that is none of MONITOR, CHECK and CLEAN writes no LED and
does not read the switches. -/
theorem dispatch_quiet (s1 : Hub) (e : Env) (rx data : List Char)
    (hM : startsWith kwMONITOR rx = false) (hC : startsWith kwCHECK rx = false)
    (hCl : startsWith "CLEAN".toList rx = false) :
    (dispatchVerb s1 e rx data).ledState = s1.ledState ∧
      ∀ sw, dispatchVerb s1 (withSw e sw) rx data = dispatchVerb s1 e rx data := by
  have hb : RadioBlind Hub.ledState := fun _ _ _ _ _ _ _ _ _ _ _ _ => rfl
  unfold dispatchVerb
  by_cases hW : startsWith "WELCOME".toList rx = true
  · simp only [if_pos hW, replyRaw_sw, replyReliable_sw]
    refine ⟨?_, fun _ => trivial⟩
    exact (replyReliable_blind Hub.ledState hb _ _ _).trans (replyRaw_blind Hub.ledState hb _ _ _)
  · simp only [if_neg hW]
    by_cases hP : startsWith "PING".toList rx = true
    · simp only [if_pos hP, replyRaw_sw]
      exact ⟨replyRaw_blind Hub.ledState hb _ _ _, fun _ => trivial⟩
    · simp only [if_neg hP]
      by_cases hB : startsWith "BLINK".toList rx = true
      · simp only [if_pos hB, replyReliable_sw]
        exact ⟨replyReliable_blind Hub.ledState hb _ _ _, fun _ => trivial⟩
      · simp only [if_neg hB]
        by_cases hH : startsWith "CHASE".toList rx = true
        · simp only [if_pos hH, replyReliable_sw]
          exact ⟨replyReliable_blind Hub.ledState hb _ _ _, fun _ => trivial⟩
        · simp only [if_neg hH, hM, hC, hCl, Bool.false_eq_true, if_false]
          exact ⟨trivial, fun _ => trivial⟩

/-- A CHECK frame that leaves work to check only moves the state to FINAL_CHECK. -/
theorem onRecv_check_quiet (s : Hub) (e : Env) (src : Mac) (data : List Char)
    (hlen : data.length ≠ 0) (hsrc : isZeroMac src = false)
    (h : startsWith kwCHECK (rxText data) = true)
    (hw : hasWorkToCheck (parseCheckSelection s (rxText data))
      (parseCheckSelection s (rxText data)).checkActive = true) :
    onRecv s e src data
      = { parseCheckSelection (afterAck s e src data) (rxText data)
          with state := State.FINAL_CHECK } := by
  have hA := (check_verb_excl _ h).1
  rw [onRecv_verb s e src data hlen hsrc hA, dispatchVerb_CHECK _ e _ data h]
  have hc2 := parseCheckSelection_congr (afterAck s e src data) s (rxText data)
    (afterAck_core s e src data)
  have ha : (parseCheckSelection (afterAck s e src data) (rxText data)).checkActive
      = (parseCheckSelection s (rxText data)).checkActive := congrArg ChanCore.checkActive hc2
  rw [hasWorkToCheck_of_core _ _ hc2, ha, hw, if_neg (by decide)]

/-- C32 (the RX callback and the bus), amended. For every Hub state and every received frame
whose trimmed text does not start with `MONITOR` or `CLEAN` and which, when it starts with
`CHECK`, leaves work to check: `onRecv` writes no LED (the LED cache, which `setLed` changes
exactly when it writes to the expander, is unchanged) and reads no switch (its result is the
same for all switch levels). -/
theorem C32_rx_bus_access (s : Hub) (e : Env) (src : Mac) (data : List Char)
    (hM : startsWith kwMONITOR (rxText data) = false)
    (hCl : startsWith "CLEAN".toList (rxText data) = false)
    (hC : startsWith kwCHECK (rxText data) = true →
      hasWorkToCheck (parseCheckSelection s (rxText data))
        (parseCheckSelection s (rxText data)).checkActive = true) :
    (onRecv s e src data).ledState = s.ledState ∧
      ∀ sw, onRecv s (withSw e sw) src data = onRecv s e src data := by
  by_cases hlen : data.length = 0
  · have h : ∀ e2, onRecv s e2 src data = s := fun e2 => by
      unfold onRecv; rw [if_pos hlen]
    exact ⟨by rw [h], fun sw => by rw [h, h]⟩
  · by_cases hsrc : isZeroMac src = true
    · have h : ∀ e2, onRecv s e2 src data = s := fun e2 => by
        unfold onRecv; rw [if_neg hlen, if_pos hsrc]
      exact ⟨by rw [h], fun sw => by rw [h, h]⟩
    · have hsrc2 : isZeroMac src = false := by simpa using hsrc
      by_cases hA : startsWith "ACK ".toList (rxText data) = true
      · have h : ∀ e2, onRecv s e2 src data = _ := fun e2 =>
          onRecv_ack s e2 src data hlen hsrc2 hA
        refine ⟨?_, fun sw => by rw [h, h]⟩
        rw [h]
        split_ifs <;> rfl
      · have hA2 : startsWith "ACK ".toList (rxText data) = false := by simpa using hA
        by_cases hK : startsWith kwCHECK (rxText data) = true
        · have h : ∀ e2, onRecv s e2 src data = _ := fun e2 =>
            onRecv_check_quiet s e2 src data hlen hsrc2 hK (hC hK)
          refine ⟨?_, fun sw => by rw [h, h, afterAck_sw]⟩
          rw [h]
          refine Eq.trans (b := (parseCheckSelection (afterAck s e src data)
            (rxText data)).ledState) rfl ?_
          rw [parseCheckSelection_keep Hub.ledState (fun _ _ => rfl) (fun _ _ => rfl)]
          exact afterAck_led s e src data
        · have hK2 : startsWith kwCHECK (rxText data) = false := by simpa using hK
          have h : ∀ e2, onRecv s e2 src data = _ := fun e2 =>
            onRecv_verb s e2 src data hlen hsrc2 hA2
          obtain ⟨q1, q2⟩ := dispatch_quiet (afterAck s e src data) e (rxText data) data
            hM hK2 hCl
          refine ⟨?_, fun sw => ?_⟩
          · rw [h, q1]
            exact afterAck_led s e src data
          · rw [h, h, afterAck_sw]
            exact q2 sw

/-- Witness of C32: a WELCOME frame and a CHECK frame that leaves work write no LED. -/
theorem C32_rx_bus_access_witness :
    (onRecv monitoredHub (quietEnv 200) staMac "WELCOME AA:BB:CC:DD:EE:01 ID=3".toList).ledState
        = monitoredHub.ledState ∧
      (onRecv monitoredHub (quietEnv 200) staMac "CHECK 1 AA:BB:CC:DD:EE:01".toList).ledState
        = monitoredHub.ledState :=
  ⟨(C32_rx_bus_access monitoredHub (quietEnv 200) staMac
      "WELCOME AA:BB:CC:DD:EE:01 ID=3".toList (by decide) (by decide)
      (fun h => absurd h (by decide))).1,
    (C32_rx_bus_access monitoredHub (quietEnv 200) staMac
      "CHECK 1 AA:BB:CC:DD:EE:01".toList (by decide) (by decide) (fun _ => by decide)).1⟩

/-- Counterexample to C32 as stated: handling a MONITOR frame, `onRecv` writes the LED of
channel 1 (off before, on after) and reads its switch (the debouncer is seeded with the level
read: pressed when the switch is pressed, released when it is not); handling a CLEAN frame it
turns that LED off again and reseeds the debouncer from the switch. -/
theorem C32_counterexample :
    idleHub.ledState 0 = false ∧
      (onRecv idleHub (quietEnv 100) staMac demoPayload).ledState 0 = true ∧
      (onRecv idleHub (quietEnv 100) staMac demoPayload).rawPrev 0 = false ∧
      (onRecv idleHub (withSw (quietEnv 100) (fun ch => decide (3 ≤ ch))) staMac
        demoPayload).rawPrev 0 = true ∧
      monitoredHub.ledState 0 = true ∧
      (onRecv monitoredHub (quietEnv 200) staMac "CLEAN AA:BB:CC:DD:EE:01".toList).ledState 0
        = false ∧
      (onRecv monitoredHub (quietEnv 200) staMac "CLEAN AA:BB:CC:DD:EE:01".toList).rawPrev 0
        = false ∧
      (onRecv monitoredHub (withSw (quietEnv 200) (fun ch => decide (3 ≤ ch))) staMac
        "CLEAN AA:BB:CC:DD:EE:01".toList).rawPrev 0 = true := by
  refine ⟨by decide, by decide, by decide, by decide, by decide, by decide, by decide,
    by decide⟩

/-! ## ACK frames at the Hub (C23) -/

/-- What an ACK frame does to the reliable-TX slot and to the radio log. -/
theorem onRecv_ack_slot (s : Hub) (e : Env) (src : Mac) (data : List Char)
    (hlen : data.length ≠ 0) (hsrc : isZeroMac src = false)
    (hA : startsWith "ACK ".toList (rxText data) = true) :
    (onRecv s e src data).hubAckActive
        = (s.hubAckActive && !(strtoul ((rxText data).drop 4) == s.hubAckId
            && src == s.hubAckMac)) ∧
      (onRecv s e src data).hubAckId = s.hubAckId ∧
      (onRecv s e src data).hubAckMac = s.hubAckMac ∧
      (onRecv s e src data).hubAckMsg = s.hubAckMsg ∧
      (onRecv s e src data).hubAckRetriesLeft = s.hubAckRetriesLeft ∧
      (onRecv s e src data).hubAckTimeoutMs = s.hubAckTimeoutMs ∧
      (onRecv s e src data).hubAckLastSend = s.hubAckLastSend ∧
      (onRecv s e src data).seq = s.seq ∧
      (onRecv s e src data).sent = s.sent ∧
      (onRecv s e src data).state = s.state ∧
      chanCore (onRecv s e src data) = chanCore s ∧
      (onRecv s e src data).lastSender = src ∧
      (onRecv s e src data).haveSender = true := by
  rw [onRecv_ack s e src data hlen hsrc hA]
  by_cases hm : (s.hubAckActive && strtoul ((rxText data).drop 4) == s.hubAckId
      && src == s.hubAckMac) = true
  · rw [if_pos hm]
    refine ⟨?_, rfl, rfl, rfl, rfl, rfl, rfl, rfl, rfl, rfl, rfl, rfl, rfl⟩
    simp only [Bool.and_eq_true] at hm
    obtain ⟨⟨h1, h2⟩, h3⟩ := hm
    show false = _
    rw [h1, h2, h3]
    rfl
  · rw [if_neg hm]
    refine ⟨?_, rfl, rfl, rfl, rfl, rfl, rfl, rfl, rfl, rfl, rfl, rfl, rfl⟩
    show s.hubAckActive = _
    cases ha : s.hubAckActive
    · rfl
    · rw [ha] at hm
      simp only [Bool.true_and] at hm
      have : (strtoul ((rxText data).drop 4) == s.hubAckId && src == s.hubAckMac) = false := by
        simpa using hm
      rw [this]
      rfl

theorem ackText_facts (k : Nat) (hk : k < U32) :
    ("ACK ".toList ++ fmtDec k).length ≠ 0 ∧
      startsWith "ACK ".toList (rxText ("ACK ".toList ++ fmtDec k)) = true ∧
      strtoul ((rxText ("ACK ".toList ++ fmtDec k)).drop 4) = k := by
  refine ⟨by simp, ?_, ?_⟩
  · rw [rxText_ack k hk, startsWith_iff]
    exact List.prefix_append _ _
  · rw [rxText_ack k hk]
    have : ("ACK ".toList ++ fmtDec k).drop 4 = fmtDec k := rfl
    rw [this, strtoul_fmtDec k hk]

/-- C23 (ACK correctness). For the frame `ACK k` (`k` a 32-bit id) received from a non-zero
source `src`: the outstanding slot is completed (it was active and is inactive afterwards)
iff it was active with `hubAckId = k` and `hubAckMac = src`; in every other case the active
flag is unchanged; the id, peer, message, retry count, interval, last-send time and the id
counter are unchanged in every case, and nothing is handed to the radio. -/
theorem C23_ack_correctness (s : Hub) (e : Env) (src : Mac) (k : Nat) (hk : k < U32)
    (hsrc : isZeroMac src = false) :
    ((s.hubAckActive = true ∧
        (onRecv s e src ("ACK ".toList ++ fmtDec k)).hubAckActive = false) ↔
      (s.hubAckActive = true ∧ s.hubAckId = k ∧ s.hubAckMac = src)) ∧
      (¬ (s.hubAckActive = true ∧ s.hubAckId = k ∧ s.hubAckMac = src) →
        (onRecv s e src ("ACK ".toList ++ fmtDec k)).hubAckActive = s.hubAckActive) ∧
      (onRecv s e src ("ACK ".toList ++ fmtDec k)).hubAckId = s.hubAckId ∧
      (onRecv s e src ("ACK ".toList ++ fmtDec k)).hubAckMac = s.hubAckMac ∧
      (onRecv s e src ("ACK ".toList ++ fmtDec k)).hubAckMsg = s.hubAckMsg ∧
      (onRecv s e src ("ACK ".toList ++ fmtDec k)).hubAckRetriesLeft = s.hubAckRetriesLeft ∧
      (onRecv s e src ("ACK ".toList ++ fmtDec k)).hubAckTimeoutMs = s.hubAckTimeoutMs ∧
      (onRecv s e src ("ACK ".toList ++ fmtDec k)).hubAckLastSend = s.hubAckLastSend ∧
      (onRecv s e src ("ACK ".toList ++ fmtDec k)).seq = s.seq ∧
      (onRecv s e src ("ACK ".toList ++ fmtDec k)).sent = s.sent := by
  obtain ⟨hlen, hA, hv⟩ := ackText_facts k hk
  obtain ⟨a, b, c, d, f, g, h, i, j, _⟩ :=
    onRecv_ack_slot s e src ("ACK ".toList ++ fmtDec k) hlen hsrc hA
  rw [hv] at a
  have hiff : (k == s.hubAckId && src == s.hubAckMac) = true ↔
      (s.hubAckId = k ∧ s.hubAckMac = src) := by
    simp only [Bool.and_eq_true, beq_iff_eq]
    constructor
    · rintro ⟨h1, h2⟩; exact ⟨h1.symm, h2.symm⟩
    · rintro ⟨h1, h2⟩; exact ⟨h1.symm, h2.symm⟩
  refine ⟨?_, ?_, b, c, d, f, g, h, i, j⟩
  · rw [a]
    constructor
    · rintro ⟨h1, h2⟩
      rw [h1] at h2
      simp only [Bool.true_and, Bool.not_eq_false'] at h2
      exact ⟨h1, hiff.1 h2⟩
    · rintro ⟨h1, h2⟩
      refine ⟨h1, ?_⟩
      rw [h1, hiff.2 h2]
      rfl
  · intro hn
    rw [a]
    cases ha : s.hubAckActive
    · rfl
    · have : ¬ (k == s.hubAckId && src == s.hubAckMac) = true := fun hc =>
        hn ⟨ha, hiff.1 hc⟩
      have h2 : (k == s.hubAckId && src == s.hubAckMac) = false := by simpa using this
      rw [h2]
      rfl

theorem sendRun1_slot :
    (sendRun 1).hubAckActive = true ∧ (sendRun 1).hubAckId = 1000 ∧
      (sendRun 1).hubAckMac = staMac :=
  ⟨by decide, by decide, by decide⟩

/-- Witness of C23: after `PING` was sent reliably to the station with id 1000, the frame
`ACK 1000` from the station completes the slot, and `ACK 1000` from another address does
not. -/
theorem C23_ack_correctness_witness :
    (sendRun 1).hubAckActive = true ∧
      (onRecv (sendRun 1) (quietEnv 150) staMac ("ACK ".toList ++ fmtDec 1000)).hubAckActive
        = false ∧
      (onRecv (sendRun 1) (quietEnv 150) [2, 0, 0, 0, 0, 9]
        ("ACK ".toList ++ fmtDec 1000)).hubAckActive = true := by
  obtain ⟨a, b, c⟩ := sendRun1_slot
  have h1 := (C23_ack_correctness (sendRun 1) (quietEnv 150) staMac 1000 (by decide)
    (by decide)).1.2 ⟨a, b, c⟩
  have h2 := (C23_ack_correctness (sendRun 1) (quietEnv 150) [2, 0, 0, 0, 0, 9] 1000
    (by decide) (by decide)).2.1 (fun h => by
      rw [c] at h
      exact absurd h.2.2 (by decide))
  exact ⟨a, h1.2, h2.trans a⟩

/-! ## WELCOME and CLEAN (C25, C26) -/

theorem sendCmd_load (s : Hub) (e : Env) (msg : List Char) (peer : Mac)
    (hz : isZeroMac peer = false) (hb : (peer == bcastMac) = false) :
    sendCmd s e msg (some peer) = serviceAckTx (loadSlot s msg peer) e := by
  unfold sendCmd resolveTarget
  simp only [hz, Bool.false_eq_true, if_false, hb]
  rfl

/-- A reliable send in SELF_CHECK loads the slot and drops it at once: nothing is
transmitted. -/
theorem sendCmd_selfcheck (s : Hub) (e : Env) (msg : List Char) (peer : Mac)
    (hz : isZeroMac peer = false) (hb : (peer == bcastMac) = false)
    (hst : s.state = State.SELF_CHECK) :
    (sendCmd s e msg (some peer)).sent = s.sent ∧
      (sendCmd s e msg (some peer)).hubAckActive = false ∧
      (sendCmd s e msg (some peer)).seq = (s.seq + 1) % U32 := by
  rw [sendCmd_load s e msg peer hz hb]
  have h1 : (loadSlot s msg peer).state = State.SELF_CHECK := hst
  unfold serviceAckTx
  rw [if_neg (by simp [loadSlot]), if_pos h1]
  exact ⟨rfl, rfl, rfl⟩

theorem replyRaw_slot (s : Hub) (e : Env) (msg : List Char) :
    slotCore (replyRaw s e msg) = slotCore s :=
  congrArg (fun x => x.2.2.1) (replyRaw_keep s e msg)

theorem dispatchVerb_WELCOME (s1 : Hub) (e : Env) (rx data : List Char)
    (h : startsWith "WELCOME".toList rx = true) :
    dispatchVerb s1 e rx data =
      { replyReliable (replyRaw s1 e "WELCOME".toList) e "READY".toList with
        state := State.WELCOME, welcomeEdgeCount := 0 } := by
  unfold dispatchVerb
  rw [if_pos h]

/-- C25 (WELCOME handshake), amended. On a frame whose text starts with `WELCOME`, from a
source that is neither the zero nor the broadcast address and that the driver accepts, in
any Hub state: the state becomes WELCOME and `welcomeEdgeCount` 0; after the ACK of an
ID-framed frame, `WELCOME` is handed to the radio raw for the sender; outside SELF_CHECK it
is followed by the reliable frame `READY ID=<seq>` to the sender (the text carries no board
MAC), which the slot holds; in SELF_CHECK no READY frame is handed to the radio and the slot
is left inactive. -/
theorem C25_welcome_handshake (s : Hub) (e : Env) (src : Mac) (data : List Char)
    (hlen : data.length ≠ 0) (hsrc : isZeroMac src = false)
    (hb : (src == bcastMac) = false) (hok : e.peerOk = true)
    (hW : startsWith "WELCOME".toList (rxText data) = true) :
    (onRecv s e src data).state = State.WELCOME ∧
      (onRecv s e src data).welcomeEdgeCount = 0 ∧
      (s.state ≠ State.SELF_CHECK →
        (onRecv s e src data).sent = (afterAck s e src data).sent ++
          [{ dest := src, text := "WELCOME".toList },
           { dest := src, text := framed "READY".toList s.seq }] ∧
        (onRecv s e src data).hubAckActive = true ∧
        (onRecv s e src data).hubAckMac = src ∧
        (onRecv s e src data).hubAckMsg = framed "READY".toList s.seq ∧
        (onRecv s e src data).hubAckId = s.seq) ∧
      (s.state = State.SELF_CHECK →
        (onRecv s e src data).sent = (afterAck s e src data).sent ++
          [{ dest := src, text := "WELCOME".toList }] ∧
        (onRecv s e src data).hubAckActive = false) ∧
      (s.seq < U32 →
        framed "READY".toList s.seq = "READY ID=".toList ++ fmtDec s.seq) ∧
      ((afterAck s e src data).sent = s.sent ∨ ∃ d id, (afterAck s e src data).sent = s.sent ++
        [{ dest := d, text := snprintf 24 ("ACK ".toList ++ fmtDec id) }]) := by
  have hA := verb_excl _ _ hW "ACK ".toList (by decide) (by decide)
  have hp1 := afterAck_peer s e src data hsrc
  have hst1 : (afterAck s e src data).state = s.state :=
    congrArg ChanCore.state (afterAck_core s e src data)
  have hseq1 : (afterAck s e src data).seq = s.seq :=
    congrArg SlotCore.seq (autoAck_slot _ _ _ _ _)
  have hraw := replyRaw_unicast (afterAck s e src data) e "WELCOME".toList src hp1 hb hok
  have hp2 : getTarget (replyRaw (afterAck s e src data) e "WELCOME".toList) = some src :=
    (getTarget_of_slot _ _ (replyRaw_slot _ _ _)).trans hp1
  have hst2 : (replyRaw (afterAck s e src data) e "WELCOME".toList).state = s.state :=
    (congrArg ChanCore.state (replyRaw_core _ _ _)).trans hst1
  have hseq2 : (replyRaw (afterAck s e src data) e "WELCOME".toList).seq = s.seq :=
    (congrArg SlotCore.seq (replyRaw_slot _ _ _)).trans hseq1
  rw [onRecv_verb s e src data hlen hsrc hA, dispatchVerb_WELCOME _ e _ data hW]
  refine ⟨rfl, rfl, fun hns => ?_, fun hsc => ?_, fun hlt => ?_, autoAck_sent _ _ _ _ _⟩
  · obtain ⟨r1, r2, r3, r4, r5, _⟩ := replyReliable_unicast
      (replyRaw (afterAck s e src data) e "WELCOME".toList) e "READY".toList src hp2 hb
      (by rw [hst2]; exact hns) hok
    rw [hseq2] at r1 r4 r5
    rw [hraw] at r1
    refine ⟨?_, r2, r3, r4, r5⟩
    refine Eq.trans (b := (replyReliable (replyRaw (afterAck s e src data) e
      "WELCOME".toList) e "READY".toList).sent) rfl ?_
    rw [r1]
    simp
  · have he : replyReliable (replyRaw (afterAck s e src data) e "WELCOME".toList) e
        "READY".toList
        = sendCmd (replyRaw (afterAck s e src data) e "WELCOME".toList) e "READY".toList
            (some src) := by
      unfold replyReliable
      rw [hp2]
    obtain ⟨q1, q2, _⟩ := sendCmd_selfcheck
      (replyRaw (afterAck s e src data) e "WELCOME".toList) e "READY".toList src hsrc hb
      (by rw [hst2]; exact hsc)
    rw [← he, hraw] at q1
    rw [← he] at q2
    exact ⟨q1, q2⟩
  · apply framed_fit
    have := fmtDec_length s.seq hlt
    simp only [List.length_append]
    have h1 : "READY".toList.length = 5 := rfl
    have h2 : " ID=".toList.length = 4 := rfl
    omega

/-- Witness of C25: in `waitHub` the frame `WELCOME <MAC> ID=3` from the station is answered
by `ACK 3`, `WELCOME` and `READY ID=1000`; in `idleHub` (SELF_CHECK) no READY frame follows. -/
theorem C25_welcome_handshake_witness :
    (onRecv waitHub (quietEnv 100) staMac "WELCOME AA:BB:CC:DD:EE:01 ID=3".toList).sent
        = [{ dest := staMac, text := "ACK 3".toList },
           { dest := staMac, text := "WELCOME".toList },
           { dest := staMac, text := "READY ID=1000".toList }] ∧
      (onRecv idleHub (quietEnv 100) staMac "WELCOME AA:BB:CC:DD:EE:01 ID=3".toList).sent
        = [{ dest := staMac, text := "ACK 3".toList },
           { dest := staMac, text := "WELCOME".toList }] := by
  have h1 := (C25_welcome_handshake waitHub (quietEnv 100) staMac
    "WELCOME AA:BB:CC:DD:EE:01 ID=3".toList (by decide) (by decide) (by decide) (by decide)
    (by decide)).2.2.1 (by decide)
  have h2 := (C25_welcome_handshake idleHub (quietEnv 100) staMac
    "WELCOME AA:BB:CC:DD:EE:01 ID=3".toList (by decide) (by decide) (by decide) (by decide)
    (by decide)).2.2.2.1 (by decide)
  refine ⟨h1.1.trans (by decide), h2.1.trans (by decide)⟩

/-- Counterexample to C25 as stated: the reliable frame is `READY ID=1000`, without the
board MAC, and in SELF_CHECK (`idleHub`) the Hub hands only `ACK 3` and `WELCOME` to the
radio: the READY frame is not transmitted and the slot is inactive. -/
theorem C25_counterexample :
    (onRecv waitHub (quietEnv 100) staMac
        "WELCOME AA:BB:CC:DD:EE:01 ID=3".toList).sent.getLast?
        = some { dest := staMac, text := "READY ID=1000".toList } ∧
      idleHub.state = State.SELF_CHECK ∧
      (onRecv idleHub (quietEnv 100) staMac "WELCOME AA:BB:CC:DD:EE:01 ID=3".toList).sent
        = [{ dest := staMac, text := "ACK 3".toList },
           { dest := staMac, text := "WELCOME".toList }] ∧
      (onRecv idleHub (quietEnv 100) staMac
        "WELCOME AA:BB:CC:DD:EE:01 ID=3".toList).hubAckActive = false ∧
      (onRecv idleHub (quietEnv 100) staMac
        "WELCOME AA:BB:CC:DD:EE:01 ID=3".toList).state = State.WELCOME := by
  refine ⟨by decide, by decide, by decide, by decide, by decide⟩

/-! ## CLEAN (C26) -/

theorem cleanAll_keep {π : Type} (proj : Hub → π)
    (h1 : ∀ (h : Hub) (ch : Nat) (v : Bool), proj (setLed h ch v) = proj h)
    (h2 : ∀ (h : Hub) (sw : Nat → Bool) (now ch : Nat), proj (reseed h sw now ch) = proj h)
    (h3 : ∀ (h : Hub) (g : Bool),
      proj { h with monNormal := fun _ => false, monLatch := fun _ => false,
                    latched := fun _ => false, ignoredCh := fun _ => false,
                    checkSelect := fun _ => false, checkActive := false,
                    needReleaseGate := g } = proj h)
    (h4 : ∀ (h : Hub) (g : Bool), proj { h with needReleaseGate := g } = proj h)
    (s : Hub) (e : Env) : proj (cleanAll s e) = proj s := by
  unfold cleanAll
  simp only []
  rw [h4]
  have hf := foldl_keep proj (fun (acc : Hub) ch => setLed (reseed acc e.sw e.now ch) ch false)
    (List.range CHANNEL_COUNT)
    { s with monNormal := fun _ => false, monLatch := fun _ => false,
             latched := fun _ => false, ignoredCh := fun _ => false,
             checkSelect := fun _ => false, checkActive := false }
    (fun a x => by rw [h1, h2])
  rw [hf]
  exact h3 s s.needReleaseGate

theorem serviceAckTx_due_eq (s : Hub) (e : Env) (h : ackDue s e = true) :
    serviceAckTx s e =
      if ({ (if !ensurePeer e s.hubAckMac then s else espNowSend s s.hubAckMac s.hubAckMsg)
            with hubAckLastSend := e.now } : Hub).hubAckRetriesLeft > 0 then
        { (if !ensurePeer e s.hubAckMac then s else espNowSend s s.hubAckMac s.hubAckMsg) with
          hubAckLastSend := e.now
          hubAckRetriesLeft :=
            ({ (if !ensurePeer e s.hubAckMac then s
                else espNowSend s s.hubAckMac s.hubAckMsg)
                with hubAckLastSend := e.now } : Hub).hubAckRetriesLeft - 1
          hubAckTimeoutMs :=
            if (({ (if !ensurePeer e s.hubAckMac then s
                else espNowSend s s.hubAckMac s.hubAckMsg)
                with hubAckLastSend := e.now } : Hub).hubAckTimeoutMs + 80) % U32 > 640 then 640
            else (({ (if !ensurePeer e s.hubAckMac then s
                else espNowSend s s.hubAckMac s.hubAckMsg)
                with hubAckLastSend := e.now } : Hub).hubAckTimeoutMs + 80) % U32 }
      else
        { (if !ensurePeer e s.hubAckMac then s else espNowSend s s.hubAckMac s.hubAckMsg) with
          hubAckLastSend := e.now, hubAckActive := false, hubAckTimeoutMs := 240 } := by
  unfold ackDue at h
  simp only [Bool.and_eq_true, decide_eq_true_eq, Bool.or_eq_true] at h
  obtain ⟨⟨ha, hs⟩, hd⟩ := h
  unfold serviceAckTx
  rw [if_neg (by rw [ha]; simp), if_neg hs]
  simp only []
  rw [if_pos hd]

theorem sendOrNot_fields (s : Hub) (e : Env) :
    (if !ensurePeer e s.hubAckMac then s else espNowSend s s.hubAckMac s.hubAckMsg).sent
        = (if ensurePeer e s.hubAckMac then
            s.sent ++ [({ dest := s.hubAckMac, text := s.hubAckMsg } : Frame)] else s.sent) ∧
      slotCore (if !ensurePeer e s.hubAckMac then s
        else espNowSend s s.hubAckMac s.hubAckMsg) = slotCore s := by
  cases ensurePeer e s.hubAckMac
  · exact ⟨rfl, rfl⟩
  · exact ⟨rfl, rfl⟩

theorem serviceAckTx_due (s : Hub) (e : Env) (h : ackDue s e = true) :
    (serviceAckTx s e).sent
        = (if ensurePeer e s.hubAckMac then
            s.sent ++ [({ dest := s.hubAckMac, text := s.hubAckMsg } : Frame)] else s.sent) ∧
      (serviceAckTx s e).hubAckActive = decide (s.hubAckRetriesLeft > 0) ∧
      (serviceAckTx s e).hubAckRetriesLeft = s.hubAckRetriesLeft - 1 ∧
      (serviceAckTx s e).hubAckLastSend = e.now ∧
      (serviceAckTx s e).hubAckTimeoutMs
        = (if s.hubAckRetriesLeft > 0 then
            (if (s.hubAckTimeoutMs + 80) % U32 > 640 then 640
              else (s.hubAckTimeoutMs + 80) % U32)
          else 240) ∧
      (serviceAckTx s e).hubAckMsg = s.hubAckMsg ∧
      (serviceAckTx s e).hubAckMac = s.hubAckMac := by
  have ha : s.hubAckActive = true := by
    unfold ackDue at h
    simp only [Bool.and_eq_true] at h
    exact h.1.1
  rw [serviceAckTx_due_eq s e h]
  obtain ⟨f1, f2⟩ := sendOrNot_fields s e
  generalize (if !ensurePeer e s.hubAckMac then s
    else espNowSend s s.hubAckMac s.hubAckMsg) = s1 at f1 f2 ⊢
  have r1 : s1.hubAckRetriesLeft = s.hubAckRetriesLeft := congrArg SlotCore.hubAckRetriesLeft f2
  have r2 : s1.hubAckTimeoutMs = s.hubAckTimeoutMs := congrArg SlotCore.hubAckTimeoutMs f2
  have r3 : s1.hubAckMsg = s.hubAckMsg := congrArg SlotCore.hubAckMsg f2
  have r4 : s1.hubAckMac = s.hubAckMac := congrArg SlotCore.hubAckMac f2
  have r5 : s1.hubAckActive = true := (congrArg SlotCore.hubAckActive f2).trans ha
  have c1 : ({ s1 with hubAckLastSend := e.now } : Hub).hubAckRetriesLeft
      = s.hubAckRetriesLeft := r1
  have c2 : ({ s1 with hubAckLastSend := e.now } : Hub).hubAckTimeoutMs
      = s.hubAckTimeoutMs := r2
  rw [c1, c2]
  by_cases hr : s.hubAckRetriesLeft > 0
  · rw [if_pos hr, if_pos hr]
    refine ⟨f1, ?_, rfl, rfl, rfl, r3, r4⟩
    show s1.hubAckActive = _
    rw [r5]
    exact (decide_eq_true hr).symm
  · rw [if_neg hr, if_neg hr]
    refine ⟨f1, ?_, ?_, rfl, rfl, r3, r4⟩
    · exact (decide_eq_false hr).symm
    · show s1.hubAckRetriesLeft = _
      rw [r1]
      omega

theorem serviceAckTx_idle (s : Hub) (e : Env) (h : ackDue s e = false) :
    (serviceAckTx s e).sent = s.sent ∧
      ((serviceAckTx s e).hubAckActive = true → s.hubAckActive = true) ∧
      (serviceAckTx s e).hubAckRetriesLeft = s.hubAckRetriesLeft ∧
      (serviceAckTx s e).hubAckMsg = s.hubAckMsg ∧
      (serviceAckTx s e).hubAckMac = s.hubAckMac ∧
      (s.hubAckActive = false → serviceAckTx s e = s) ∧
      (s.state ≠ State.SELF_CHECK → serviceAckTx s e = s) := by
  unfold serviceAckTx
  by_cases ha : s.hubAckActive = true
  · rw [if_neg (by rw [ha]; simp)]
    by_cases hs : s.state = State.SELF_CHECK
    · rw [if_pos hs]
      exact ⟨rfl, fun _ => ha, rfl, rfl, rfl, fun h2 => absurd ha (by rw [h2]; simp),
        fun h2 => absurd hs h2⟩
    · rw [if_neg hs]
      simp only []
      have hd : ¬ (s.hubAckLastSend = 0 ∨ subU32 e.now s.hubAckLastSend ≥ s.hubAckTimeoutMs) := by
        intro hd
        unfold ackDue at h
        rw [ha] at h
        have : ackDue s e = true := by
          unfold ackDue
          simp only [ha, Bool.true_and, Bool.and_eq_true, decide_eq_true_eq, Bool.or_eq_true]
          exact ⟨hs, hd⟩
        unfold ackDue at this
        rw [ha] at this
        rw [this] at h
        cases h
      rw [if_neg hd]
      exact ⟨rfl, fun h2 => h2, rfl, rfl, rfl, fun _ => rfl, fun _ => rfl⟩
  · have ha2 : s.hubAckActive = false := by simpa using ha
    rw [if_pos (by rw [ha2]; rfl)]
    exact ⟨rfl, fun h2 => h2, rfl, rfl, rfl, fun _ => rfl, fun _ => rfl⟩

theorem serviceAckTx_sent (s : Hub) (e : Env) :
    (serviceAckTx s e).sent
      = if ackTransmits s e then
          s.sent ++ [({ dest := s.hubAckMac, text := s.hubAckMsg } : Frame)] else s.sent := by
  unfold ackTransmits
  cases hd : ackDue s e
  · simp only [Bool.false_and, Bool.false_eq_true, if_false]
    exact (serviceAckTx_idle s e hd).1
  · simp only [Bool.true_and]
    exact (serviceAckTx_due s e hd).1

theorem serviceAckTx_budget (s : Hub) (e : Env) :
    slotBudget (serviceAckTx s e) + (if ackTransmits s e then 1 else 0) ≤ slotBudget s := by
  unfold ackTransmits
  cases hd : ackDue s e
  · simp only [Bool.false_and, Bool.false_eq_true, if_false, Nat.add_zero]
    obtain ⟨_, i2, i3, _⟩ := serviceAckTx_idle s e hd
    unfold slotBudget
    by_cases ha : (serviceAckTx s e).hubAckActive = true
    · rw [if_pos ha, if_pos (i2 ha), i3]
    · rw [if_neg ha]
      exact Nat.zero_le _
  · obtain ⟨_, d2, d3, _⟩ := serviceAckTx_due s e hd
    have ha : s.hubAckActive = true := by
      unfold ackDue at hd
      simp only [Bool.and_eq_true] at hd
      exact hd.1.1
    unfold slotBudget
    rw [d2, d3, if_pos ha]
    simp only [Bool.true_and, decide_eq_true_eq]
    by_cases hr : s.hubAckRetriesLeft > 0
    · rw [if_pos hr]
      split_ifs <;> omega
    · rw [if_neg hr]
      split_ifs <;> omega

/-- A run of `serviceAckTx()` calls between which nothing writes the active flag and the
retry count of the slot: the transmissions made and the budget left never exceed the budget
at the start. -/
theorem retry_run (u : Nat → Hub) (e : Nat → Env)
    (hlink : ∀ k, (u (k + 1)).hubAckActive = (serviceAckTx (u k) (e k)).hubAckActive ∧
      (u (k + 1)).hubAckRetriesLeft = (serviceAckTx (u k) (e k)).hubAckRetriesLeft) (n : Nat) :
    txCount u e n + slotBudget (u n) ≤ slotBudget (u 0) := by
  induction n with
  | zero => simp [txCount]
  | succ n ih =>
    have hb := serviceAckTx_budget (u n) (e n)
    have hl : slotBudget (u (n + 1)) = slotBudget (serviceAckTx (u n) (e n)) := by
      unfold slotBudget
      rw [(hlink n).1, (hlink n).2]
    rw [hl]
    unfold txCount
    omega

theorem inactive_stays (u : Nat → Hub) (e : Nat → Env)
    (hlink : ∀ k, (u (k + 1)).hubAckActive = (serviceAckTx (u k) (e k)).hubAckActive ∧
      (u (k + 1)).hubAckRetriesLeft = (serviceAckTx (u k) (e k)).hubAckRetriesLeft)
    (n : Nat) (hn : (u n).hubAckActive = false) (m : Nat) (hm : n ≤ m) :
    (u m).hubAckActive = false := by
  induction m with
  | zero =>
    have : n = 0 := by omega
    subst this
    exact hn
  | succ m ih =>
    by_cases h : n = m + 1
    · subst h; exact hn
    · have hprev := ih (by omega)
      rw [(hlink m).1]
      have hd : ackDue (u m) (e m) = false := by
        unfold ackDue
        rw [hprev]
        rfl
      rw [(serviceAckTx_idle (u m) (e m) hd).2.2.2.2.2.1 hprev]
      exact hprev

/-- C21 (bounded retry). Let `u 0` be the state in which `sendCmd(msg, peer)` calls
`serviceAckTx()` (the slot just loaded with the framed message, 4 retries left), and let
`u k`, `e k` be the states and environments of the `serviceAckTx()` calls that follow, where
between two calls nothing writes the active flag, the retry count, the message or the peer of
the slot (no matching ACK, no newer send). Then the call of `sendCmd` is the first of these
calls; each call hands to the radio the framed message for the peer or nothing; among any
number of calls at most 5 hand it to the radio; and once 5 did, the slot is inactive and no
later call hands anything to the radio. -/
theorem C21_bounded_retry (u : Nat → Hub) (e : Nat → Env) (s : Hub) (msg : List Char)
    (peer : Mac) (h0 : u 0 = loadSlot s msg peer)
    (hlink : ∀ k, (u (k + 1)).hubAckActive = (serviceAckTx (u k) (e k)).hubAckActive ∧
      (u (k + 1)).hubAckRetriesLeft = (serviceAckTx (u k) (e k)).hubAckRetriesLeft ∧
      (u (k + 1)).hubAckMsg = (serviceAckTx (u k) (e k)).hubAckMsg ∧
      (u (k + 1)).hubAckMac = (serviceAckTx (u k) (e k)).hubAckMac) :
    (isZeroMac peer = false → (peer == bcastMac) = false →
        sendCmd s (e 0) msg (some peer) = serviceAckTx (u 0) (e 0)) ∧
      (∀ k, (serviceAckTx (u k) (e k)).sent
        = if ackTransmits (u k) (e k) then
            (u k).sent ++ [({ dest := peer, text := framed msg s.seq } : Frame)]
          else (u k).sent) ∧
      (∀ n, txCount u e n ≤ 5) ∧
      (∀ n, txCount u e n = 5 → (u n).hubAckActive = false ∧
        ∀ m, n ≤ m → ackTransmits (u m) (e m) = false ∧
          (serviceAckTx (u m) (e m)).sent = (u m).sent) := by
  have hl2 : ∀ k, (u (k + 1)).hubAckActive = (serviceAckTx (u k) (e k)).hubAckActive ∧
      (u (k + 1)).hubAckRetriesLeft = (serviceAckTx (u k) (e k)).hubAckRetriesLeft :=
    fun k => ⟨(hlink k).1, (hlink k).2.1⟩
  have hb0 : slotBudget (u 0) = 5 := by rw [h0]; rfl
  have hkeep : ∀ k, (u k).hubAckMsg = framed msg s.seq ∧ (u k).hubAckMac = peer := by
    intro k
    induction k with
    | zero => rw [h0]; exact ⟨rfl, rfl⟩
    | succ k ih =>
      have hm : (serviceAckTx (u k) (e k)).hubAckMsg = (u k).hubAckMsg ∧
          (serviceAckTx (u k) (e k)).hubAckMac = (u k).hubAckMac := by
        cases hd : ackDue (u k) (e k)
        · exact ⟨(serviceAckTx_idle _ _ hd).2.2.2.1, (serviceAckTx_idle _ _ hd).2.2.2.2.1⟩
        · exact ⟨(serviceAckTx_due _ _ hd).2.2.2.2.2.1, (serviceAckTx_due _ _ hd).2.2.2.2.2.2⟩
      rw [(hlink k).2.2.1, (hlink k).2.2.2, hm.1, hm.2]
      exact ih
  refine ⟨fun hz hb => ?_, fun k => ?_, fun n => ?_, fun n hn => ?_⟩
  · rw [h0]
    exact sendCmd_load s (e 0) msg peer hz hb
  · rw [serviceAckTx_sent, (hkeep k).1, (hkeep k).2]
  · have := retry_run u e hl2 n
    omega
  · have hr := retry_run u e hl2 n
    have hz : slotBudget (u n) = 0 := by omega
    have hina : (u n).hubAckActive = false := by
      unfold slotBudget at hz
      by_contra hc
      have hc2 : (u n).hubAckActive = true := by simpa using hc
      rw [if_pos hc2] at hz
      omega
    refine ⟨hina, fun m hm => ?_⟩
    have hi := inactive_stays u e hl2 n hina m hm
    have hd : ackDue (u m) (e m) = false := by
      unfold ackDue
      rw [hi]
      rfl
    refine ⟨by unfold ackTransmits; rw [hd]; rfl, (serviceAckTx_idle _ _ hd).1⟩

/-- Witness of C21: the reliable `PING` to the station, serviced every 700 ms without an ACK:
the first five calls (the one in `sendCmd` and four retransmissions) hand the frame to the
radio, after which the slot is inactive. -/
theorem C21_bounded_retry_witness :
    txCount retryRun retryEnv 5 = 5 ∧ (retryRun 5).hubAckActive = false ∧
      (retryRun 5).sent.length = 5 ∧
      (serviceAckTx (retryRun 7) (retryEnv 7)).sent = (retryRun 7).sent := by
  have hc : txCount retryRun retryEnv 5 = 5 := by decide
  have h := (C21_bounded_retry retryRun retryEnv waitHub "PING".toList staMac rfl
    (fun k => ⟨rfl, rfl, rfl, rfl⟩)).2.2.2 5 hc
  exact ⟨hc, h.1, by decide, (h.2 7 (by omega)).2⟩

/-! ## The radio part of the state is left alone by the channel engine -/

theorem foldl_mem {α β : Type} (P : α → Prop) (f : α → β → α) (l : List β) (a : α)
    (hf : ∀ x b, b ∈ l → P x → P (f x b)) (ha : P a) : P (l.foldl f a) := by
  induction l generalizing a with
  | nil => exact ha
  | cons b bs ih =>
    exact ih _ (fun x c hc hx => hf x c (List.mem_cons_of_mem _ hc) hx)
      (hf a b (List.mem_cons_self _ _) ha)

theorem setLed_wire (s : Hub) (ch : Nat) (v : Bool) : wireKey (setLed s ch v) = wireKey s := by
  rw [setLed_eq]; rfl

theorem allLeds_wire (s : Hub) (v : Bool) : wireKey (allLeds s v) = wireKey s := by
  unfold allLeds
  exact foldl_keep wireKey _ _ _ (fun a x => setLed_wire a x v)

theorem debouncedPressed_wire (s : Hub) (sw : Nat → Bool) (ch now : Nat) :
    wireKey (debouncedPressed s sw ch now).1 = wireKey s := by
  unfold debouncedPressed
  simp only []
  split_ifs <;> rfl

theorem classifyChannel_wire (s : Hub) (sw : Nat → Bool) (now : Nat) (l : Bool) (ch : Nat) :
    wireKey (classifyChannel s sw now l ch) = wireKey s := by
  unfold classifyChannel
  simp only [setLed_eq]
  split_ifs <;> rfl

theorem monitorToken_wire (sw : Nat → Bool) (now : Nat) (a : MonitorScan) (tok : List Char) :
    wireKey (monitorToken sw now a tok).hub = wireKey a.hub := by
  unfold monitorToken
  split_ifs
  · rfl
  · rfl
  · rfl
  · split
    · rfl
    · exact classifyChannel_wire _ _ _ _ _

theorem parseMonitorPayload_wire (s : Hub) (sw : Nat → Bool) (now : Nat) (data : List Char) :
    wireKey (parseMonitorPayload s sw now data) = wireKey s := by
  unfold parseMonitorPayload
  split
  · rfl
  · rename_i toks _
    simp only []
    have h := foldl_keep (fun a : MonitorScan => wireKey a.hub) (monitorToken sw now) toks
      { hub := s, latchMode := false, skipCount := false }
      (fun a x => monitorToken_wire sw now a x)
    split_ifs
    · exact Eq.trans rfl h
    · exact h

theorem parseCheckSelection_wire (s : Hub) (rx : List Char) :
    wireKey (parseCheckSelection s rx) = wireKey s :=
  parseCheckSelection_keep wireKey (fun _ _ => rfl) (fun _ _ => rfl) s rx

theorem startStreaming_wire (s : Hub) (b : Bool) : wireKey (startStreaming s b) = wireKey s := by
  unfold startStreaming
  simp only []
  split_ifs <;> rfl

theorem cleanAll_wire (s : Hub) (e : Env) : wireKey (cleanAll s e) = wireKey s :=
  cleanAll_keep wireKey (fun h ch v => setLed_wire h ch v) (fun _ _ _ _ => rfl)
    (fun _ _ => rfl) (fun _ _ => rfl) s e

theorem goDarkAndIdle_wire (s : Hub) (e : Env) : wireKey (goDarkAndIdle s e) = wireKey s := by
  unfold goDarkAndIdle
  simp only []
  exact (Eq.trans rfl (allLeds_wire _ false)).trans ((cleanAll_wire _ e).trans rfl)

theorem checkAllEval_wire (r : Bool) (p : Nat → Bool) (a : CheckScan) (ch : Nat) :
    wireKey (checkAllEval r p a ch).hub = wireKey a.hub := by
  unfold checkAllEval
  simp only [setLed_eq]
  split_ifs <;> rfl

theorem releaseGate_wire (s : Hub) (e : Env) : wireKey (releaseGate s e) = wireKey s := by
  unfold releaseGate
  exact (foldl_keep wireKey _ _ _ (fun a x => by simp only []; split_ifs <;> rfl)).trans rfl

theorem monitorLed_wire (f : Bool) (p : Nat → Bool) (s : Hub) (ch : Nat) :
    wireKey (monitorLed f p s ch) = wireKey s := by
  unfold monitorLed
  simp only [setLed_eq]
  split_ifs <;> rfl

theorem doSelfCheck_wire (s : Hub) (e : Env) : wireKey (doSelfCheck s e) = wireKey s := by
  unfold doSelfCheck
  simp only []
  have h := foldl_keep (fun a : Hub × Bool => wireKey a.1)
    (fun (acc : Hub × Bool) ch =>
      (setLed acc.1 ch (acc.1.blinkState && isPressedRaw e.sw ch),
        acc.2 || isPressedRaw e.sw ch))
    (List.range CHANNEL_COUNT) (s, false) (fun a x => setLed_wire _ _ _)
  split_ifs
  · exact Eq.trans rfl h
  · exact h

theorem idleLeds_wire (s : Hub) (e : Env) : wireKey (idleLeds s e) = wireKey s := by
  unfold idleLeds
  exact foldl_keep wireKey _ _ _ (fun a x => setLed_wire _ _ _)

theorem blinkClock_wire (s : Hub) (now : Nat) : wireKey (blinkClock s now) = wireKey s := by
  unfold blinkClock
  simp only []
  split_ifs
  · exact (Eq.trans rfl (allLeds_wire _ false)).trans ((allLeds_wire _ _).trans rfl)
  · exact (allLeds_wire _ _).trans rfl
  · rfl
  · rfl

/-! ## Every radio operation keeps a radio invariant -/

theorem sendCmdRaw_inv {Q : WireKey → Prop} (W : WireInv Q) (s : Hub) (e : Env)
    (msg : List Char) (dest : Option Mac) (hm : WireText s.BOARD_MAC msg)
    (h : Q (wireKey s)) : Q (wireKey (sendCmdRaw s e msg dest)) := by
  unfold sendCmdRaw
  split
  · exact h
  · split_ifs
    · exact h
    · exact W.raw (wireKey s) _ _ hm h

theorem sendCmd_inv {Q : WireKey → Prop} (W : WireInv Q) (s : Hub) (e : Env)
    (msg : List Char) (dest : Option Mac) (hm : RelText s.BOARD_MAC msg)
    (h : Q (wireKey s)) : Q (wireKey (sendCmd s e msg dest)) := by
  unfold sendCmd
  split
  · exact h
  · split_ifs
    · exact sendCmdRaw_inv W _ _ _ _ (Or.inr hm) h
    · simp only []
      exact W.service _ e (W.load (wireKey s) msg _ hm h)

theorem replyRaw_inv {Q : WireKey → Prop} (W : WireInv Q) (s : Hub) (e : Env)
    (msg : List Char) (hm : RawText s.BOARD_MAC msg) (h : Q (wireKey s)) :
    Q (wireKey (replyRaw s e msg)) := by
  unfold replyRaw
  split
  · exact sendCmdRaw_inv W _ _ _ _ (Or.inl hm) h
  · exact h

theorem replyReliable_inv {Q : WireKey → Prop} (W : WireInv Q) (s : Hub) (e : Env)
    (msg : List Char) (hm : RelText s.BOARD_MAC msg) (h : Q (wireKey s)) :
    Q (wireKey (replyReliable s e msg)) := by
  unfold replyReliable
  split
  · exact sendCmd_inv W _ _ _ _ hm h
  · exact h

theorem triggerHello_inv {Q : WireKey → Prop} (W : WireInv Q) (s : Hub)
    (h : Q (wireKey s)) : Q (wireKey (triggerHello s)) :=
  W.hello (wireKey s) h

theorem evText_raw (mac k : List Char) (ch : Nat) (v : Bool) (hk : k = ['P'] ∨ k = ['L'])
    (hch : ch < CHANNEL_COUNT) :
    WireText mac (snprintf 48 ("EV ".toList ++ k ++ [' '] ++ fmtDec (ch + 1) ++ [' ']
      ++ (if v then ['1'] else ['0']) ++ [' '] ++ mac)) :=
  Or.inl (Or.inr (Or.inr (Or.inr (Or.inr (Or.inr (Or.inl ⟨k, ch, v, hk, hch, rfl⟩))))))

theorem sendEvent_inv {Q : WireKey → Prop} (W : WireInv Q) (s : Hub) (e : Env) (k : EvKind)
    (ch : Nat) (v : Bool) (hch : ch < CHANNEL_COUNT) (h : Q (wireKey s)) :
    Q (wireKey (sendEvent s e k ch v)) := by
  unfold sendEvent
  cases k
  · simp only []
    by_cases h1 : (!s.streamActive) = true
    · rw [if_pos h1]; exact h
    · rw [if_neg h1]
      by_cases h2 : decide (subU32 e.now (s.lastEventSentP ch) < MIN_EVENT_GAP_MS) = true
      · rw [if_pos h2]; exact h
      · rw [if_neg h2]
        split
        · exact h
        · exact sendCmdRaw_inv W _ _ _ _ (evText_raw s.BOARD_MAC ['P'] ch v (Or.inl rfl) hch) h
  · simp only []
    by_cases h1 : (!s.streamActive) = true
    · rw [if_pos h1]; exact h
    · rw [if_neg h1]
      by_cases h2 : decide (subU32 e.now (s.lastEventSentL ch) < MIN_EVENT_GAP_MS) = true
      · rw [if_pos h2]; exact h
      · rw [if_neg h2]
        split
        · exact h
        · exact sendCmdRaw_inv W _ _ _ _ (evText_raw s.BOARD_MAC ['L'] ch v (Or.inr rfl) hch) h

theorem emitLatched_inv {Q : WireKey → Prop} (W : WireInv Q) (s : Hub) (e : Env) (ch : Nat)
    (hch : ch < CHANNEL_COUNT) (h : Q (wireKey s)) : Q (wireKey (emitLatched s e ch)) :=
  sendEvent_inv W s e EvKind.L ch true hch h

theorem emitPressed_inv {Q : WireKey → Prop} (W : WireInv Q) (s : Hub) (e : Env) (ch : Nat)
    (p : Bool) (hch : ch < CHANNEL_COUNT) (h : Q (wireKey s)) :
    Q (wireKey (emitPressed s e ch p)) :=
  sendEvent_inv W s e EvKind.P ch p hch h

theorem checkAllSample_inv {Q : WireKey → Prop} (W : WireInv Q) (e : Env) (a : PressScan)
    (ch : Nat) (hch : ch < CHANNEL_COUNT) (h : Q (wireKey a.hub)) :
    Q (wireKey (checkAllSample e a ch).hub) := by
  have hd := debouncedPressed_wire a.hub e.sw ch e.now
  unfold checkAllSample
  simp only []
  generalize debouncedPressed a.hub e.sw ch e.now = r at hd
  have h1 : Q (wireKey r.1) := by rw [hd]; exact h
  have h2 : Q (wireKey (if (r.1.monLatch ch && r.2.2) = true then
      (if ((latchEdge r.1 ch).streamActive && !(latchEdge r.1 ch).prevLatchedState ch) = true
        then emitLatched (latchEdge r.1 ch) e ch else latchEdge r.1 ch) else r.1)) := by
    split_ifs
    · exact emitLatched_inv W _ e ch hch h1
    · exact h1
    · exact h1
  generalize (if (r.1.monLatch ch && r.2.2) = true then
      (if ((latchEdge r.1 ch).streamActive && !(latchEdge r.1 ch).prevLatchedState ch) = true
        then emitLatched (latchEdge r.1 ch) e ch else latchEdge r.1 ch) else r.1) = s2 at h2
  split_ifs
  · exact emitPressed_inv W _ e ch _ hch h2
  · exact h2

theorem monitorSample_inv {Q : WireKey → Prop} (W : WireInv Q) (e : Env) (a : PressScan)
    (ch : Nat) (hch : ch < CHANNEL_COUNT) (h : Q (wireKey a.hub)) :
    Q (wireKey (monitorSample e a ch).hub) := by
  have hd := debouncedPressed_wire a.hub e.sw ch e.now
  unfold monitorSample
  simp only []
  generalize debouncedPressed a.hub e.sw ch e.now = r at hd
  have h1 : Q (wireKey r.1) := by rw [hd]; exact h
  have h2 : Q (wireKey (if (r.1.monLatch ch && r.2.2) = true then latchEdge r.1 ch
      else r.1)) := by
    split_ifs
    · exact h1
    · exact h1
  generalize (if (r.1.monLatch ch && r.2.2) = true then latchEdge r.1 ch else r.1) = s2 at h2
  split_ifs
  · exact emitPressed_inv W _ e ch _ hch (emitLatched_inv W _ e ch hch h2)
  · exact emitLatched_inv W _ e ch hch h2
  · exact emitPressed_inv W _ e ch _ hch h2
  · exact h2
  · exact h2

theorem checkAll_inv {Q : WireKey → Prop} (W : WireInv Q) (s : Hub) (e : Env) (r : Bool)
    (h : Q (wireKey s)) : Q (wireKey (checkAll s e r).1) := by
  unfold checkAll
  simp only []
  rw [foldl_keep (fun b : CheckScan => wireKey b.hub) _ _ _
    (fun a x => checkAllEval_wire r _ a x)]
  exact foldl_mem (fun a : PressScan => Q (wireKey a.hub)) _ _ _
    (fun a x hx ha => checkAllSample_inv W e a x (List.mem_range.1 hx) ha) h

theorem voteLoop_inv {Q : WireKey → Prop} (W : WireInv Q) (r : Bool) (es : Nat → Env)
    (fuel i : Nat) (s : Hub) (ok : Nat) (h : Q (wireKey s)) :
    Q (wireKey (voteLoop r es fuel i s ok).1) := by
  induction fuel generalizing i s ok with
  | zero => exact h
  | succ n ih =>
    unfold voteLoop
    simp only []
    split_ifs <;>
      first
      | exact checkAll_inv W s _ r h
      | exact ih _ _ _ (checkAll_inv W s _ r h)

theorem successText_rel (s : Hub) : RelText s.BOARD_MAC (successText s) :=
  Or.inr (Or.inr (Or.inr (Or.inr (Or.inl rfl))))

theorem trimCsv_len (b : List Char) :
    (trimCsv b b.length).2 = (trimCsv b b.length).1.length ∧
      (trimCsv b b.length).1.length ≤ b.length := by
  unfold trimCsv
  split_ifs with hc
  · simp only [List.length_take]
    omega
  · exact ⟨rfl, le_refl _⟩

theorem failureText_rel (s : Hub) (e : Env) (r : Bool) :
    RelText (trimBuffers (checkAll s e r).1).BOARD_MAC
      (failureText (trimBuffers (checkAll s e r).1)) := by
  obtain ⟨_, h2, _, h4, h5⟩ := checkAll_run s e r
  generalize (checkAll s e r).1 = t at h2 h4 h5
  have hm := trimCsv_len t.missingBuf
  have he := trimCsv_len t.extraBuf
  refine Or.inr (Or.inr (Or.inr (Or.inr (Or.inr
    ⟨trimBuffers t, rfl, ?_, ?_, ?_, rfl⟩))))
  · show (trimCsv t.missingBuf t.missingLen).2 = (trimCsv t.missingBuf t.missingLen).1.length
    rw [h2]; exact hm.1
  · show (trimCsv t.extraBuf t.extraLen).2 = (trimCsv t.extraBuf t.extraLen).1.length
    rw [h4]; exact he.1
  · show (trimCsv t.missingBuf t.missingLen).1.length
      + (trimCsv t.extraBuf t.extraLen).1.length ≤ 111
    rw [h2, h4]
    have := hm.2
    have := he.2
    omega

theorem doFinalCheck_inv {Q : WireKey → Prop} (W : WireInv Q) (s : Hub) (es : Nat → Env)
    (h : Q (wireKey s)) : Q (wireKey (doFinalCheck s es)) := by
  unfold doFinalCheck
  simp only []
  split_ifs
  · rw [goDarkAndIdle_wire]
    exact replyReliable_inv W s _ _ (successText_rel s) h
  · rw [goDarkAndIdle_wire]
    have h1 : Q (wireKey (startStreaming s false)) := by rw [startStreaming_wire]; exact h
    have h2 := checkAll_inv W _ (es FINAL_CHECK_SAMPLES) s.checkActive
      (voteLoop_inv W s.checkActive es FINAL_CHECK_SAMPLES 0 _ 0 h1)
    exact replyReliable_inv W _ _ _ (successText_rel _) h2
  · have h1 : Q (wireKey (startStreaming s false)) := by rw [startStreaming_wire]; exact h
    have h2 := checkAll_inv W _ (es FINAL_CHECK_SAMPLES) s.checkActive
      (voteLoop_inv W s.checkActive es FINAL_CHECK_SAMPLES 0 _ 0 h1)
    exact replyReliable_inv W _ _ _ (failureText_rel _ _ _) h2

theorem sendSuccessAndIdle_inv {Q : WireKey → Prop} (W : WireInv Q) (s : Hub) (e : Env)
    (h : Q (wireKey s)) : Q (wireKey (sendSuccessAndIdle s e)) := by
  unfold sendSuccessAndIdle
  rw [goDarkAndIdle_wire]
  exact replyReliable_inv W s _ _ (successText_rel s) h

theorem doMonitoring_inv {Q : WireKey → Prop} (W : WireInv Q) (s : Hub) (e : Env)
    (h : Q (wireKey s)) : Q (wireKey (doMonitoring s e)) := by
  have h0 : Q (wireKey (if s.needReleaseGate = true then releaseGate s e else s)) := by
    split_ifs
    · rw [releaseGate_wire]; exact h
    · exact h
  have ha := foldl_mem (fun a : PressScan => Q (wireKey a.hub)) (monitorSample e)
    (List.range CHANNEL_COUNT)
    { hub := if s.needReleaseGate = true then releaseGate s e else s, pressed := fun _ => false }
    (fun a x hx ha => monitorSample_inv W e a x (List.mem_range.1 hx) ha) h0
  unfold doMonitoring
  simp only []
  generalize (List.range CHANNEL_COUNT).foldl (monitorSample e)
    { hub := if s.needReleaseGate = true then releaseGate s e else s,
      pressed := fun _ => false } = a at ha
  have h1 : Q (wireKey ((List.range CHANNEL_COUNT).foldl
      (monitorLed (allContactlessLatched a.hub) a.pressed) a.hub)) := by
    rw [foldl_keep wireKey _ _ _ (fun x c => monitorLed_wire _ _ x c)]
    exact ha
  generalize (List.range CHANNEL_COUNT).foldl
      (monitorLed (allContactlessLatched a.hub) a.pressed) a.hub = s1 at h1
  have h2 : Q (wireKey (if s1.liveOkSince = 0 then { s1 with liveOkSince := e.now } else s1)) := by
    split_ifs
    · exact h1
    · exact h1
  split_ifs
  · exact sendSuccessAndIdle_inv W _ e
      (replyRaw_inv W _ e _ (Or.inr (Or.inr (Or.inr (Or.inl rfl)))) h1)
  · exact h1
  · exact sendSuccessAndIdle_inv W _ e
      (replyRaw_inv W _ e _ (Or.inr (Or.inr (Or.inr (Or.inl rfl)))) h1)
  · exact h1
  · exact h1

theorem runState_inv {Q : WireKey → Prop} (W : WireInv Q) (s : Hub) (es : Nat → Env)
    (h : Q (wireKey s)) : Q (wireKey (runState s es)) := by
  unfold runState
  split
  · rw [doSelfCheck_wire]; exact h
  · rw [idleLeds_wire]; exact h
  · exact doMonitoring_inv W s _ h
  · exact doFinalCheck_inv W s _ h
  · exact h

theorem blinkRounds_inv {Q : WireKey → Prop} (W : WireInv Q) (es : Nat → Env) (n k : Nat)
    (s : Hub) (h : Q (wireKey s)) : Q (wireKey (blinkRounds es n k s)) := by
  induction n generalizing k s with
  | zero => exact h
  | succ n ih =>
    unfold blinkRounds
    simp only []
    refine ih _ _ (W.service _ _ ?_)
    rw [allLeds_wire]
    refine W.service _ _ ?_
    rw [allLeds_wire]
    exact h

theorem chaseRound_inv {Q : WireKey → Prop} (W : WireInv Q) (es : Nat → Env) (chs : List Nat)
    (k : Nat) (s : Hub) (h : Q (wireKey s)) : Q (wireKey (chaseRound es chs k s)) := by
  induction chs generalizing k s with
  | nil => exact h
  | cons c cs ih =>
    unfold chaseRound
    simp only []
    refine ih _ _ (W.service _ _ ?_)
    rw [setLed_wire]
    refine W.service _ _ ?_
    rw [setLed_wire]
    exact h

theorem chaseRounds_inv {Q : WireKey → Prop} (W : WireInv Q) (es : Nat → Env) (n k : Nat)
    (s : Hub) (h : Q (wireKey s)) : Q (wireKey (chaseRounds es n k s)) := by
  induction n generalizing k s with
  | zero => exact h
  | succ n ih =>
    unfold chaseRounds
    exact ih _ _ (chaseRound_inv W es _ _ _ h)

theorem baselineFrames_inv {Q : WireKey → Prop} (W : WireInv Q) (e : Env) (dest : Mac)
    (s : Hub) (ch : Nat) (hch : ch < CHANNEL_COUNT) (h : Q (wireKey s)) :
    Q (wireKey (baselineFrames e dest s ch)) := by
  unfold baselineFrames
  simp only []
  by_cases hc : (s.monNormal ch || s.monLatch ch) = true
  swap
  · rw [if_neg hc]; exact h
  rw [if_pos hc]
  have h1 : Q (wireKey (sendCmdRaw s e (snprintf 48 ("EV P ".toList ++ fmtDec (ch + 1) ++ [' ']
      ++ (if isPressedRaw e.sw ch then ['1'] else ['0']) ++ [' '] ++ s.BOARD_MAC))
      (some dest))) :=
    sendCmdRaw_inv W _ _ _ _
      (evText_raw s.BOARD_MAC ['P'] ch (isPressedRaw e.sw ch) (Or.inl rfl) hch) h
  generalize sendCmdRaw s e (snprintf 48 ("EV P ".toList ++ fmtDec (ch + 1) ++ [' ']
      ++ (if isPressedRaw e.sw ch then ['1'] else ['0']) ++ [' '] ++ s.BOARD_MAC))
      (some dest) = s1 at h1
  by_cases hl : s1.monLatch ch = true
  · rw [if_pos hl]
    exact sendCmdRaw_inv W _ _ _ _
      (evText_raw s1.BOARD_MAC ['L'] ch (s1.latched ch) (Or.inr rfl) hch) h1
  · rw [if_neg hl]; exact h1

theorem monitorBaseline_inv {Q : WireKey → Prop} (W : WireInv Q) (s : Hub) (e : Env)
    (pc : PendingCmd) (h : Q (wireKey s)) : Q (wireKey (monitorBaseline s e pc)) := by
  have h1 : Q (wireKey (startStreaming s true)) := by rw [startStreaming_wire]; exact h
  unfold monitorBaseline
  simp only []
  split
  · exact h1
  · rw [foldl_keep wireKey _ _ _ (fun a x => by split_ifs <;> rfl)]
    exact foldl_mem (fun a : Hub => Q (wireKey a)) _ _ _
      (fun a x hx ha => baselineFrames_inv W e _ a x (List.mem_range.1 hx) ha)
      (sendCmdRaw_inv W _ _ _ _ (Or.inl (Or.inr (Or.inr (Or.inr (Or.inr (Or.inr
        (Or.inr rfl))))))) h1)

theorem drainPending_inv {Q : WireKey → Prop} (W : WireInv Q) (s : Hub) (es : Nat → Env)
    (h : Q (wireKey s)) : Q (wireKey (drainPending s es)) := by
  unfold drainPending
  split_ifs
  · simp only []
    split
    · exact blinkRounds_inv W es _ _ _ h
    · exact chaseRounds_inv W es _ _ _ h
    · exact monitorBaseline_inv W _ _ _ h
    · exact h
  · exact h

theorem helloButton_inv {Q : WireKey → Prop} (W : WireInv Q) (s : Hub) (e : Env)
    (h : Q (wireKey s)) : Q (wireKey (helloButton s e)) := by
  unfold helloButton
  simp only []
  split_ifs <;> first | exact h | exact triggerHello_inv W _ h

theorem loopTick_inv {Q : WireKey → Prop} (W : WireInv Q) (s : Hub) (es : Nat → Env)
    (h : Q (wireKey s)) : Q (wireKey (loopTick s es)) := by
  unfold loopTick
  refine drainPending_inv W _ es (W.service _ _ (runState_inv W _ es (helloButton_inv W _ _ ?_)))
  rw [blinkClock_wire]
  exact h

theorem idDigits_lt (l : List Char) (v : Nat) (any : Bool) (hv : v < U32) :
    (idDigits l v any).1 < U32 := by
  induction l generalizing v any with
  | nil => exact hv
  | cons c cs ih =>
    unfold idDigits
    split_ifs
    · exact ih _ _ (Nat.mod_lt _ (by decide))
    · exact hv

theorem extractIdToken_lt (msg : List Char) (n id : Nat) (h : extractIdToken msg n = some id) :
    id < U32 := by
  unfold extractIdToken at h
  split_ifs at h
  split at h
  · cases h
  · simp only [] at h
    split_ifs at h
    cases h
    exact idDigits_lt _ _ _ (by decide)

theorem autoAck_inv {Q : WireKey → Prop} (W : WireInv Q) (s : Hub) (e : Env) (src : Mac)
    (rxb : List Char) (n : Nat) (h : Q (wireKey s)) : Q (wireKey (autoAck s e src rxb n)) := by
  unfold autoAck
  split
  · rename_i id hid
    split_ifs
    · exact sendCmdRaw_inv W _ _ _ _ (Or.inl (Or.inr (Or.inr (Or.inr (Or.inr (Or.inl
        ⟨id, extractIdToken_lt _ _ _ hid, rfl⟩)))))) h
    · exact h
  · exact h

theorem dispatchVerb_inv {Q : WireKey → Prop} (W : WireInv Q) (s : Hub) (e : Env)
    (rx data : List Char) (h : Q (wireKey s)) : Q (wireKey (dispatchVerb s e rx data)) := by
  unfold dispatchVerb
  split_ifs
  · exact replyReliable_inv W _ e _ (Or.inl rfl) (replyRaw_inv W s e _ (Or.inl rfl) h)
  · exact replyRaw_inv W s e _ (Or.inr (Or.inl rfl)) h
  · exact replyReliable_inv W _ e _ (Or.inr (Or.inl rfl)) h
  · exact replyReliable_inv W _ e _ (Or.inr (Or.inr (Or.inl rfl))) h
  · have h0 : Q (wireKey (parseMonitorPayload s e.sw e.now data)) := by
      rw [parseMonitorPayload_wire]; exact h
    simp only []
    generalize parseMonitorPayload s e.sw e.now data = t at h0
    exact replyReliable_inv W _ e _ (Or.inr (Or.inr (Or.inr (Or.inl rfl)))) h0
  · have h1 : Q (wireKey (parseCheckSelection s rx)) := by
      rw [parseCheckSelection_wire]; exact h
    simp only []
    split_ifs
    · rw [goDarkAndIdle_wire]
      exact replyReliable_inv W _ e _ (successText_rel _) h1
    · exact h1
  · have h0 : Q (wireKey (cleanAll (stopStreaming s) e)) := by
      rw [cleanAll_wire]; exact h
    simp only []
    generalize cleanAll (stopStreaming s) e = t at h0
    exact replyRaw_inv W _ e _ (Or.inr (Or.inr (Or.inl rfl))) h0
  · exact h

theorem onRecv_inv {Q : WireKey → Prop} (W : WireInv Q) (s : Hub) (e : Env) (src : Mac)
    (data : List Char) (h : Q (wireKey s)) : Q (wireKey (onRecv s e src data)) := by
  unfold onRecv
  simp only []
  split_ifs
  · exact h
  · exact h
  · exact W.ack (wireKey s) h
  · exact h
  · exact dispatchVerb_inv W _ e _ data (autoAck_inv W _ e src _ _ h)

theorem step_inv {Q : WireKey → Prop} (W : WireInv Q) (s : Hub) (st : Step)
    (h : Q (wireKey s)) : Q (wireKey (step s st)) := by
  cases st with
  | recv e src data => exact onRecv_inv W s e src data h
  | tick es => exact loopTick_inv W s es h

/-- A radio invariant that holds after `setup()` holds in every reachable state. -/
theorem reachable_inv {Q : WireKey → Prop} (W : WireInv Q)
    (h0 : ∀ mac sw now, Q (wireKey (setupHub mac sw now))) (s : Hub) (hr : Reachable s) :
    Q (wireKey s) := by
  induction hr with
  | setup mac sw now => exact h0 mac sw now
  | step s st _ ih => exact step_inv W s st ih

/-! ## C22: linear backoff -/

theorem backoff_next (t : Nat) (h : t ≤ 640) :
    (if (t + 80) % U32 > 640 then 640 else (t + 80) % U32) = min (t + 80) 640 := by
  have hU : U32 = 4294967296 := rfl
  rw [Nat.mod_eq_of_lt (by omega)]
  split_ifs <;> omega

theorem serviceAckTx_timeout (s : Hub) (e : Env)
    (h : 240 ≤ s.hubAckTimeoutMs ∧ s.hubAckTimeoutMs ≤ 640) :
    240 ≤ (serviceAckTx s e).hubAckTimeoutMs ∧ (serviceAckTx s e).hubAckTimeoutMs ≤ 640 := by
  cases hd : ackDue s e
  · by_cases ha : s.hubAckActive = true
    · by_cases hs : s.state = State.SELF_CHECK
      · unfold serviceAckTx
        rw [if_neg (by rw [ha]; simp), if_pos hs]
        exact ⟨le_refl _, by show (240 : Nat) ≤ 640; decide⟩
      · rw [(serviceAckTx_idle s e hd).2.2.2.2.2.2 hs]; exact h
    · rw [(serviceAckTx_idle s e hd).2.2.2.2.2.1 (by simpa using ha)]; exact h
  · rw [(serviceAckTx_due s e hd).2.2.2.2.1]
    by_cases hr0 : s.hubAckRetriesLeft > 0
    · rw [if_pos hr0, backoff_next _ h.2]
      omega
    · rw [if_neg hr0]
      exact ⟨le_refl _, by decide⟩

theorem backoffRange_inv : WireInv BackoffRange where
  raw := fun _ _ _ _ h => h
  hello := fun _ h => h
  load := fun _ _ _ _ _ => ⟨le_refl _, by show (240 : Nat) ≤ 640; decide⟩
  service := fun s e h => serviceAckTx_timeout s e h
  ack := fun _ h => h

theorem reachable_backoff (s : Hub) (hr : Reachable s) :
    240 ≤ s.hubAckTimeoutMs ∧ s.hubAckTimeoutMs ≤ 640 :=
  reachable_inv backoffRange_inv
    (fun _ _ _ => ⟨le_refl _, by show (240 : Nat) ≤ 640; decide⟩) s hr

theorem ackDue_elapsed (s : Hub) (e : Env) (hd : ackDue s e = true)
    (h0 : s.hubAckLastSend ≠ 0) :
    subU32 e.now s.hubAckLastSend ≥ s.hubAckTimeoutMs := by
  unfold ackDue at hd
  simp only [Bool.and_eq_true, Bool.or_eq_true, decide_eq_true_eq] at hd
  rcases hd.2 with h | h
  · exact absurd h h0
  · exact h

theorem subU32_plain (a b : Nat) (hb : b ≤ a) (ha : a < U32) : subU32 a b = a - b := by
  have hU : U32 = 4294967296 := rfl
  unfold subU32
  rw [Nat.mod_eq_of_lt (lt_of_le_of_lt hb ha)]
  have : a + U32 - b = (a - b) + U32 := by omega
  rw [this, Nat.add_mod_right, Nat.mod_eq_of_lt (by omega)]

/-- C22 (linear backoff), as the code has it. In every reachable state `hubAckTimeoutMs` lies
within [240, 640]. `sendCmd` stores 240 when it loads the slot, and its own first
transmission (outside SELF_CHECK, to a unicast peer) leaves 320. A `serviceAckTx()` call that
reaches the send block stamps `hubAckLastSend`; while a retry is left it sets the interval to
min(previous + 80, 640), which is not below the previous one, and keeps the slot active; with
no retry left (the last retransmission) it resets the interval to 240 and ends the
transaction. A call that does not reach the send block outside SELF_CHECK changes nothing. A
send block entered after a transmission at a non-zero millis value, without wrap-around, is
at least the current interval, hence at least 240 ms, after that transmission. -/
theorem C22_linear_backoff (s : Hub) (hr : Reachable s) (e : Env) (msg : List Char)
    (peer : Mac) :
    (240 ≤ s.hubAckTimeoutMs ∧ s.hubAckTimeoutMs ≤ 640) ∧
      (loadSlot s msg peer).hubAckTimeoutMs = 240 ∧
      (s.state ≠ State.SELF_CHECK → isZeroMac peer = false → (peer == bcastMac) = false →
        (sendCmd s e msg (some peer)).hubAckTimeoutMs = 320 ∧
          (sendCmd s e msg (some peer)).hubAckLastSend = e.now) ∧
      (ackDue s e = true →
        (serviceAckTx s e).hubAckLastSend = e.now ∧
          (0 < s.hubAckRetriesLeft →
            (serviceAckTx s e).hubAckTimeoutMs = min (s.hubAckTimeoutMs + 80) 640 ∧
              s.hubAckTimeoutMs ≤ (serviceAckTx s e).hubAckTimeoutMs ∧
              (serviceAckTx s e).hubAckActive = true) ∧
          (s.hubAckRetriesLeft = 0 →
            (serviceAckTx s e).hubAckTimeoutMs = 240 ∧
              (serviceAckTx s e).hubAckActive = false)) ∧
      (ackDue s e = false → s.state ≠ State.SELF_CHECK → serviceAckTx s e = s) ∧
      (ackDue s e = true → s.hubAckLastSend ≠ 0 → s.hubAckLastSend ≤ e.now → e.now < U32 →
        s.hubAckLastSend + s.hubAckTimeoutMs ≤ e.now ∧ s.hubAckLastSend + 240 ≤ e.now) := by
  have hb := reachable_backoff s hr
  refine ⟨hb, rfl, ?_, ?_, ?_, ?_⟩
  · intro hst hz hbc
    rw [sendCmd_load s e msg peer hz hbc]
    have hd : ackDue (loadSlot s msg peer) e = true := by
      unfold ackDue
      have h1 : (loadSlot s msg peer).state = s.state := rfl
      have h2 : (loadSlot s msg peer).hubAckActive = true := rfl
      have h3 : (loadSlot s msg peer).hubAckLastSend = 0 := rfl
      rw [h1, h2, h3]
      simp [hst]
    have h := serviceAckTx_due (loadSlot s msg peer) e hd
    refine ⟨?_, h.2.2.2.1⟩
    rw [h.2.2.2.2.1]
    have h4 : (loadSlot s msg peer).hubAckRetriesLeft = 4 := rfl
    have h5 : (loadSlot s msg peer).hubAckTimeoutMs = 240 := rfl
    rw [h4, h5]
    decide
  · intro hd
    have h := serviceAckTx_due s e hd
    refine ⟨h.2.2.2.1, ?_, ?_⟩
    · intro hr0
      have ht : (serviceAckTx s e).hubAckTimeoutMs = min (s.hubAckTimeoutMs + 80) 640 := by
        rw [h.2.2.2.2.1, if_pos hr0, backoff_next _ hb.2]
      refine ⟨ht, ?_, ?_⟩
      · rw [ht]; omega
      · rw [h.2.1]; simpa using hr0
    · intro hr0
      refine ⟨?_, ?_⟩
      · rw [h.2.2.2.2.1, if_neg (by omega)]
      · rw [h.2.1]; simp [hr0]
  · intro hd hst
    exact (serviceAckTx_idle s e hd).2.2.2.2.2.2 hst
  · intro hd h0 hle hnow
    have h := ackDue_elapsed s e hd h0
    rw [subU32_plain _ _ hle hnow] at h
    omega

/-- Witness of C22: in the reachable state after `WELCOME`, the slot holds `READY`, sent at
100 ms, with interval 320; the call at 420 ms reaches the send block and sets the interval
to 400. -/
theorem C22_linear_backoff_witness :
    Reachable welcomedHub ∧ welcomedHub.hubAckTimeoutMs = 320 ∧
      ackDue welcomedHub (quietEnv 420) = true ∧
      (serviceAckTx welcomedHub (quietEnv 420)).hubAckTimeoutMs = 400 ∧
      100 + 320 ≤ 420 := by
  have hr : Reachable welcomedHub := Reachable.step _ _ waitHub_reachable
  have hd : ackDue welcomedHub (quietEnv 420) = true := by decide
  have h := (C22_linear_backoff welcomedHub hr (quietEnv 420) [] staMac).2.2.2.1 hd
  exact ⟨hr, by decide, hd, (h.2.1 (by decide)).1.trans (by decide), by decide⟩

/-- Counterexample to C22 as stated: when `sendCmd` returns, the interval is 320 ms, not 240,
because its own first transmission already adds 80; and the fourth retransmission of a frame
that is never acknowledged, made at interval 560, sets the interval to 240, not to
min(560 + 80, 640) = 640. -/
theorem C22_counterexample :
    (sendCmd waitHub (quietEnv 100) "PING".toList (some staMac)).hubAckTimeoutMs = 320 ∧
      (retryRun 4).hubAckTimeoutMs = 560 ∧ (retryRun 4).hubAckActive = true ∧
      ackTransmits (retryRun 4) (retryEnv 4) = true ∧
      (retryRun 5).hubAckTimeoutMs = 240 ∧ (retryRun 5).sent.length = 5 := by
  decide

/-! ## C31: what the frames of the Hub carry -/

theorem serviceAckTx_mac (s : Hub) (e : Env) : (serviceAckTx s e).BOARD_MAC = s.BOARD_MAC := by
  unfold serviceAckTx
  simp only []
  split_ifs <;> rfl

theorem wireOk_inv : WireInv WireOk where
  raw := fun k dest t ht h => by
    obtain ⟨h1, h2, h3, h4⟩ := h
    refine ⟨h1, h2, fun f hf => ?_, h4⟩
    rcases List.mem_append.1 hf with hf | hf
    · exact h3 f hf
    · rw [List.mem_singleton.1 hf]
      exact Or.inr (Or.inl ht)
  hello := fun k h => by
    obtain ⟨h1, h2, h3, h4⟩ := h
    refine ⟨h1, h2, fun f hf => ?_, h4⟩
    rcases List.mem_append.1 hf with hf | hf
    · exact h3 f hf
    · rw [List.mem_singleton.1 hf]
      exact Or.inl rfl
  load := fun k msg target hm h => by
    obtain ⟨h1, h2, h3, _⟩ := h
    exact ⟨h1, Nat.mod_lt _ (by decide), h3, fun _ => ⟨msg, k.seq, hm, h2, rfl⟩⟩
  service := fun s e h => by
    obtain ⟨h1, h2, h3, h4⟩ := h
    have hmsg : (serviceAckTx s e).hubAckMsg = s.hubAckMsg := by
      cases hd : ackDue s e
      · exact (serviceAckTx_idle s e hd).2.2.2.1
      · exact (serviceAckTx_due s e hd).2.2.2.2.2.1
    have hdue : ackDue s e = true → s.hubAckActive = true := by
      intro hd
      unfold ackDue at hd
      simp only [Bool.and_eq_true] at hd
      exact hd.1.1
    have hact : (serviceAckTx s e).hubAckActive = true → s.hubAckActive = true := by
      cases hd : ackDue s e
      · exact (serviceAckTx_idle s e hd).2.1
      · exact fun _ => hdue hd
    refine ⟨?_, ?_, ?_, ?_⟩
    · show (serviceAckTx s e).BOARD_MAC.length ≤ 17
      rw [serviceAckTx_mac]; exact h1
    · show (serviceAckTx s e).seq < U32
      rw [(serviceAckTx_ids s e).1]; exact h2
    · show ∀ f ∈ (serviceAckTx s e).sent, FrameOk (serviceAckTx s e).BOARD_MAC f.text
      rw [serviceAckTx_mac, serviceAckTx_sent]
      intro f hf
      split_ifs at hf with ht
      · rcases List.mem_append.1 hf with hf | hf
        · exact h3 f hf
        · rw [List.mem_singleton.1 hf]
          have hd : ackDue s e = true := by
            unfold ackTransmits at ht
            simp only [Bool.and_eq_true] at ht
            exact ht.1
          exact Or.inr (Or.inr (h4 (hdue hd)))
      · exact h3 f hf
    · show (serviceAckTx s e).hubAckActive = true →
        SlotText (serviceAckTx s e).BOARD_MAC (serviceAckTx s e).hubAckMsg
      intro ha
      rw [serviceAckTx_mac, hmsg]
      exact h4 (hact ha)
  ack := fun k h => ⟨h.1, h.2.1, h.2.2.1, fun hc => by cases hc⟩

theorem setupHub_wireOk (mac : List Char) (sw : Nat → Bool) (now : Nat) :
    WireOk (wireKey (setupHub mac sw now)) := by
  refine ⟨?_, ?_, ?_, ?_⟩
  · show (snprintf 18 mac).length ≤ 17
    unfold snprintf
    rw [List.length_take]
    omega
  · show (1000 : Nat) < U32
    decide
  · intro f hf
    exact absurd hf (List.not_mem_nil f)
  · intro h
    exact absurd h Bool.false_ne_true

theorem reachable_wireOk (s : Hub) (hr : Reachable s) : WireOk (wireKey s) :=
  reachable_inv wireOk_inv setupHub_wireOk s hr

theorem snprintf_fit (n : Nat) (t : List Char) (h : t.length ≤ n - 1) : snprintf n t = t := by
  unfold snprintf
  exact List.take_of_length_le h

/-- A reliable text is a plain reply, or a result that ends with the MAC; it is at most 159
characters long. -/
theorem relText_body (mac w : List Char) (hmac : mac.length ≤ 17) (h : RelText mac w) :
    w.length ≤ 159 ∧
      ((w = "READY".toList ∨ w = "BLINK-OK".toList ∨ w = "CHASE-OK".toList ∨
          w = "MONITOR-OK".toList) ∨
        ∃ body, startsWith "RESULT ".toList body = true ∧ w = body ++ ' ' :: mac) := by
  rcases h with h | h | h | h | h | h
  · subst h; exact ⟨by decide, Or.inl (Or.inl rfl)⟩
  · subst h; exact ⟨by decide, Or.inl (Or.inr (Or.inl rfl))⟩
  · subst h; exact ⟨by decide, Or.inl (Or.inr (Or.inr (Or.inl rfl)))⟩
  · subst h; exact ⟨by decide, Or.inl (Or.inr (Or.inr (Or.inr rfl)))⟩
  · have hl : ("RESULT SUCCESS ".toList ++ mac).length ≤ 32 := by
      rw [List.length_append]
      have : "RESULT SUCCESS ".toList.length = 15 := rfl
      omega
    rw [snprintf_fit _ _ (by omega)] at h
    subst h
    refine ⟨by omega, Or.inr ⟨"RESULT SUCCESS".toList, by decide, ?_⟩⟩
    simp
  · obtain ⟨u, hu, hm, he, hsum, rfl⟩ := h
    have hf := failureText_format u hm he (by omega) (by rw [hu]; omega)
    rw [hu] at hf
    have hl := failureFormat_length u.missingBuf u.extraBuf mac
    rw [hf]
    refine ⟨by omega, Or.inr ⟨"RESULT FAILURE".toList ++
      ((if u.missingBuf = [] then [] else " MISSING ".toList ++ u.missingBuf) ++
        (if u.extraBuf = [] then []
          else (if u.missingBuf = [] then " EXTRA ".toList else ";EXTRA ".toList)
            ++ u.extraBuf)), ?_, ?_⟩⟩
    · rw [startsWith_iff]
      exact ⟨"FAILURE".toList ++ _, rfl⟩
    · unfold failureFormat
      simp only [List.append_assoc]

theorem rawText_shape (mac t : List Char) (hmac : mac.length ≤ 17) (h : RawText mac t) :
    FrameShape mac t := by
  rcases h with h | h | h | h | h | h | h
  · exact Or.inl (Or.inr (Or.inl h))
  · exact Or.inl (Or.inr (Or.inr (Or.inl h)))
  · exact Or.inl (Or.inr (Or.inr (Or.inr (Or.inl h))))
  · exact Or.inl (Or.inr (Or.inr (Or.inr (Or.inr h))))
  · obtain ⟨id, hid, rfl⟩ := h
    have hd := fmtDec_length id hid
    refine Or.inr (Or.inl ⟨id, snprintf_fit _ _ ?_⟩)
    rw [List.length_append]
    have : "ACK ".toList.length = 4 := rfl
    omega
  · obtain ⟨k, ch, v, hk, hch, rfl⟩ := h
    have hd := fmtDec_length (ch + 1) (lt_of_lt_of_le (Nat.succ_lt_succ hch) (by decide))
    have hk1 : k.length = 1 := by rcases hk with rfl | rfl <;> rfl
    have hv : (if v = true then ['1'] else ['0']).length = 1 := by cases v <;> rfl
    have h3 : "EV ".toList.length = 3 := rfl
    rw [snprintf_fit _ _ (by
      simp only [List.length_append, hk1, hv, h3, List.length_cons, List.length_nil]
      omega)]
    refine Or.inr (Or.inr (Or.inr (Or.inl ⟨"EV ".toList ++ k ++ [' '] ++ fmtDec (ch + 1)
      ++ [' '] ++ (if v then ['1'] else ['0']), Or.inl ?_, ?_⟩)))
    · rw [startsWith_iff]
      simp only [List.append_assoc]
      exact List.prefix_append _ _
    · simp only [List.append_assoc, List.singleton_append]
  · have hl : ("MONITOR-START ".toList ++ mac).length ≤ 47 := by
      rw [List.length_append]
      have : "MONITOR-START ".toList.length = 14 := rfl
      omega
    rw [snprintf_fit _ _ hl] at h
    subst h
    refine Or.inr (Or.inr (Or.inr (Or.inl ⟨"MONITOR-START".toList, Or.inr rfl, ?_⟩)))
    simp

theorem frameOk_shape (mac t : List Char) (hmac : mac.length ≤ 17) (h : FrameOk mac t) :
    FrameShape mac t := by
  rcases h with h | h | h
  · exact Or.inl (Or.inl h)
  · rcases h with h | h
    · exact rawText_shape mac t hmac h
    · obtain ⟨_, hb⟩ := relText_body mac t hmac h
      rcases hb with hb | ⟨body, h1, h2⟩
      · exact Or.inr (Or.inr (Or.inl ⟨t, hb, Or.inl rfl⟩))
      · exact Or.inr (Or.inr (Or.inr (Or.inr ⟨body, h1, Or.inl h2⟩)))
  · obtain ⟨w, id, hw, hid, rfl⟩ := h
    obtain ⟨hl, hb⟩ := relText_body mac w hmac hw
    have hd := fmtDec_length id hid
    have hf : framed w id = w ++ " ID=".toList ++ fmtDec id := by
      apply framed_fit
      simp only [List.length_append]
      have : " ID=".toList.length = 4 := rfl
      omega
    rw [hf]
    rcases hb with hb | ⟨body, h1, h2⟩
    · exact Or.inr (Or.inr (Or.inl ⟨w, hb, Or.inr ⟨id, rfl⟩⟩))
    · refine Or.inr (Or.inr (Or.inr (Or.inr ⟨body, h1, Or.inr ⟨id, ?_⟩⟩)))
      rw [h2]

/-- C31 (board identity on the wire), as the code has it: every frame that a reachable Hub
has handed to the radio is of one of these shapes. `EV ...` and `MONITOR-START` frames end
with a blank and the board MAC; `RESULT ...` frames end with a blank and the board MAC,
followed at most by ` ID=<n>`. The other frames carry no MAC: `HELLO`, `WELCOME`, `PING-OK`,
`CLEAN-OK`, `AUTO-FINAL`, `ACK <n>`, and `READY`, `BLINK-OK`, `CHASE-OK`, `MONITOR-OK` with or
without ` ID=<n>`. -/
theorem C31_board_identity (s : Hub) (hr : Reachable s) (f : Frame) (hf : f ∈ s.sent) :
    FrameShape s.BOARD_MAC f.text := by
  obtain ⟨h1, _, h3, _⟩ := reachable_wireOk s hr
  exact frameOk_shape _ _ h1 (h3 f hf)

/-- Witness of C31: the result frame sent after a `CHECK` with nothing to check carries the
board MAC before its ID suffix. -/
theorem C31_board_identity_witness :
    Reachable emptyCheckHub ∧
      ({ dest := staMac, text := "RESULT SUCCESS AA:BB:CC:DD:EE:01 ID=1000".toList } : Frame)
        ∈ emptyCheckHub.sent ∧
      macTrailing emptyCheckHub.BOARD_MAC
        "RESULT SUCCESS AA:BB:CC:DD:EE:01 ID=1000".toList = true ∧
      FrameShape emptyCheckHub.BOARD_MAC "RESULT SUCCESS AA:BB:CC:DD:EE:01 ID=1000".toList :=
  ⟨Reachable.step _ _ waitHub_reachable, by decide, by decide,
    C31_board_identity emptyCheckHub (Reachable.step _ _ waitHub_reachable)
      { dest := staMac, text := "RESULT SUCCESS AA:BB:CC:DD:EE:01 ID=1000".toList }
      (by decide)⟩

/-- Counterexample to C31 as stated: the two frames that the Hub sends in reply to `WELCOME`
are `WELCOME` and `READY ID=1000`; neither has the board MAC as its trailing token. -/
theorem C31_counterexample :
    Reachable welcomedHub ∧
      welcomedHub.sent.map Frame.text = ["WELCOME".toList, "READY ID=1000".toList] ∧
      welcomedHub.BOARD_MAC = "AA:BB:CC:DD:EE:01".toList ∧
      (∀ f ∈ welcomedHub.sent, macTrailing welcomedHub.BOARD_MAC f.text = false) :=
  ⟨Reachable.step _ _ waitHub_reachable, by decide, by decide, by decide⟩

/-! ## Station (station.cpp) -/

/-! ## C24: ACK frames -/

theorem dropWhile_append_all (p : Char → Bool) (l m : List Char) (h : ∀ c ∈ l, p c = true) :
    (l ++ m).dropWhile p = m.dropWhile p := by
  induction l with
  | nil => rfl
  | cons a t ih =>
    rw [List.cons_append, List.dropWhile_cons_of_pos (h a (List.mem_cons_self _ _))]
    exact ih (fun c hc => h c (List.mem_cons_of_mem _ hc))

theorem dropWhile_append_stop (p : Char → Bool) (l m : List Char)
    (h : ¬ ∀ c ∈ l, p c = true) : (l ++ m).dropWhile p = l.dropWhile p ++ m := by
  induction l with
  | nil => exact absurd (fun c hc => by cases hc) h
  | cons a t ih =>
    by_cases ha : p a = true
    · rw [List.cons_append, List.dropWhile_cons_of_pos ha, List.dropWhile_cons_of_pos ha]
      apply ih
      intro hall
      apply h
      intro c hc
      rcases List.mem_cons.1 hc with rfl | hc
      · exact ha
      · exact hall c hc
    · rw [List.cons_append, List.dropWhile_cons_of_neg ha, List.dropWhile_cons_of_neg ha]
      rfl

/-- The receive buffer of a frame that starts with `ACK `. -/
theorem cstr_ack (data : List Char) (h : startsWith "ACK ".toList data = true) :
    ∃ c, cstr (data.take (min data.length 255)) = "ACK ".toList ++ c := by
  rw [startsWith_iff] at h
  obtain ⟨rest, rfl⟩ := h
  have h4 : "ACK ".toList.length = 4 := rfl
  obtain ⟨m, hm⟩ : ∃ m, min ("ACK ".toList ++ rest).length 255 = m + 4 := by
    refine ⟨min ("ACK ".toList ++ rest).length 255 - 4, ?_⟩
    rw [List.length_append, h4]
    omega
  rw [hm]
  exact ⟨cstr (rest.take m), rfl⟩

/-- The command text of a frame that starts with `ACK ` starts with `ACK ` too, unless only
blanks follow: then it is `ACK`. -/
theorem rxText_ack_cases (data : List Char) (h : startsWith "ACK ".toList data = true) :
    startsWith "ACK ".toList (rxText data) = true ∨
      (rxText data = "ACK".toList ∧
        (cstr (data.take (min data.length 255))).takeWhile isTrimChar = []) := by
  obtain ⟨c, hc⟩ := cstr_ack data h
  unfold rxText
  rw [hc]
  have hl : ltrim ("ACK ".toList ++ c) = "ACK ".toList ++ c := rfl
  rw [hl]
  unfold rtrim
  rw [List.reverse_append]
  by_cases hall : ∀ x ∈ c.reverse, isTrimChar x = true
  · right
    rw [dropWhile_append_all _ _ _ hall]
    exact ⟨rfl, rfl⟩
  · left
    rw [dropWhile_append_stop _ _ _ hall, List.reverse_append, List.reverse_reverse,
      startsWith_iff]
    exact List.prefix_append _ _

theorem dispatchVerb_ACK (s : Hub) (e : Env) (data : List Char) :
    dispatchVerb s e "ACK".toList data = s := by
  unfold dispatchVerb
  rw [if_neg (by decide), if_neg (by decide), if_neg (by decide), if_neg (by decide),
    if_neg (by decide), if_neg (by decide), if_neg (by decide)]

/-- What `onRecv` makes of a frame that starts with `ACK `. -/
theorem onRecv_ack_frame (s : Hub) (e : Env) (src : Mac) (data : List Char)
    (h : startsWith "ACK ".toList data = true) :
    onRecv s e src data = s ∨
      onRecv s e src data = { s with lastSender := src, haveSender := true } ∨
      onRecv s e src data
        = { s with lastSender := src, haveSender := true, hubAckActive := false } := by
  by_cases hlen : data.length = 0
  · left
    unfold onRecv
    rw [if_pos hlen]
  by_cases hz : isZeroMac src = true
  · left
    unfold onRecv
    rw [if_neg hlen, if_pos hz]
  have hz2 : isZeroMac src = false := by simpa using hz
  rcases rxText_ack_cases data h with hA | ⟨hrx, htw⟩
  · rw [onRecv_ack s e src data hlen hz2 hA]
    split_ifs
    · exact Or.inr (Or.inr rfl)
    · exact Or.inr (Or.inl rfl)
  · right; left
    unfold onRecv
    rw [if_neg hlen, if_neg hz]
    simp only []
    rw [hrx, htw, if_neg (by decide)]
    have ha : autoAck { s with lastSender := src, haveSender := true } e src
        ([] ++ "ACK".toList) (min data.length 255)
        = { s with lastSender := src, haveSender := true } := by
      unfold autoAck
      have hx : extractIdToken ([] ++ "ACK".toList) (min data.length 255) = none := by
        unfold extractIdToken
        split_ifs
        · rfl
        · rfl
      rw [hx]
    rw [ha]
    exact dispatchVerb_ACK _ e data

/-- What `onEspNowRecv` makes of a frame that starts with `ACK `. -/
theorem stationRecv_ack_frame (st : Station) (peerOk : Bool) (src : Mac) (data : List Char)
    (h : startsWith "ACK ".toList data = true) :
    Station.onEspNowRecv st peerOk src data = st ∨
      Station.onEspNowRecv st peerOk src data = { st with staAckReceived := true } := by
  obtain ⟨c, hc⟩ := cstr_ack data h
  unfold Station.onEspNowRecv
  simp only []
  rw [hc]
  have hs : startsWith "ACK ".toList ("ACK ".toList ++ c) = true := by
    rw [startsWith_iff]; exact List.prefix_append _ _
  rw [if_pos hs]
  split_ifs
  · exact Or.inl rfl
  · exact Or.inl rfl
  · exact Or.inr rfl
  · exact Or.inl rfl

/-- C24 (ACKs are never ACKed), as the code has it: for every received frame whose text
starts with `ACK `, whatever follows (an ` ID=<n>` token included), the Hub transmits nothing
and changes nothing but its session peer, which becomes the sender of the frame (unless the
frame is empty or its sender is the zero address), and possibly its reliable-TX slot, which
becomes inactive; the Station transmits nothing and changes nothing but possibly
`staAckReceived`, which becomes true. -/
theorem C24_acks_not_acked (s : Hub) (st : Station) (e : Env) (peerOk : Bool) (src : Mac)
    (data : List Char) (h : startsWith "ACK ".toList data = true) :
    (onRecv s e src data).sent = s.sent ∧
      (onRecv s e src data = s ∨
        onRecv s e src data = { s with lastSender := src, haveSender := true } ∨
        onRecv s e src data
          = { s with lastSender := src, haveSender := true, hubAckActive := false }) ∧
      (Station.onEspNowRecv st peerOk src data).radio = st.radio ∧
      (Station.onEspNowRecv st peerOk src data = st ∨
        Station.onEspNowRecv st peerOk src data = { st with staAckReceived := true }) := by
  have h1 := onRecv_ack_frame s e src data h
  have h2 := stationRecv_ack_frame st peerOk src data h
  refine ⟨?_, h1, ?_, h2⟩
  · rcases h1 with h1 | h1 | h1 <;> rw [h1]
  · rcases h2 with h2 | h2 <;> rw [h2]

/-- Witness of C24: the frame `ACK 1000 ID=7` from the station, received by the Hub that
waits for the ACK of `READY ID=1000`, and by a Station in a session. -/
theorem C24_acks_not_acked_witness :
    startsWith "ACK ".toList "ACK 1000 ID=7".toList = true ∧
      (onRecv welcomedHub (quietEnv 200) staMac "ACK 1000 ID=7".toList).sent
        = welcomedHub.sent ∧
      (onRecv welcomedHub (quietEnv 200) staMac "ACK 1000 ID=7".toList).hubAckActive = false ∧
      welcomedHub.hubAckActive = true ∧
      (Station.onEspNowRecv sessionSta true hubMac "ACK 1000 ID=7".toList).radio
        = sessionSta.radio :=
  ⟨by decide,
    (C24_acks_not_acked welcomedHub sessionSta (quietEnv 200) true staMac
      "ACK 1000 ID=7".toList (by decide)).1,
    by decide, by decide,
    (C24_acks_not_acked welcomedHub sessionSta (quietEnv 200) true hubMac
      "ACK 1000 ID=7".toList (by decide)).2.2.1⟩

/-- Counterexample to C24 as stated: an ACK frame from another node changes the session peer
of the Hub, so that the next reply goes to that node. -/
theorem C24_counterexample :
    getTarget welcomedHub = some staMac ∧
      startsWith "ACK ".toList "ACK 5".toList = true ∧
      getTarget (onRecv welcomedHub (quietEnv 200) otherMac "ACK 5".toList) = some otherMac := by
  decide

/-! ## C30 and C39: frames from a foreign MAC -/

/-- C30 (forwarding rule): in a session bound to the Hub `hubMac`, the frame `UI:door` from
another node is forwarded to the console, while the frame `EV P 1 1 ...` from that node is
not; the UI path of `onEspNowRecv` lacks the comparison with the session MAC that its EV path
makes. -/
theorem C30_ui_forwarded_from_foreign_mac :
    sessionSta.forwardLive = true ∧ sessionSta.haveSessionMac = true ∧
      sessionSta.sessionMac = hubMac ∧ otherMac ≠ hubMac ∧
      (Station.onEspNowRecv sessionSta true otherMac "UI:door".toList).console
        = sessionSta.console ++ ["UI door 10:20:30:40:50:60".toList] ∧
      (Station.onEspNowRecv sessionSta true otherMac
        "EV P 1 1 AA:BB:CC:DD:EE:01".toList).console = sessionSta.console ∧
      (Station.onEspNowRecv sessionSta true hubMac
        "EV P 1 1 AA:BB:CC:DD:EE:01".toList).console
        = sessionSta.console ++ ["EV P 1 1 AA:BB:CC:DD:EE:01".toList] := by
  decide

/-- C39 (session isolation): in a session bound to the Hub `hubMac`, with the transaction to
that Hub in flight, the frames `RESULT SUCCESS x` and `CLEAN-OK` from another node end the
session and the filtering window; `READY` from that node is dropped by the expected-MAC
filter, which the OK and session-end handlers of `onEspNowRecv` precede. -/
theorem C39_foreign_frame_ends_session :
    Station.session sessionSta = (true, true, hubMac, StationState.WAIT_RESULT, true) ∧
      otherMac ≠ hubMac ∧
      Station.session (Station.onEspNowRecv sessionSta true otherMac
        "RESULT SUCCESS x".toList) = (false, false, zeroMac, StationState.IDLE, false) ∧
      Station.session (Station.onEspNowRecv sessionSta true otherMac "CLEAN-OK".toList)
        = (false, false, zeroMac, StationState.WAIT_RESULT, false) ∧
      Station.session (Station.onEspNowRecv sessionSta true otherMac "PING-OK".toList)
        = (true, true, hubMac, StationState.WAIT_RESULT, false) ∧
      Station.session (Station.onEspNowRecv sessionSta true otherMac "READY".toList)
        = Station.session sessionSta :=
  ⟨by decide, by decide, by decide, by decide, by decide, by decide⟩

/-! ## Station console parser -/

/-- C27 (Station line parsing): for the line `cmd='  PING AA:BB:CC:DD:EE:01'`, whose quoted
interior starts with two blanks, `parseLineForCommand` returns the payload `PIN`, not `PING`:
the position of the MAC is found in the trimmed copy `up` and applied to the untrimmed `s`.
Without the leading blanks, and for the bare line with them, the payload is `PING`. -/
theorem C27_payload_cut_short :
    parseLineForCommand "cmd='  PING AA:BB:CC:DD:EE:01'".toList
        = some ("PIN".toList, [0xAA, 0xBB, 0xCC, 0xDD, 0xEE, 0x01]) ∧
      commandText "cmd='  PING AA:BB:CC:DD:EE:01'".toList
        = "  PING AA:BB:CC:DD:EE:01".toList ∧
      parseLineForCommand "cmd='PING AA:BB:CC:DD:EE:01'".toList
        = some ("PING".toList, [0xAA, 0xBB, 0xCC, 0xDD, 0xEE, 0x01]) ∧
      parseLineForCommand "  PING aa:bb:cc:dd:ee:01  ".toList
        = some ("PING".toList, [0xAA, 0xBB, 0xCC, 0xDD, 0xEE, 0x01]) ∧
      parseLineForCommand "PING 00:00:00:00:00:00".toList = none ∧
      parseLineForCommand "PING AA:BB:CC:DD:EE:01 x".toList = none :=
  ⟨by decide, by decide, by decide, by decide, by decide, by decide⟩

/-! ## C28: the CHECK list of the Station -/

theorem readDigits_run (d : List Char) (acc : Nat) (h : ∀ c ∈ d, isdigit c = true) :
    readDigits d acc = (d.foldl (fun a c => a * 10 + digitVal c) acc, []) := by
  induction d generalizing acc with
  | nil => rfl
  | cons c cs ih =>
    unfold readDigits
    rw [if_pos (h c (List.mem_cons_self _ _)), ih _ (fun x hx => h x (List.mem_cons_of_mem _ hx))]
    rfl

theorem digit_not_space (c : Char) (h : isdigit c = true) :
    isspace c = false ∧ c ≠ ',' ∧ c ≠ '-' ∧ c ≠ '+' := by
  obtain ⟨n, h1, h2, rfl⟩ := isdigit_cases c h
  interval_cases n <;> decide

/-- `strtol` of a non-empty run of digits is its decimal value, clamped. -/
theorem strtol_run (d : List Char) (hne : d ≠ []) (h : ∀ c ∈ d, isdigit c = true) :
    (strtol d).1 = max LONG_MIN (min LONG_MAX (decVal d : Int)) := by
  cases d with
  | nil => exact absurd rfl hne
  | cons c cs =>
    have hc := h c (List.mem_cons_self _ _)
    obtain ⟨p1, p2, p3, p4⟩ := digit_not_space c hc
    have hdw : (c :: cs).dropWhile isspace = c :: cs :=
      List.dropWhile_cons_of_neg (by rw [p1]; simp)
    have hs : strtolSign (c :: cs) = (false, c :: cs) := by
      rcases strtolSign_cases (c :: cs) with ⟨r, hr, _⟩ | ⟨r, hr, _⟩ | hs
      · exact absurd (List.cons.inj hr).1 p3
      · exact absurd (List.cons.inj hr).1 p4
      · exact hs
    rw [strtol_eq, hdw, hs]
    unfold strtolFrom
    simp only [hc, if_true, Bool.false_eq_true, if_false]
    rw [readDigits_run _ _ h]
    rfl

theorem pin_range (d : List Char) (hne : d ≠ []) (h : ∀ c ∈ d, isdigit c = true) :
    ¬ ((strtol d).1 < 1 ∨ (strtol d).1 > 40) ↔ (1 ≤ decVal d ∧ decVal d ≤ 40) := by
  rw [strtol_run d hne h]
  have h1 : LONG_MIN = -2147483648 := rfl
  have h2 : LONG_MAX = 2147483647 := rfl
  rw [h1, h2]
  constructor
  · intro hn
    omega
  · intro hn
    omega

theorem takeWhile_digits (d r : List Char) (hd : ∀ c ∈ d, isdigit c = true)
    (hr : ∀ c t, r = c :: t → isdigit c = false) :
    (d ++ r).takeWhile isdigit = d ∧ (d ++ r).dropWhile isdigit = r := by
  induction d with
  | nil =>
    cases r with
    | nil => exact ⟨rfl, rfl⟩
    | cons c t =>
      have := hr c t rfl
      exact ⟨List.takeWhile_cons_of_neg (by rw [this]; simp),
        List.dropWhile_cons_of_neg (by rw [this]; simp)⟩
  | cons c cs ih =>
    have hc := hd c (List.mem_cons_self _ _)
    obtain ⟨i1, i2⟩ := ih (fun x hx => hd x (List.mem_cons_of_mem _ hx))
    rw [List.cons_append, List.takeWhile_cons_of_pos hc, List.dropWhile_cons_of_pos hc, i1, i2]
    exact ⟨rfl, rfl⟩

theorem dropWhile_space_stop (l : List Char) (h : ∀ c t, l = c :: t → isspace c = false) :
    l.dropWhile isspace = l := by
  cases l with
  | nil => rfl
  | cons c t => exact List.dropWhile_cons_of_neg (by rw [h c t rfl]; simp)

theorem dropWhile_head (p : Char → Bool) (l : List Char) (c : Char) (t : List Char)
    (h : l.dropWhile p = c :: t) : p c = false := by
  induction l with
  | nil => cases h
  | cons a r ih =>
    by_cases ha : p a = true
    · rw [List.dropWhile_cons_of_pos ha] at h
      exact ih h
    · rw [List.dropWhile_cons_of_neg ha] at h
      have := (List.cons.inj h).1
      subst this
      simpa using ha

theorem takeWhile_all (p : Char → Bool) (l : List Char) : ∀ c ∈ l.takeWhile p, p c = true :=
  fun _ hc => List.mem_takeWhile_imp hc

/-- A pin list starts with a digit. -/
theorem PinList.head {l : List Char} {n : Nat} (h : PinList l n) :
    ∃ c t, l = c :: t ∧ isdigit c = true ∧ 1 ≤ n := by
  cases h with
  | last d s hd hs =>
    obtain ⟨hne, hall, _⟩ := hd
    cases d with
    | nil => exact absurd rfl hne
    | cons c t => exact ⟨c, t ++ s, rfl, hall c (List.mem_cons_self _ _), le_refl _⟩
  | more d s rest n hd hs hne2 hr =>
    obtain ⟨hne, hall, _⟩ := hd
    cases d with
    | nil => exact absurd rfl hne
    | cons c t =>
      exact ⟨c, t ++ (s ++ rest), rfl, hall c (List.mem_cons_self _ _), Nat.succ_le_succ (Nat.zero_le _)⟩

theorem sep_head (s : List Char) (hs : IsPinSep s) (c : Char) (t : List Char)
    (h : s = c :: t) : isspace c = true ∨ c = ',' := by
  obtain ⟨a, b, ha, hb, hab⟩ := hs
  cases a with
  | nil =>
    rcases hab with hab | hab
    · rw [List.nil_append] at hab
      rw [hab] at h
      cases b with
      | nil => cases h
      | cons x y =>
        rw [← (List.cons.inj h).1]
        exact Or.inl (hb x (List.mem_cons_self _ _))
    · rw [List.nil_append] at hab
      rw [hab] at h
      exact Or.inr (List.cons.inj h).1.symm
  | cons x y =>
    have hx := ha x (List.mem_cons_self _ _)
    rcases hab with hab | hab <;>
    · rw [hab, List.cons_append] at h
      rw [← (List.cons.inj h).1]
      exact Or.inl hx

theorem not_digit_of_sep (c : Char) (h : isspace c = true ∨ c = ',') : isdigit c = false := by
  cases hd : isdigit c
  · rfl
  · obtain ⟨p1, p2, _⟩ := digit_not_space c hd
    rcases h with h | h
    · rw [p1] at h; cases h
    · exact absurd h p2

/-- White space is skipped up to the comma of a separator, or up to what follows it. -/
theorem sep_drop (s rest : List Char) (hs : IsPinSep s)
    (hrest : ∀ c t, rest = c :: t → isspace c = false) :
    (∃ b, (∀ c ∈ b, isspace c = true) ∧ (s ++ rest).dropWhile isspace = ',' :: (b ++ rest)) ∨
      ((s ++ rest).dropWhile isspace = rest ∧ ∀ c ∈ s, isspace c = true) := by
  obtain ⟨a, b, ha, hb, hab⟩ := hs
  rcases hab with rfl | rfl
  · right
    have hall : ∀ c ∈ a ++ b, isspace c = true := by
      intro c hc
      rcases List.mem_append.1 hc with h | h
      · exact ha c h
      · exact hb c h
    exact ⟨by rw [dropWhile_append_all _ _ _ hall]; exact dropWhile_space_stop rest hrest, hall⟩
  · left
    refine ⟨b, hb, ?_⟩
    rw [List.append_assoc, dropWhile_append_all _ _ _ ha, List.cons_append]
    exact List.dropWhile_cons_of_neg (by decide)

/-- What the loop does once it has read the entry `d` that is followed by `r`. -/
theorem pinLoop_entry (fuel : Nat) (w d r : List Char) (count : Nat)
    (hw : ∀ c ∈ w, isspace c = true) (hne : d ≠ []) (hd : ∀ c ∈ d, isdigit c = true)
    (hr : ∀ c t, r = c :: t → isdigit c = false) :
    pinLoop (fuel + 1) (w ++ (d ++ r)) count =
      if ¬ (1 ≤ decVal d ∧ decVal d ≤ 40) then false
      else if count + 1 > 32 then false
      else pinLoop fuel
        (match r.dropWhile isspace with
          | ',' :: t => t
          | _ => r.dropWhile isspace) (count + 1) := by
  have h1 : (w ++ (d ++ r)).dropWhile isspace = d ++ r := by
    rw [dropWhile_append_all _ _ _ hw]
    apply dropWhile_space_stop
    intro c t hct
    cases d with
    | nil => exact absurd rfl hne
    | cons x y =>
      rw [List.cons_append] at hct
      rw [← (List.cons.inj hct).1]
      exact (digit_not_space x (hd x (List.mem_cons_self _ _))).1
  obtain ⟨h2, h3⟩ := takeWhile_digits d r hd hr
  have h4 : d ++ r ≠ [] := by
    cases d with
    | nil => exact absurd rfl hne
    | cons x y => simp
  rw [pinLoop]
  simp only [h1, h2, h3, if_neg h4, if_neg hne]
  by_cases hv : (1 ≤ decVal d ∧ decVal d ≤ 40)
  · rw [if_neg ((pin_range d hne hd).2 hv), if_neg (not_not.2 hv)]
  · rw [if_pos (by
      by_contra hc
      exact hv ((pin_range d hne hd).1 hc)), if_pos hv]

/-- The loop of `validateCheckPins` accepts exactly white space after at least one entry, and
pin lists, after white space, that keep the number of entries within 32. -/
theorem pinLoop_iff (fuel : Nat) (l : List Char) (count : Nat) (hf : l.length < fuel) :
    pinLoop fuel l count = true ↔
      ((∀ c ∈ l, isspace c = true) ∧ 0 < count) ∨
        ∃ w body n, (∀ c ∈ w, isspace c = true) ∧ l = w ++ body ∧ PinList body n ∧
          count + n ≤ 32 := by
  induction fuel generalizing l count with
  | zero => exact absurd hf (Nat.not_lt_zero _)
  | succ fuel ih =>
    -- split `l` into white space, digits and the rest
    have hsplit : l = l.takeWhile isspace ++ l.dropWhile isspace :=
      (List.takeWhile_append_dropWhile _ _).symm
    have hw := takeWhile_all isspace l
    generalize l.takeWhile isspace = w at hsplit hw
    have hl1 : ∀ c t, l.dropWhile isspace = c :: t → isspace c = false :=
      fun c t h => dropWhile_head isspace l c t h
    generalize l.dropWhile isspace = l1 at hsplit hl1
    have hsplit2 : l1 = l1.takeWhile isdigit ++ l1.dropWhile isdigit :=
      (List.takeWhile_append_dropWhile _ _).symm
    have hd := takeWhile_all isdigit l1
    have hr : ∀ c t, l1.dropWhile isdigit = c :: t → isdigit c = false :=
      fun c t h => dropWhile_head isdigit l1 c t h
    generalize l1.takeWhile isdigit = d at hsplit2 hd
    generalize l1.dropWhile isdigit = r at hsplit2 hr
    subst hsplit2
    subst hsplit
    by_cases hne : d = []
    · -- no digit where an entry is due
      subst hne
      rw [List.nil_append] at hl1 ⊢
      cases r with
      | nil =>
        -- only white space
        have hp : pinLoop (fuel + 1) (w ++ []) count = decide (count > 0) := by
          unfold pinLoop
          simp only [dropWhile_append_all _ _ _ hw, List.dropWhile_nil, if_true]
        rw [hp]
        constructor
        · intro h
          left
          refine ⟨by simpa using hw, by simpa using h⟩
        · rintro (⟨_, h⟩ | ⟨w2, body, n, _, hb, hp2, _⟩)
          · simpa using h
          · obtain ⟨c, t, hct, hdc, _⟩ := hp2.head
            have : c ∈ w ++ [] := by rw [hb, hct]; simp
            rw [List.append_nil] at this
            have h1 := hw c this
            rw [(digit_not_space c hdc).1] at h1
            cases h1
      | cons x y =>
        have hx1 := hl1 x y rfl
        have hx2 := hr x y rfl
        have hp : pinLoop (fuel + 1) (w ++ x :: y) count = false := by
          unfold pinLoop
          have h1 : (w ++ x :: y).dropWhile isspace = x :: y := by
            rw [dropWhile_append_all _ _ _ hw]
            exact List.dropWhile_cons_of_neg (by rw [hx1]; simp)
          simp only [h1]
          rw [if_neg (by simp), List.takeWhile_cons_of_neg (by rw [hx2]; simp), if_pos rfl]
        rw [hp]
        constructor
        · intro h; cases h
        · rintro (⟨h, _⟩ | ⟨w2, body, n, hw2, hb, hp2, _⟩)
          · have := h x (by simp)
            rw [hx1] at this
            cases this
          · -- the first character after the white space is `x`, not a digit
            obtain ⟨c, t, hct, hdc, _⟩ := hp2.head
            have e1 : (w ++ x :: y).dropWhile isspace = x :: y := by
              rw [dropWhile_append_all _ _ _ hw]
              exact List.dropWhile_cons_of_neg (by rw [hx1]; simp)
            have e2 : (w2 ++ body).dropWhile isspace = c :: t := by
              rw [dropWhile_append_all _ _ _ hw2, hct]
              exact List.dropWhile_cons_of_neg (by rw [(digit_not_space c hdc).1]; simp)
            rw [hb, e2] at e1
            rw [(List.cons.inj e1).1] at hdc
            rw [hx2] at hdc
            cases hdc
    · -- an entry `d`, followed by `r`
      rw [pinLoop_entry fuel w d r count hw hne hd hr]
      have hlen : (w ++ (d ++ r)).length = w.length + (d.length + r.length) := by
        simp only [List.length_append]
      have hdpos : 0 < d.length := List.length_pos.2 hne
      -- the rest of `r` after white space
      by_cases hv : (1 ≤ decVal d ∧ decVal d ≤ 40)
      swap
      · rw [if_pos hv]
        constructor
        · intro h; cases h
        · rintro (⟨h, _⟩ | ⟨w2, body, n, hw2, hb, hp2, _⟩)
          · cases d with
            | nil => exact absurd rfl hne
            | cons x y =>
              have := h x (by simp)
              rw [(digit_not_space x (hd x (List.mem_cons_self _ _))).1] at this
              cases this
          · exfalso
            apply hv
            -- the first entry of `body` is `d`
            have e1 : (w ++ (d ++ r)).dropWhile isspace = d ++ r := by
              rw [dropWhile_append_all _ _ _ hw]
              apply dropWhile_space_stop
              intro c t hct
              cases d with
              | nil => exact absurd rfl hne
              | cons x y =>
                rw [List.cons_append] at hct
                rw [← (List.cons.inj hct).1]
                exact (digit_not_space x (hd x (List.mem_cons_self _ _))).1
            have e2 : (w2 ++ body).dropWhile isspace = body := by
              rw [dropWhile_append_all _ _ _ hw2]
              apply dropWhile_space_stop
              intro c t hct
              obtain ⟨c2, t2, hct2, hdc, _⟩ := hp2.head
              rw [hct2] at hct
              rw [← (List.cons.inj hct).1]
              exact (digit_not_space c2 hdc).1
            rw [hb, e2] at e1
            cases hp2 with
            | last d2 s2 hd2 hs2 =>
              have hr2 : ∀ c t, s2 = c :: t → isdigit c = false :=
                fun c t h => not_digit_of_sep c (sep_head s2 hs2 c t h)
              have := (takeWhile_digits d2 s2 hd2.2.1 hr2).1
              rw [e1, (takeWhile_digits d r hd hr).1] at this
              rw [this]
              exact hd2.2.2
            | more d2 s2 rest n2 hd2 hs2 hne2 hrest =>
              have hr2 : ∀ c t, s2 ++ rest = c :: t → isdigit c = false := by
                intro c t h
                cases s2 with
                | nil => exact absurd rfl hne2
                | cons x y =>
                  rw [List.cons_append] at h
                  rw [← (List.cons.inj h).1]
                  exact not_digit_of_sep x (sep_head (x :: y) hs2 x y rfl)
              have := (takeWhile_digits d2 (s2 ++ rest) hd2.2.1 hr2).1
              rw [e1, (takeWhile_digits d r hd hr).1] at this
              rw [this]
              exact hd2.2.2
      rw [if_neg (not_not.2 hv)]
      have hpin : IsPin d := ⟨hne, hd, hv.1, hv.2⟩
      -- uniqueness of the first entry in any reading of the text as a pin list
      have hfirst : ∀ w2 body n, (∀ c ∈ w2, isspace c = true) → w ++ (d ++ r) = w2 ++ body →
          PinList body n →
          (n = 1 ∧ IsPinSep r) ∨
            (∃ s rest m, n = m + 1 ∧ IsPinSep s ∧ s ≠ [] ∧ PinList rest m ∧ r = s ++ rest) := by
        intro w2 body n hw2 hb hp2
        have e1 : (w ++ (d ++ r)).dropWhile isspace = d ++ r := by
          rw [dropWhile_append_all _ _ _ hw]
          apply dropWhile_space_stop
          intro c t hct
          cases d with
          | nil => exact absurd rfl hne
          | cons x y =>
            rw [List.cons_append] at hct
            rw [← (List.cons.inj hct).1]
            exact (digit_not_space x (hd x (List.mem_cons_self _ _))).1
        have e2 : (w2 ++ body).dropWhile isspace = body := by
          rw [dropWhile_append_all _ _ _ hw2]
          apply dropWhile_space_stop
          intro c t hct
          obtain ⟨c2, t2, hct2, hdc, _⟩ := hp2.head
          rw [hct2] at hct
          rw [← (List.cons.inj hct).1]
          exact (digit_not_space c2 hdc).1
        rw [hb, e2] at e1
        cases hp2 with
        | last d2 s2 hd2 hs2 =>
          have hr2 : ∀ c t, s2 = c :: t → isdigit c = false :=
            fun c t h => not_digit_of_sep c (sep_head s2 hs2 c t h)
          have t1 := (takeWhile_digits d2 s2 hd2.2.1 hr2).2
          rw [e1, (takeWhile_digits d r hd hr).2] at t1
          left
          exact ⟨rfl, by rw [t1]; exact hs2⟩
        | more d2 s2 rest n2 hd2 hs2 hne2 hrest =>
          have hr2 : ∀ c t, s2 ++ rest = c :: t → isdigit c = false := by
            intro c t h
            cases s2 with
            | nil => exact absurd rfl hne2
            | cons x y =>
              rw [List.cons_append] at h
              rw [← (List.cons.inj h).1]
              exact not_digit_of_sep x (sep_head (x :: y) hs2 x y rfl)
          have t1 := (takeWhile_digits d2 (s2 ++ rest) hd2.2.1 hr2).2
          rw [e1, (takeWhile_digits d r hd hr).2] at t1
          right
          exact ⟨s2, rest, n2, rfl, hs2, hne2, hrest, t1⟩
      by_cases hc32 : count + 1 > 32
      · rw [if_pos hc32]
        constructor
        · intro h; cases h
        · rintro (⟨h, _⟩ | ⟨w2, body, n, hw2, hb, hp2, hn⟩)
          · cases d with
            | nil => exact absurd rfl hne
            | cons x y =>
              have := h x (by simp)
              rw [(digit_not_space x (hd x (List.mem_cons_self _ _))).1] at this
              cases this
          · obtain ⟨_, _, _, _, h1n⟩ := hp2.head
            omega
      rw [if_neg hc32]
      have hrs : r.takeWhile isspace ++ r.dropWhile isspace = r :=
        List.takeWhile_append_dropWhile _ _
      have ha := takeWhile_all isspace r
      have hl2 : ∀ c t, r.dropWhile isspace = c :: t → isspace c = false :=
        fun c t h => dropWhile_head isspace r c t h
      generalize r.takeWhile isspace = a at hrs ha
      generalize r.dropWhile isspace = l2 at hrs hl2 ⊢
      subst hrs
      have hdrop : (a ++ l2).dropWhile isspace = l2 := by
        rw [dropWhile_append_all _ _ _ ha]
        exact dropWhile_space_stop l2 hl2
      have hnotall : ¬ ((∀ c ∈ w ++ (d ++ (a ++ l2)), isspace c = true) ∧ 0 < count) := by
        rintro ⟨h, _⟩
        cases d with
        | nil => exact hne rfl
        | cons x y =>
          have := h x (by simp)
          rw [(digit_not_space x (hd x (List.mem_cons_self _ _))).1] at this
          cases this
      have hlt : ∀ t : List Char, t.length ≤ l2.length → t.length < fuel := by
        intro t ht
        simp only [List.length_append] at hf
        omega
      by_cases hcomma : ∃ t, l2 = ',' :: t
      · obtain ⟨t, rfl⟩ := hcomma
        show pinLoop fuel t (count + 1) = true ↔ _
        rw [ih t (count + 1) (hlt t (by simp))]
        constructor
        · rintro (⟨ht, _⟩ | ⟨w3, body3, n3, hw3, rfl, hp3, hn3⟩)
          · right
            exact ⟨w, d ++ (a ++ ',' :: t), 1, hw, rfl,
              PinList.last d _ hpin ⟨a, t, ha, ht, Or.inr rfl⟩, by omega⟩
          · right
            exact ⟨w, d ++ ((a ++ ',' :: w3) ++ body3), n3 + 1, hw, by simp,
              PinList.more d _ body3 n3 hpin ⟨a, w3, ha, hw3, Or.inr rfl⟩ (by simp) hp3,
              by omega⟩
        · rintro (h | ⟨w2, body, n, hw2, hb, hp2, hn⟩)
          · exact absurd h hnotall
          · rcases hfirst w2 body n hw2 hb hp2 with
              ⟨rfl, hs⟩ | ⟨s, rest, m, rfl, hs, hsne, hrest, hr2⟩
            · rcases sep_drop (a ++ ',' :: t) [] hs (fun c t h => by cases h) with
                ⟨b, hb2, hd2⟩ | ⟨hd2, hall⟩
              · rw [List.append_nil, hdrop, List.append_nil] at hd2
                left
                have := (List.cons.inj hd2).2
                exact ⟨by rw [this]; exact hb2, Nat.succ_pos _⟩
              · have := hall ',' (by simp)
                exact absurd this (by decide)
            · have hrh : ∀ c t, rest = c :: t → isspace c = false := by
                intro c t h
                obtain ⟨c2, t2, h2, hdc, _⟩ := hrest.head
                rw [h2] at h
                rw [← (List.cons.inj h).1]
                exact (digit_not_space c2 hdc).1
              rcases sep_drop s rest hs hrh with ⟨b, hb2, hd2⟩ | ⟨hd2, hall⟩
              · rw [← hr2, hdrop] at hd2
                right
                exact ⟨b, rest, m, hb2, (List.cons.inj hd2).2, hrest, by omega⟩
              · rw [← hr2, hdrop] at hd2
                obtain ⟨c2, t2, h2, hdc, _⟩ := hrest.head
                rw [h2] at hd2
                exact absurd (List.cons.inj hd2).1.symm (digit_not_space c2 hdc).2.1
      · have hm : ∀ x : List Char, (¬ ∃ t, x = ',' :: t) → (match x with
            | ',' :: t => t
            | _ => x) = x := by
          intro x hx
          split
          · rename_i t
            exact absurd ⟨t, rfl⟩ hx
          · rfl
        rw [hm l2 hcomma, ih l2 (count + 1) (hlt l2 (le_refl _))]
        constructor
        · rintro (⟨ht, _⟩ | ⟨w3, body3, n3, hw3, hl2b, hp3, hn3⟩)
          · have hl2nil : l2 = [] := by
              cases l2 with
              | nil => rfl
              | cons c t =>
                have h1 := ht c (List.mem_cons_self _ _)
                rw [hl2 c t rfl] at h1
                cases h1
            subst hl2nil
            right
            exact ⟨w, d ++ (a ++ []), 1, hw, rfl,
              PinList.last d _ hpin ⟨a, [], ha, by simp, Or.inl rfl⟩, by omega⟩
          · have hw3nil : w3 = [] := by
              cases w3 with
              | nil => rfl
              | cons c t =>
                have h1 := hw3 c (List.mem_cons_self _ _)
                rw [hl2b, List.cons_append] at hl2
                rw [hl2 c _ rfl] at h1
                cases h1
            subst hw3nil
            rw [List.nil_append] at hl2b
            subst hl2b
            have hane : a ≠ [] := by
              intro h0
              subst h0
              obtain ⟨c2, t2, h2, hdc, _⟩ := hp3.head
              have := hr c2 t2 (by rw [List.nil_append]; exact h2)
              rw [hdc] at this
              cases this
            right
            exact ⟨w, d ++ (a ++ l2), n3 + 1, hw, rfl,
              PinList.more d a l2 n3 hpin ⟨a, [], ha, by simp, Or.inl (by simp)⟩ hane hp3,
              by omega⟩
        · rintro (h | ⟨w2, body, n, hw2, hb, hp2, hn⟩)
          · exact absurd h hnotall
          · rcases hfirst w2 body n hw2 hb hp2 with
              ⟨rfl, hs⟩ | ⟨s, rest, m, rfl, hs, hsne, hrest, hr2⟩
            · rcases sep_drop (a ++ l2) [] hs (fun c t h => by cases h) with
                ⟨b, hb2, hd2⟩ | ⟨hd2, hall⟩
              · rw [List.append_nil, hdrop] at hd2
                exact absurd ⟨_, hd2⟩ hcomma
              · rw [List.append_nil, hdrop] at hd2
                left
                rw [hd2]
                exact ⟨by simp, Nat.succ_pos _⟩
            · have hrh : ∀ c t, rest = c :: t → isspace c = false := by
                intro c t h
                obtain ⟨c2, t2, h2, hdc, _⟩ := hrest.head
                rw [h2] at h
                rw [← (List.cons.inj h).1]
                exact (digit_not_space c2 hdc).1
              rcases sep_drop s rest hs hrh with ⟨b, hb2, hd2⟩ | ⟨hd2, hall⟩
              · rw [← hr2, hdrop] at hd2
                exact absurd ⟨_, hd2⟩ hcomma
              · rw [← hr2, hdrop] at hd2
                right
                exact ⟨[], rest, m, by simp, by rw [hd2]; rfl, hrest, by omega⟩

/-- A trimmed text does not start with white space. -/
theorem strTrim_head (x : List Char) (c : Char) (t : List Char) (h : strTrim x = c :: t) :
    isspace c = false := by
  unfold strTrim at h
  have hp : ((x.dropWhile isspace).reverse.dropWhile isspace).reverse
      <+: (x.dropWhile isspace).reverse.reverse :=
    List.reverse_prefix.2 (List.dropWhile_suffix _)
  rw [List.reverse_reverse, h] at hp
  obtain ⟨r, hr⟩ := hp
  exact dropWhile_head isspace x c (t ++ r) hr.symm

/-- C28 (Station CHECK validation), as the code has it: for a payload that does not start
with CHECK after trimming and uppercasing, `validateCheckPins` returns true; for one that
does, it returns true iff the trimmed text after the verb is a pin list of at most 32
entries: runs of decimal digits with a value within 1..40, each followed by white space with
at most one comma in it, which is not empty between two entries. A bare `CHECK`, an entry
outside 1..40, more than 32 entries, any other character, a comma before the first entry and
a second comma between two entries make it return false; one comma after the last entry is
accepted. -/
theorem C28_check_validation (payload : List Char) :
    (startsWith "CHECK".toList (strUpper (strTrim payload)) = false →
        validateCheckPins payload = true) ∧
      (startsWith "CHECK".toList (strUpper (strTrim payload)) = true →
        (validateCheckPins payload = true ↔
          ∃ n, n ≤ 32 ∧ PinList (checkList payload) n)) := by
  constructor
  · intro h
    unfold validateCheckPins
    simp only [h, Bool.not_false, if_true]
  · intro h
    have hv : validateCheckPins payload
        = if checkList payload = [] then false
          else pinLoop ((checkList payload).length + 1) (checkList payload) 0 := by
      unfold validateCheckPins checkList
      simp only [h, Bool.not_true, Bool.false_eq_true, if_false]
    rw [hv]
    by_cases hnil : checkList payload = []
    · rw [if_pos hnil, hnil]
      constructor
      · intro hc; cases hc
      · rintro ⟨n, _, hp⟩
        obtain ⟨c, t, hct, _⟩ := hp.head
        cases hct
    · rw [if_neg hnil, pinLoop_iff _ _ _ (Nat.lt_succ_self _)]
      constructor
      · rintro (⟨_, h0⟩ | ⟨w, body, n, hw, hb, hp, hn⟩)
        · exact absurd h0 (Nat.lt_irrefl 0)
        · have hwnil : w = [] := by
            cases w with
            | nil => rfl
            | cons c t =>
              have h1 := hw c (List.mem_cons_self _ _)
              rw [strTrim_head _ c (t ++ body) hb] at h1
              cases h1
          subst hwnil
          rw [List.nil_append] at hb
          exact ⟨n, by omega, by rw [hb]; exact hp⟩
      · rintro ⟨n, hn, hp⟩
        right
        exact ⟨[], checkList payload, n, fun c hc => absurd hc (List.not_mem_nil c), rfl, hp,
          by omega⟩

/-- Witness of C28: `check 5, 6 ,40` is accepted, and its list is a pin list. -/
theorem C28_check_validation_witness :
    startsWith "CHECK".toList (strUpper (strTrim "check 5, 6 ,40".toList)) = true ∧
      validateCheckPins "check 5, 6 ,40".toList = true ∧
      (∃ n, n ≤ 32 ∧ PinList (checkList "check 5, 6 ,40".toList) n) ∧
      validateCheckPins "PING".toList = true :=
  ⟨by decide, by decide,
    ((C28_check_validation "check 5, 6 ,40".toList).2 (by decide)).1 (by decide),
    (C28_check_validation "PING".toList).1 (by decide)⟩

/-- Counterexample to C28 as stated: `CHECK 1,,2` is a list of the numbers 1 and 2 separated
by commas (the tokenizer of the Hub reads it so) and is rejected; `CHECK ,1` is rejected
too; `CHECK 1,` is accepted although a comma follows its last number. -/
theorem C28_counterexample :
    validateCheckPins "CHECK 1,,2".toList = false ∧
      strtok checkDelims "1,,2".toList = ["1".toList, "2".toList] ∧
      validateCheckPins "CHECK ,1".toList = false ∧
      validateCheckPins "CHECK 1,".toList = true ∧
      validateCheckPins "CHECK 1,2".toList = true ∧
      validateCheckPins "CHECK".toList = false ∧
      validateCheckPins "CHECK 41".toList = false ∧
      validateCheckPins "CHECK 1 x".toList = false :=
  ⟨by decide, by decide, by decide, by decide, by decide, by decide, by decide, by decide⟩

/-! ## Station reliable send -/

/-! ## C29 -/

theorem stationRecv_keep (st : Station) (ok : Bool) (src : Mac) (data : List Char) :
    (Station.onEspNowRecv st ok src data).staAckWaitId = st.staAckWaitId ∧
      (Station.onEspNowRecv st ok src data).staAckWaitMac = st.staAckWaitMac ∧
      (Station.onEspNowRecv st ok src data).txInFlight = st.txInFlight := by
  have ha : ∀ (s : Station) (rxb : List Char) (n : Nat),
      (Station.autoAck s ok src rxb n).staAckWaitId = s.staAckWaitId ∧
      (Station.autoAck s ok src rxb n).staAckWaitMac = s.staAckWaitMac ∧
      (Station.autoAck s ok src rxb n).txInFlight = s.txInFlight := by
    intro s rxb n
    unfold Station.autoAck
    split
    · exact ⟨rfl, rfl, rfl⟩
    · simp only []
      split_ifs <;> exact ⟨rfl, rfl, rfl⟩
  have hh : ∀ (s : Station) (rxb : List Char),
      (Station.handleReply s src rxb).staAckWaitId = s.staAckWaitId ∧
      (Station.handleReply s src rxb).staAckWaitMac = s.staAckWaitMac ∧
      (Station.handleReply s src rxb).txInFlight = s.txInFlight := by
    intro s rxb
    unfold Station.handleReply
    simp only []
    split_ifs <;> (try split) <;> exact ⟨rfl, rfl, rfl⟩
  unfold Station.onEspNowRecv
  simp only []
  have hboth : ∀ rxb n,
      (Station.handleReply (Station.autoAck st ok src rxb n) src rxb).staAckWaitId
          = st.staAckWaitId ∧
        (Station.handleReply (Station.autoAck st ok src rxb n) src rxb).staAckWaitMac
          = st.staAckWaitMac ∧
        (Station.handleReply (Station.autoAck st ok src rxb n) src rxb).txInFlight
          = st.txInFlight := by
    intro rxb n
    obtain ⟨h1, h2, h3⟩ := hh (Station.autoAck st ok src rxb n) rxb
    obtain ⟨a1, a2, a3⟩ := ha st rxb n
    exact ⟨h1.trans a1, h2.trans a2, h3.trans a3⟩
  split_ifs <;>
    first
    | exact ⟨rfl, rfl, rfl⟩
    | exact ha _ _ _
    | exact hboth _ _

/-- The auto-ACK block hands at most an acknowledgement to the radio and leaves the ACK flag
alone. -/
theorem stationAutoAck_radio (s : Station) (ok : Bool) (src : Mac) (rxb : List Char) (n : Nat) :
    (Station.autoAck s ok src rxb n).staAckReceived = s.staAckReceived ∧
      ((Station.autoAck s ok src rxb n).radio = s.radio ∨
        ∃ id, (Station.autoAck s ok src rxb n).radio
          = s.radio ++ [{ dest := src, text := snprintf 24 ("ACK ".toList ++ fmtDec id) }]) := by
  unfold Station.autoAck
  split
  · exact ⟨rfl, Or.inl rfl⟩
  · rename_i id _
    simp only []
    split_ifs <;> first | exact ⟨rfl, Or.inl rfl⟩ | exact ⟨rfl, Or.inr ⟨id, rfl⟩⟩

theorem stationReply_radio (s : Station) (src : Mac) (rxb : List Char) :
    (Station.handleReply s src rxb).staAckReceived = s.staAckReceived ∧
      (Station.handleReply s src rxb).radio = s.radio := by
  unfold Station.handleReply
  simp only []
  split_ifs <;> (try split) <;> exact ⟨rfl, rfl⟩

/-- What one run of the RX callback does to the ACK flag and to the radio log: it sets the
flag only for an acknowledgement of the awaited id (not 0) from the awaited MAC, and hands at
most an acknowledgement to the radio. -/
theorem stationRecv_flag (st : Station) (ok : Bool) (src : Mac) (data : List Char) :
    ((Station.onEspNowRecv st ok src data).staAckReceived = st.staAckReceived ∨
        (isAckFor st.staAckWaitId st.staAckWaitMac (ok, src, data) ∧ st.staAckWaitId ≠ 0)) ∧
      ((Station.onEspNowRecv st ok src data).radio = st.radio ∨
        ∃ id, (Station.onEspNowRecv st ok src data).radio
          = st.radio ++ [{ dest := src, text := snprintf 24 ("ACK ".toList ++ fmtDec id) }]) := by
  have hboth : ∀ rxb n,
      (Station.handleReply (Station.autoAck st ok src rxb n) src rxb).staAckReceived
          = st.staAckReceived ∧
        ((Station.handleReply (Station.autoAck st ok src rxb n) src rxb).radio = st.radio ∨
          ∃ id, (Station.handleReply (Station.autoAck st ok src rxb n) src rxb).radio
            = st.radio ++ [{ dest := src, text := snprintf 24 ("ACK ".toList ++ fmtDec id) }]) := by
    intro rxb n
    obtain ⟨h1, h2⟩ := stationReply_radio (Station.autoAck st ok src rxb n) src rxb
    obtain ⟨a1, a2⟩ := stationAutoAck_radio st ok src rxb n
    rw [h1, h2]
    exact ⟨a1, a2⟩
  unfold Station.onEspNowRecv
  simp only []
  by_cases h0 : data.length = 0
  · rw [if_pos h0]
    exact ⟨Or.inl rfl, Or.inl rfl⟩
  rw [if_neg h0]
  by_cases hz : isZeroMac src = true
  · rw [if_pos hz]
    exact ⟨Or.inl rfl, Or.inl rfl⟩
  rw [if_neg hz]
  by_cases hA : startsWith "ACK ".toList (cstr (data.take (min data.length 255))) = true
  · rw [if_pos hA]
    split_ifs with hc
    · exact ⟨Or.inr ⟨⟨hc.2.2, hA, hc.2.1⟩, by rw [← hc.2.1]; exact hc.1⟩, Or.inl rfl⟩
    · exact ⟨Or.inl rfl, Or.inl rfl⟩
  · rw [if_neg hA]
    have ha := stationAutoAck_radio st ok src (cstr (data.take (min data.length 255)))
      (min data.length 255)
    split_ifs <;>
      first
      | exact ⟨Or.inl ha.1, ha.2⟩
      | exact ⟨Or.inl (hboth _ _).1, (hboth _ _).2⟩

/-- An acknowledgement text holds no `=`. -/
theorem ackText_no_eq (id : Nat) : '=' ∉ snprintf 24 ("ACK ".toList ++ fmtDec id) := by
  intro h
  unfold snprintf at h
  have h2 := List.mem_of_mem_take h
  rcases List.mem_append.1 h2 with h3 | h3
  · exact absurd h3 (by decide)
  · have := fmtDec_isdigit id _ h3
    exact absurd this (by decide)

/-- The frames that the RX callback hands to the radio are not the frame in flight. -/
theorem stationRecv_handed (st : Station) (ok : Bool) (src : Mac) (data : List Char) (f : Frame)
    (hf : '=' ∈ f.text) :
    (Station.onEspNowRecv st ok src data).handed f = st.handed f := by
  unfold Station.handed
  rcases (stationRecv_flag st ok src data).2 with h | ⟨id, h⟩
  · rw [h]
  · rw [h, List.count_append]
    have hne : ({ dest := src, text := snprintf 24 ("ACK ".toList ++ fmtDec id) } : Frame) ≠ f := by
      intro he
      rw [← he] at hf
      exact ackText_no_eq id hf
    rw [List.count_singleton, if_neg (by simpa using hne)]
    rfl

theorem deliver_facts (rx : List (Bool × Mac × List Char)) (st : Station) (f : Frame)
    (hf : '=' ∈ f.text) :
    (Station.deliver st rx).staAckWaitId = st.staAckWaitId ∧
      (Station.deliver st rx).staAckWaitMac = st.staAckWaitMac ∧
      (Station.deliver st rx).txInFlight = st.txInFlight ∧
      (Station.deliver st rx).handed f = st.handed f ∧
      ((Station.deliver st rx).staAckReceived = true → st.staAckReceived = true ∨
        (∃ x ∈ rx, isAckFor st.staAckWaitId st.staAckWaitMac x) ∧ st.staAckWaitId ≠ 0) := by
  induction rx generalizing st with
  | nil => exact ⟨rfl, rfl, rfl, rfl, fun h => Or.inl h⟩
  | cons x xs ih =>
    obtain ⟨k1, k2, k3⟩ := stationRecv_keep st x.1 x.2.1 x.2.2
    have k4 := stationRecv_handed st x.1 x.2.1 x.2.2 f hf
    have k5 := (stationRecv_flag st x.1 x.2.1 x.2.2).1
    obtain ⟨i1, i2, i3, i4, i5⟩ := ih (Station.onEspNowRecv st x.1 x.2.1 x.2.2)
    have hd : Station.deliver st (x :: xs)
        = Station.deliver (Station.onEspNowRecv st x.1 x.2.1 x.2.2) xs := rfl
    rw [hd]
    refine ⟨i1.trans k1, i2.trans k2, i3.trans k3, i4.trans k4, ?_⟩
    intro h
    rcases i5 h with h1 | ⟨⟨y, hy, hy2⟩, h2⟩
    · rcases k5 with h3 | ⟨h3, h4⟩
      · left
        rw [← h3]; exact h1
      · right
        exact ⟨⟨x, List.mem_cons_self _ _, h3⟩, h4⟩
    · right
      rw [k1, k2] at hy2
      rw [k1] at h2
      exact ⟨⟨y, List.mem_cons_of_mem _ hy, hy2⟩, h2⟩

theorem sendToPeerRaw_facts (st : Station) (e : SendEnv) (framed : List Char) (mac : Mac)
    (f : Frame) :
    (Station.sendToPeerRaw st e framed mac).1.staAckWaitId = st.staAckWaitId ∧
      (Station.sendToPeerRaw st e framed mac).1.staAckWaitMac = st.staAckWaitMac ∧
      (Station.sendToPeerRaw st e framed mac).1.txInFlight = st.txInFlight ∧
      (Station.sendToPeerRaw st e framed mac).1.staAckReceived = st.staAckReceived ∧
      (Station.sendToPeerRaw st e framed mac).1.handed f
        ≤ st.handed f + (if e.sendOk then 1 else 2) := by
  have h1 : ∀ s : Station, (s.espNowSend mac framed).handed f ≤ s.handed f + 1 := by
    intro s
    unfold Station.handed Station.espNowSend
    simp only [List.count_append]
    have := List.count_le_length ({ dest := mac, text := framed } : Frame) [f]
    have h2 : List.count f [({ dest := mac, text := framed } : Frame)] ≤ 1 :=
      List.count_le_length _ _
    omega
  unfold Station.sendToPeerRaw
  simp only []
  cases hs : e.sendOk <;> split_ifs <;> refine ⟨rfl, rfl, rfl, rfl, ?_⟩
  all_goals first
    | exact Nat.le_add_right _ _
    | exact (h1 st).trans (by omega)
    | exact ((h1 (st.espNowSend mac framed)).trans (Nat.succ_le_succ (h1 st)))

/-- The interval after a send block stays within 640 ms. -/
theorem staBackoff_le (att cur : Nat) (h : cur ≤ 640) :
    (if att > 1 then (if (cur + 80) % U32 > 640 then 640 else (cur + 80) % U32) else cur)
      ≤ 640 := by
  split_ifs <;> omega

/-- One iteration of the loop of `sendWithAck`. -/
theorem sendStep_facts (framed : List Char) (mac : Mac) (e : SendEnv) (a : SendIter)
    (f : Frame) (hf : '=' ∈ f.text) :
    (Station.sendStep framed mac e a).st.staAckWaitId = a.st.staAckWaitId ∧
      (Station.sendStep framed mac e a).st.staAckWaitMac = a.st.staAckWaitMac ∧
      (Station.sendStep framed mac e a).st.txInFlight = a.st.txInFlight ∧
      ((Station.sendStep framed mac e a).st.staAckReceived = true →
        a.st.staAckReceived = true ∨
          (∃ x ∈ e.rx, isAckFor a.st.staAckWaitId a.st.staAckWaitMac x) ∧
            a.st.staAckWaitId ≠ 0) ∧
      ((a.attempts = 0 ∨ subU32 e.now a.lastSend ≥ a.curTimeout) →
        (Station.sendStep framed mac e a).attempts = a.attempts + 1 ∧
          (Station.sendStep framed mac e a).lastSend = e.now ∧
          (Station.sendStep framed mac e a).curTimeout
            = (if a.attempts + 1 > 1 then
                (if (a.curTimeout + 80) % U32 > 640 then 640 else (a.curTimeout + 80) % U32)
              else a.curTimeout) ∧
          (Station.sendStep framed mac e a).st.handed f
            ≤ a.st.handed f + (if e.sendOk then 1 else 2)) ∧
      (¬ (a.attempts = 0 ∨ subU32 e.now a.lastSend ≥ a.curTimeout) →
        (Station.sendStep framed mac e a).attempts = a.attempts ∧
          (Station.sendStep framed mac e a).lastSend = a.lastSend ∧
          (Station.sendStep framed mac e a).curTimeout = a.curTimeout ∧
          (Station.sendStep framed mac e a).st.handed f = a.st.handed f) := by
  by_cases hdue : a.attempts = 0 ∨ subU32 e.now a.lastSend ≥ a.curTimeout
  · obtain ⟨s1, s2, s3, s4, s5⟩ := sendToPeerRaw_facts a.st e framed mac f
    obtain ⟨d1, d2, d3, d4, d5⟩ := deliver_facts e.rx (Station.sendToPeerRaw a.st e framed mac).1
      f hf
    have hst : Station.sendStep framed mac e a
        = { st := Station.deliver (Station.sendToPeerRaw a.st e framed mac).1 e.rx
            attempts := a.attempts + 1
            lastSend := e.now
            curTimeout :=
              if a.attempts + 1 > 1 then
                (if (a.curTimeout + 80) % U32 > 640 then 640 else (a.curTimeout + 80) % U32)
              else a.curTimeout } := by
      unfold Station.sendStep
      simp only []
      rw [if_pos hdue]
    rw [hst]
    refine ⟨d1.trans s1, d2.trans s2, d3.trans s3, ?_, ?_, fun h => absurd hdue h⟩
    · intro h
      have := d5 h
      rw [s1, s2, s4] at this
      exact this
    · intro _
      exact ⟨rfl, rfl, rfl, by show (Station.deliver _ e.rx).handed f ≤ _; rw [d4]; exact s5⟩
  · obtain ⟨d1, d2, d3, d4, d5⟩ := deliver_facts e.rx a.st f hf
    have hst : Station.sendStep framed mac e a = { a with st := Station.deliver a.st e.rx } := by
      unfold Station.sendStep
      simp only []
      rw [if_neg hdue]
    rw [hst]
    exact ⟨d1, d2, d3, d5, fun h => absurd h hdue, fun _ => ⟨rfl, rfl, rfl, d4⟩⟩

/-- What holds when the loop of `sendWithAck` returns. -/
theorem sendLoop_post (framed : List Char) (mac : Mac) (es : Nat → SendEnv) (f : Frame)
    (hf : '=' ∈ f.text) (id : Nat) (wmac : Mac) (c0 b : Nat)
    (hb : ∀ j, (if (es j).sendOk then 1 else 2) ≤ b) :
    ∀ (fuel k : Nat) (a : SendIter) (st2 : Station) (r : Bool),
      Station.sendLoop framed mac es fuel k a = some (st2, r) →
      a.st.staAckWaitId = id → a.st.staAckWaitMac = wmac → a.st.staAckReceived = false →
      a.attempts ≤ 5 → a.st.handed f ≤ c0 + b * a.attempts →
      st2.txInFlight = false ∧ st2.handed f ≤ c0 + b * 5 ∧
        (r = true → id ≠ 0 ∧ ∃ j x, x ∈ (es j).rx ∧ isAckFor id wmac x) := by
  have h4 : STA_ACK_MAX_RETRIES = 4 := rfl
  intro fuel
  induction fuel with
  | zero =>
    intro k a st2 r h
    cases h
  | succ fuel ih =>
    intro k a st2 r h hid hmac hflag hatt hcount
    rw [Station.sendLoop] at h
    by_cases h5 : a.attempts ≤ STA_ACK_MAX_RETRIES
    · rw [if_pos h5] at h
      simp only [] at h
      obtain ⟨q1, q2, q3, q4, q5, q6⟩ := sendStep_facts framed mac (es k) a f hf
      have hatt2 : (Station.sendStep framed mac (es k) a).attempts ≤ 5 ∧
          (Station.sendStep framed mac (es k) a).st.handed f
            ≤ c0 + b * (Station.sendStep framed mac (es k) a).attempts := by
        by_cases hdue : a.attempts = 0 ∨ subU32 (es k).now a.lastSend ≥ a.curTimeout
        · obtain ⟨e1, _, _, e4⟩ := q5 hdue
          rw [e1]
          have := hb k
          rw [h4] at h5
          refine ⟨by omega, ?_⟩
          rw [Nat.mul_add, Nat.mul_one]
          omega
        · obtain ⟨e1, _, _, e4⟩ := q6 hdue
          rw [e1, e4]
          exact ⟨hatt, hcount⟩
      by_cases hfl : (Station.sendStep framed mac (es k) a).st.staAckReceived = true
      · rw [if_pos hfl] at h
        have h2 := Option.some.inj h
        have hst : st2 = { (Station.sendStep framed mac (es k) a).st with txInFlight := false } :=
          (congrArg Prod.fst h2).symm
        refine ⟨by rw [hst], ?_, ?_⟩
        · rw [hst]
          show (Station.sendStep framed mac (es k) a).st.handed f ≤ _
          have := Nat.mul_le_mul_left b hatt2.1
          omega
        · intro _
          rcases q4 hfl with h1 | ⟨⟨x, hx, hx2⟩, h3⟩
          · rw [hflag] at h1; cases h1
          · rw [hid] at h3
            rw [hid, hmac] at hx2
            exact ⟨h3, k, x, hx, hx2⟩
      · rw [if_neg hfl] at h
        exact ih (k + 1) _ st2 r h (q1.trans hid) (q2.trans hmac) (by simpa using hfl) hatt2.1
          hatt2.2
    · rw [if_neg h5] at h
      have h2 := Option.some.inj h
      have hst : st2 = { a.st with txInFlight := false } := (congrArg Prod.fst h2).symm
      have hr : r = false := (congrArg Prod.snd h2).symm
      refine ⟨by rw [hst], ?_, ?_⟩
      · rw [hst]
        show a.st.handed f ≤ _
        have := Nat.mul_le_mul_left b hatt
        omega
      · intro h1
        rw [hr] at h1
        cases h1

/-- The loop of `sendWithAck` returns when `millis()` advances from one iteration to the next
without wrapping around, over the iterations up to number `N`. -/
theorem sendLoop_returns (framed : List Char) (mac : Mac) (es : Nat → SendEnv) (N : Nat)
    (hclock : ∀ k, k ≤ N → (es k).now < (es (k + 1)).now)
    (hwrap : ∀ k, k ≤ N → (es k).now < U32) :
    ∀ (fuel k : Nat) (a : SendIter), a.curTimeout ≤ 640 → a.lastSend ≤ (es k).now →
      (5 - a.attempts) * 641 + (a.lastSend + a.curTimeout - (es k).now) + 2 ≤ fuel →
      k + ((5 - a.attempts) * 641 + (a.lastSend + a.curTimeout - (es k).now)) ≤ N →
      (Station.sendLoop framed mac es fuel k a).isSome = true := by
  have h4 : STA_ACK_MAX_RETRIES = 4 := rfl
  have hfr : '=' ∈ ({ dest := mac, text := ['='] } : Frame).text := List.mem_singleton.2 rfl
  intro fuel
  induction fuel with
  | zero =>
    intro k a _ _ h _
    omega
  | succ fuel ih =>
    intro k a hcur hlast hfuel hN
    rw [Station.sendLoop]
    by_cases h5 : a.attempts ≤ STA_ACK_MAX_RETRIES
    · rw [if_pos h5]
      simp only []
      by_cases hfl : (Station.sendStep framed mac (es k) a).st.staAckReceived = true
      · rw [if_pos hfl]
        rfl
      · rw [if_neg hfl]
        obtain ⟨_, _, _, _, q5, q6⟩ := sendStep_facts framed mac (es k) a _ hfr
        have hc := hclock k (by omega)
        rw [h4] at h5
        by_cases hdue : a.attempts = 0 ∨ subU32 (es k).now a.lastSend ≥ a.curTimeout
        · obtain ⟨e1, e2, e3, _⟩ := q5 hdue
          have hle := staBackoff_le (a.attempts + 1) a.curTimeout hcur
          rw [← e3] at hle
          apply ih (k + 1) _ hle (by rw [e2]; omega)
          · rw [e1, e2]
            omega
          · rw [e1, e2]
            omega
        · obtain ⟨e1, e2, e3, _⟩ := q6 hdue
          have hnd : ¬ (subU32 (es k).now a.lastSend ≥ a.curTimeout) := fun h => hdue (Or.inr h)
          rw [subU32_plain _ _ hlast (hwrap k (by omega))] at hnd
          apply ih (k + 1) _ (by rw [e3]; exact hcur) (by rw [e2]; omega)
          · rw [e1, e2, e3]
            omega
          · rw [e1, e2, e3]
            omega
    · rw [if_neg h5]
      rfl

theorem staFramed_eq (payload : List Char) (id : Nat) : '=' ∈ staFramed payload id := by
  unfold staFramed
  simp

/-- C29 (Station reliable send), as the code has it. `sendWithAck` returns false and changes
nothing when another send is in flight or `mac` is all zero; it returns false without a
transmission, with `txInFlight` false, when the framed message `payload ++ " ID=" ++ id` is
longer than 220 characters. Whenever a call made with no send in flight returns, `txInFlight`
is false, the framed message was handed to `esp_now_send` at most 10 times, and at most 5
times when no `esp_now_send` call fails: each of the at most 5 attempts (1 + 4 retries) calls
it once, and once more when the first call fails and the peer can be added again. The result
is true only if the id is not 0 and the RX callback handled, during the call, a frame from
`mac` whose text starts with `ACK ` and names the id. The call returns, within
3427 iterations of its loop, when `millis()` advances from each of them to the next without
wrapping around. -/
theorem C29_send_with_ack (st : Station) (es : Nat → SendEnv) (payload : List Char)
    (mac : Mac) :
    (st.txInFlight = true → ∀ fuel, st.sendWithAck es fuel payload mac = some (st, false)) ∧
      (st.txInFlight = false → isZeroMac mac = true →
        ∀ fuel, st.sendWithAck es fuel payload mac = some (st, false)) ∧
      (st.txInFlight = false → isZeroMac mac = false →
        (staFramed payload st.seq).length > STA_MAX_PAYLOAD →
        ∀ fuel, ∃ st2, st.sendWithAck es fuel payload mac = some (st2, false) ∧
          st2.radio = st.radio ∧ st2.txInFlight = false) ∧
      (∀ fuel st2 r, st.txInFlight = false →
        st.sendWithAck es fuel payload mac = some (st2, r) →
        st2.txInFlight = false ∧
          st2.handed { dest := mac, text := staFramed payload st.seq }
            ≤ st.handed { dest := mac, text := staFramed payload st.seq } + 10 ∧
          ((∀ k, (es k).sendOk = true) →
            st2.handed { dest := mac, text := staFramed payload st.seq }
              ≤ st.handed { dest := mac, text := staFramed payload st.seq } + 5) ∧
          (r = true → st.seq ≠ 0 ∧ ∃ k x, x ∈ (es k).rx ∧ isAckFor st.seq mac x)) ∧
      ((∀ k, k ≤ 3425 → (es k).now < (es (k + 1)).now) → (∀ k, k ≤ 3425 → (es k).now < U32) →
        ∀ fuel, 3427 ≤ fuel → (st.sendWithAck es fuel payload mac).isSome = true) := by
  refine ⟨?_, ?_, ?_, ?_, ?_⟩
  · intro h fuel
    unfold Station.sendWithAck
    rw [if_pos h]
  · intro h hz fuel
    unfold Station.sendWithAck
    rw [if_neg (by rw [h]; simp), if_pos hz]
  · intro h hz hlen fuel
    unfold Station.sendWithAck
    rw [if_neg (by rw [h]; simp), if_neg (by rw [hz]; simp)]
    simp only []
    rw [if_pos hlen]
    exact ⟨_, rfl, rfl, rfl⟩
  · intro fuel st2 r h hres
    unfold Station.sendWithAck at hres
    rw [if_neg (by rw [h]; simp)] at hres
    by_cases hz : isZeroMac mac = true
    · rw [if_pos hz] at hres
      have h2 := Option.some.inj hres
      have hst : st2 = st := (congrArg Prod.fst h2).symm
      have hr : r = false := (congrArg Prod.snd h2).symm
      subst hst
      refine ⟨h, Nat.le_add_right _ _, fun _ => Nat.le_add_right _ _, ?_⟩
      intro h1
      rw [hr] at h1
      cases h1
    · rw [if_neg hz] at hres
      simp only [] at hres
      by_cases hlen : (staFramed payload st.seq).length > STA_MAX_PAYLOAD
      · rw [if_pos hlen] at hres
        have h2 := Option.some.inj hres
        have hst := (congrArg Prod.fst h2).symm
        have hr : r = false := (congrArg Prod.snd h2).symm
        simp only [] at hst
        refine ⟨by rw [hst], ?_, ?_, ?_⟩
        · rw [hst]
          exact Nat.le_add_right _ _
        · intro _
          rw [hst]
          exact Nat.le_add_right _ _
        · intro h1
          rw [hr] at h1
          cases h1
      · rw [if_neg hlen] at hres
        have p2 := sendLoop_post (staFramed payload st.seq) mac es
          { dest := mac, text := staFramed payload st.seq } (staFramed_eq payload st.seq)
          st.seq mac (st.handed { dest := mac, text := staFramed payload st.seq }) 2
          (fun j => by split_ifs <;> omega) fuel 0 _ st2 r hres rfl rfl rfl
          (Nat.zero_le _) (Nat.le_refl _)
        refine ⟨p2.1, p2.2.1, ?_, p2.2.2⟩
        intro hok
        have p1 := sendLoop_post (staFramed payload st.seq) mac es
          { dest := mac, text := staFramed payload st.seq } (staFramed_eq payload st.seq)
          st.seq mac (st.handed { dest := mac, text := staFramed payload st.seq }) 1
          (fun j => by rw [hok j]; exact Nat.le_refl _) fuel 0 _ st2 r hres rfl rfl rfl
          (Nat.zero_le _) (Nat.le_refl _)
        exact p1.2.1
  · intro hclock hwrap fuel hfuel
    unfold Station.sendWithAck
    by_cases h : st.txInFlight = true
    · rw [if_pos h]
      rfl
    rw [if_neg h]
    by_cases hz : isZeroMac mac = true
    · rw [if_pos hz]
      rfl
    rw [if_neg hz]
    simp only []
    by_cases hlen : (staFramed payload st.seq).length > STA_MAX_PAYLOAD
    · rw [if_pos hlen]
      rfl
    rw [if_neg hlen]
    have h220 : STA_ACK_TIMEOUT_MS = 220 := rfl
    apply sendLoop_returns _ mac es 3425 hclock hwrap fuel 0 _
      (by show STA_ACK_TIMEOUT_MS ≤ 640; rw [h220]; decide) (Nat.zero_le _)
    · show (5 - 0) * 641 + (0 + STA_ACK_TIMEOUT_MS - (es 0).now) + 2 ≤ fuel
      rw [h220]
      omega
    · show 0 + ((5 - 0) * 641 + (0 + STA_ACK_TIMEOUT_MS - (es 0).now)) ≤ 3425
      rw [h220]
      omega

/-- Witness of C29: `PING` to the Hub from the Station after boot, acknowledged during the
fourth iteration of the loop; the call returns true, after one transmission. -/
theorem C29_send_with_ack_witness :
    Station.boot.txInFlight = false ∧
      (Station.boot.sendWithAck ackEnv 10 "PING".toList hubMac).map
          (fun p => (p.2, p.1.handed { dest := hubMac, text := "PING ID=1".toList }))
        = some (true, 1) ∧
      (Station.boot.seq ≠ 0 ∧ ∃ k x, x ∈ (ackEnv k).rx ∧ isAckFor Station.boot.seq hubMac x) ∧
      (Station.boot.sendWithAck ackEnv 4000 "PING".toList hubMac).isSome = true := by
  have hv : (Station.boot.sendWithAck ackEnv 10 "PING".toList hubMac).map
      (fun p => (p.2, p.1.handed { dest := hubMac, text := "PING ID=1".toList }))
        = some (true, 1) := by decide
  have hres : ∃ st2, Station.boot.sendWithAck ackEnv 10 "PING".toList hubMac
      = some (st2, true) := by
    cases h : Station.boot.sendWithAck ackEnv 10 "PING".toList hubMac with
    | none =>
      rw [h] at hv
      cases hv
    | some p =>
      rw [h] at hv
      have h2 := congrArg Prod.fst (Option.some.inj hv)
      exact ⟨p.1, by rw [← (show p.2 = true from h2)]⟩
  obtain ⟨st2, hst⟩ := hres
  have hc := C29_send_with_ack Station.boot ackEnv "PING".toList hubMac
  refine ⟨rfl, hv, (hc.2.2.2.1 10 st2 true rfl hst).2.2.2 rfl, ?_⟩
  have hU : U32 = 4294967296 := rfl
  exact hc.2.2.2.2 (fun k _ => by show 5000 + k < 5000 + (k + 1); omega)
    (fun k hk => by show 5000 + k < U32; omega) 4000 (by decide)

/-- Counterexample to C29 as stated: when every first `esp_now_send` call fails and the peer
can be added again, each of the five attempts hands the framed message `PING ID=1` to the
radio twice; the call returns false after 10 `esp_now_send` calls. -/
theorem C29_counterexample :
    (Station.boot.sendWithAck failEnv 10 "PING".toList hubMac).map
        (fun p => (p.2, p.1.handed { dest := hubMac, text := "PING ID=1".toList }))
      = some (false, 10) := by
  decide

/-! ## The hold timer across sessions (C17) -/

/-- C17 (auto-final hold), evaluated on two sessions. In the first session the condition holds
from the pass at 300 ms on, which stores 300 in `liveOkSince`; the pass at 400 ms sends
nothing and the pass at 500 ms sends `AUTO-FINAL` and `RESULT SUCCESS` and ends the session,
with `liveOkSince` still 300. The frame `MONITOR ...` at 60000 ms opens a second session and
leaves `liveOkSince` at 300, so the first pass of that session, at 60010 ms, finds
`now - liveOkSince >= 200` and sends `AUTO-FINAL` and `RESULT SUCCESS` after the condition has
held for one `doMonitoring` call, 10 ms after the session began. From the same state with
`liveOkSince` cleared that pass stores 60010, sends live events only and stays in
MONITORING. -/
theorem C17_stale_hold_timer :
    Reachable rearmedHub ∧
      (step armedHub (Step.tick (fun _ => pressEnv 300))).liveOkSince = 300 ∧
      (step (step armedHub (Step.tick (fun _ => pressEnv 300)))
        (Step.tick (fun _ => pressEnv 400))).state = State.MONITORING ∧
      (step (step armedHub (Step.tick (fun _ => pressEnv 300)))
        (Step.tick (fun _ => pressEnv 400))).sent
        = (step armedHub (Step.tick (fun _ => pressEnv 300))).sent ∧
      endedHub.state = State.WAIT_FOR_TARGET ∧ endedHub.liveOkSince = 300 ∧
      endedHub.sent.map Frame.text
        = ["MONITOR-OK ID=1000".toList, "MONITOR-START AA:BB:CC:DD:EE:01".toList,
           "EV P 1 1 AA:BB:CC:DD:EE:01".toList, "EV P 2 1 AA:BB:CC:DD:EE:01".toList,
           "EV P 3 1 AA:BB:CC:DD:EE:01".toList, "AUTO-FINAL".toList,
           "RESULT SUCCESS AA:BB:CC:DD:EE:01 ID=1001".toList] ∧
      rearmedHub.state = State.MONITORING ∧ rearmedHub.liveOkSince = 300 ∧
      rearmedHub.sent.map Frame.text
        = endedHub.sent.map Frame.text ++ ["MONITOR-OK ID=1002".toList] ∧
      autoFinalFires (tickEntry rearmedHub (fun _ => pressEnv 60010)) (pressEnv 60010)
        = true ∧
      (step rearmedHub (Step.tick (fun _ => pressEnv 60010))).sent.map Frame.text
        = rearmedHub.sent.map Frame.text ++
          ["AUTO-FINAL".toList, "RESULT SUCCESS AA:BB:CC:DD:EE:01 ID=1003".toList,
           "MONITOR-START AA:BB:CC:DD:EE:01".toList] ∧
      (step rearmedHub (Step.tick (fun _ => pressEnv 60010))).state
        = State.WAIT_FOR_TARGET ∧
      autoFinalFires (tickEntry { rearmedHub with liveOkSince := 0 } (fun _ => pressEnv 60010))
        (pressEnv 60010) = false ∧
      (step { rearmedHub with liveOkSince := 0 }
        (Step.tick (fun _ => pressEnv 60010))).state = State.MONITORING ∧
      (step { rearmedHub with liveOkSince := 0 }
        (Step.tick (fun _ => pressEnv 60010))).liveOkSince = 60010 ∧
      (step { rearmedHub with liveOkSince := 0 }
        (Step.tick (fun _ => pressEnv 60010))).sent.map Frame.text
        = rearmedHub.sent.map Frame.text ++
          ["MONITOR-START AA:BB:CC:DD:EE:01".toList, "EV P 1 1 AA:BB:CC:DD:EE:01".toList,
           "EV P 2 1 AA:BB:CC:DD:EE:01".toList, "EV P 3 1 AA:BB:CC:DD:EE:01".toList] := by
  refine ⟨Reachable.step _ _ (Reachable.step _ _ (Reachable.step _ _ (Reachable.step _ _
      (Reachable.step _ _ (Reachable.setup _ _ _))))), ?_⟩
  and_intros <;> decide

/-! ## The reliable-layer suffix in BLINK and CHASE frames (C33) -/

/-- C33 (BLINK / CHASE counts), evaluated on frames that carry the reliable-layer suffix. The
Hub acknowledges the id 7 of `BLINK ID=7`, so it reads ` ID=7` as the suffix, yet the BLINK
handler reads the same text as the count argument and enqueues 1 round, where the bare
`BLINK` enqueues 3; with a MAC token before the suffix it also enqueues 1 (`atoi` reads 0 from
`AA:...`), and 8 when the MAC token starts with `08`. A given count is not affected by the
suffix (`BLINK 5` and `BLINK 5 ID=7` both enqueue 5). For CHASE the default 1 is what
`max(1, 0)` gives, but `CHASE 24:6F:... ID=7` enqueues 24 rounds. -/
theorem C33_suffix_read_as_count :
    (onRecv waitHub (quietEnv 100) staMac "BLINK".toList).pending.n = 3 ∧
      (onRecv waitHub (quietEnv 100) staMac "BLINK ID=7".toList).pending.n = 1 ∧
      (onRecv waitHub (quietEnv 100) staMac "BLINK ID=7".toList).sent.map Frame.text
        = ["ACK 7".toList, "BLINK-OK ID=1000".toList] ∧
      (onRecv waitHub (quietEnv 100) staMac "BLINK AA:BB:CC:DD:EE:01 ID=7".toList).pending.n
        = 1 ∧
      (onRecv waitHub (quietEnv 100) staMac "BLINK 08:3A:8D:15:27:54 ID=7".toList).pending.n
        = 8 ∧
      (onRecv waitHub (quietEnv 100) staMac "BLINK 5".toList).pending.n = 5 ∧
      (onRecv waitHub (quietEnv 100) staMac "BLINK 5 ID=7".toList).pending.n = 5 ∧
      (onRecv waitHub (quietEnv 100) staMac "CHASE".toList).pending.n = 1 ∧
      (onRecv waitHub (quietEnv 100) staMac "CHASE ID=7".toList).pending.n = 1 ∧
      (onRecv waitHub (quietEnv 100) staMac "CHASE 24:6F:28:00:00:01 ID=7".toList).pending.n
        = 24 :=
  ⟨by decide, by decide, by decide, by decide, by decide, by decide, by decide, by decide,
    by decide, by decide⟩

end KFB
